import Mathlib

/-!
# B+-tree index over a block store (`btree.cc`)

Shallow embedding of `BTreeIndex` and of the parts of the node codec it calls.

Conventions of the embedding.
* Block numbers and slot numbers (`SIZE_T`), keys (`KEY_T`) and values (`VALUE_T`) are
  natural numbers; keys are compared with the order of `Nat`.  The only place where
  unsigned wrap-around is observable (`midpoint - 1` in `Rebalance`) is written with
  an explicit `% 2 ^ 64`.
* A block holds one node.  The three slot arrays of a node (keys, values, pointers)
  are functions from the slot number; a fresh node has every slot `0`.
* Out parameters are returned; an accessor whose call fails returns the old content
  of its out parameter.
* A function returns `none` when the C++ code does not return: an `assert` fails,
  or the recursion is cut by the fuel argument.
* The notifications to the buffer cache (`NotifyAllocateBlock`,
  `NotifyDeallocateBlock`) only feed the cache's own bitmap and are left out.
-/

namespace BTree

/-- Modelled from the spec: the error enumeration of the header that is not part of
the sources (section 6.2): `NoError, NoSpace, Nonexistent, AlreadyExists,
Unimplemented, WrongNodeType, OutOfBounds, Insane`. -/
inductive ERROR_T where
  | ERROR_NOERROR
  | ERROR_NOSPACE
  | ERROR_NONEXISTENT
  | ERROR_CONFLICT
  | ERROR_UNIMPL
  | ERROR_BADNODETYPE
  | ERROR_OUTOFBOUNDS
  | ERROR_INSANE
  deriving DecidableEq, Repr

/-- Modelled from the spec: the node types of section 3.1. -/
inductive NodeType where
  | BTREE_UNALLOCATED_BLOCK
  | BTREE_SUPERBLOCK
  | BTREE_ROOT_NODE
  | BTREE_INTERIOR_NODE
  | BTREE_LEAF_NODE
  deriving DecidableEq, Repr

inductive BTreeOp where
  | BTREE_OP_LOOKUP
  | BTREE_OP_UPDATE
  deriving DecidableEq, Repr

inductive BTreeDisplayType where
  | BTREE_DEPTH
  | BTREE_DEPTH_DOT
  | BTREE_SORTED_KEYVAL
  deriving DecidableEq, Repr

open ERROR_T NodeType BTreeOp BTreeDisplayType

/-- Header of a node (`NodeMetadata`); the size fields, constant over a tree, are
left out. -/
structure NodeMetadata where
  nodetype : NodeType
  rootnode : Nat
  freelist : Nat
  numkeys : Nat

/-- Modelled from the spec: a node is its header and a typed slot array (section 3.1);
the class `BTreeNode` itself is not part of the sources. -/
structure BTreeNode where
  info : NodeMetadata
  keys : Nat → Nat
  vals : Nat → Nat
  ptrs : Nat → Nat

/-- Modelled from the spec: the constructor `BTreeNode(type, ...)`: an empty node of
the given type, all slots zero. -/
def BTreeNode.new (t : NodeType) : BTreeNode :=
  { info := { nodetype := t, rootnode := 0, freelist := 0, numkeys := 0 },
    keys := fun _ => 0, vals := fun _ => 0, ptrs := fun _ => 0 }

/-- Modelled from the spec: the default constructor `BTreeNode()`. -/
def BTreeNode.default : BTreeNode := BTreeNode.new BTREE_UNALLOCATED_BLOCK

def BTreeNode.isInterior (b : BTreeNode) : Bool :=
  b.info.nodetype = BTREE_ROOT_NODE || b.info.nodetype = BTREE_INTERIOR_NODE

def BTreeNode.isLeaf (b : BTreeNode) : Bool :=
  b.info.nodetype = BTREE_LEAF_NODE

/-- Modelled from the spec: `get_key(i)` fails with `OutOfBounds` when `i` is not
below `numkeys`, and with `WrongNodeType` on a node that has no keys (section 4.1). -/
def BTreeNode.GetKey (b : BTreeNode) (offset : Nat) (old : Nat) : ERROR_T × Nat :=
  if b.isInterior || b.isLeaf then
    if offset < b.info.numkeys then (ERROR_NOERROR, b.keys offset)
    else (ERROR_OUTOFBOUNDS, old)
  else (ERROR_BADNODETYPE, old)

/-- Modelled from the spec: `set_key(i, k)`, same bound as `get_key`. -/
def BTreeNode.SetKey (b : BTreeNode) (offset : Nat) (k : Nat) : ERROR_T × BTreeNode :=
  if b.isInterior || b.isLeaf then
    if offset < b.info.numkeys then
      (ERROR_NOERROR, { b with keys := Function.update b.keys offset k })
    else (ERROR_OUTOFBOUNDS, b)
  else (ERROR_BADNODETYPE, b)

/-- Modelled from the spec: `get_ptr(i)`: `i` may be `numkeys` inclusive on an interior
node; a leaf has the single pointer slot `0`. -/
def BTreeNode.GetPtr (b : BTreeNode) (offset : Nat) (old : Nat) : ERROR_T × Nat :=
  if b.isInterior then
    if offset ≤ b.info.numkeys then (ERROR_NOERROR, b.ptrs offset)
    else (ERROR_OUTOFBOUNDS, old)
  else if b.isLeaf then
    if offset = 0 then (ERROR_NOERROR, b.ptrs offset)
    else (ERROR_OUTOFBOUNDS, old)
  else (ERROR_BADNODETYPE, old)

/-- Modelled from the spec: `set_ptr(i, p)`, same bound as `get_ptr`. -/
def BTreeNode.SetPtr (b : BTreeNode) (offset : Nat) (p : Nat) : ERROR_T × BTreeNode :=
  if b.isInterior then
    if offset ≤ b.info.numkeys then
      (ERROR_NOERROR, { b with ptrs := Function.update b.ptrs offset p })
    else (ERROR_OUTOFBOUNDS, b)
  else if b.isLeaf then
    if offset = 0 then
      (ERROR_NOERROR, { b with ptrs := Function.update b.ptrs offset p })
    else (ERROR_OUTOFBOUNDS, b)
  else (ERROR_BADNODETYPE, b)

/-- Modelled from the spec: `get_val(i)` exists on leaves only (`WrongNodeType`
otherwise) and fails with `OutOfBounds` when `i` is not below `numkeys`. -/
def BTreeNode.GetVal (b : BTreeNode) (offset : Nat) (old : Nat) : ERROR_T × Nat :=
  if b.isLeaf then
    if offset < b.info.numkeys then (ERROR_NOERROR, b.vals offset)
    else (ERROR_OUTOFBOUNDS, old)
  else (ERROR_BADNODETYPE, old)

/-- Modelled from the spec: `set_val(i, v)`, same bound as `get_val`. -/
def BTreeNode.SetVal (b : BTreeNode) (offset : Nat) (v : Nat) : ERROR_T × BTreeNode :=
  if b.isLeaf then
    if offset < b.info.numkeys then
      (ERROR_NOERROR, { b with vals := Function.update b.vals offset v })
    else (ERROR_OUTOFBOUNDS, b)
  else (ERROR_BADNODETYPE, b)

/-- Modelled from the spec: the buffer cache is an opaque provider of `numBlocks`
blocks addressed by block number (section 2, BlockIO). -/
structure BufferCache where
  numBlocks : Nat
  blocks : Nat → BTreeNode

/-- Modelled from the spec: `decode` of block `n` into a node; a block number outside
the store is a cache error and leaves the node as it was. -/
def BTreeNode.Unserialize (old : BTreeNode) (bc : BufferCache) (n : Nat) :
    ERROR_T × BTreeNode :=
  if n < bc.numBlocks then (ERROR_NOERROR, bc.blocks n) else (ERROR_INSANE, old)

/-- Modelled from the spec: `encode` of a node into block `n`; a block number outside
the store is a cache error and writes nothing. -/
def BTreeNode.Serialize (b : BTreeNode) (bc : BufferCache) (n : Nat) :
    ERROR_T × BufferCache :=
  if n < bc.numBlocks then
    (ERROR_NOERROR, { bc with blocks := Function.update bc.blocks n b })
  else (ERROR_INSANE, bc)

/-- The members of `BTreeIndex` that the operations read or write. -/
structure BTreeIndex where
  superblock : BTreeNode
  superblock_index : Nat
  buffercache : BufferCache
  maxNumKeys : Nat
  initBlock : Bool

/-- `BTreeIndex::AllocateNode`: the result is the error code and the out parameter
`n`. -/
def AllocateNode (t : BTreeIndex) : Option (ERROR_T × Nat × BTreeIndex) :=
  let n := t.superblock.info.freelist
  if n = 0 then some (ERROR_NOSPACE, n, t)
  else
    let node := (BTreeNode.default.Unserialize t.buffercache n).2
    if node.info.nodetype ≠ BTREE_UNALLOCATED_BLOCK then none
    else
      let sb : BTreeNode :=
        { t.superblock with info := { t.superblock.info with freelist := node.info.freelist } }
      let bc := (sb.Serialize t.buffercache t.superblock_index).2
      some (ERROR_NOERROR, n, { t with superblock := sb, buffercache := bc })

/-- `BTreeIndex::DeallocateNode`. -/
def DeallocateNode (t : BTreeIndex) (n : Nat) : Option (ERROR_T × BTreeIndex) :=
  let node := (BTreeNode.default.Unserialize t.buffercache n).2
  if node.info.nodetype = BTREE_UNALLOCATED_BLOCK then none
  else
    let node : BTreeNode :=
      { node with info := { node.info with nodetype := BTREE_UNALLOCATED_BLOCK,
                                           freelist := t.superblock.info.freelist } }
    let bc := (node.Serialize t.buffercache n).2
    let sb : BTreeNode := { t.superblock with info := { t.superblock.info with freelist := n } }
    let bc := (sb.Serialize bc t.superblock_index).2
    some (ERROR_NOERROR, { t with superblock := sb, buffercache := bc })

/-- The loop of `Attach` that threads the blocks `i, i+1, ...` into the free list;
`cnt` is the number of iterations left. -/
def attachFreeLoop : Nat → Nat → BufferCache → ERROR_T × BufferCache
  | 0, _, bc => (ERROR_NOERROR, bc)
  | cnt + 1, i, bc =>
    let newfreenode := BTreeNode.new BTREE_UNALLOCATED_BLOCK
    let newfreenode : BTreeNode :=
      { newfreenode with info := { newfreenode.info with
          rootnode := 1, freelist := if i + 1 = bc.numBlocks then 0 else i + 1 } }
    match newfreenode.Serialize bc i with
    | (rc, bc1) => if rc ≠ ERROR_NOERROR then (rc, bc1) else attachFreeLoop cnt (i + 1) bc1

/-- `BTreeIndex::Attach`. -/
def Attach (t : BTreeIndex) (initblock : Nat) (create : Bool) : Option (ERROR_T × BTreeIndex) :=
  if initblock ≠ 0 then none
  else
    let t := { t with superblock_index := initblock }
    let finish := fun (t : BTreeIndex) =>
      match t.superblock.Unserialize t.buffercache initblock with
      | (rc, sb) => some (rc, { t with superblock := sb })
    if create then
      let newsuperblock := BTreeNode.new BTREE_SUPERBLOCK
      let newsuperblock : BTreeNode :=
        { newsuperblock with info := { newsuperblock.info with
            rootnode := t.superblock_index + 1, freelist := t.superblock_index + 2, numkeys := 0 } }
      match newsuperblock.Serialize t.buffercache t.superblock_index with
      | (rc, bc1) =>
        if rc ≠ ERROR_NOERROR then some (rc, { t with buffercache := bc1 })
        else
          let newrootnode := BTreeNode.new BTREE_ROOT_NODE
          let newrootnode : BTreeNode :=
            { newrootnode with info := { newrootnode.info with
                rootnode := t.superblock_index + 1, freelist := t.superblock_index + 2,
                numkeys := 0 } }
          match newrootnode.Serialize bc1 (t.superblock_index + 1) with
          | (rc, bc2) =>
            if rc ≠ ERROR_NOERROR then some (rc, { t with buffercache := bc2 })
            else
              match attachFreeLoop (bc2.numBlocks - (t.superblock_index + 2))
                      (t.superblock_index + 2) bc2 with
              | (rc, bc3) =>
                if rc ≠ ERROR_NOERROR then some (rc, { t with buffercache := bc3 })
                else finish { t with buffercache := bc3 }
    else finish t

/-- Outcome of scanning the keys of an interior node. -/
inductive Scan where
  | err (rc : ERROR_T)
  | descend (ptr : Nat)
  | fallthrough

/-- The `for` loop of `LookupOrUpdateInternal` on a ROOT/INTERIOR node (lines 215-226);
`cnt` is the number of iterations left. -/
def lookupScan (b : BTreeNode) (key : Nat) : Nat → Nat → Scan
  | 0, _ => Scan.fallthrough
  | cnt + 1, offset =>
    match b.GetKey offset 0 with
    | (rc, testkey) =>
      if rc ≠ ERROR_NOERROR then Scan.err rc
      else if key < testkey ∨ key = testkey then
        match b.GetPtr offset 0 with
        | (rc, ptr) => if rc ≠ ERROR_NOERROR then Scan.err rc else Scan.descend ptr
      else lookupScan b key cnt (offset + 1)

/-- Outcome of scanning the keys of a leaf. -/
inductive LeafScan where
  | err (rc : ERROR_T)
  | found (offset : Nat)
  | missing

/-- The `for` loop of `LookupOrUpdateInternal` on a LEAF node (lines 239-257), up to
the first slot whose key matches. -/
def leafScan (b : BTreeNode) (key : Nat) : Nat → Nat → LeafScan
  | 0, _ => LeafScan.missing
  | cnt + 1, offset =>
    match b.GetKey offset 0 with
    | (rc, testkey) =>
      if rc ≠ ERROR_NOERROR then LeafScan.err rc
      else if testkey = key then LeafScan.found offset
      else leafScan b key cnt (offset + 1)

/-- `BTreeIndex::LookupOrUpdateInternal`; `value` is the in/out parameter. -/
def LookupOrUpdateInternal (t : BTreeIndex) :
    Nat → Nat → BTreeOp → Nat → Nat → Option (ERROR_T × Nat × BTreeIndex)
  | 0, _, _, _, _ => none
  | fuel + 1, node, op, key, value =>
    match BTreeNode.default.Unserialize t.buffercache node with
    | (rc, b) =>
      if rc ≠ ERROR_NOERROR then some (rc, value, t)
      else if b.isInterior then
        match lookupScan b key b.info.numkeys 0 with
        | Scan.err rc => some (rc, value, t)
        | Scan.descend ptr => LookupOrUpdateInternal t fuel ptr op key value
        | Scan.fallthrough =>
          if b.info.numkeys > 0 then
            match b.GetPtr b.info.numkeys 0 with
            | (rc, ptr) =>
              if rc ≠ ERROR_NOERROR then some (rc, value, t)
              else LookupOrUpdateInternal t fuel ptr op key value
          else some (ERROR_NONEXISTENT, value, t)
      else if b.isLeaf then
        match leafScan b key b.info.numkeys 0 with
        | LeafScan.err rc => some (rc, value, t)
        | LeafScan.found offset =>
          if op = BTREE_OP_LOOKUP then
            match b.GetVal offset value with
            | (rc, v) => some (rc, v, t)
          else
            match b.SetVal offset value with
            | (rc, b1) =>
              if rc ≠ ERROR_NOERROR then some (rc, value, t)
              else
                match b1.Serialize t.buffercache node with
                | (rc, bc1) =>
                  if rc ≠ ERROR_NOERROR then some (rc, value, { t with buffercache := bc1 })
                  else some (ERROR_NOERROR, value, { t with buffercache := bc1 })
        | LeafScan.missing => some (ERROR_NONEXISTENT, value, t)
      else some (ERROR_INSANE, value, t)

/-- `BTreeIndex::Lookup`. -/
def Lookup (t : BTreeIndex) (fuel : Nat) (key : Nat) (value : Nat) :
    Option (ERROR_T × Nat × BTreeIndex) :=
  LookupOrUpdateInternal t fuel t.superblock.info.rootnode BTREE_OP_LOOKUP key value

/-- `BTreeIndex::Update`. -/
def Update (t : BTreeIndex) (fuel : Nat) (key : Nat) (value : Nat) :
    Option (ERROR_T × BTreeIndex) :=
  let newvalue := value
  match LookupOrUpdateInternal t fuel t.superblock.info.rootnode BTREE_OP_UPDATE key newvalue with
  | none => none
  | some (rc, _, t1) => some (rc, t1)

/-- Outcome of scanning an interior node in `LookupLeaf`. -/
def leafPathScan (b : BTreeNode) (key : Nat) : Nat → Nat → Scan
  | 0, _ => Scan.fallthrough
  | cnt + 1, offset =>
    match b.GetKey offset 0 with
    | (rc, testKey) =>
      if rc ≠ ERROR_NOERROR then Scan.err rc
      else if key < testKey then
        match b.GetPtr offset 0 with
        | (rc, ptr) => if rc ≠ ERROR_NOERROR then Scan.err rc else Scan.descend ptr
      else leafPathScan b key cnt (offset + 1)

/-- `BTreeIndex::LookupLeaf`.  The vector `path` is a list whose head is the back of
the vector: `push_back x` is `x :: path`. -/
def LookupLeaf (t : BTreeIndex) :
    Nat → Nat → Nat → List Nat → Option (ERROR_T × List Nat)
  | 0, _, _, _ => none
  | fuel + 1, node, key, path =>
    match BTreeNode.default.Unserialize t.buffercache node with
    | (rc, b) =>
      if rc ≠ ERROR_NOERROR then some (rc, path)
      else if b.isInterior then
        match leafPathScan b key b.info.numkeys 0 with
        | Scan.err rc => some (rc, path)
        | Scan.descend ptr => LookupLeaf t fuel ptr key (ptr :: path)
        | Scan.fallthrough =>
          if b.info.numkeys > 0 then
            match b.GetPtr b.info.numkeys 0 with
            | (rc, ptr) =>
              if rc ≠ ERROR_NOERROR then some (rc, path)
              else LookupLeaf t fuel ptr key (ptr :: path)
          else some (ERROR_NONEXISTENT, path)
      else if b.isLeaf then some (ERROR_NOERROR, node :: path)
      else some (ERROR_INSANE, path)

/-- The inner loop of `Insert` (lines 499-511) that moves the records
`offset2, offset2 - 1, ...` of the leaf one slot up; `cnt` iterations are left. -/
def leafShift : Nat → Nat → BTreeNode → ERROR_T × BTreeNode
  | 0, _, leafNode => (ERROR_NOERROR, leafNode)
  | cnt + 1, offset2, leafNode =>
    match leafNode.GetKey offset2 0 with
    | (rc, oldKey) =>
      if rc ≠ ERROR_NOERROR then (rc, leafNode)
      else
        match leafNode.GetVal offset2 0 with
        | (rc, oldVal) =>
          if rc ≠ ERROR_NOERROR then (rc, leafNode)
          else
            match leafNode.SetKey (offset2 + 1) oldKey with
            | (rc, n1) =>
              if rc ≠ ERROR_NOERROR then (rc, n1)
              else
                match n1.SetVal (offset2 + 1) oldVal with
                | (rc, n2) =>
                  if rc ≠ ERROR_NOERROR then (rc, n2)
                  else leafShift cnt (offset2 - 1) n2

/-- The outer loop of `Insert` (lines 491-522) over the old records of the leaf; the
Boolean is the flag `inserted`. -/
def leafInsertLoop (leafNode : BTreeNode) (key : Nat) (value : Nat) :
    Nat → Nat → ERROR_T × BTreeNode × Bool
  | 0, _ => (ERROR_NOERROR, leafNode, false)
  | cnt + 1, offset =>
    match leafNode.GetKey offset 0 with
    | (rc, testKey) =>
      if rc ≠ ERROR_NOERROR then (rc, leafNode, false)
      else if key < testKey then
        match leafShift (leafNode.info.numkeys - 1 - offset) (leafNode.info.numkeys - 2) leafNode with
        | (rc, n1) =>
          if rc ≠ ERROR_NOERROR then (rc, n1, false)
          else
            match n1.SetKey offset key with
            | (rc, n2) =>
              if rc ≠ ERROR_NOERROR then (rc, n2, true)
              else
                match n2.SetVal offset value with
                | (rc, n3) => (rc, n3, true)
      else leafInsertLoop leafNode key value cnt (offset + 1)

/-- The part of `Insert` that puts the new record into the leaf, whose `numkeys` is
already incremented (lines 480-532). -/
def leafFill (leafNode : BTreeNode) (key : Nat) (value : Nat) : ERROR_T × BTreeNode :=
  if leafNode.info.numkeys = 1 then
    match leafNode.SetKey 0 key with
    | (rc, n1) => if rc ≠ ERROR_NOERROR then (rc, n1) else n1.SetVal 0 value
  else
    match leafInsertLoop leafNode key value (leafNode.info.numkeys - 1) 0 with
    | (rc, n1, inserted) =>
      if rc ≠ ERROR_NOERROR then (rc, n1)
      else if inserted = false then
        match n1.SetKey (n1.info.numkeys - 1) key with
        | (rc, n2) =>
          if rc ≠ ERROR_NOERROR then (rc, n2)
          else n2.SetVal (n2.info.numkeys - 1) value
      else (ERROR_NOERROR, n1)

/-- The four copy loops of `Rebalance` (lines 668-703 for a leaf, 709-745 for an
interior node): `cnt` slots of `b` starting at `offset` are copied to the slots of
`dst` starting at `pos` (the loops that fill the left node run with `pos = offset`).
A leaf copies key and value, an interior node key and pointer. -/
def copyLoop (leaf : Bool) (b : BTreeNode) : Nat → Nat → Nat → BTreeNode → ERROR_T × BTreeNode
  | 0, _, _, dst => (ERROR_NOERROR, dst)
  | cnt + 1, offset, pos, dst =>
    let dst : BTreeNode := { dst with info := { dst.info with numkeys := dst.info.numkeys + 1 } }
    match b.GetKey offset 0 with
    | (rc, keyPos) =>
      if rc ≠ ERROR_NOERROR then (rc, dst)
      else if leaf then
        match b.GetVal offset 0 with
        | (rc, val) =>
          if rc ≠ ERROR_NOERROR then (rc, dst)
          else
            match dst.SetKey pos keyPos with
            | (rc, d1) =>
              if rc ≠ ERROR_NOERROR then (rc, d1)
              else
                match d1.SetVal pos val with
                | (rc, d2) =>
                  if rc ≠ ERROR_NOERROR then (rc, d2)
                  else copyLoop leaf b cnt (offset + 1) (pos + 1) d2
      else
        match b.GetPtr offset 0 with
        | (rc, tempPtr) =>
          if rc ≠ ERROR_NOERROR then (rc, dst)
          else
            match dst.SetKey pos keyPos with
            | (rc, d1) =>
              if rc ≠ ERROR_NOERROR then (rc, d1)
              else
                match d1.SetPtr pos tempPtr with
                | (rc, d2) =>
                  if rc ≠ ERROR_NOERROR then (rc, d2)
                  else copyLoop leaf b cnt (offset + 1) (pos + 1) d2

/-- Body of the parent loop of `Rebalance` once the new key is in (lines 814-822):
key `offset` of the parent goes to slot `offset + 1`, pointer `offset + 1` to slot
`offset + 2`. -/
def parentShift (parentNode : BTreeNode) (offset : Nat) (np : BTreeNode) : ERROR_T × BTreeNode :=
  match parentNode.GetKey offset 0 with
  | (rc, keyPos) =>
    if rc ≠ ERROR_NOERROR then (rc, np)
    else
      match np.SetKey (offset + 1) keyPos with
      | (rc, n1) =>
        if rc ≠ ERROR_NOERROR then (rc, n1)
        else
          match parentNode.GetPtr (offset + 1) 0 with
          | (rc, tempPtr) =>
            if rc ≠ ERROR_NOERROR then (rc, n1)
            else n1.SetPtr (offset + 2) tempPtr

/-- Body of the parent loop of `Rebalance` before the new key is in and when it does
not go here (lines 837-845): key and pointer `offset` are copied in place. -/
def parentCopy (parentNode : BTreeNode) (offset : Nat) (np : BTreeNode) : ERROR_T × BTreeNode :=
  match parentNode.GetKey offset 0 with
  | (rc, keyPos) =>
    if rc ≠ ERROR_NOERROR then (rc, np)
    else
      match np.SetKey offset keyPos with
      | (rc, n1) =>
        if rc ≠ ERROR_NOERROR then (rc, n1)
        else
          match parentNode.GetPtr offset 0 with
          | (rc, tempPtr) =>
            if rc ≠ ERROR_NOERROR then (rc, n1)
            else n1.SetPtr offset tempPtr

/-- The three unchecked writes that put the split key and the two new nodes into the
new parent (lines 830-832 and 853-855). -/
def parentPut (np : BTreeNode) (offset : Nat) (splitKey : Nat) (leftPtr rightPtr : Nat) :
    BTreeNode :=
  let n1 := (np.SetPtr offset leftPtr).2
  let n2 := (n1.SetKey offset splitKey).2
  (n2.SetPtr (offset + 1) rightPtr).2

/-- The parent loop of `Rebalance` (lines 808-848).  `cnt` counts the old keys of the
parent still to be visited.  The iteration that puts the new key in ends with
`offset = offset - 1`, which the loop increment undoes (also at `offset = 0`, where
the unsigned value wraps both ways), so the next iteration runs at the same `offset`
with `newKeyInserted` set: the two are one step here.  The result is the error code,
the new parent, `newKeyInserted` and the final `offset`. -/
def parentLoop (parentNode : BTreeNode) (splitKey : Nat) (leftPtr rightPtr : Nat) :
    Nat → Nat → Bool → Nat → BTreeNode → ERROR_T × BTreeNode × Bool × Nat
  | 0, offset, ins, _, np => (ERROR_NOERROR, np, ins, offset)
  | cnt + 1, offset, ins, testKey, np =>
    let testKey := (parentNode.GetKey offset testKey).2
    if ins then
      match parentShift parentNode offset np with
      | (rc, n1) =>
        if rc ≠ ERROR_NOERROR then (rc, n1, ins, offset)
        else parentLoop parentNode splitKey leftPtr rightPtr cnt (offset + 1) true testKey n1
    else if splitKey < testKey then
      let n0 := parentPut np offset splitKey leftPtr rightPtr
      let testKey := (parentNode.GetKey offset testKey).2
      match parentShift parentNode offset n0 with
      | (rc, n1) =>
        if rc ≠ ERROR_NOERROR then (rc, n1, true, offset)
        else parentLoop parentNode splitKey leftPtr rightPtr cnt (offset + 1) true testKey n1
    else
      match parentCopy parentNode offset np with
      | (rc, n1) =>
        if rc ≠ ERROR_NOERROR then (rc, n1, ins, offset)
        else parentLoop parentNode splitKey leftPtr rightPtr cnt (offset + 1) false testKey n1

/-- The part of `Rebalance` that builds the new parent (lines 803-856): a fresh node
of the parent's type with one key more, filled by the parent loop and, when the loop
did not place the split key, by the three writes after it. -/
def parentInsert (parentNode : BTreeNode) (splitKey : Nat) (leftPtr rightPtr : Nat) :
    ERROR_T × BTreeNode :=
  let newParentNode := BTreeNode.new parentNode.info.nodetype
  let newParentNode : BTreeNode :=
    { newParentNode with info := { newParentNode.info with
        numkeys := parentNode.info.numkeys + 1,
        freelist := parentNode.info.freelist } }
  match parentLoop parentNode splitKey leftPtr rightPtr
          (newParentNode.info.numkeys - 1) 0 false 0 newParentNode with
  | (rc, newParentNode, newKeyInserted, offset) =>
    if rc ≠ ERROR_NOERROR then (rc, newParentNode)
    else if newKeyInserted = false then
      (ERROR_NOERROR, parentPut newParentNode offset splitKey leftPtr rightPtr)
    else (ERROR_NOERROR, newParentNode)

/-- The split threshold `(int) (2 * maxNumKeys / 3)`. -/
def threshold (t : BTreeIndex) : Nat := 2 * t.maxNumKeys / 3

/-- The first half of `Rebalance` (lines 622-764): the node `b` read from block `node`
is split into two freshly allocated nodes.  On success the result is the state, `b`,
the two block numbers and the split key; an early `return rc` is `Except.error`. -/
def splitNode (t : BTreeIndex) (node : Nat) :
    Option (Except (ERROR_T × BTreeIndex) (BTreeIndex × BTreeNode × Nat × Nat × Nat)) :=
  match BTreeNode.default.Unserialize t.buffercache node with
  | (rc, b) =>
    if rc ≠ ERROR_NOERROR then some (Except.error (rc, t))
    else
      match AllocateNode t with
      | none => none
      | some (_, leftPtr, t1) =>
        let newType := if b.info.nodetype = BTREE_LEAF_NODE then BTREE_LEAF_NODE
                       else BTREE_INTERIOR_NODE
        let leftNode := BTreeNode.new newType
        match leftNode.Serialize t1.buffercache leftPtr with
        | (rc, bc2) =>
          let t2 := { t1 with buffercache := bc2 }
          if rc ≠ ERROR_NOERROR then some (Except.error (rc, t2))
          else
            match AllocateNode t2 with
            | none => none
            | some (_, rightPtr, t3) =>
              let rightNode := BTreeNode.new newType
              match rightNode.Serialize t3.buffercache rightPtr with
              | (rc, bc4) =>
                let t4 := { t3 with buffercache := bc4 }
                if rc ≠ ERROR_NOERROR then some (Except.error (rc, t4))
                else
                  match leftNode.Unserialize t4.buffercache leftPtr with
                  | (rc, leftNode) =>
                    if rc ≠ ERROR_NOERROR then some (Except.error (rc, t4))
                    else
                      match rightNode.Unserialize t4.buffercache rightPtr with
                      | (rc, rightNode) =>
                        if rc ≠ ERROR_NOERROR then some (Except.error (rc, t4))
                        else
                          -- `(b.info.numkeys + 0.5) / 2` truncated to `int`
                          let midpoint := b.info.numkeys / 2
                          let isLeaf : Bool := b.info.nodetype = BTREE_LEAF_NODE
                          match copyLoop isLeaf b midpoint 0 0 leftNode with
                          | (rc, leftNode) =>
                            if rc ≠ ERROR_NOERROR then some (Except.error (rc, t4))
                            else
                              match copyLoop isLeaf b (b.info.numkeys - midpoint) midpoint 0
                                      rightNode with
                              | (rc, rightNode) =>
                                if rc ≠ ERROR_NOERROR then some (Except.error (rc, t4))
                                else
                                  let last : ERROR_T × BTreeNode :=
                                    if isLeaf then (ERROR_NOERROR, rightNode)
                                    else
                                      let offset := midpoint + (b.info.numkeys - midpoint)
                                      let pos := b.info.numkeys - midpoint
                                      match b.GetPtr offset 0 with
                                      | (rc, tempPtr) =>
                                        if rc ≠ ERROR_NOERROR then (rc, rightNode)
                                        else rightNode.SetPtr pos tempPtr
                                  match last with
                                  | (rc, rightNode) =>
                                    if rc ≠ ERROR_NOERROR then some (Except.error (rc, t4))
                                    else
                                      match leftNode.Serialize t4.buffercache leftPtr with
                                      | (rc, bc5) =>
                                        let t5 := { t4 with buffercache := bc5 }
                                        if rc ≠ ERROR_NOERROR then some (Except.error (rc, t5))
                                        else
                                          match rightNode.Serialize t5.buffercache rightPtr with
                                          | (rc, bc6) =>
                                            let t6 := { t5 with buffercache := bc6 }
                                            if rc ≠ ERROR_NOERROR then some (Except.error (rc, t6))
                                            else
                                              let bc7 := (b.Serialize t6.buffercache node).2
                                              let t7 := { t6 with buffercache := bc7 }
                                              -- `midpoint - 1` as a `Nat`
                                              match b.GetKey ((midpoint + 2 ^ 64 - 1) % 2 ^ 64) 0 with
                                              | (rc, splitKey) =>
                                                if rc ≠ ERROR_NOERROR then some (Except.error (rc, t7))
                                                else some (Except.ok (t7, b, leftPtr, rightPtr, splitKey))

/-- `BTreeIndex::Rebalance`; `path` is passed by value, its head is the back of the
vector. -/
def Rebalance : Nat → BTreeIndex → Nat → List Nat → Option (ERROR_T × BTreeIndex)
  | 0, _, _, _ => none
  | fuel + 1, t, node, path =>
    match splitNode t node with
    | none => none
    | some (Except.error e) => some e
    | some (Except.ok (t7, b, leftPtr, rightPtr, splitKey)) =>
      if b.info.nodetype = BTREE_ROOT_NODE then
        match AllocateNode t7 with
        | none => none
        | some (_, newRootPtr, t8) =>
          let newRootNode := BTreeNode.new BTREE_ROOT_NODE
          let sb : BTreeNode :=
            { t8.superblock with info := { t8.superblock.info with rootnode := newRootPtr } }
          let t9 := { t8 with superblock := sb }
          let newRootNode : BTreeNode :=
            { newRootNode with info := { newRootNode.info with rootnode := newRootPtr, numkeys := 1 } }
          let newRootNode := (newRootNode.SetKey 0 splitKey).2
          let newRootNode := (newRootNode.SetPtr 0 leftPtr).2
          let newRootNode := (newRootNode.SetPtr 1 rightPtr).2
          match newRootNode.Serialize t9.buffercache newRootPtr with
          | (rc, bc10) =>
            let t10 := { t9 with buffercache := bc10 }
            if rc ≠ ERROR_NOERROR then some (rc, t10)
            else DeallocateNode t10 node
      else
        match path with
        | [] => none
        | parentPtr :: path =>
          match BTreeNode.default.Unserialize t7.buffercache parentPtr with
          | (rc, parentNode) =>
            if rc ≠ ERROR_NOERROR then some (rc, t7)
            else
              let alloc : Option (Nat × BTreeIndex) :=
                if parentNode.info.nodetype = BTREE_SUPERBLOCK then
                  match AllocateNode t7 with
                  | none => none
                  | some (_, p, t8) => some (p, t8)
                else some (parentPtr, t7)
              match alloc with
              | none => none
              | some (parentPtr, t8) =>
                match parentInsert parentNode splitKey leftPtr rightPtr with
                | (rc, newParentNode) =>
                  if rc ≠ ERROR_NOERROR then some (rc, t8)
                  else
                    let bc9 := (newParentNode.Serialize t8.buffercache parentPtr).2
                    let t9 := { t8 with buffercache := bc9 }
                    if newParentNode.info.numkeys > threshold t9 then
                      match Rebalance fuel t9 parentPtr path with
                      | none => none
                      | some (rc, t10) =>
                        if rc ≠ ERROR_NOERROR then some (rc, t10)
                        else DeallocateNode t10 node
                    else DeallocateNode t9 node

/-- The branch of `Insert` for a tree without keys (lines 419-452). -/
def insertFirst (t : BTreeIndex) (key : Nat) (value : Nat) (rootNode : BTreeNode) :
    Option (ERROR_T × BTreeIndex) :=
  let t := { t with initBlock := true }
  match AllocateNode t with
  | none => none
  | some (_, leafPtr, t1) =>
    let leafNode := BTreeNode.new BTREE_LEAF_NODE
    let t2 := { t1 with buffercache := (leafNode.Serialize t1.buffercache leafPtr).2 }
    match leafNode.Unserialize t2.buffercache leafPtr with
    | (rc, leafNode) =>
      if rc ≠ ERROR_NOERROR then some (rc, t2)
      else
        let leafNode : BTreeNode :=
          { leafNode with info := { leafNode.info with numkeys := leafNode.info.numkeys + 1 } }
        let leafNode := (leafNode.SetKey 0 key).2
        let leafNode := (leafNode.SetVal 0 value).2
        let t3 := { t2 with buffercache := (leafNode.Serialize t2.buffercache leafPtr).2 }
        match rootNode.Unserialize t3.buffercache t3.superblock.info.rootnode with
        | (rc, rootNode) =>
          if rc ≠ ERROR_NOERROR then some (rc, t3)
          else
            let rootNode : BTreeNode :=
              { rootNode with info := { rootNode.info with numkeys := rootNode.info.numkeys + 1 } }
            let rootNode := (rootNode.SetPtr 0 leafPtr).2
            let rootNode := (rootNode.SetKey 0 key).2
            match AllocateNode t3 with
            | none => none
            | some (_, rightLeafPtr, t4) =>
              let rightLeafNode := BTreeNode.new BTREE_LEAF_NODE
              match rightLeafNode.Serialize t4.buffercache rightLeafPtr with
              | (rc, bc5) =>
                let t5 := { t4 with buffercache := bc5 }
                if rc ≠ ERROR_NOERROR then some (rc, t5)
                else
                  let rootNode := (rootNode.SetPtr 1 rightLeafPtr).2
                  match rootNode.Serialize t5.buffercache t5.superblock.info.rootnode with
                  | (rc, bc6) =>
                    let t6 := { t5 with buffercache := bc6 }
                    if rc ≠ ERROR_NOERROR then some (rc, t6)
                    else some (ERROR_NOERROR, t6)

/-- The branch of `Insert` for a tree that has keys (lines 454-544). -/
def insertLeaf (t : BTreeIndex) (fuel : Nat) (key : Nat) (value : Nat) :
    Option (ERROR_T × BTreeIndex) :=
  let path := [t.superblock.info.rootnode]
  match LookupLeaf t fuel t.superblock.info.rootnode key path with
  | none => none
  | some (_, path) =>
    match path with
    | [] => none
    | leafPtr :: path =>
      match BTreeNode.default.Unserialize t.buffercache leafPtr with
      | (rc, leafNode) =>
        if rc ≠ ERROR_NOERROR then some (rc, t)
        else
          let leafNode : BTreeNode :=
            { leafNode with info := { leafNode.info with numkeys := leafNode.info.numkeys + 1 } }
          let filled := leafFill leafNode key value
          match filled with
          | (rc, leafNode) =>
            if rc ≠ ERROR_NOERROR then some (rc, t)
            else
              let t1 := { t with buffercache := (leafNode.Serialize t.buffercache leafPtr).2 }
              if leafNode.info.numkeys > threshold t1 then
                match path with
                | [] => none
                | parentPtr :: path =>
                  match Rebalance fuel t1 parentPtr path with
                  | none => none
                  | some (_, t2) => some (ERROR_NOERROR, t2)
              else some (ERROR_NOERROR, t1)

/-- `BTreeIndex::Insert`. -/
def Insert (t : BTreeIndex) (fuel : Nat) (key : Nat) (value : Nat) :
    Option (ERROR_T × BTreeIndex) :=
  match LookupOrUpdateInternal t fuel t.superblock.info.rootnode BTREE_OP_LOOKUP key 0 with
  | none => none
  | some (ret, _, t) =>
    if ret = ERROR_NOERROR then some (ERROR_INSANE, t)
    else if ret = ERROR_NONEXISTENT then
      let rootPtr := t.superblock.info.rootnode
      let rootNode := (BTreeNode.default.Unserialize t.buffercache rootPtr).2
      let t := { t with initBlock := false }
      let t := if rootNode.info.numkeys ≠ 0 then { t with initBlock := true } else t
      let t := { t with buffercache := (rootNode.Serialize t.buffercache rootPtr).2 }
      if t.initBlock = false then insertFirst t key value rootNode
      else insertLeaf t fuel key value
    else some (ERROR_NOERROR, t)

/-- What is written to an output stream, item by item. -/
inductive Token where
  | text (s : String)
  | num (n : Nat)
  | ntype (t : NodeType)
  | key (k : Nat)
  | value (v : Nat)
  | endl
  deriving DecidableEq, Repr

/-- The pointer/key loop of `PrintNode` on a ROOT/INTERIOR node (lines 295-307). -/
def printInteriorLoop (b : BTreeNode) : Nat → Nat → List Token → ERROR_T × List Token
  | 0, _, os => (ERROR_NOERROR, os)
  | cnt + 1, offset, os =>
    match b.GetPtr offset 0 with
    | (rc, ptr) =>
      if rc ≠ ERROR_NOERROR then (rc, os)
      else
        let os := os ++ [Token.text "*", Token.num ptr, Token.text " "]
        if offset = b.info.numkeys then (ERROR_NOERROR, os)
        else
          match b.GetKey offset 0 with
          | (rc, key) =>
            if rc ≠ ERROR_NOERROR then (rc, os)
            else printInteriorLoop b cnt (offset + 1) (os ++ [Token.key key, Token.text " "])

/-- The record loop of `PrintNode` on a LEAF node (lines 315-347). -/
def printLeafLoop (b : BTreeNode) (dt : BTreeDisplayType) :
    Nat → Nat → List Token → ERROR_T × List Token
  | 0, _, os => (ERROR_NOERROR, os)
  | cnt + 1, offset, os =>
    let first : ERROR_T × List Token :=
      if offset = 0 then
        match b.GetPtr offset 0 with
        | (rc, ptr) =>
          if rc ≠ ERROR_NOERROR then (rc, os)
          else if dt ≠ BTREE_SORTED_KEYVAL then
            (ERROR_NOERROR, os ++ [Token.text "*", Token.num ptr, Token.text " "])
          else (ERROR_NOERROR, os)
      else (ERROR_NOERROR, os)
    match first with
    | (rc, os) =>
      if rc ≠ ERROR_NOERROR then (rc, os)
      else
        let os := if dt = BTREE_SORTED_KEYVAL then os ++ [Token.text "("] else os
        match b.GetKey offset 0 with
        | (rc, key) =>
          if rc ≠ ERROR_NOERROR then (rc, os)
          else
            let os := os ++ [Token.key key]
            let os := if dt = BTREE_SORTED_KEYVAL then os ++ [Token.text ","]
                      else os ++ [Token.text " "]
            match b.GetVal offset 0 with
            | (rc, value) =>
              if rc ≠ ERROR_NOERROR then (rc, os)
              else
                let os := os ++ [Token.value value]
                let os := if dt = BTREE_SORTED_KEYVAL then os ++ [Token.text ")\n"]
                          else os ++ [Token.text " "]
                printLeafLoop b dt cnt (offset + 1) os

/-- `PrintNode`. -/
def PrintNode (os : List Token) (nodenum : Nat) (b : BTreeNode) (dt : BTreeDisplayType) :
    ERROR_T × List Token :=
  let os :=
    if dt = BTREE_DEPTH_DOT then
      os ++ [Token.num nodenum, Token.text " [ label=\"", Token.num nodenum, Token.text ": "]
    else if dt = BTREE_DEPTH then os ++ [Token.num nodenum, Token.text ": "]
    else os
  let body : ERROR_T × List Token :=
    if b.isInterior then
      if dt = BTREE_SORTED_KEYVAL then (ERROR_NOERROR, os)
      else
        let os := if dt = BTREE_DEPTH_DOT then os else os ++ [Token.text "Interior: "]
        printInteriorLoop b (b.info.numkeys + 1) 0 os
    else if b.isLeaf then
      let os := if dt = BTREE_DEPTH_DOT ∨ dt = BTREE_SORTED_KEYVAL then os
                else os ++ [Token.text "Leaf: "]
      printLeafLoop b dt b.info.numkeys 0 os
    else if dt = BTREE_DEPTH_DOT then
      (ERROR_NOERROR, os ++ [Token.text "Unknown(", Token.ntype b.info.nodetype, Token.text ")"])
    else
      (ERROR_NOERROR, os ++ [Token.text "Unsupported Node Type ", Token.ntype b.info.nodetype])
  match body with
  | (rc, os) =>
    if rc ≠ ERROR_NOERROR then (rc, os)
    else if dt = BTREE_DEPTH_DOT then (ERROR_NOERROR, os ++ [Token.text "\" ]"])
    else (ERROR_NOERROR, os)

/-- The child loop of `DisplayInternal` (lines 925-933); `display` is the recursive
call. -/
def displayChildren (display : Nat → List Token → Option (ERROR_T × List Token))
    (b : BTreeNode) (node : Nat) (dt : BTreeDisplayType) :
    Nat → Nat → List Token → Option (ERROR_T × List Token)
  | 0, _, o => some (ERROR_NOERROR, o)
  | cnt + 1, offset, o =>
    match b.GetPtr offset 0 with
    | (rc, ptr) =>
      if rc ≠ ERROR_NOERROR then some (rc, o)
      else
        let o := if dt = BTREE_DEPTH_DOT then
            o ++ [Token.num node, Token.text " -> ", Token.num ptr, Token.text ";\n"]
          else o
        match display ptr o with
        | none => none
        | some (rc, o) =>
          if rc ≠ ERROR_NOERROR then some (rc, o)
          else displayChildren display b node dt cnt (offset + 1) o

/-- `BTreeIndex::DisplayInternal`. -/
def DisplayInternal (t : BTreeIndex) (dt : BTreeDisplayType) :
    Nat → Nat → List Token → Option (ERROR_T × List Token)
  | 0, _, _ => none
  | fuel + 1, node, o =>
    match BTreeNode.default.Unserialize t.buffercache node with
    | (rc, b) =>
      if rc ≠ ERROR_NOERROR then some (rc, o)
      else
        match PrintNode o node b dt with
        | (rc, o) =>
          if rc ≠ ERROR_NOERROR then some (rc, o)
          else
            let o := if dt = BTREE_DEPTH_DOT then o ++ [Token.text ";"] else o
            let o := if dt ≠ BTREE_SORTED_KEYVAL then o ++ [Token.endl] else o
            if b.isInterior then
              if b.info.numkeys > 0 then
                match displayChildren (fun p o => DisplayInternal t dt fuel p o) b node dt
                        (b.info.numkeys + 1) 0 o with
                | none => none
                | some (rc, o) =>
                  if rc ≠ ERROR_NOERROR then some (rc, o) else some (ERROR_NOERROR, o)
              else some (ERROR_NOERROR, o)
            else if b.isLeaf then some (ERROR_NOERROR, o)
            else
              let o := if dt = BTREE_DEPTH_DOT then o
                       else o ++ [Token.text "Unsupported Node Type ", Token.ntype b.info.nodetype]
              some (ERROR_INSANE, o)

/-- `BTreeIndex::Display`. -/
def Display (t : BTreeIndex) (fuel : Nat) (o : List Token) (dt : BTreeDisplayType) :
    Option (ERROR_T × List Token) :=
  let o := if dt = BTREE_DEPTH_DOT then o ++ [Token.text "digraph tree \x7b \n"] else o
  match DisplayInternal t dt fuel t.superblock.info.rootnode o with
  | none => none
  | some (_, o) =>
    let o := if dt = BTREE_DEPTH_DOT then o ++ [Token.text "\x7d\n"] else o
    some (ERROR_NOERROR, o)

/-- The record loop of `SanityHelper` on a LEAF node (lines 1039-1062); `cout` is the
list of tokens written so far. -/
def sanityLeafLoop (b : BTreeNode) : Nat → Nat → Nat → List Token → ERROR_T × List Token
  | 0, _, _, cout => (ERROR_NOERROR, cout)
  | cnt + 1, offset, tempKey, cout =>
    match b.GetKey offset 0 with
    | (rc, testKey) =>
      if rc ≠ ERROR_NOERROR then (rc, cout ++ [Token.text "leaf node is missing key", Token.endl])
      else
        match b.GetVal offset 0 with
        | (rc, _) =>
          if rc ≠ ERROR_NOERROR then
            (rc, cout ++ [Token.text "leaf node missing value", Token.endl])
          else if offset + 1 < b.info.numkeys then
            let tempKey := (b.GetKey (offset + 1) tempKey).2
            let cout := if tempKey < testKey then
                cout ++ [Token.text "The keys not in order", Token.endl]
              else cout
            sanityLeafLoop b cnt (offset + 1) tempKey cout
          else sanityLeafLoop b cnt (offset + 1) tempKey cout

/-- `BTreeIndex::SanityHelper`.  On a ROOT/INTERIOR node the body of the `for` loop
ends in `return SanityHelper(tempPtr)`, so it runs for `offset = 0` only. -/
def SanityHelper (t : BTreeIndex) : Nat → Nat → List Token → Option (ERROR_T × List Token)
  | 0, _, _ => none
  | fuel + 1, node, cout =>
    match BTreeNode.default.Unserialize t.buffercache node with
    | (rc, b) =>
      if rc ≠ ERROR_NOERROR then some (rc, cout)
      else
        let cout :=
          if b.info.numkeys > 2 * t.maxNumKeys / 3 then
            cout ++ [Token.text "Current Node: ", Token.ntype b.info.nodetype, Token.text " has ",
              Token.num b.info.numkeys,
              Token.text " keys which is greater than 2/3 the max: ", Token.num t.maxNumKeys,
              Token.endl]
          else cout
        if b.isInterior then
          if 0 < b.info.numkeys then
            let offset := 0
            match b.GetKey offset 0 with
            | (rc, testKey) =>
              if rc ≠ ERROR_NOERROR then some (rc, cout)
              else
                let cout :=
                  if offset + 1 < b.info.numkeys - 1 then
                    let tempKey := (b.GetKey (offset + 1) 0).2
                    if tempKey < testKey then cout ++ [Token.text "Keys Not in Order!", Token.endl]
                    else cout
                  else cout
                match b.GetPtr offset 0 with
                | (rc, tempPtr) =>
                  if rc ≠ ERROR_NOERROR then some (rc, cout)
                  else SanityHelper t fuel tempPtr cout
          else
            some (ERROR_NONEXISTENT,
              cout ++ [Token.text "Keys on this interior node do not exist", Token.endl])
        else if b.isLeaf then
          match sanityLeafLoop b b.info.numkeys 0 0 cout with
          | (rc, cout) =>
            if rc ≠ ERROR_NOERROR then some (rc, cout) else some (ERROR_NOERROR, cout)
        else some (ERROR_INSANE, cout)

/-- `BTreeIndex::SanityCheck`. -/
def SanityCheck (t : BTreeIndex) (fuel : Nat) (cout : List Token) : Option (ERROR_T × List Token) :=
  SanityHelper t fuel t.superblock.info.rootnode cout

/-- A buffer cache of `n` blocks that nothing has been written to. -/
def emptyCache (n : Nat) : BufferCache :=
  { numBlocks := n, blocks := fun _ => BTreeNode.default }

/-- `BTreeIndex::BTreeIndex(keysize, valuesize, cache, unique)`: the handle before
`Attach`; `maxNumKeys` is computed from the block size, taken here as given. -/
def BTreeIndex.new (cache : BufferCache) (maxNumKeys : Nat) : BTreeIndex :=
  { superblock := BTreeNode.default, superblock_index := 0, buffercache := cache,
    maxNumKeys := maxNumKeys, initBlock := false }

/-- Where the descent of `LookupOrUpdateInternal` goes from the ROOT/INTERIOR node `b`:
the child to recurse into, or the error code returned at this node. -/
def nextChild (b : BTreeNode) (key : Nat) : Except ERROR_T Nat :=
  match lookupScan b key b.info.numkeys 0 with
  | Scan.err rc => Except.error rc
  | Scan.descend ptr => Except.ok ptr
  | Scan.fallthrough =>
    if b.info.numkeys > 0 then
      match b.GetPtr b.info.numkeys 0 with
      | (rc, ptr) => if rc ≠ ERROR_NOERROR then Except.error rc else Except.ok ptr
    else Except.error ERROR_NONEXISTENT

/-- The state `t` after block `n` has been overwritten with `b`. -/
def BTreeIndex.withBlock (t : BTreeIndex) (n : Nat) (b : BTreeNode) : BTreeIndex :=
  { t with buffercache :=
      { t.buffercache with blocks := Function.update t.buffercache.blocks n b } }

/-- `Attach(0, true)` on a cache of `numBlocks` untouched blocks, followed by the
inserts of `kvs` in order; a call that does not return leaves the state as it is. -/
def build (numBlocks maxNumKeys : Nat) (fuel : Nat) (kvs : List (Nat × Nat)) : BTreeIndex :=
  let t0 := BTreeIndex.new (emptyCache numBlocks) maxNumKeys
  let t1 := match Attach t0 0 true with
    | some (_, t) => t
    | none => t0
  kvs.foldl (fun t kv => match Insert t fuel kv.1 kv.2 with
    | some (_, t2) => t2
    | none => t) t1

/-- A leaf whose two keys `9, 4` are in decreasing order. -/
def unsortedLeaf : BTreeNode :=
  { info := { nodetype := BTREE_LEAF_NODE, rootnode := 0, freelist := 0, numkeys := 2 },
    keys := fun i => if i = 0 then 9 else 4, vals := fun _ => 0, ptrs := fun _ => 0 }

/-- A leaf with three sorted keys, one more than the threshold `2` of `maxNumKeys = 3`. -/
def overfullLeaf : BTreeNode :=
  { info := { nodetype := BTREE_LEAF_NODE, rootnode := 0, freelist := 0, numkeys := 3 },
    keys := fun i => i + 1, vals := fun _ => 0, ptrs := fun _ => 0 }

/-- The first index `i` with `p i`, searching `cnt` indices from `off` on; `off + cnt`
when there is none. -/
def firstIdx (p : Nat → Bool) : Nat → Nat → Nat
  | 0, off => off
  | cnt + 1, off => if p off then off else firstIdx p cnt (off + 1)

/-- The sequence `f 0, ..., f (n - 1)` with `x` put in at position `j`: the entries
`j .. n - 1` move one place up. -/
def insAt (f : Nat → Nat) (n j x : Nat) : Nat → Nat :=
  fun i => if i < j then f i else if i = j then x else if i ≤ n then f (i - 1) else f i

/-- The inserts of `kvs` in order, each checked to return `ERROR_NOERROR`; `none` when a
call does not return or returns another code. -/
def insertAll (t : BTreeIndex) (fuel : Nat) : List (Nat × Nat) → Option BTreeIndex
  | [] => some t
  | kv :: kvs =>
    match Insert t fuel kv.1 kv.2 with
    | some (ERROR_NOERROR, t1) => insertAll t1 fuel kvs
    | _ => none

/-- A top-level operation of the index. -/
inductive Op where
  | insert (key value : Nat)
  | update (key value : Nat)
  | lookup (key : Nat)

/-- The state after the operations `ops`, whatever codes they return; `none` when a call
does not return. -/
def runOps (t : BTreeIndex) (fuel : Nat) : List Op → Option BTreeIndex
  | [] => some t
  | Op.insert k v :: ops =>
    match Insert t fuel k v with
    | none => none
    | some (_, t1) => runOps t1 fuel ops
  | Op.update k v :: ops =>
    match Update t fuel k v with
    | none => none
    | some (_, t1) => runOps t1 fuel ops
  | Op.lookup k :: ops =>
    match Lookup t fuel k 0 with
    | none => none
    | some (_, _, t1) => runOps t1 fuel ops

/-- Whether `op` is an insert. -/
def Op.isInsert : Op → Bool
  | Op.insert _ _ => true
  | _ => false

/-- The index after `Attach(0, true)` on a cache of four blocks, `maxNumKeys = 3`. -/
def freshIndex : BTreeIndex := build 4 3 3 []

/-- The index after `Attach(0, true)` on a cache of twelve blocks, `maxNumKeys = 3`, and the
inserts of the keys `1, 2, 3, 4` in order. -/
def indexOfFour : BTreeIndex := build 12 3 5 [(1, 10), (2, 20), (3, 30), (4, 40)]

/-- Where the descent of `LookupLeaf` goes from the ROOT/INTERIOR node `b`: the child to
recurse into, or the error code returned at this node. -/
def nextLeafChild (b : BTreeNode) (key : Nat) : Except ERROR_T Nat :=
  match leafPathScan b key b.info.numkeys 0 with
  | Scan.err rc => Except.error rc
  | Scan.descend ptr => Except.ok ptr
  | Scan.fallthrough =>
    if b.info.numkeys > 0 then
      match b.GetPtr b.info.numkeys 0 with
      | (rc, ptr) => if rc ≠ ERROR_NOERROR then Except.error rc else Except.ok ptr
    else Except.error ERROR_NONEXISTENT

/-- The blocks that `LookupOrUpdateInternal` reads on its way down from `node`, in the
order of the descent: each ROOT/INTERIOR node it recurses from, then the block at which it
returns. -/
def lookupPath (t : BTreeIndex) : Nat → Nat → Nat → List Nat
  | 0, _, _ => []
  | fuel + 1, node, key =>
    match BTreeNode.default.Unserialize t.buffercache node with
    | (rc, b) =>
      if rc ≠ ERROR_NOERROR then [node]
      else if b.isInterior then
        match nextChild b key with
        | Except.error _ => [node]
        | Except.ok ptr => node :: lookupPath t fuel ptr key
      else [node]

/-- The records of a leaf: the key and value slots below `numkeys`, in order. -/
def BTreeNode.records (b : BTreeNode) : List (Nat × Nat) :=
  (List.range b.info.numkeys).map (fun i => (b.keys i, b.vals i))

/-- The index after `Attach(0, false)` on a cache of four untouched blocks,
`maxNumKeys = 3`: the superblock in memory is what block `0` held. -/
def blankIndex : BTreeIndex :=
  match Attach (BTreeIndex.new (emptyCache 4) 3) 0 false with
  | some (_, t) => t
  | none => BTreeIndex.new (emptyCache 4) 3

/-- The index after `Attach(0, true)` on a cache of three blocks, `maxNumKeys = 3`, and the
inserts of the keys `1, 5, 6, 7` in order. -/
def smallIndex : BTreeIndex := build 3 3 5 [(1, 10), (5, 50), (6, 60), (7, 70)]

/-- The index after `Attach(0, true)` on a cache of twelve blocks, `maxNumKeys = 3`, and the
inserts of the keys `1, 2, 3` in order. -/
def indexOfThree : BTreeIndex := build 12 3 5 [(1, 10), (2, 20), (3, 30)]

/-- The index after `Attach(0, true)` on a cache of four blocks, `maxNumKeys = 3`, and the
insert of the key `1`. -/
def indexOfOne : BTreeIndex := build 4 3 3 [(1, 10)]

/-! ## The tree that a store holds

The statements about sequences of inserts go through an invariant of the store.  It is
phrased node by node, with a ghost record that says, for every block, how high above
the leaves the node in it sits and which keys a search may carry into it. -/

/-- Ghost description of the tree in a store.
* `kv`: the records of the index.
* `lvl a`: height of node `a` above the leaves.
* `rng a k`: a search for key `k` that starts at the root may arrive at node `a`.
* `dead a`: the pointer slot `numkeys` of the interior node `a` is not in use (the left
  half of a split interior node).
* `free`: the blocks of the free list, head first.
* `junk a`: block `a` holds a node that is not part of the tree: freshly allocated and not
  linked yet, or replaced by a split and not deallocated yet. -/
structure Ghost where
  kv : Nat → Option Nat
  lvl : Nat → Nat
  rng : Nat → Nat → Prop
  dead : Nat → Bool
  free : List Nat
  junk : Nat → Prop

/-- The free list of the store from `head` on runs through the blocks `l`. -/
def FreeChain (bc : BufferCache) : Nat → List Nat → Prop
  | head, [] => head = 0
  | head, a :: rest =>
    head = a ∧ a ≠ 0 ∧ a < bc.numBlocks ∧
      (bc.blocks a).info.nodetype = BTREE_UNALLOCATED_BLOCK ∧
      FreeChain bc (bc.blocks a).info.freelist rest

/-- Block `a` holds a node of the tree. -/
def IsTree (t : BTreeIndex) (g : Ghost) (a : Nat) : Prop :=
  a < t.buffercache.numBlocks ∧ ¬ g.junk a ∧
    ((t.buffercache.blocks a).isInterior = true ∨ (t.buffercache.blocks a).isLeaf = true)

/-- Pointer slot `i` of the interior node `b` is in use. -/
def ValidIdx (b : BTreeNode) (dead : Bool) (i : Nat) : Prop :=
  i < b.info.numkeys ∨ (i = b.info.numkeys ∧ dead = false)

/-- Key `k` is among the keys `R` of a node `b` and between the separators around pointer
slot `i` of `b`. -/
def InSlice (b : BTreeNode) (R : Nat → Prop) (i : Nat) (k : Nat) : Prop :=
  R k ∧ (0 < i → b.keys (i - 1) < k) ∧ (i < b.info.numkeys → k ≤ b.keys i)

/-- The keys in the slots below `numkeys` increase strictly. -/
def SortedKeys (b : BTreeNode) : Prop :=
  ∀ i j, i < j → j < b.info.numkeys → b.keys i < b.keys j

/-- What the invariant says about an interior node `a` of the tree. -/
structure InteriorOk (t : BTreeIndex) (g : Ghost) (a : Nat) : Prop where
  pos : 1 ≤ (t.buffercache.blocks a).info.numkeys
  sorted : SortedKeys (t.buffercache.blocks a)
  keys : ∀ i, i < (t.buffercache.blocks a).info.numkeys →
    g.rng a ((t.buffercache.blocks a).keys i) ∧ g.kv ((t.buffercache.blocks a).keys i) ≠ none
  child : ∀ i, ValidIdx (t.buffercache.blocks a) (g.dead a) i →
    IsTree t g ((t.buffercache.blocks a).ptrs i) ∧
    (t.buffercache.blocks a).ptrs i ≠ t.superblock.info.rootnode ∧
    g.lvl ((t.buffercache.blocks a).ptrs i) + 1 = g.lvl a ∧
    ∀ k, g.rng ((t.buffercache.blocks a).ptrs i) k ↔ InSlice (t.buffercache.blocks a) (g.rng a) i k
  dead : g.dead a = true →
    ∀ k, g.rng a k → k ≤ (t.buffercache.blocks a).keys ((t.buffercache.blocks a).info.numkeys - 1)

/-- What the invariant says about a leaf `a` of the tree. -/
structure LeafOk (t : BTreeIndex) (g : Ghost) (a : Nat) : Prop where
  sorted : SortedKeys (t.buffercache.blocks a)
  recs : ∀ i, i < (t.buffercache.blocks a).info.numkeys →
    g.rng a ((t.buffercache.blocks a).keys i) ∧
    g.kv ((t.buffercache.blocks a).keys i) = some ((t.buffercache.blocks a).vals i)

/-- The invariant of the store between two steps of an insert.  `over` is the one node
that may hold `threshold + 1` keys, waiting to be split. -/
structure Inv (t : BTreeIndex) (g : Ghost) (over : Option Nat) : Prop where
  sb_index : t.superblock_index = 0
  sb_block : t.buffercache.blocks 0 = t.superblock
  sb_type : t.superblock.info.nodetype = BTREE_SUPERBLOCK
  thr : 1 ≤ threshold t
  root_tree : IsTree t g t.superblock.info.rootnode
  root_rng : ∀ k, g.rng t.superblock.info.rootnode k
  root_type : ∀ a, IsTree t g a →
    ((t.buffercache.blocks a).info.nodetype = BTREE_ROOT_NODE ↔ a = t.superblock.info.rootnode)
  leaf_lvl : ∀ a, IsTree t g a → ((t.buffercache.blocks a).isLeaf = true ↔ g.lvl a = 0)
  lvl_lt : ∀ a, IsTree t g a → a ≠ t.superblock.info.rootnode →
    g.lvl a < g.lvl t.superblock.info.rootnode
  disj : ∀ a a', IsTree t g a → IsTree t g a' → g.lvl a = g.lvl a' →
    ∀ k, g.rng a k → g.rng a' k → a = a'
  interior : ∀ a, IsTree t g a → (t.buffercache.blocks a).isInterior = true → InteriorOk t g a
  leaf : ∀ a, IsTree t g a → (t.buffercache.blocks a).isLeaf = true → LeafOk t g a
  size : ∀ a, IsTree t g a →
    (t.buffercache.blocks a).info.numkeys ≤ threshold t ∨
    (over = some a ∧ (t.buffercache.blocks a).info.numkeys = threshold t + 1)
  stored : ∀ k v, g.kv k = some v → ∃ a, IsTree t g a ∧ (t.buffercache.blocks a).isLeaf = true ∧
    ∃ i, i < (t.buffercache.blocks a).info.numkeys ∧
      (t.buffercache.blocks a).keys i = k ∧ (t.buffercache.blocks a).vals i = v
  free_chain : FreeChain t.buffercache t.superblock.info.freelist g.free
  free_nodup : g.free.Nodup
  junk_ok : ∀ a, g.junk a → a < t.buffercache.numBlocks ∧
    ((t.buffercache.blocks a).isInterior = true ∨ (t.buffercache.blocks a).isLeaf = true)

/-- The list `path` holds the ancestors of node `x`, parent first, root last. -/
def IsPath (t : BTreeIndex) (g : Ghost) : Nat → List Nat → Prop
  | x, [] => x = t.superblock.info.rootnode
  | x, p :: ps =>
    x ≠ t.superblock.info.rootnode ∧ IsTree t g p ∧
      (t.buffercache.blocks p).isInterior = true ∧
      (∃ i, ValidIdx (t.buffercache.blocks p) (g.dead p) i ∧ (t.buffercache.blocks p).ptrs i = x) ∧
      IsPath t g p ps

/-- The state `t` with the head of the free list set to `h`, in memory and in block `0`. -/
def BTreeIndex.withFree (t : BTreeIndex) (h : Nat) : BTreeIndex :=
  let sb : BTreeNode := { t.superblock with info := { t.superblock.info with freelist := h } }
  { t with
    superblock := sb,
    buffercache := { t.buffercache with blocks := Function.update t.buffercache.blocks 0 sb } }

/-- The block `x` after `DeallocateNode`: the node it held, marked unallocated and chained
to the old head of the free list. -/
def freedNode (t : BTreeIndex) (x : Nat) : BTreeNode :=
  { t.buffercache.blocks x with
    info := { (t.buffercache.blocks x).info with
      nodetype := BTREE_UNALLOCATED_BLOCK, freelist := t.superblock.info.freelist } }

/-- The leaf `b` with the record `(k, v)` put in at its place. -/
def leafWith (b : BTreeNode) (k v : Nat) : BTreeNode :=
  { info := { b.info with numkeys := b.info.numkeys + 1 },
    keys := insAt b.keys b.info.numkeys
      (firstIdx (fun i => decide (k < b.keys i)) b.info.numkeys 0) k,
    vals := insAt b.vals b.info.numkeys
      (firstIdx (fun i => decide (k < b.keys i)) b.info.numkeys 0) v,
    ptrs := b.ptrs }

/-- Node `lb` holds the slots below `mid` of node `b`: what `Rebalance` writes into the left
half.  For an interior `b` these are keys and pointers `0 .. mid - 1`. -/
def SplitLeft (b lb : BTreeNode) (mid : Nat) : Prop :=
  lb.info.numkeys = mid ∧ (∀ i, i < mid → lb.keys i = b.keys i) ∧
  (b.isLeaf = true → lb.isLeaf = true ∧ ∀ i, i < mid → lb.vals i = b.vals i) ∧
  (b.isInterior = true →
    lb.info.nodetype = BTREE_INTERIOR_NODE ∧ ∀ i, i < mid → lb.ptrs i = b.ptrs i)

/-- Node `rb` holds the slots from `mid` on of node `b`: what `Rebalance` writes into the
right half.  For an interior `b` these are the keys `mid .. numkeys - 1` and the pointers
`mid .. numkeys`. -/
def SplitRight (b rb : BTreeNode) (mid : Nat) : Prop :=
  rb.info.numkeys = b.info.numkeys - mid ∧
  (∀ i, i < b.info.numkeys - mid → rb.keys i = b.keys (mid + i)) ∧
  (b.isLeaf = true → rb.isLeaf = true ∧ ∀ i, i < b.info.numkeys - mid → rb.vals i = b.vals (mid + i)) ∧
  (b.isInterior = true →
    rb.info.nodetype = BTREE_INTERIOR_NODE ∧
      ∀ i, i ≤ b.info.numkeys - mid → rb.ptrs i = b.ptrs (mid + i))

/-- Node `np` is the parent `p` with the key `sk` put in at slot `j` and the pointers `L`,
`R` in the slots `j`, `j + 1`, the pointer that was in slot `j` dropped. -/
def ParentWith (p np : BTreeNode) (j sk L R : Nat) : Prop :=
  np.info.nodetype = p.info.nodetype ∧ np.info.numkeys = p.info.numkeys + 1 ∧
  (∀ i, i ≤ p.info.numkeys →
    np.keys i = if i < j then p.keys i else if i = j then sk else p.keys (i - 1)) ∧
  (∀ i, i ≤ p.info.numkeys + 1 →
    np.ptrs i = if i < j then p.ptrs i else if i = j then L else if i = j + 1 then R
      else p.ptrs (i - 1))

/-- The ghost record after node `x` has been replaced by its two halves `L` and `R`, split
at the key `sk`; `interior` says whether `x` is an interior node. -/
def linkGhost (g : Ghost) (x L R sk : Nat) (interior : Bool) : Ghost :=
  { kv := g.kv,
    lvl := fun a => if a = L ∨ a = R then g.lvl x else g.lvl a,
    rng := fun a k =>
      if a = L then g.rng x k ∧ k ≤ sk else if a = R then g.rng x k ∧ sk < k else g.rng a k,
    dead := fun a => if a = L then interior else if a = R then g.dead x else g.dead a,
    free := g.free,
    junk := fun a => (g.junk a ∧ a ≠ L ∧ a ≠ R) ∨ a = x }

/-- The hypotheses under which an over-full node `x` that is not the root is replaced, in
its parent `p`, by the two halves `L` and `R` that `Rebalance` has written. -/
structure LinkH (t : BTreeIndex) (g : Ghost) (x p L R mid j : Nat) (np : BTreeNode) : Prop where
  inv : Inv t g (some x)
  x_tree : IsTree t g x
  x_root : x ≠ t.superblock.info.rootnode
  p_tree : IsTree t g p
  p_int : (t.buffercache.blocks p).isInterior = true
  p_idx : ValidIdx (t.buffercache.blocks p) (g.dead p) j
  p_ptr : (t.buffercache.blocks p).ptrs j = x
  mid_pos : 1 ≤ mid
  mid_lt : mid < (t.buffercache.blocks x).info.numkeys
  l_junk : g.junk L
  r_junk : g.junk R
  l_ne_r : L ≠ R
  left : SplitLeft (t.buffercache.blocks x) (t.buffercache.blocks L) mid
  right : SplitRight (t.buffercache.blocks x) (t.buffercache.blocks R) mid
  parent : ParentWith (t.buffercache.blocks p) np j ((t.buffercache.blocks x).keys (mid - 1)) L R

/-- The state `t` with the root pointer of the superblock set to `r`, in memory and in
block `0`. -/
def BTreeIndex.withRoot (t : BTreeIndex) (r : Nat) : BTreeIndex :=
  let sb : BTreeNode := { t.superblock with info := { t.superblock.info with rootnode := r } }
  { t with
    superblock := sb,
    buffercache := { t.buffercache with blocks := Function.update t.buffercache.blocks 0 sb } }

/-- The ghost record after the root `x` has been replaced by its two halves `L` and `R`
under the new root `q`. -/
def rootGhost (g : Ghost) (x L R q sk : Nat) : Ghost :=
  { kv := g.kv,
    lvl := fun a => if a = q then g.lvl x + 1 else (linkGhost g x L R sk true).lvl a,
    rng := fun a k => if a = q then True else (linkGhost g x L R sk true).rng a k,
    dead := fun a => if a = q then false else (linkGhost g x L R sk true).dead a,
    free := g.free,
    junk := fun a => (linkGhost g x L R sk true).junk a ∧ a ≠ q }

/-- The hypotheses under which the over-full root `x` is replaced by the two halves `L`
and `R` under the new root `q`, all three written by `Rebalance`. -/
structure RootH (t : BTreeIndex) (g : Ghost) (x L R q mid : Nat) : Prop where
  inv : Inv t g (some x)
  x_root : x = t.superblock.info.rootnode
  mid_pos : 1 ≤ mid
  mid_lt : mid < (t.buffercache.blocks x).info.numkeys
  l_junk : g.junk L
  r_junk : g.junk R
  q_junk : g.junk q
  l_ne_r : L ≠ R
  l_ne_q : L ≠ q
  r_ne_q : R ≠ q
  left : SplitLeft (t.buffercache.blocks x) (t.buffercache.blocks L) mid
  right : SplitRight (t.buffercache.blocks x) (t.buffercache.blocks R) mid
  q_type : (t.buffercache.blocks q).info.nodetype = BTREE_ROOT_NODE
  q_keys : (t.buffercache.blocks q).info.numkeys = 1
  q_key : (t.buffercache.blocks q).keys 0 = (t.buffercache.blocks x).keys (mid - 1)
  q_left : (t.buffercache.blocks q).ptrs 0 = L
  q_right : (t.buffercache.blocks q).ptrs 1 = R

/-- The store `t'` with the ghost record `g'` holds the same tree as `t` with `g`: the
blocks of the tree nodes, the root pointer and the ghost description of the nodes agree. -/
structure SameTree (t t' : BTreeIndex) (g g' : Ghost) : Prop where
  max : t'.maxNumKeys = t.maxNumKeys
  root : t'.superblock.info.rootnode = t.superblock.info.rootnode
  blk : ∀ a, IsTree t g a → t'.buffercache.blocks a = t.buffercache.blocks a
  tree : ∀ a, IsTree t' g' a ↔ IsTree t g a
  kv : g'.kv = g.kv
  lvl : g'.lvl = g.lvl
  rng : g'.rng = g.rng
  dead : g'.dead = g.dead

/-- The new root that `Rebalance` writes into block `q` after splitting the old root: one
key `sk` between the pointers `L` and `R`. -/
def rootWith (q sk L R : Nat) : BTreeNode :=
  { info := { nodetype := BTREE_ROOT_NODE, rootnode := q, freelist := 0, numkeys := 1 },
    keys := Function.update (fun _ => 0) 0 sk,
    vals := fun _ => 0,
    ptrs := Function.update (Function.update (fun _ => 0) 0 L) 1 R }

/-- A block of the free list as `Attach` writes it. -/
def freeBlock (n i : Nat) : BTreeNode :=
  { info := { nodetype := BTREE_UNALLOCATED_BLOCK, rootnode := 1,
              freelist := if i + 1 = n then 0 else i + 1, numkeys := 0 },
    keys := fun _ => 0, vals := fun _ => 0, ptrs := fun _ => 0 }

/-- The store right after `Attach` has created the index: a superblock in block `0`, a root
without keys, no other node, and the blocks `free` on the free list. -/
structure Fresh (t : BTreeIndex) (free : List Nat) : Prop where
  sb_index : t.superblock_index = 0
  sb_block : t.buffercache.blocks 0 = t.superblock
  sb_type : t.superblock.info.nodetype = BTREE_SUPERBLOCK
  root_ne : t.superblock.info.rootnode ≠ 0
  root_lt : t.superblock.info.rootnode < t.buffercache.numBlocks
  root_type : (t.buffercache.blocks t.superblock.info.rootnode).info.nodetype = BTREE_ROOT_NODE
  root_keys : (t.buffercache.blocks t.superblock.info.rootnode).info.numkeys = 0
  others : ∀ y, y ≠ t.superblock.info.rootnode →
    ¬ ((t.buffercache.blocks y).isInterior = true ∨ (t.buffercache.blocks y).isLeaf = true)
  free_chain : FreeChain t.buffercache t.superblock.info.freelist free
  free_nodup : free.Nodup

/-- The ghost record of the tree after the first insert: the root `r` over the leaf `a`
with the record and the empty leaf `b`. -/
def firstGhost (r a b k v : Nat) (rest : List Nat) : Ghost :=
  { kv := Function.update (fun _ => none) k (some v),
    lvl := fun y => if y = r then 1 else 0,
    rng := fun y key => if y = r then True else if y = a then key ≤ k else y = b ∧ k < key,
    dead := fun _ => false,
    free := rest,
    junk := fun _ => False }

/-- The leaf that the first insert writes. -/
def firstLeaf (k v : Nat) : BTreeNode :=
  ⟨⟨BTREE_LEAF_NODE, 0, 0, 1⟩, Function.update (fun _ => 0) 0 k,
    Function.update (fun _ => 0) 0 v, fun _ => 0⟩

/-- The root after the first insert. -/
def firstRoot (r : BTreeNode) (k a b : Nat) : BTreeNode :=
  ⟨⟨r.info.nodetype, r.info.rootnode, r.info.freelist, r.info.numkeys + 1⟩,
    Function.update r.keys 0 k, r.vals, Function.update (Function.update r.ptrs 0 a) 1 b⟩

/-- The records after the inserts of `kvs` into the records `f`. -/
def applyKvs (f : Nat → Option Nat) (kvs : List (Nat × Nat)) : Nat → Option Nat :=
  kvs.foldl (fun f kv => Function.update f kv.1 (some kv.2)) f

/-- The leaf `b` with the value in slot `i` set to `v`: what `Update` writes. -/
def leafSet (b : BTreeNode) (i v : Nat) : BTreeNode :=
  { b with vals := Function.update b.vals i v }

/-! ## Every block accounted for, reachable leaves, and the nodes that an insert writes -/

/-- What the invariant leaves open and the statements about the whole store need: every
block of the store is the superblock, a free block, a node outside the tree or a node of the
tree; the pointer slot `numkeys` of an interior node that does not use it holds `0`; the
superblock counts no keys; and a node outside the tree has at most one key more than the
threshold. -/
structure Ext (t : BTreeIndex) (g : Ghost) : Prop where
  cover : ∀ a, a < t.buffercache.numBlocks → a = 0 ∨ a ∈ g.free ∨ g.junk a ∨ IsTree t g a
  dead_zero : ∀ a, IsTree t g a → (t.buffercache.blocks a).isInterior = true →
    g.dead a = true → (t.buffercache.blocks a).ptrs (t.buffercache.blocks a).info.numkeys = 0
  sb_keys : t.superblock.info.numkeys = 0
  junk_keys : ∀ a, g.junk a → (t.buffercache.blocks a).info.numkeys ≤ threshold t + 1

/-- Block `c` is reached from block `a` by following pointers `P_0 .. P_numkeys` of
ROOT/INTERIOR nodes of the store, zero or more times. -/
inductive Reach (t : BTreeIndex) : Nat → Nat → Prop where
  | here (a : Nat) : Reach t a a
  | step (a i c : Nat) : a < t.buffercache.numBlocks →
      (t.buffercache.blocks a).isInterior = true → i ≤ (t.buffercache.blocks a).info.numkeys →
      Reach t ((t.buffercache.blocks a).ptrs i) c → Reach t a c

/-- Block `a` of the store holds a ROOT, INTERIOR or LEAF node. -/
def IsNode (t : BTreeIndex) (a : Nat) : Prop :=
  a < t.buffercache.numBlocks ∧
    ((t.buffercache.blocks a).isInterior = true ∨ (t.buffercache.blocks a).isLeaf = true)

/-- The nodes that `AllocateNode` passes to `Serialize`, in order. -/
def AllocateNodeWrites (t : BTreeIndex) : List BTreeNode :=
  let n := t.superblock.info.freelist
  if n = 0 then []
  else
    let node := (BTreeNode.default.Unserialize t.buffercache n).2
    if node.info.nodetype ≠ BTREE_UNALLOCATED_BLOCK then []
    else
      let sb : BTreeNode :=
        { t.superblock with info := { t.superblock.info with freelist := node.info.freelist } }
      [sb]

/-- The nodes that `DeallocateNode` passes to `Serialize`, in order. -/
def DeallocateNodeWrites (t : BTreeIndex) (n : Nat) : List BTreeNode :=
  let node := (BTreeNode.default.Unserialize t.buffercache n).2
  if node.info.nodetype = BTREE_UNALLOCATED_BLOCK then []
  else
    let node : BTreeNode :=
      { node with info := { node.info with nodetype := BTREE_UNALLOCATED_BLOCK,
                                           freelist := t.superblock.info.freelist } }
    let sb : BTreeNode := { t.superblock with info := { t.superblock.info with freelist := n } }
    [node, sb]

/-- The nodes that the first half of `Rebalance` (`splitNode`) passes to `Serialize`, in
order, up to the point where it returns. -/
def splitNodeWrites (t : BTreeIndex) (node : Nat) : List BTreeNode :=
  match BTreeNode.default.Unserialize t.buffercache node with
  | (rc, b) =>
    if rc ≠ ERROR_NOERROR then []
    else
      match AllocateNode t with
      | none => AllocateNodeWrites t
      | some (_, leftPtr, t1) =>
        let newType := if b.info.nodetype = BTREE_LEAF_NODE then BTREE_LEAF_NODE
                       else BTREE_INTERIOR_NODE
        let leftNode := BTreeNode.new newType
        let w1 := AllocateNodeWrites t ++ [leftNode]
        match leftNode.Serialize t1.buffercache leftPtr with
        | (rc, bc2) =>
          let t2 := { t1 with buffercache := bc2 }
          if rc ≠ ERROR_NOERROR then w1
          else
            match AllocateNode t2 with
            | none => w1 ++ AllocateNodeWrites t2
            | some (_, rightPtr, t3) =>
              let rightNode := BTreeNode.new newType
              let w2 := w1 ++ AllocateNodeWrites t2 ++ [rightNode]
              match rightNode.Serialize t3.buffercache rightPtr with
              | (rc, bc4) =>
                let t4 := { t3 with buffercache := bc4 }
                if rc ≠ ERROR_NOERROR then w2
                else
                  match leftNode.Unserialize t4.buffercache leftPtr with
                  | (rc, leftNode) =>
                    if rc ≠ ERROR_NOERROR then w2
                    else
                      match rightNode.Unserialize t4.buffercache rightPtr with
                      | (rc, rightNode) =>
                        if rc ≠ ERROR_NOERROR then w2
                        else
                          let midpoint := b.info.numkeys / 2
                          let isLeaf : Bool := b.info.nodetype = BTREE_LEAF_NODE
                          match copyLoop isLeaf b midpoint 0 0 leftNode with
                          | (rc, leftNode) =>
                            if rc ≠ ERROR_NOERROR then w2
                            else
                              match copyLoop isLeaf b (b.info.numkeys - midpoint) midpoint 0
                                      rightNode with
                              | (rc, rightNode) =>
                                if rc ≠ ERROR_NOERROR then w2
                                else
                                  let last : ERROR_T × BTreeNode :=
                                    if isLeaf then (ERROR_NOERROR, rightNode)
                                    else
                                      let offset := midpoint + (b.info.numkeys - midpoint)
                                      let pos := b.info.numkeys - midpoint
                                      match b.GetPtr offset 0 with
                                      | (rc, tempPtr) =>
                                        if rc ≠ ERROR_NOERROR then (rc, rightNode)
                                        else rightNode.SetPtr pos tempPtr
                                  match last with
                                  | (rc, rightNode) =>
                                    if rc ≠ ERROR_NOERROR then w2
                                    else
                                      match leftNode.Serialize t4.buffercache leftPtr with
                                      | (rc, bc5) =>
                                        let t5 := { t4 with buffercache := bc5 }
                                        if rc ≠ ERROR_NOERROR then w2 ++ [leftNode]
                                        else
                                          match rightNode.Serialize t5.buffercache rightPtr with
                                          | (rc, _) =>
                                            if rc ≠ ERROR_NOERROR then
                                              w2 ++ [leftNode, rightNode]
                                            else w2 ++ [leftNode, rightNode, b]

/-- The nodes that `Rebalance` passes to `Serialize`, in order, the ones of the calls it
makes included. -/
def RebalanceWrites : Nat → BTreeIndex → Nat → List Nat → List BTreeNode
  | 0, _, _, _ => []
  | fuel + 1, t, node, path =>
    match splitNode t node with
    | none => splitNodeWrites t node
    | some (Except.error _) => splitNodeWrites t node
    | some (Except.ok (t7, b, leftPtr, rightPtr, splitKey)) =>
      splitNodeWrites t node ++
      (if b.info.nodetype = BTREE_ROOT_NODE then
        match AllocateNode t7 with
        | none => AllocateNodeWrites t7
        | some (_, newRootPtr, t8) =>
          let newRootNode := BTreeNode.new BTREE_ROOT_NODE
          let sb : BTreeNode :=
            { t8.superblock with info := { t8.superblock.info with rootnode := newRootPtr } }
          let t9 := { t8 with superblock := sb }
          let newRootNode : BTreeNode :=
            { newRootNode with info := { newRootNode.info with rootnode := newRootPtr, numkeys := 1 } }
          let newRootNode := (newRootNode.SetKey 0 splitKey).2
          let newRootNode := (newRootNode.SetPtr 0 leftPtr).2
          let newRootNode := (newRootNode.SetPtr 1 rightPtr).2
          AllocateNodeWrites t7 ++ [newRootNode] ++
          (match newRootNode.Serialize t9.buffercache newRootPtr with
          | (rc, bc10) =>
            let t10 := { t9 with buffercache := bc10 }
            if rc ≠ ERROR_NOERROR then []
            else DeallocateNodeWrites t10 node)
      else
        match path with
        | [] => []
        | parentPtr :: path =>
          match BTreeNode.default.Unserialize t7.buffercache parentPtr with
          | (rc, parentNode) =>
            if rc ≠ ERROR_NOERROR then []
            else
              let alloc : Option (Nat × BTreeIndex) :=
                if parentNode.info.nodetype = BTREE_SUPERBLOCK then
                  match AllocateNode t7 with
                  | none => none
                  | some (_, p, t8) => some (p, t8)
                else some (parentPtr, t7)
              let wa : List BTreeNode :=
                if parentNode.info.nodetype = BTREE_SUPERBLOCK then AllocateNodeWrites t7
                else []
              match alloc with
              | none => wa
              | some (parentPtr, t8) =>
                match parentInsert parentNode splitKey leftPtr rightPtr with
                | (rc, newParentNode) =>
                  if rc ≠ ERROR_NOERROR then wa
                  else
                    let bc9 := (newParentNode.Serialize t8.buffercache parentPtr).2
                    let t9 := { t8 with buffercache := bc9 }
                    wa ++ [newParentNode] ++
                    (if newParentNode.info.numkeys > threshold t9 then
                      match Rebalance fuel t9 parentPtr path with
                      | none => RebalanceWrites fuel t9 parentPtr path
                      | some (rc, t10) =>
                        RebalanceWrites fuel t9 parentPtr path ++
                        (if rc ≠ ERROR_NOERROR then [] else DeallocateNodeWrites t10 node)
                    else DeallocateNodeWrites t9 node))

/-- The nodes that the branch of `Insert` for a tree without keys passes to `Serialize`, in
order. -/
def insertFirstWrites (t : BTreeIndex) (key : Nat) (value : Nat) (rootNode : BTreeNode) :
    List BTreeNode :=
  let t := { t with initBlock := true }
  match AllocateNode t with
  | none => AllocateNodeWrites t
  | some (_, leafPtr, t1) =>
    let leafNode := BTreeNode.new BTREE_LEAF_NODE
    let w1 := AllocateNodeWrites t ++ [leafNode]
    let t2 := { t1 with buffercache := (leafNode.Serialize t1.buffercache leafPtr).2 }
    match leafNode.Unserialize t2.buffercache leafPtr with
    | (rc, leafNode) =>
      if rc ≠ ERROR_NOERROR then w1
      else
        let leafNode : BTreeNode :=
          { leafNode with info := { leafNode.info with numkeys := leafNode.info.numkeys + 1 } }
        let leafNode := (leafNode.SetKey 0 key).2
        let leafNode := (leafNode.SetVal 0 value).2
        let w3 := w1 ++ [leafNode]
        let t3 := { t2 with buffercache := (leafNode.Serialize t2.buffercache leafPtr).2 }
        match rootNode.Unserialize t3.buffercache t3.superblock.info.rootnode with
        | (rc, rootNode) =>
          if rc ≠ ERROR_NOERROR then w3
          else
            let rootNode : BTreeNode :=
              { rootNode with info := { rootNode.info with numkeys := rootNode.info.numkeys + 1 } }
            let rootNode := (rootNode.SetPtr 0 leafPtr).2
            let rootNode := (rootNode.SetKey 0 key).2
            match AllocateNode t3 with
            | none => w3 ++ AllocateNodeWrites t3
            | some (_, rightLeafPtr, t4) =>
              let rightLeafNode := BTreeNode.new BTREE_LEAF_NODE
              let w5 := w3 ++ AllocateNodeWrites t3 ++ [rightLeafNode]
              match rightLeafNode.Serialize t4.buffercache rightLeafPtr with
              | (rc, _) =>
                if rc ≠ ERROR_NOERROR then w5
                else
                  let rootNode := (rootNode.SetPtr 1 rightLeafPtr).2
                  w5 ++ [rootNode]

/-- The nodes that the branch of `Insert` for a tree that has keys passes to `Serialize`,
in order, the ones of `Rebalance` included. -/
def insertLeafWrites (t : BTreeIndex) (fuel : Nat) (key : Nat) (value : Nat) :
    List BTreeNode :=
  let path := [t.superblock.info.rootnode]
  match LookupLeaf t fuel t.superblock.info.rootnode key path with
  | none => []
  | some (_, path) =>
    match path with
    | [] => []
    | leafPtr :: path =>
      match BTreeNode.default.Unserialize t.buffercache leafPtr with
      | (rc, leafNode) =>
        if rc ≠ ERROR_NOERROR then []
        else
          let leafNode : BTreeNode :=
            { leafNode with info := { leafNode.info with numkeys := leafNode.info.numkeys + 1 } }
          let filled := leafFill leafNode key value
          match filled with
          | (rc, leafNode) =>
            if rc ≠ ERROR_NOERROR then []
            else
              let t1 := { t with buffercache := (leafNode.Serialize t.buffercache leafPtr).2 }
              [leafNode] ++
              (if leafNode.info.numkeys > threshold t1 then
                match path with
                | [] => []
                | parentPtr :: path => RebalanceWrites fuel t1 parentPtr path
              else [])

/-- The nodes that `Insert` passes to `Serialize`, in order, the ones of the calls it makes
included. -/
def InsertWrites (t : BTreeIndex) (fuel : Nat) (key : Nat) (value : Nat) : List BTreeNode :=
  match LookupOrUpdateInternal t fuel t.superblock.info.rootnode BTREE_OP_LOOKUP key 0 with
  | none => []
  | some (ret, _, t) =>
    if ret = ERROR_NOERROR then []
    else if ret = ERROR_NONEXISTENT then
      let rootPtr := t.superblock.info.rootnode
      let rootNode := (BTreeNode.default.Unserialize t.buffercache rootPtr).2
      let t := { t with initBlock := false }
      let t := if rootNode.info.numkeys ≠ 0 then { t with initBlock := true } else t
      let t := { t with buffercache := (rootNode.Serialize t.buffercache rootPtr).2 }
      [rootNode] ++
      (if t.initBlock = false then insertFirstWrites t key value rootNode
      else insertLeafWrites t fuel key value)
    else []

/-- The store after the first insert `kv` and the inserts `recs` of larger keys, as long as
the right leaf takes them without a split: the root in block `1` with the one key of `kv`,
the left leaf in block `2` with the record `kv`, the right leaf in block `3` with the
records `recs` in order, and no other block allocated. -/
structure TwoLeaves (t : BTreeIndex) (kv : Nat × Nat) (recs : List (Nat × Nat)) : Prop where
  root : t.superblock.info.rootnode = 1
  root_type : (t.buffercache.blocks 1).info.nodetype = BTREE_ROOT_NODE
  root_keys : (t.buffercache.blocks 1).info.numkeys = 1
  root_key : (t.buffercache.blocks 1).keys 0 = kv.1
  root_left : (t.buffercache.blocks 1).ptrs 0 = 2
  root_right : (t.buffercache.blocks 1).ptrs 1 = 3
  left_type : (t.buffercache.blocks 2).info.nodetype = BTREE_LEAF_NODE
  left_keys : (t.buffercache.blocks 2).info.numkeys = 1
  left_key : (t.buffercache.blocks 2).keys 0 = kv.1
  left_val : (t.buffercache.blocks 2).vals 0 = kv.2
  right_type : (t.buffercache.blocks 3).info.nodetype = BTREE_LEAF_NODE
  right_keys : (t.buffercache.blocks 3).info.numkeys = recs.length
  right_recs : ∀ i, i < recs.length →
    (t.buffercache.blocks 3).keys i = (recs.getD i (0, 0)).1 ∧
    (t.buffercache.blocks 3).vals i = (recs.getD i (0, 0)).2
  others : ∀ a, 4 ≤ a → a < t.buffercache.numBlocks →
    (t.buffercache.blocks a).info.nodetype = BTREE_UNALLOCATED_BLOCK

/-- Seven records with the keys `1 .. 7`. -/
def sevenRecords : List (Nat × Nat) :=
  [(1, 10), (2, 20), (3, 30), (4, 40), (5, 50), (6, 60), (7, 70)]

/-! ## The calls of `AllocateNode` that an insert makes -/

/-- Whether the call of `AllocateNode` in state `t` hands out a block: it returns
`ERROR_NOERROR` and its result `n` is a block of the store. -/
def AllocateNodeOk (t : BTreeIndex) : Bool :=
  match AllocateNode t with
  | some (rc, n, _) => decide (rc = ERROR_NOERROR ∧ n < t.buffercache.numBlocks)
  | none => false

/-- For each call of `AllocateNode` in the first half of `Rebalance` (`splitNode`), in
order, whether it hands out a block. -/
def splitNodeAllocs (t : BTreeIndex) (node : Nat) : List Bool :=
  match BTreeNode.default.Unserialize t.buffercache node with
  | (rc, b) =>
    if rc ≠ ERROR_NOERROR then []
    else
      match AllocateNode t with
      | none => [false]
      | some (_, leftPtr, t1) =>
        let newType := if b.info.nodetype = BTREE_LEAF_NODE then BTREE_LEAF_NODE
                       else BTREE_INTERIOR_NODE
        let leftNode := BTreeNode.new newType
        match leftNode.Serialize t1.buffercache leftPtr with
        | (rc, bc2) =>
          let t2 := { t1 with buffercache := bc2 }
          if rc ≠ ERROR_NOERROR then [AllocateNodeOk t]
          else [AllocateNodeOk t, AllocateNodeOk t2]

/-- For each call of `AllocateNode` in `Rebalance`, the calls it makes included, in order,
whether it hands out a block. -/
def RebalanceAllocs : Nat → BTreeIndex → Nat → List Nat → List Bool
  | 0, _, _, _ => []
  | fuel + 1, t, node, path =>
    match splitNode t node with
    | none => splitNodeAllocs t node
    | some (Except.error _) => splitNodeAllocs t node
    | some (Except.ok (t7, b, leftPtr, rightPtr, splitKey)) =>
      splitNodeAllocs t node ++
      (if b.info.nodetype = BTREE_ROOT_NODE then [AllocateNodeOk t7]
      else
        match path with
        | [] => []
        | parentPtr :: path =>
          match BTreeNode.default.Unserialize t7.buffercache parentPtr with
          | (rc, parentNode) =>
            if rc ≠ ERROR_NOERROR then []
            else
              let alloc : Option (Nat × BTreeIndex) :=
                if parentNode.info.nodetype = BTREE_SUPERBLOCK then
                  match AllocateNode t7 with
                  | none => none
                  | some (_, p, t8) => some (p, t8)
                else some (parentPtr, t7)
              let wa : List Bool :=
                if parentNode.info.nodetype = BTREE_SUPERBLOCK then [AllocateNodeOk t7]
                else []
              match alloc with
              | none => wa
              | some (parentPtr, t8) =>
                match parentInsert parentNode splitKey leftPtr rightPtr with
                | (rc, newParentNode) =>
                  if rc ≠ ERROR_NOERROR then wa
                  else
                    let bc9 := (newParentNode.Serialize t8.buffercache parentPtr).2
                    let t9 := { t8 with buffercache := bc9 }
                    wa ++
                    (if newParentNode.info.numkeys > threshold t9 then
                      RebalanceAllocs fuel t9 parentPtr path
                    else []))

/-- For each call of `AllocateNode` in the branch of `Insert` for a tree without keys, in
order, whether it hands out a block. -/
def insertFirstAllocs (t : BTreeIndex) (key : Nat) (value : Nat) (rootNode : BTreeNode) :
    List Bool :=
  let t := { t with initBlock := true }
  match AllocateNode t with
  | none => [false]
  | some (_, leafPtr, t1) =>
    let leafNode := BTreeNode.new BTREE_LEAF_NODE
    let t2 := { t1 with buffercache := (leafNode.Serialize t1.buffercache leafPtr).2 }
    match leafNode.Unserialize t2.buffercache leafPtr with
    | (rc, leafNode) =>
      if rc ≠ ERROR_NOERROR then [AllocateNodeOk t]
      else
        let leafNode : BTreeNode :=
          { leafNode with info := { leafNode.info with numkeys := leafNode.info.numkeys + 1 } }
        let leafNode := (leafNode.SetKey 0 key).2
        let leafNode := (leafNode.SetVal 0 value).2
        let t3 := { t2 with buffercache := (leafNode.Serialize t2.buffercache leafPtr).2 }
        match rootNode.Unserialize t3.buffercache t3.superblock.info.rootnode with
        | (rc, _) =>
          if rc ≠ ERROR_NOERROR then [AllocateNodeOk t]
          else [AllocateNodeOk t, AllocateNodeOk t3]

/-- For each call of `AllocateNode` in the branch of `Insert` for a tree that has keys, the
ones of `Rebalance`, in order, whether it hands out a block. -/
def insertLeafAllocs (t : BTreeIndex) (fuel : Nat) (key : Nat) (value : Nat) : List Bool :=
  let path := [t.superblock.info.rootnode]
  match LookupLeaf t fuel t.superblock.info.rootnode key path with
  | none => []
  | some (_, path) =>
    match path with
    | [] => []
    | leafPtr :: path =>
      match BTreeNode.default.Unserialize t.buffercache leafPtr with
      | (rc, leafNode) =>
        if rc ≠ ERROR_NOERROR then []
        else
          let leafNode : BTreeNode :=
            { leafNode with info := { leafNode.info with numkeys := leafNode.info.numkeys + 1 } }
          let filled := leafFill leafNode key value
          match filled with
          | (rc, leafNode) =>
            if rc ≠ ERROR_NOERROR then []
            else
              let t1 := { t with buffercache := (leafNode.Serialize t.buffercache leafPtr).2 }
              if leafNode.info.numkeys > threshold t1 then
                match path with
                | [] => []
                | parentPtr :: path => RebalanceAllocs fuel t1 parentPtr path
              else []

/-- For each call of `AllocateNode` that `Insert` makes, directly or through `Rebalance`,
in order, whether it hands out a block. -/
def InsertAllocs (t : BTreeIndex) (fuel : Nat) (key : Nat) (value : Nat) : List Bool :=
  match LookupOrUpdateInternal t fuel t.superblock.info.rootnode BTREE_OP_LOOKUP key 0 with
  | none => []
  | some (ret, _, t) =>
    if ret = ERROR_NOERROR then []
    else if ret = ERROR_NONEXISTENT then
      let rootPtr := t.superblock.info.rootnode
      let rootNode := (BTreeNode.default.Unserialize t.buffercache rootPtr).2
      let t := { t with initBlock := false }
      let t := if rootNode.info.numkeys ≠ 0 then { t with initBlock := true } else t
      let t := { t with buffercache := (rootNode.Serialize t.buffercache rootPtr).2 }
      if t.initBlock = false then insertFirstAllocs t key value rootNode
      else insertLeafAllocs t fuel key value
    else []

/-- For each call of `AllocateNode` during the inserts of `kvs` in order, whether it hands
out a block. -/
def insertAllAllocs (t : BTreeIndex) (fuel : Nat) : List (Nat × Nat) → List Bool
  | [] => []
  | kv :: kvs =>
    InsertAllocs t fuel kv.1 kv.2 ++
    (match Insert t fuel kv.1 kv.2 with
    | some (_, t1) => insertAllAllocs t1 fuel kvs
    | none => [])

/-- For each call of `AllocateNode` during the operations `ops`, whether it hands out a
block; only `Insert` allocates. -/
def runOpsAllocs (t : BTreeIndex) (fuel : Nat) : List Op → List Bool
  | [] => []
  | Op.insert k v :: ops =>
    InsertAllocs t fuel k v ++
    (match Insert t fuel k v with
    | none => []
    | some (_, t1) => runOpsAllocs t1 fuel ops)
  | Op.update k v :: ops =>
    match Update t fuel k v with
    | none => []
    | some (_, t1) => runOpsAllocs t1 fuel ops
  | Op.lookup k :: ops =>
    match Lookup t fuel k 0 with
    | none => []
    | some (_, _, t1) => runOpsAllocs t1 fuel ops

/-- The store of an index without keys: a superblock in block `0`, a root without keys, and
no other node. -/
structure EmptyTree (t : BTreeIndex) : Prop where
  sb_index : t.superblock_index = 0
  sb_block : t.buffercache.blocks 0 = t.superblock
  sb_type : t.superblock.info.nodetype = BTREE_SUPERBLOCK
  root_ne : t.superblock.info.rootnode ≠ 0
  root_lt : t.superblock.info.rootnode < t.buffercache.numBlocks
  root_type : (t.buffercache.blocks t.superblock.info.rootnode).info.nodetype = BTREE_ROOT_NODE
  root_keys : (t.buffercache.blocks t.superblock.info.rootnode).info.numkeys = 0
  others : ∀ y, y ≠ t.superblock.info.rootnode →
    ¬ ((t.buffercache.blocks y).isInterior = true ∨ (t.buffercache.blocks y).isLeaf = true)

/-- Six records with pairwise distinct keys, not in key order. -/
def sixMixed : List (Nat × Nat) :=
  [(10, 100), (20, 200), (30, 300), (5, 50), (7, 70), (8, 80)]

/-- Seven records with pairwise distinct keys, not in key order: with `maxNumKeys = 3` their
inserts make thirteen allocations, which a cache of twelve blocks just serves. -/
def sevenMixed : List (Nat × Nat) :=
  [(10, 100), (20, 200), (30, 300), (5, 50), (7, 70), (8, 80), (40, 400)]

/-- The index after `Attach(0, true)` on a cache of two blocks, `maxNumKeys = 3`. -/
def indexOfTwoBlocks : BTreeIndex := build 2 3 1 []

/-! ## The descend-only traversal -/

theorem lui_zero (t : BTreeIndex) (node : Nat) (op : BTreeOp) (key : Nat) (value : Nat) :
    LookupOrUpdateInternal t 0 node op key value = none := rfl

theorem lui_out_of_range (t : BTreeIndex) (fuel : Nat) (node : Nat) (op : BTreeOp) (key : Nat)
    (value : Nat) (h : ¬ node < t.buffercache.numBlocks) :
    LookupOrUpdateInternal t (fuel + 1) node op key value = some (ERROR_INSANE, value, t) := by
  simp [LookupOrUpdateInternal, BTreeNode.Unserialize, h]

theorem lui_interior (t : BTreeIndex) (fuel : Nat) (node : Nat) (op : BTreeOp) (key : Nat)
    (value : Nat) (h : node < t.buffercache.numBlocks)
    (hb : (t.buffercache.blocks node).isInterior = true) :
    LookupOrUpdateInternal t (fuel + 1) node op key value =
      match nextChild (t.buffercache.blocks node) key with
      | Except.error rc => some (rc, value, t)
      | Except.ok ptr => LookupOrUpdateInternal t fuel ptr op key value := by
  simp only [LookupOrUpdateInternal, BTreeNode.Unserialize, h, if_true, hb, nextChild]
  simp only [ne_eq, not_true_eq_false, if_false]
  cases lookupScan (t.buffercache.blocks node) key (t.buffercache.blocks node).info.numkeys 0 with
  | err rc => rfl
  | descend p => rfl
  | fallthrough =>
    simp only []
    split
    · split <;> rfl
    · rfl

theorem lui_leaf (t : BTreeIndex) (fuel : Nat) (node : Nat) (op : BTreeOp) (key : Nat)
    (value : Nat) (h : node < t.buffercache.numBlocks)
    (hb : (t.buffercache.blocks node).isLeaf = true) :
    LookupOrUpdateInternal t (fuel + 1) node op key value =
      match leafScan (t.buffercache.blocks node) key (t.buffercache.blocks node).info.numkeys 0 with
      | LeafScan.err rc => some (rc, value, t)
      | LeafScan.found offset =>
        if op = BTREE_OP_LOOKUP then
          some (((t.buffercache.blocks node).GetVal offset value).1,
                ((t.buffercache.blocks node).GetVal offset value).2, t)
        else if ((t.buffercache.blocks node).SetVal offset value).1 ≠ ERROR_NOERROR then
          some (((t.buffercache.blocks node).SetVal offset value).1, value, t)
        else
          some (ERROR_NOERROR, value,
            t.withBlock node ((t.buffercache.blocks node).SetVal offset value).2)
      | LeafScan.missing => some (ERROR_NONEXISTENT, value, t) := by
  have hni : (t.buffercache.blocks node).isInterior = false := by
    simp only [BTreeNode.isLeaf, BTreeNode.isInterior] at hb ⊢
    simp only [decide_eq_true_eq] at hb
    simp [hb]
  simp only [LookupOrUpdateInternal, BTreeNode.Unserialize, h, if_true, hb, hni,
    Bool.false_eq_true, if_false]
  simp only [ne_eq, not_true_eq_false, if_false, BTreeNode.Serialize, h, if_true,
    BTreeIndex.withBlock]

theorem lui_other (t : BTreeIndex) (fuel : Nat) (node : Nat) (op : BTreeOp) (key : Nat)
    (value : Nat) (h : node < t.buffercache.numBlocks)
    (hi : (t.buffercache.blocks node).isInterior = false)
    (hl : (t.buffercache.blocks node).isLeaf = false) :
    LookupOrUpdateInternal t (fuel + 1) node op key value = some (ERROR_INSANE, value, t) := by
  simp [LookupOrUpdateInternal, BTreeNode.Unserialize, h, hi, hl]

theorem getVal_setVal_rc (b : BTreeNode) (o : Nat) (x y : Nat) :
    (b.SetVal o y).1 = (b.GetVal o x).1 := by
  unfold BTreeNode.SetVal BTreeNode.GetVal
  split <;> [split; skip] <;> rfl

theorem getVal_ok (b : BTreeNode) (o : Nat) (x : Nat)
    (h : (b.GetVal o x).1 = ERROR_NOERROR) :
    b.isLeaf = true ∧ o < b.info.numkeys ∧ ∀ y, b.GetVal o y = (ERROR_NOERROR, b.vals o) := by
  unfold BTreeNode.GetVal at h ⊢
  split at h
  · split at h
    · simp_all
    · simp at h
  · simp at h

theorem setVal_ok (b : BTreeNode) (o : Nat) (y : Nat)
    (hl : b.isLeaf = true) (ho : o < b.info.numkeys) :
    b.SetVal o y = (ERROR_NOERROR, { b with vals := Function.update b.vals o y }) := by
  simp [BTreeNode.SetVal, hl, ho]

theorem leafScan_congr (b b1 : BTreeNode) (key : Nat) (hk : b1.keys = b.keys)
    (hi : b1.info = b.info) :
    ∀ (cnt : Nat) (offset : Nat), leafScan b1 key cnt offset = leafScan b key cnt offset := by
  intro cnt
  induction cnt with
  | zero => intro offset; rfl
  | succ n ih =>
    intro offset
    simp only [leafScan, BTreeNode.GetKey, BTreeNode.isInterior, BTreeNode.isLeaf, hk, hi, ih]

theorem isLeaf_not_isInterior (b : BTreeNode) (h : b.isLeaf = true) : b.isInterior = false := by
  simp only [BTreeNode.isLeaf, BTreeNode.isInterior] at h ⊢
  simp only [decide_eq_true_eq] at h
  simp [h]


theorem lookupScan_err_ne (b : BTreeNode) (key : Nat) :
    ∀ (cnt : Nat) (offset : Nat) (rc : ERROR_T),
      lookupScan b key cnt offset = Scan.err rc → rc ≠ ERROR_NOERROR := by
  intro cnt
  induction cnt with
  | zero => intro offset rc h; simp [lookupScan] at h
  | succ n ih =>
    intro offset rc h
    simp only [lookupScan] at h
    split at h
    · simp only [Scan.err.injEq] at h; rw [← h]; assumption
    · split at h
      · split at h
        · simp only [Scan.err.injEq] at h; rw [← h]; assumption
        · simp at h
      · exact ih _ _ h

theorem nextChild_err_ne (b : BTreeNode) (key : Nat) (rc : ERROR_T)
    (h : nextChild b key = Except.error rc) : rc ≠ ERROR_NOERROR := by
  unfold nextChild at h
  split at h
  · rename_i e he
    simp only [Except.error.injEq] at h
    rw [← h]; exact lookupScan_err_ne b key _ _ _ he
  · simp at h
  · split at h
    · generalize b.GetPtr b.info.numkeys 0 = q at h
      obtain ⟨rc1, p1⟩ := q
      simp only [] at h
      split at h
      · simp only [Except.error.injEq] at h; rw [← h]; assumption
      · simp at h
    · simp only [Except.error.injEq] at h; rw [← h]; simp

theorem leafScan_err_ne (b : BTreeNode) (key : Nat) :
    ∀ (cnt : Nat) (offset : Nat) (rc : ERROR_T),
      leafScan b key cnt offset = LeafScan.err rc → rc ≠ ERROR_NOERROR := by
  intro cnt
  induction cnt with
  | zero => intro offset rc h; simp [leafScan] at h
  | succ n ih =>
    intro offset rc h
    simp only [leafScan] at h
    split at h
    · simp only [LeafScan.err.injEq] at h; rw [← h]; assumption
    · split at h
      · simp at h
      · exact ih _ _ h

/-- A lookup that fails leaves the same verdict to an update, which then writes nothing. -/
theorem lui_update_of_lookup_fail (t : BTreeIndex) (key : Nat) (v2 : Nat) :
    ∀ (fuel : Nat) (node : Nat) (v0 v : Nat) (rc : ERROR_T) (t1 : BTreeIndex),
      LookupOrUpdateInternal t fuel node BTREE_OP_LOOKUP key v0 = some (rc, v, t1) →
      rc ≠ ERROR_NOERROR →
      LookupOrUpdateInternal t fuel node BTREE_OP_UPDATE key v2 = some (rc, v2, t) := by
  intro fuel
  induction fuel with
  | zero => intro node v0 v rc t1 h; simp [LookupOrUpdateInternal] at h
  | succ n ih =>
    intro node v0 v rc t1 h hrc
    by_cases hn : node < t.buffercache.numBlocks
    · by_cases hi : (t.buffercache.blocks node).isInterior = true
      · rw [lui_interior t n node _ key _ hn hi] at h ⊢
        cases hc : nextChild (t.buffercache.blocks node) key with
        | error e => rw [hc] at h; simp only [Option.some.injEq, Prod.mk.injEq] at h; simp [h.1]
        | ok p => rw [hc] at h; exact ih p v0 v rc t1 h hrc
      · by_cases hl : (t.buffercache.blocks node).isLeaf = true
        · rw [lui_leaf t n node _ key _ hn hl] at h ⊢
          cases hc : leafScan (t.buffercache.blocks node) key
              (t.buffercache.blocks node).info.numkeys 0 with
          | err e => rw [hc] at h; simp only [Option.some.injEq, Prod.mk.injEq] at h; simp [h.1]
          | missing => rw [hc] at h; simp only [Option.some.injEq, Prod.mk.injEq] at h; simp [h.1]
          | found o =>
            rw [hc] at h
            simp only [if_true, Option.some.injEq, Prod.mk.injEq] at h
            have e := getVal_setVal_rc (t.buffercache.blocks node) o v0 v2
            rw [h.1] at e
            simp [e, hrc]
        · simp only [Bool.not_eq_true] at hi hl
          rw [lui_other t n node _ key _ hn hi hl] at h ⊢
          simp only [Option.some.injEq, Prod.mk.injEq] at h
          simp [h.1]
    · rw [lui_out_of_range t n node _ key _ hn] at h ⊢
      simp only [Option.some.injEq, Prod.mk.injEq] at h
      simp [h.1]

/-- The value a successful lookup returns does not depend on the content of the out
parameter. -/
theorem lui_lookup_ok_indep (t : BTreeIndex) (key : Nat) :
    ∀ (fuel : Nat) (node : Nat) (v0 v : Nat) (t1 : BTreeIndex),
      LookupOrUpdateInternal t fuel node BTREE_OP_LOOKUP key v0 = some (ERROR_NOERROR, v, t1) →
      ∀ v0', LookupOrUpdateInternal t fuel node BTREE_OP_LOOKUP key v0' = some (ERROR_NOERROR, v, t) := by
  intro fuel
  induction fuel with
  | zero => intro node v0 v t1 h; simp [LookupOrUpdateInternal] at h
  | succ n ih =>
    intro node v0 v t1 h v0'
    by_cases hn : node < t.buffercache.numBlocks
    · by_cases hi : (t.buffercache.blocks node).isInterior = true
      · rw [lui_interior t n node _ key _ hn hi] at h ⊢
        cases hc : nextChild (t.buffercache.blocks node) key with
        | error e =>
          rw [hc] at h; simp only [Option.some.injEq, Prod.mk.injEq] at h
          exact absurd h.1 (nextChild_err_ne _ _ _ hc)
        | ok p => rw [hc] at h; exact ih p v0 v t1 h v0'
      · by_cases hl : (t.buffercache.blocks node).isLeaf = true
        · rw [lui_leaf t n node _ key _ hn hl] at h ⊢
          cases hc : leafScan (t.buffercache.blocks node) key
              (t.buffercache.blocks node).info.numkeys 0 with
          | err e =>
            rw [hc] at h; simp only [Option.some.injEq, Prod.mk.injEq] at h
            exact absurd h.1 (leafScan_err_ne _ _ _ _ _ hc)
          | missing => rw [hc] at h; simp at h
          | found o =>
            rw [hc] at h
            simp only [if_true, Option.some.injEq, Prod.mk.injEq] at h
            obtain ⟨_, _, hg⟩ := getVal_ok _ o v0 h.1
            have h2 := h.2.1
            rw [hg v0] at h2
            simp only [if_true, hg v0', Option.some.injEq, Prod.mk.injEq, true_and, and_true]
            exact h2
        · simp only [Bool.not_eq_true] at hi hl
          rw [lui_other t n node _ key _ hn hi hl] at h
          simp at h
    · rw [lui_out_of_range t n node _ key _ hn] at h
      simp at h

/-- An update of a key that a lookup finds overwrites one leaf block, and the lookup
then finds the new value. -/
theorem lui_update_of_lookup_ok (t : BTreeIndex) (key : Nat) (v2 : Nat) :
    ∀ (fuel : Nat) (node : Nat) (v0 v : Nat) (t1 : BTreeIndex),
      LookupOrUpdateInternal t fuel node BTREE_OP_LOOKUP key v0 = some (ERROR_NOERROR, v, t1) →
      ∃ (a : Nat) (b1 : BTreeNode),
        a < t.buffercache.numBlocks ∧ (t.buffercache.blocks a).isLeaf = true ∧
        LookupOrUpdateInternal t fuel node BTREE_OP_UPDATE key v2
          = some (ERROR_NOERROR, v2, t.withBlock a b1) ∧
        ∀ v0', LookupOrUpdateInternal (t.withBlock a b1) fuel node BTREE_OP_LOOKUP key v0'
          = some (ERROR_NOERROR, v2, t.withBlock a b1) := by
  intro fuel
  induction fuel with
  | zero => intro node v0 v t1 h; simp [LookupOrUpdateInternal] at h
  | succ n ih =>
    intro node v0 v t1 h
    by_cases hn : node < t.buffercache.numBlocks
    · by_cases hi : (t.buffercache.blocks node).isInterior = true
      · rw [lui_interior t n node _ key _ hn hi] at h
        cases hc : nextChild (t.buffercache.blocks node) key with
        | error e =>
          rw [hc] at h; simp only [Option.some.injEq, Prod.mk.injEq] at h
          exact absurd h.1 (nextChild_err_ne _ _ _ hc)
        | ok p =>
          rw [hc] at h
          obtain ⟨a, b1, ha, hal, hu, hl⟩ := ih p v0 v t1 h
          refine ⟨a, b1, ha, hal, ?_, ?_⟩
          · rw [lui_interior t n node _ key _ hn hi, hc]; exact hu
          · intro v0'
            have hne : node ≠ a := by
              intro e; rw [e, isLeaf_not_isInterior _ hal] at hi; simp at hi
            have hb : (t.withBlock a b1).buffercache.blocks node = t.buffercache.blocks node := by
              simp [BTreeIndex.withBlock, Function.update_noteq hne]
            have hn' : node < (t.withBlock a b1).buffercache.numBlocks := hn
            rw [lui_interior (t.withBlock a b1) n node _ key _ hn' (by rw [hb]; exact hi), hb, hc]
            exact hl v0'
      · by_cases hl : (t.buffercache.blocks node).isLeaf = true
        · rw [lui_leaf t n node _ key _ hn hl] at h
          cases hc : leafScan (t.buffercache.blocks node) key
              (t.buffercache.blocks node).info.numkeys 0 with
          | err e =>
            rw [hc] at h; simp only [Option.some.injEq, Prod.mk.injEq] at h
            exact absurd h.1 (leafScan_err_ne _ _ _ _ _ hc)
          | missing => rw [hc] at h; simp at h
          | found o =>
            rw [hc] at h
            simp only [if_true, Option.some.injEq, Prod.mk.injEq] at h
            obtain ⟨_, ho, _⟩ := getVal_ok _ o v0 h.1
            have hs := setVal_ok (t.buffercache.blocks node) o v2 hl ho
            refine ⟨node, ((t.buffercache.blocks node).SetVal o v2).2, hn, hl, ?_, ?_⟩
            · rw [lui_leaf t n node _ key _ hn hl, hc]
              simp [hs]
            · intro v0'
              have hb : (t.withBlock node ((t.buffercache.blocks node).SetVal o v2).2).buffercache.blocks
                  node = ((t.buffercache.blocks node).SetVal o v2).2 := by
                simp [BTreeIndex.withBlock]
              have hn' : node <
                  (t.withBlock node ((t.buffercache.blocks node).SetVal o v2).2).buffercache.numBlocks := hn
              have hl' : ((t.buffercache.blocks node).SetVal o v2).2.isLeaf = true := by
                rw [hs]; exact hl
              rw [lui_leaf _ n node _ key _ hn' (by rw [hb]; exact hl'), hb]
              have hsc := leafScan_congr (t.buffercache.blocks node)
                ((t.buffercache.blocks node).SetVal o v2).2 key (by rw [hs]) (by rw [hs])
                (t.buffercache.blocks node).info.numkeys 0
              have hnk : ((t.buffercache.blocks node).SetVal o v2).2.info.numkeys
                  = (t.buffercache.blocks node).info.numkeys := by rw [hs]
              rw [hnk, hsc, hc]
              simp only [if_true]
              rw [hs] at hl' ⊢
              simp [BTreeNode.GetVal, ho, hl']
        · simp only [Bool.not_eq_true] at hi hl
          rw [lui_other t n node _ key _ hn hi hl] at h
          simp at h
    · rw [lui_out_of_range t n node _ key _ hn] at h
      simp at h

/-- A duplicate insert: when the probe finds the key, `Insert` returns `ERROR_INSANE` and
hands the state back as it was. -/
theorem insert_of_lookup_ok (t : BTreeIndex) (fuel : Nat) (key : Nat) (v0 v v' : Nat)
    (t1 : BTreeIndex) (h : Lookup t fuel key v0 = some (ERROR_NOERROR, v, t1)) :
    Insert t fuel key v' = some (ERROR_INSANE, t) := by
  have h0 := lui_lookup_ok_indep t key fuel _ v0 v t1 h 0
  simp [Insert, h0]

theorem update_of_lookup_ok (t : BTreeIndex) (fuel : Nat) (key : Nat) (v0 v1 v2 : Nat)
    (t1 : BTreeIndex) (h : Lookup t fuel key v0 = some (ERROR_NOERROR, v1, t1)) :
    ∃ t2, Update t fuel key v2 = some (ERROR_NOERROR, t2) ∧
      ∀ v0', Lookup t2 fuel key v0' = some (ERROR_NOERROR, v2, t2) := by
  obtain ⟨a, b1, _, _, hu, hl⟩ := lui_update_of_lookup_ok t key v2 fuel _ v0 v1 t1 h
  refine ⟨t.withBlock a b1, ?_, ?_⟩
  · simp [Update, hu]
  · intro v0'; exact hl v0'

theorem update_of_lookup_fail (t : BTreeIndex) (fuel : Nat) (key : Nat) (v0 v v2 : Nat)
    (rc : ERROR_T) (t1 : BTreeIndex) (h : Lookup t fuel key v0 = some (rc, v, t1))
    (hrc : rc ≠ ERROR_NOERROR) :
    Update t fuel key v2 = some (rc, t) := by
  have hu := lui_update_of_lookup_fail t key v2 fuel _ v0 v rc t1 h hrc
  simp [Update, hu]

/-! ## What the loops over the slots of one node compute -/

theorem firstIdx_ge (p : Nat → Bool) : ∀ (cnt off : Nat), off ≤ firstIdx p cnt off := by
  intro cnt
  induction cnt with
  | zero => intro off; simp [firstIdx]
  | succ n ih =>
    intro off
    simp only [firstIdx]
    split
    · exact le_refl _
    · exact le_trans (Nat.le_succ off) (ih (off + 1))

theorem firstIdx_le (p : Nat → Bool) : ∀ (cnt off : Nat), firstIdx p cnt off ≤ off + cnt := by
  intro cnt
  induction cnt with
  | zero => intro off; simp [firstIdx]
  | succ n ih =>
    intro off
    simp only [firstIdx]
    split
    · omega
    · have := ih (off + 1); omega

theorem firstIdx_spec (p : Nat → Bool) :
    ∀ (cnt off : Nat), firstIdx p cnt off < off + cnt → p (firstIdx p cnt off) = true := by
  intro cnt
  induction cnt with
  | zero => intro off h; simp [firstIdx] at h
  | succ n ih =>
    intro off h
    simp only [firstIdx] at h ⊢
    split
    · assumption
    · rename_i hp
      rw [if_neg hp] at h
      exact ih (off + 1) (by omega)

theorem firstIdx_before (p : Nat → Bool) :
    ∀ (cnt off i : Nat), off ≤ i → i < firstIdx p cnt off → p i = false := by
  intro cnt
  induction cnt with
  | zero => intro off i h1 h2; simp [firstIdx] at h2; omega
  | succ n ih =>
    intro off i h1 h2
    simp only [firstIdx] at h2
    split at h2
    · omega
    · rename_i hp
      by_cases e : i = off
      · rw [e]; simpa using hp
      · exact ih (off + 1) i (by omega) h2

theorem firstIdx_unique (p : Nat → Bool) (cnt off j : Nat) (h1 : off ≤ j) (h2 : j ≤ off + cnt)
    (hb : ∀ i, off ≤ i → i < j → p i = false) (hj : j < off + cnt → p j = true) :
    firstIdx p cnt off = j := by
  have a := firstIdx_ge p cnt off
  have b := firstIdx_le p cnt off
  rcases Nat.lt_trichotomy (firstIdx p cnt off) j with h | h | h
  · have := firstIdx_spec p cnt off (by omega)
    rw [hb _ a h] at this; simp at this
  · exact h
  · have := firstIdx_before p cnt off j h1 h
    rw [hj (by omega)] at this; simp at this

theorem isInterior_getKey (b : BTreeNode) (hb : b.isInterior = true) (o : Nat) (x : Nat)
    (ho : o < b.info.numkeys) : b.GetKey o x = (ERROR_NOERROR, b.keys o) := by
  simp [BTreeNode.GetKey, hb, ho]

theorem isLeaf_getKey (b : BTreeNode) (hb : b.isLeaf = true) (o : Nat) (x : Nat)
    (ho : o < b.info.numkeys) : b.GetKey o x = (ERROR_NOERROR, b.keys o) := by
  simp [BTreeNode.GetKey, hb, ho]

theorem isInterior_getPtr (b : BTreeNode) (hb : b.isInterior = true) (o : Nat) (x : Nat)
    (ho : o ≤ b.info.numkeys) : b.GetPtr o x = (ERROR_NOERROR, b.ptrs o) := by
  simp [BTreeNode.GetPtr, hb, ho]

theorem isLeaf_getVal (b : BTreeNode) (hb : b.isLeaf = true) (o : Nat) (x : Nat)
    (ho : o < b.info.numkeys) : b.GetVal o x = (ERROR_NOERROR, b.vals o) := by
  simp [BTreeNode.GetVal, hb, ho]

/-- On a ROOT/INTERIOR node the scan of `LookupOrUpdateInternal` stops at the first key
that is not below the search key. -/
theorem lookupScan_eq (b : BTreeNode) (hb : b.isInterior = true) (key : Nat) :
    ∀ (cnt off : Nat), off + cnt ≤ b.info.numkeys →
      lookupScan b key cnt off =
        if firstIdx (fun i => decide (key ≤ b.keys i)) cnt off < off + cnt then
          Scan.descend (b.ptrs (firstIdx (fun i => decide (key ≤ b.keys i)) cnt off))
        else Scan.fallthrough := by
  intro cnt
  induction cnt with
  | zero => intro off _; simp [lookupScan, firstIdx]
  | succ n ih =>
    intro off h
    have ho : off < b.info.numkeys := by omega
    simp only [lookupScan, isInterior_getKey b hb off 0 ho, firstIdx]
    by_cases hk : key ≤ b.keys off
    · have hk' : key < b.keys off ∨ key = b.keys off := by omega
      simp [hk, hk', isInterior_getPtr b hb off 0 (le_of_lt ho)]
    · have hk' : ¬ (key < b.keys off ∨ key = b.keys off) := by omega
      simp only [hk, hk', ne_eq, not_true_eq_false, if_false, decide_False,
        Bool.false_eq_true]
      rw [ih (off + 1) (by omega)]
      have e : off + 1 + n = off + (n + 1) := by omega
      rw [e]

/-- The child that `LookupOrUpdateInternal` descends into from a ROOT/INTERIOR node with
at least one key. -/
theorem nextChild_eq (b : BTreeNode) (hb : b.isInterior = true) (key : Nat)
    (hn : 0 < b.info.numkeys) :
    nextChild b key =
      Except.ok (b.ptrs (firstIdx (fun i => decide (key ≤ b.keys i)) b.info.numkeys 0)) := by
  unfold nextChild
  rw [lookupScan_eq b hb key b.info.numkeys 0 (by omega)]
  by_cases h : firstIdx (fun i => decide (key ≤ b.keys i)) b.info.numkeys 0 < 0 + b.info.numkeys
  · have h' : firstIdx (fun i => decide (key ≤ b.keys i)) b.info.numkeys 0 < b.info.numkeys := by
      omega
    simp [h']
  · have h1 := firstIdx_le (fun i => decide (key ≤ b.keys i)) b.info.numkeys 0
    have e : firstIdx (fun i => decide (key ≤ b.keys i)) b.info.numkeys 0 = b.info.numkeys := by
      omega
    simp [h, hn, isInterior_getPtr b hb b.info.numkeys 0 (le_refl _), e]

/-- On a leaf the scan stops at the first slot that holds the key. -/
theorem leafScan_eq (b : BTreeNode) (hb : b.isLeaf = true) (key : Nat) :
    ∀ (cnt off : Nat), off + cnt ≤ b.info.numkeys →
      leafScan b key cnt off =
        if firstIdx (fun i => decide (b.keys i = key)) cnt off < off + cnt then
          LeafScan.found (firstIdx (fun i => decide (b.keys i = key)) cnt off)
        else LeafScan.missing := by
  intro cnt
  induction cnt with
  | zero => intro off _; simp [leafScan, firstIdx]
  | succ n ih =>
    intro off h
    have ho : off < b.info.numkeys := by omega
    simp only [leafScan, isLeaf_getKey b hb off 0 ho, firstIdx]
    by_cases hk : b.keys off = key
    · simp [hk]
    · simp only [hk, ne_eq, not_true_eq_false, if_false, decide_False, Bool.false_eq_true]
      rw [ih (off + 1) (by omega)]
      have e : off + 1 + n = off + (n + 1) := by omega
      rw [e]

/-- The scan of `LookupLeaf` stops at the first key above the search key. -/
theorem leafPathScan_eq (b : BTreeNode) (hb : b.isInterior = true) (key : Nat) :
    ∀ (cnt off : Nat), off + cnt ≤ b.info.numkeys →
      leafPathScan b key cnt off =
        if firstIdx (fun i => decide (key < b.keys i)) cnt off < off + cnt then
          Scan.descend (b.ptrs (firstIdx (fun i => decide (key < b.keys i)) cnt off))
        else Scan.fallthrough := by
  intro cnt
  induction cnt with
  | zero => intro off _; simp [leafPathScan, firstIdx]
  | succ n ih =>
    intro off h
    have ho : off < b.info.numkeys := by omega
    simp only [leafPathScan, isInterior_getKey b hb off 0 ho, firstIdx]
    by_cases hk : key < b.keys off
    · simp [hk, isInterior_getPtr b hb off 0 (le_of_lt ho)]
    · simp only [hk, ne_eq, not_true_eq_false, if_false, decide_False, Bool.false_eq_true]
      rw [ih (off + 1) (by omega)]
      have e : off + 1 + n = off + (n + 1) := by omega
      rw [e]

theorem isLeaf_setKey (b : BTreeNode) (hb : b.isLeaf = true) (o : Nat) (x : Nat)
    (ho : o < b.info.numkeys) :
    b.SetKey o x = (ERROR_NOERROR, { b with keys := Function.update b.keys o x }) := by
  simp [BTreeNode.SetKey, hb, ho]

theorem isInterior_setKey (b : BTreeNode) (hb : b.isInterior = true) (o : Nat) (x : Nat)
    (ho : o < b.info.numkeys) :
    b.SetKey o x = (ERROR_NOERROR, { b with keys := Function.update b.keys o x }) := by
  simp [BTreeNode.SetKey, hb, ho]

theorem isInterior_setPtr (b : BTreeNode) (hb : b.isInterior = true) (o : Nat) (x : Nat)
    (ho : o ≤ b.info.numkeys) :
    b.SetPtr o x = (ERROR_NOERROR, { b with ptrs := Function.update b.ptrs o x }) := by
  simp [BTreeNode.SetPtr, hb, ho]

theorem leafShift_eq :
    ∀ (cnt o2 : Nat) (nd : BTreeNode), nd.isLeaf = true → cnt ≤ o2 + 1 →
      o2 + 1 < nd.info.numkeys →
      leafShift cnt o2 nd = (ERROR_NOERROR,
        { nd with
          keys := fun i => if o2 + 1 - cnt < i ∧ i ≤ o2 + 1 then nd.keys (i - 1) else nd.keys i,
          vals := fun i => if o2 + 1 - cnt < i ∧ i ≤ o2 + 1 then nd.vals (i - 1) else nd.vals i }) := by
  intro cnt
  induction cnt with
  | zero =>
    intro o2 nd _ _ _
    simp only [leafShift, Prod.mk.injEq, true_and]
    have e : ∀ i : Nat, ¬ (o2 + 1 < i ∧ i ≤ o2 + 1) := by intro i; omega
    cases nd
    simp [e]
  | succ n ih =>
    intro o2 nd hl hc ho
    have hl1 : ({ nd with keys := Function.update nd.keys (o2 + 1) (nd.keys o2) } : BTreeNode).isLeaf
        = true := hl
    simp only [leafShift, isLeaf_getKey nd hl o2 0 (by omega), isLeaf_getVal nd hl o2 0 (by omega),
      isLeaf_setKey nd hl (o2 + 1) _ ho, setVal_ok _ (o2 + 1) _ hl1 ho, ne_eq, not_true_eq_false,
      if_false]
    have h := ih (o2 - 1) ⟨nd.info, Function.update nd.keys (o2 + 1) (nd.keys o2),
      Function.update nd.vals (o2 + 1) (nd.vals o2), nd.ptrs⟩ hl (by omega)
      (by simp only []; omega)
    rw [h]
    simp only [Prod.mk.injEq, true_and, BTreeNode.mk.injEq]
    refine ⟨?_, ?_, ?_⟩
    · funext i
      simp only [Function.update_apply]
      split_ifs <;> first | rfl | omega | (congr 1; omega)
    · funext i
      simp only [Function.update_apply]
      split_ifs <;> first | rfl | omega | (congr 1; omega)
    · trivial

theorem node_ext (a b : BTreeNode) (hi : a.info = b.info) (hk : ∀ i, a.keys i = b.keys i)
    (hv : ∀ i, a.vals i = b.vals i) (hp : ∀ i, a.ptrs i = b.ptrs i) : a = b := by
  cases a; cases b
  simp only [BTreeNode.mk.injEq]
  exact ⟨hi, funext hk, funext hv, funext hp⟩

theorem leafInsertLoop_eq (ln : BTreeNode) (hl : ln.isLeaf = true) (key value : Nat) :
    ∀ (cnt off : Nat), off + cnt + 1 = ln.info.numkeys →
      leafInsertLoop ln key value cnt off =
        if firstIdx (fun i => decide (key < ln.keys i)) cnt off < off + cnt then
          (ERROR_NOERROR,
            { ln with
              keys := insAt ln.keys (ln.info.numkeys - 1)
                (firstIdx (fun i => decide (key < ln.keys i)) cnt off) key,
              vals := insAt ln.vals (ln.info.numkeys - 1)
                (firstIdx (fun i => decide (key < ln.keys i)) cnt off) value }, true)
        else (ERROR_NOERROR, ln, false) := by
  intro cnt
  induction cnt with
  | zero => intro off _; simp [leafInsertLoop, firstIdx]
  | succ n ih =>
    intro off h
    have ho : off < ln.info.numkeys := by omega
    simp only [leafInsertLoop, isLeaf_getKey ln hl off 0 ho, firstIdx]
    by_cases hk : key < ln.keys off
    · have hs := leafShift_eq (ln.info.numkeys - 1 - off) (ln.info.numkeys - 2) ln hl
        (by omega) (by omega)
      have hl1 : ∀ (f g : Nat → Nat),
          (⟨ln.info, f, g, ln.ptrs⟩ : BTreeNode).isLeaf = true := fun _ _ => hl
      have hty : ln.info.nodetype = BTREE_LEAF_NODE := by
        simpa [BTreeNode.isLeaf] using hl
      simp only [hk, hs, ne_eq, not_true_eq_false, if_false, if_true, decide_True,
        BTreeNode.SetKey, BTreeNode.SetVal, BTreeNode.isLeaf, BTreeNode.isInterior, hty, ho,
        Bool.or_true]
      have hlt : off < off + (n + 1) := by omega
      simp only [hlt, if_true, Prod.mk.injEq, true_and, and_true]
      apply node_ext
      · rfl
      all_goals
        intro i
        first
          | rfl
          | (simp only [Function.update_apply, insAt]
             split_ifs <;> first | rfl | omega)
    · simp only [hk, ne_eq, not_true_eq_false, if_false, decide_False, Bool.false_eq_true]
      rw [ih (off + 1) (by omega)]
      have e : off + 1 + n = off + (n + 1) := by omega
      rw [e]

/-- The record `(key, value)` goes into the leaf at the first slot whose key is above
`key`, the records from there on move one slot up. -/
theorem leafFill_eq (ln : BTreeNode) (hl : ln.isLeaf = true) (key value : Nat)
    (hm : 0 < ln.info.numkeys) :
    leafFill ln key value = (ERROR_NOERROR,
      { ln with
        keys := insAt ln.keys (ln.info.numkeys - 1)
          (firstIdx (fun i => decide (key < ln.keys i)) (ln.info.numkeys - 1) 0) key,
        vals := insAt ln.vals (ln.info.numkeys - 1)
          (firstIdx (fun i => decide (key < ln.keys i)) (ln.info.numkeys - 1) 0) value }) := by
  have hty : ln.info.nodetype = BTREE_LEAF_NODE := by
    simpa [BTreeNode.isLeaf] using hl
  unfold leafFill
  by_cases h1 : ln.info.numkeys = 1
  · simp only [h1, if_true, ne_eq, not_true_eq_false, if_false, firstIdx, Nat.sub_self,
      BTreeNode.SetKey, BTreeNode.SetVal, BTreeNode.isLeaf, BTreeNode.isInterior, hty,
      Bool.or_true, decide_True, Nat.zero_lt_one, Prod.mk.injEq, true_and]
    apply node_ext
    · rfl
    all_goals
      intro i
      first
        | rfl
        | (simp only [Function.update_apply, insAt]
           split_ifs <;> first | rfl | omega)
  · simp only [h1, if_false]
    rw [leafInsertLoop_eq ln hl key value (ln.info.numkeys - 1) 0 (by omega)]
    have hle := firstIdx_le (fun i => decide (key < ln.keys i)) (ln.info.numkeys - 1) 0
    rw [Nat.zero_add] at hle ⊢
    by_cases hj : firstIdx (fun i => decide (key < ln.keys i)) (ln.info.numkeys - 1) 0
        < ln.info.numkeys - 1
    · simp [hj]
    · have e : firstIdx (fun i => decide (key < ln.keys i)) (ln.info.numkeys - 1) 0
          = ln.info.numkeys - 1 := by omega
      have hlt : ln.info.numkeys - 1 < ln.info.numkeys := by omega
      simp only [hj, if_false, ne_eq, not_true_eq_false, if_true, e, lt_self_iff_false,
        BTreeNode.SetKey, BTreeNode.SetVal, BTreeNode.isLeaf, BTreeNode.isInterior, hty,
        Bool.or_true, decide_True, hlt, Prod.mk.injEq, true_and]
      apply node_ext
      · rfl
      all_goals
        intro i
        first
          | rfl
          | (simp only [Function.update_apply, insAt]
             split_ifs <;> first | rfl | omega)

theorem copyLoop_leaf (b : BTreeNode) (hb : b.info.nodetype = BTREE_LEAF_NODE) :
    ∀ (cnt off pos : Nat) (dst : BTreeNode), dst.info.nodetype = BTREE_LEAF_NODE →
      off + cnt ≤ b.info.numkeys → dst.info.numkeys = pos →
      copyLoop true b cnt off pos dst = (ERROR_NOERROR,
        { info := { dst.info with numkeys := pos + cnt },
          keys := fun i => if pos ≤ i ∧ i < pos + cnt then b.keys (off + (i - pos)) else dst.keys i,
          vals := fun i => if pos ≤ i ∧ i < pos + cnt then b.vals (off + (i - pos)) else dst.vals i,
          ptrs := dst.ptrs }) := by
  intro cnt
  induction cnt with
  | zero =>
    intro off pos dst _ _ hp
    have e : ∀ i : Nat, ¬ (pos ≤ i ∧ i < pos) := by intro i; omega
    simp only [copyLoop, Prod.mk.injEq, true_and, Nat.add_zero]
    apply node_ext
    · obtain ⟨⟨ty, rn, fl, nk⟩, k, v, p⟩ := dst
      simp only [NodeMetadata.mk.injEq, true_and] at hp ⊢
      omega
    all_goals
      intro i
      simp [e]
  | succ n ih =>
    intro off pos dst hd hc hp
    have ho : off < b.info.numkeys := by omega
    have hq : pos < dst.info.numkeys + 1 := by omega
    simp only [copyLoop, BTreeNode.GetKey, BTreeNode.GetVal, BTreeNode.SetKey, BTreeNode.SetVal,
      BTreeNode.isLeaf, BTreeNode.isInterior, hb, hd, ho, hq, decide_True, Bool.or_true, if_true,
      ne_eq, not_true_eq_false, if_false]
    have h := ih (off + 1) (pos + 1)
      ⟨⟨BTREE_LEAF_NODE, dst.info.rootnode, dst.info.freelist, dst.info.numkeys + 1⟩,
        Function.update dst.keys pos (b.keys off), Function.update dst.vals pos (b.vals off),
        dst.ptrs⟩ rfl (by omega) (by simp only []; omega)
    rw [h]
    simp only [Prod.mk.injEq, true_and]
    apply node_ext
    · simp only [NodeMetadata.mk.injEq, true_and]; omega
    all_goals
      intro i
      first
        | rfl
        | (simp only [Function.update_apply]
           split_ifs <;> first | rfl | omega | (congr 1; omega))

theorem copyLoop_interior (b : BTreeNode) (hb : b.isInterior = true) :
    ∀ (cnt off pos : Nat) (dst : BTreeNode), dst.info.nodetype = BTREE_INTERIOR_NODE →
      off + cnt ≤ b.info.numkeys → dst.info.numkeys = pos →
      copyLoop false b cnt off pos dst = (ERROR_NOERROR,
        { info := { dst.info with numkeys := pos + cnt },
          keys := fun i => if pos ≤ i ∧ i < pos + cnt then b.keys (off + (i - pos)) else dst.keys i,
          vals := dst.vals,
          ptrs := fun i => if pos ≤ i ∧ i < pos + cnt then b.ptrs (off + (i - pos)) else dst.ptrs i }) := by
  intro cnt
  induction cnt with
  | zero =>
    intro off pos dst _ _ hp
    have e : ∀ i : Nat, ¬ (pos ≤ i ∧ i < pos) := by intro i; omega
    simp only [copyLoop, Prod.mk.injEq, true_and, Nat.add_zero]
    apply node_ext
    · obtain ⟨⟨ty, rn, fl, nk⟩, k, v, p⟩ := dst
      simp only [NodeMetadata.mk.injEq, true_and] at hp ⊢
      omega
    all_goals
      intro i
      simp [e]
  | succ n ih =>
    intro off pos dst hd hc hp
    have ho : off < b.info.numkeys := by omega
    have ho' : off ≤ b.info.numkeys := by omega
    have hq : pos < dst.info.numkeys + 1 := by omega
    have hq' : pos ≤ dst.info.numkeys + 1 := by omega
    simp only [copyLoop, isInterior_getKey b hb off 0 ho, isInterior_getPtr b hb off 0 ho',
      ne_eq, not_true_eq_false, if_false, Bool.false_eq_true]
    simp only [BTreeNode.SetKey, BTreeNode.SetPtr,
      BTreeNode.isLeaf, BTreeNode.isInterior, hd, hq, hq', decide_True, Bool.or_true,
      Bool.true_or, if_true, ne_eq, not_true_eq_false, if_false, Bool.false_eq_true]
    have h := ih (off + 1) (pos + 1)
      ⟨⟨BTREE_INTERIOR_NODE, dst.info.rootnode, dst.info.freelist, dst.info.numkeys + 1⟩,
        Function.update dst.keys pos (b.keys off), dst.vals,
        Function.update dst.ptrs pos (b.ptrs off)⟩ rfl (by omega) (by simp only []; omega)
    rw [h]
    simp only [Prod.mk.injEq, true_and]
    apply node_ext
    · simp only [NodeMetadata.mk.injEq, true_and]; omega
    all_goals
      intro i
      first
        | rfl
        | (simp only [Function.update_apply]
           split_ifs <;> first | rfl | omega | (congr 1; omega))

theorem isInterior_iff (b : BTreeNode) :
    b.isInterior = true ↔
      b.info.nodetype = BTREE_ROOT_NODE ∨ b.info.nodetype = BTREE_INTERIOR_NODE := by
  simp [BTreeNode.isInterior]

theorem isLeaf_iff (b : BTreeNode) : b.isLeaf = true ↔ b.info.nodetype = BTREE_LEAF_NODE := by
  simp [BTreeNode.isLeaf]

theorem mk_setKey (info : NodeMetadata) (k v p : Nat → Nat) (o x : Nat)
    (h : info.nodetype = BTREE_ROOT_NODE ∨ info.nodetype = BTREE_INTERIOR_NODE ∨
      info.nodetype = BTREE_LEAF_NODE)
    (ho : o < info.numkeys) :
    (⟨info, k, v, p⟩ : BTreeNode).SetKey o x = (ERROR_NOERROR, ⟨info, Function.update k o x, v, p⟩) := by
  rcases h with h | h | h <;> simp [BTreeNode.SetKey, BTreeNode.isInterior, BTreeNode.isLeaf, h, ho]

theorem mk_setPtr (info : NodeMetadata) (k v p : Nat → Nat) (o x : Nat)
    (h : info.nodetype = BTREE_ROOT_NODE ∨ info.nodetype = BTREE_INTERIOR_NODE)
    (ho : o ≤ info.numkeys) :
    (⟨info, k, v, p⟩ : BTreeNode).SetPtr o x = (ERROR_NOERROR, ⟨info, k, v, Function.update p o x⟩) := by
  rcases h with h | h <;> simp [BTreeNode.SetPtr, BTreeNode.isInterior, h, ho]

theorem interior_any {info : NodeMetadata}
    (h : info.nodetype = BTREE_ROOT_NODE ∨ info.nodetype = BTREE_INTERIOR_NODE) :
    info.nodetype = BTREE_ROOT_NODE ∨ info.nodetype = BTREE_INTERIOR_NODE ∨
      info.nodetype = BTREE_LEAF_NODE := by
  rcases h with h | h
  · exact Or.inl h
  · exact Or.inr (Or.inl h)

theorem parentShift_eq (p : BTreeNode) (hp : p.isInterior = true) (off : Nat)
    (info : NodeMetadata) (k v q : Nat → Nat)
    (hn : info.nodetype = BTREE_ROOT_NODE ∨ info.nodetype = BTREE_INTERIOR_NODE)
    (ho : off < p.info.numkeys) (hm : info.numkeys = p.info.numkeys + 1) :
    parentShift p off ⟨info, k, v, q⟩ = (ERROR_NOERROR,
      ⟨info, Function.update k (off + 1) (p.keys off), v,
        Function.update q (off + 2) (p.ptrs (off + 1))⟩) := by
  unfold parentShift
  rw [isInterior_getKey p hp off 0 ho, isInterior_getPtr p hp (off + 1) 0 (by omega)]
  simp only [ne_eq, not_true_eq_false, if_false]
  rw [mk_setKey info k v q (off + 1) _ (interior_any hn) (by omega)]
  simp only [ne_eq, not_true_eq_false, if_false]
  rw [mk_setPtr info _ v q (off + 2) _ hn (by omega)]

theorem parentCopy_eq (p : BTreeNode) (hp : p.isInterior = true) (off : Nat)
    (info : NodeMetadata) (k v q : Nat → Nat)
    (hn : info.nodetype = BTREE_ROOT_NODE ∨ info.nodetype = BTREE_INTERIOR_NODE)
    (ho : off < p.info.numkeys) (hm : info.numkeys = p.info.numkeys + 1) :
    parentCopy p off ⟨info, k, v, q⟩ = (ERROR_NOERROR,
      ⟨info, Function.update k off (p.keys off), v, Function.update q off (p.ptrs off)⟩) := by
  unfold parentCopy
  rw [isInterior_getKey p hp off 0 ho, isInterior_getPtr p hp off 0 (by omega)]
  simp only [ne_eq, not_true_eq_false, if_false]
  rw [mk_setKey info k v q off _ (interior_any hn) (by omega)]
  simp only [ne_eq, not_true_eq_false, if_false]
  rw [mk_setPtr info _ v q off _ hn (by omega)]

theorem parentPut_eq (sk L R off : Nat) (info : NodeMetadata) (k v q : Nat → Nat)
    (hn : info.nodetype = BTREE_ROOT_NODE ∨ info.nodetype = BTREE_INTERIOR_NODE)
    (ho : off < info.numkeys) :
    parentPut ⟨info, k, v, q⟩ off sk L R =
      ⟨info, Function.update k off sk, v,
        Function.update (Function.update q off L) (off + 1) R⟩ := by
  unfold parentPut
  simp only []
  rw [mk_setPtr info k v q off _ hn (by omega)]
  simp only []
  rw [mk_setKey info k v _ off _ (interior_any hn) ho]
  simp only []
  rw [mk_setPtr info _ v _ (off + 1) _ hn (by omega)]

theorem parentLoop_ins (p : BTreeNode) (hp : p.isInterior = true) (sk L R : Nat)
    (info : NodeMetadata) (v : Nat → Nat) (hm : info.numkeys = p.info.numkeys + 1)
    (hn : info.nodetype = BTREE_ROOT_NODE ∨ info.nodetype = BTREE_INTERIOR_NODE) :
    ∀ (cnt off tk : Nat) (k q : Nat → Nat), off + cnt = p.info.numkeys →
      parentLoop p sk L R cnt off true tk ⟨info, k, v, q⟩ = (ERROR_NOERROR,
        ⟨info, fun i => if off < i ∧ i ≤ off + cnt then p.keys (i - 1) else k i, v,
          fun i => if off + 1 < i ∧ i ≤ off + cnt + 1 then p.ptrs (i - 1) else q i⟩,
        true, off + cnt) := by
  intro cnt
  induction cnt with
  | zero =>
    intro off tk k q _
    have e1 : ∀ i : Nat, ¬ (off < i ∧ i ≤ off) := by intro i; omega
    have e2 : ∀ i : Nat, ¬ (off + 1 < i ∧ i ≤ off + 1) := by intro i; omega
    simp [parentLoop, e1, e2]
  | succ n ih =>
    intro off tk k q hc
    simp only [parentLoop, if_true]
    rw [parentShift_eq p hp off info k v q hn (by omega) hm]
    simp only [ne_eq, not_true_eq_false, if_false]
    rw [ih (off + 1) _ _ _ (by omega)]
    simp only [Prod.mk.injEq, true_and]
    refine ⟨?_, by omega⟩
    apply node_ext
    · rfl
    all_goals
      intro i
      first
        | rfl
        | (simp only [Function.update_apply]
           split_ifs <;> first | rfl | omega | (congr 1; omega))

theorem parentLoop_scan (p : BTreeNode) (hp : p.isInterior = true) (sk L R : Nat)
    (info : NodeMetadata) (v : Nat → Nat) (hm : info.numkeys = p.info.numkeys + 1)
    (hn : info.nodetype = BTREE_ROOT_NODE ∨ info.nodetype = BTREE_INTERIOR_NODE) :
    ∀ (cnt off tk : Nat) (k q : Nat → Nat), off + cnt = p.info.numkeys →
      parentLoop p sk L R cnt off false tk ⟨info, k, v, q⟩ =
        if firstIdx (fun i => decide (sk < p.keys i)) cnt off < off + cnt then
          (ERROR_NOERROR,
            ⟨info,
              fun i =>
                if off ≤ i ∧ i < firstIdx (fun i => decide (sk < p.keys i)) cnt off then p.keys i
                else if i = firstIdx (fun i => decide (sk < p.keys i)) cnt off then sk
                else if firstIdx (fun i => decide (sk < p.keys i)) cnt off < i ∧ i ≤ off + cnt then
                  p.keys (i - 1)
                else k i,
              v,
              fun i =>
                if off ≤ i ∧ i < firstIdx (fun i => decide (sk < p.keys i)) cnt off then p.ptrs i
                else if i = firstIdx (fun i => decide (sk < p.keys i)) cnt off then L
                else if i = firstIdx (fun i => decide (sk < p.keys i)) cnt off + 1 then R
                else if firstIdx (fun i => decide (sk < p.keys i)) cnt off + 1 < i
                    ∧ i ≤ off + cnt + 1 then p.ptrs (i - 1)
                else q i⟩,
            true, off + cnt)
        else
          (ERROR_NOERROR,
            ⟨info, fun i => if off ≤ i ∧ i < off + cnt then p.keys i else k i, v,
              fun i => if off ≤ i ∧ i < off + cnt then p.ptrs i else q i⟩,
            false, off + cnt) := by
  intro cnt
  induction cnt with
  | zero =>
    intro off tk k q _
    have e1 : ∀ i : Nat, ¬ (off ≤ i ∧ i < off) := by intro i; omega
    simp [parentLoop, firstIdx, e1]
  | succ n ih =>
    intro off tk k q hc
    have ho : off < p.info.numkeys := by omega
    simp only [parentLoop, isInterior_getKey p hp off _ ho, Bool.false_eq_true, if_false, firstIdx]
    by_cases hk : sk < p.keys off
    · have hlt : off < off + (n + 1) := by omega
      simp only [hk, if_true, decide_True, hlt]
      rw [parentPut_eq sk L R off info k v q hn (by omega),
        parentShift_eq p hp off info _ v _ hn ho hm]
      simp only [ne_eq, not_true_eq_false, if_false]
      rw [parentLoop_ins p hp sk L R info v hm hn n (off + 1) _ _ _ (by omega)]
      simp only [Prod.mk.injEq, true_and]
      refine ⟨?_, by omega⟩
      apply node_ext
      · rfl
      all_goals
        intro i
        first
          | rfl
          | (simp only [Function.update_apply]
             split_ifs <;> first | rfl | omega | (congr 1; omega))
    · simp only [hk, if_false, decide_False, Bool.false_eq_true]
      rw [parentCopy_eq p hp off info k v q hn ho hm]
      simp only [ne_eq, not_true_eq_false, if_false]
      rw [ih (off + 1) _ _ _ (by omega)]
      have e : off + 1 + n = off + (n + 1) := by omega
      rw [e]
      have hge := firstIdx_ge (fun i => decide (sk < p.keys i)) n (off + 1)
      split
      · simp only [Prod.mk.injEq, true_and, and_true]
        apply node_ext
        · rfl
        all_goals
          intro i
          first
            | rfl
            | (simp only [Function.update_apply]
               split_ifs <;> first | rfl | omega | (congr 1; omega))
      · simp only [Prod.mk.injEq, true_and, and_true]
        apply node_ext
        · rfl
        all_goals
          intro i
          first
            | rfl
            | (simp only [Function.update_apply]
               split_ifs <;> first | rfl | omega | (congr 1; omega))

/-- The new parent that `Rebalance` builds from the parent `p`: the split key goes to the
first slot `j` whose key is above it, the pointers to the two halves to the slots `j` and
`j + 1`; the keys from `j` on and the pointers from `j + 1` on move one slot up. -/
theorem parentInsert_eq (p : BTreeNode) (hp : p.isInterior = true) (sk L R : Nat) :
    parentInsert p sk L R = (ERROR_NOERROR,
      ⟨⟨p.info.nodetype, 0, p.info.freelist, p.info.numkeys + 1⟩,
        fun i =>
          if i < firstIdx (fun i => decide (sk < p.keys i)) p.info.numkeys 0 then p.keys i
          else if i = firstIdx (fun i => decide (sk < p.keys i)) p.info.numkeys 0 then sk
          else if i ≤ p.info.numkeys then p.keys (i - 1) else 0,
        fun _ => 0,
        fun i =>
          if i < firstIdx (fun i => decide (sk < p.keys i)) p.info.numkeys 0 then p.ptrs i
          else if i = firstIdx (fun i => decide (sk < p.keys i)) p.info.numkeys 0 then L
          else if i = firstIdx (fun i => decide (sk < p.keys i)) p.info.numkeys 0 + 1 then R
          else if i ≤ p.info.numkeys + 1 then p.ptrs (i - 1) else 0⟩) := by
  have hn := (isInterior_iff p).1 hp
  unfold parentInsert
  simp only [BTreeNode.new, Nat.add_sub_cancel]
  rw [parentLoop_scan p hp sk L R ⟨p.info.nodetype, 0, p.info.freelist, p.info.numkeys + 1⟩
    (fun _ => 0) rfl hn p.info.numkeys 0 0 _ _ (by omega)]
  have hle := firstIdx_le (fun i => decide (sk < p.keys i)) p.info.numkeys 0
  rw [Nat.zero_add] at hle ⊢
  by_cases hj : firstIdx (fun i => decide (sk < p.keys i)) p.info.numkeys 0 < p.info.numkeys
  · simp only [hj, if_true, ne_eq, not_true_eq_false, if_false, Bool.true_eq_false,
      Prod.mk.injEq, true_and]
    apply node_ext
    · rfl
    all_goals
      intro i
      first
        | rfl
        | (simp only [Function.update_apply]
           split_ifs <;> first | rfl | omega)
  · have e : firstIdx (fun i => decide (sk < p.keys i)) p.info.numkeys 0 = p.info.numkeys := by
      omega
    simp only [hj, if_false, ne_eq, not_true_eq_false, if_true, Prod.mk.injEq, true_and]
    rw [parentPut_eq sk L R p.info.numkeys
      ⟨p.info.nodetype, 0, p.info.freelist, p.info.numkeys + 1⟩ _ _ _ hn
      (by simp only []; omega), e]
    apply node_ext
    · rfl
    all_goals
      intro i
      first
        | rfl
        | (simp only [Function.update_apply]
           split_ifs <;> first | rfl | omega)

/-! ## Searching a store that satisfies the invariant -/

theorem validIdx_firstIdx {t : BTreeIndex} {g : Ghost} {a : Nat} (h : InteriorOk t g a)
    (k : Nat) (hk : g.rng a k) :
    ValidIdx (t.buffercache.blocks a) (g.dead a)
      (firstIdx (fun i => decide (k ≤ (t.buffercache.blocks a).keys i))
        (t.buffercache.blocks a).info.numkeys 0) := by
  have hle := firstIdx_le (fun i => decide (k ≤ (t.buffercache.blocks a).keys i))
    (t.buffercache.blocks a).info.numkeys 0
  have hpos := h.pos
  by_cases hj : firstIdx (fun i => decide (k ≤ (t.buffercache.blocks a).keys i))
      (t.buffercache.blocks a).info.numkeys 0 < (t.buffercache.blocks a).info.numkeys
  · exact Or.inl hj
  · refine Or.inr ⟨by omega, ?_⟩
    by_contra hd
    have hd' : g.dead a = true := by simpa using hd
    have h1 := h.dead hd' k hk
    have h2 := firstIdx_before (fun i => decide (k ≤ (t.buffercache.blocks a).keys i))
      (t.buffercache.blocks a).info.numkeys 0 ((t.buffercache.blocks a).info.numkeys - 1)
      (by omega) (by omega)
    simp only [decide_eq_false_iff_not] at h2
    omega

theorem inSlice_firstIdx (b : BTreeNode) (R : Nat → Prop) (k : Nat) (hk : R k) :
    InSlice b R (firstIdx (fun i => decide (k ≤ b.keys i)) b.info.numkeys 0) k := by
  refine ⟨hk, ?_, ?_⟩
  · intro h0
    have h2 := firstIdx_before (fun i => decide (k ≤ b.keys i)) b.info.numkeys 0
      (firstIdx (fun i => decide (k ≤ b.keys i)) b.info.numkeys 0 - 1) (by omega) (by omega)
    simp only [decide_eq_false_iff_not] at h2
    omega
  · intro h0
    have h2 := firstIdx_spec (fun i => decide (k ≤ b.keys i)) b.info.numkeys 0 (by omega)
    simpa using h2

/-- In a store that satisfies the invariant, the descend-only traversal from a node of the
tree that the key may reach returns the record of the key, or `ERROR_NONEXISTENT` when
the index holds no such record. -/
theorem lui_of_inv {t : BTreeIndex} {g : Ghost} {over : Option Nat} (hI : Inv t g over)
    (k : Nat) :
    ∀ (fuel a v0 : Nat), IsTree t g a → g.rng a k → g.lvl a < fuel →
      LookupOrUpdateInternal t fuel a BTREE_OP_LOOKUP k v0 =
        some (match g.kv k with
          | some v => (ERROR_NOERROR, v, t)
          | none => (ERROR_NONEXISTENT, v0, t)) := by
  intro fuel
  induction fuel with
  | zero => intro a v0 _ _ h; omega
  | succ n ih =>
    intro a v0 ha hk hl
    rcases ha.2.2 with hi | hf
    · have hio := hI.interior a ha hi
      rw [lui_interior t n a _ k _ ha.1 hi, nextChild_eq _ hi k hio.pos]
      have hv := validIdx_firstIdx hio k hk
      obtain ⟨hc1, _, hc3, hc4⟩ := hio.child _ hv
      exact ih _ v0 hc1 ((hc4 k).2 (inSlice_firstIdx _ _ k hk)) (by omega)
    · have hlo := hI.leaf a ha hf
      rw [lui_leaf t n a _ k _ ha.1 hf, leafScan_eq _ hf k _ 0 (by omega)]
      have hle := firstIdx_le (fun i => decide ((t.buffercache.blocks a).keys i = k))
        (t.buffercache.blocks a).info.numkeys 0
      rw [Nat.zero_add] at hle ⊢
      by_cases hj : firstIdx (fun i => decide ((t.buffercache.blocks a).keys i = k))
          (t.buffercache.blocks a).info.numkeys 0 < (t.buffercache.blocks a).info.numkeys
      · have h2 := firstIdx_spec (fun i => decide ((t.buffercache.blocks a).keys i = k))
          (t.buffercache.blocks a).info.numkeys 0 (by omega)
        simp only [decide_eq_true_eq] at h2
        have h3 := (hlo.recs _ hj).2
        rw [h2] at h3
        simp only [hj, if_true, isLeaf_getVal _ hf _ v0 hj, h3]
      · simp only [hj, if_false]
        cases hkv : g.kv k with
        | none => rfl
        | some v =>
          exfalso
          obtain ⟨a', ha', hf', i, hi, hki, _⟩ := hI.stored k v hkv
          have hr := (hI.leaf a' ha' hf').recs i hi
          rw [hki] at hr
          have hl0 := (hI.leaf_lvl a ha).1 hf
          have hl0' := (hI.leaf_lvl a' ha').1 hf'
          have e := hI.disj a a' ha ha' (by omega) k hk hr.1
          subst e
          have h2 := firstIdx_before (fun i => decide ((t.buffercache.blocks a).keys i = k))
            (t.buffercache.blocks a).info.numkeys 0 i (by omega) (by omega)
          simp only [decide_eq_false_iff_not] at h2
          exact h2 hki

/-- `Lookup` in a store that satisfies the invariant. -/
theorem lookup_of_inv {t : BTreeIndex} {g : Ghost} {over : Option Nat} (hI : Inv t g over)
    (k v0 fuel : Nat) (hf : g.lvl t.superblock.info.rootnode < fuel) :
    Lookup t fuel k v0 =
      some (match g.kv k with
        | some v => (ERROR_NOERROR, v, t)
        | none => (ERROR_NONEXISTENT, v0, t)) :=
  lui_of_inv hI k fuel _ v0 hI.root_tree (hI.root_rng k) hf

theorem lookupLeaf_interior (t : BTreeIndex) (fuel node key : Nat) (path : List Nat)
    (h : node < t.buffercache.numBlocks) (hb : (t.buffercache.blocks node).isInterior = true)
    (hn : 0 < (t.buffercache.blocks node).info.numkeys) :
    LookupLeaf t (fuel + 1) node key path =
      LookupLeaf t fuel
        ((t.buffercache.blocks node).ptrs
          (firstIdx (fun i => decide (key < (t.buffercache.blocks node).keys i))
            (t.buffercache.blocks node).info.numkeys 0)) key
        ((t.buffercache.blocks node).ptrs
          (firstIdx (fun i => decide (key < (t.buffercache.blocks node).keys i))
            (t.buffercache.blocks node).info.numkeys 0) :: path) := by
  simp only [LookupLeaf, BTreeNode.Unserialize, h, if_true, hb, ne_eq, not_true_eq_false,
    if_false]
  rw [leafPathScan_eq _ hb key _ 0 (by omega)]
  have hle := firstIdx_le (fun i => decide (key < (t.buffercache.blocks node).keys i))
    (t.buffercache.blocks node).info.numkeys 0
  rw [Nat.zero_add] at hle ⊢
  by_cases hj : firstIdx (fun i => decide (key < (t.buffercache.blocks node).keys i))
      (t.buffercache.blocks node).info.numkeys 0 < (t.buffercache.blocks node).info.numkeys
  · simp only [hj, if_true]
  · have e : firstIdx (fun i => decide (key < (t.buffercache.blocks node).keys i))
        (t.buffercache.blocks node).info.numkeys 0 = (t.buffercache.blocks node).info.numkeys := by
      omega
    simp only [hj, if_false, gt_iff_lt, hn, if_true,
      isInterior_getPtr _ hb _ 0 (le_refl _), ne_eq, not_true_eq_false, e,
      lt_self_iff_false]

theorem lookupLeaf_leaf (t : BTreeIndex) (fuel node key : Nat) (path : List Nat)
    (h : node < t.buffercache.numBlocks) (hb : (t.buffercache.blocks node).isLeaf = true) :
    LookupLeaf t (fuel + 1) node key path = some (ERROR_NOERROR, node :: path) := by
  simp [LookupLeaf, BTreeNode.Unserialize, h, hb, isLeaf_not_isInterior _ hb]

theorem validIdx_firstIdx_lt {t : BTreeIndex} {g : Ghost} {a : Nat} (h : InteriorOk t g a)
    (k : Nat) (hk : g.rng a k) (hkv : g.kv k = none) :
    ValidIdx (t.buffercache.blocks a) (g.dead a)
      (firstIdx (fun i => decide (k < (t.buffercache.blocks a).keys i))
        (t.buffercache.blocks a).info.numkeys 0) := by
  have hle := firstIdx_le (fun i => decide (k < (t.buffercache.blocks a).keys i))
    (t.buffercache.blocks a).info.numkeys 0
  have hpos := h.pos
  by_cases hj : firstIdx (fun i => decide (k < (t.buffercache.blocks a).keys i))
      (t.buffercache.blocks a).info.numkeys 0 < (t.buffercache.blocks a).info.numkeys
  · exact Or.inl hj
  · refine Or.inr ⟨by omega, ?_⟩
    by_contra hd
    have hd' : g.dead a = true := by simpa using hd
    have h1 := h.dead hd' k hk
    have h2 := firstIdx_before (fun i => decide (k < (t.buffercache.blocks a).keys i))
      (t.buffercache.blocks a).info.numkeys 0 ((t.buffercache.blocks a).info.numkeys - 1)
      (by omega) (by omega)
    simp only [decide_eq_false_iff_not] at h2
    have h3 := (h.keys ((t.buffercache.blocks a).info.numkeys - 1) (by omega)).2
    have e : k = (t.buffercache.blocks a).keys ((t.buffercache.blocks a).info.numkeys - 1) := by
      omega
    rw [← e] at h3
    exact h3 hkv

theorem inSlice_firstIdx_lt {t : BTreeIndex} {g : Ghost} {a : Nat} (h : InteriorOk t g a)
    (k : Nat) (hk : g.rng a k) (hkv : g.kv k = none) :
    InSlice (t.buffercache.blocks a) (g.rng a)
      (firstIdx (fun i => decide (k < (t.buffercache.blocks a).keys i))
        (t.buffercache.blocks a).info.numkeys 0) k := by
  have hle := firstIdx_le (fun i => decide (k < (t.buffercache.blocks a).keys i))
    (t.buffercache.blocks a).info.numkeys 0
  refine ⟨hk, ?_, ?_⟩
  · intro h0
    have h2 := firstIdx_before (fun i => decide (k < (t.buffercache.blocks a).keys i))
      (t.buffercache.blocks a).info.numkeys 0
      (firstIdx (fun i => decide (k < (t.buffercache.blocks a).keys i))
        (t.buffercache.blocks a).info.numkeys 0 - 1) (by omega) (by omega)
    simp only [decide_eq_false_iff_not] at h2
    have h3 := (h.keys (firstIdx (fun i => decide (k < (t.buffercache.blocks a).keys i))
        (t.buffercache.blocks a).info.numkeys 0 - 1) (by omega)).2
    have e : k ≠ (t.buffercache.blocks a).keys
        (firstIdx (fun i => decide (k < (t.buffercache.blocks a).keys i))
          (t.buffercache.blocks a).info.numkeys 0 - 1) := by
      intro e; rw [← e] at h3; exact h3 hkv
    omega
  · intro h0
    have h2 := firstIdx_spec (fun i => decide (k < (t.buffercache.blocks a).keys i))
      (t.buffercache.blocks a).info.numkeys 0 (by omega)
    simp only [decide_eq_true_eq] at h2
    omega

/-- In a store that satisfies the invariant, the path-recording traversal for a key that
the index does not hold ends at the leaf that the key may reach, and records that leaf
twice on top of its ancestors. -/
theorem lookupLeaf_of_inv {t : BTreeIndex} {g : Ghost} {over : Option Nat} (hI : Inv t g over)
    (k : Nat) (hkv : g.kv k = none) :
    ∀ (fuel a : Nat) (anc : List Nat), IsTree t g a → g.rng a k → g.lvl a < fuel →
      IsPath t g a anc →
      ∃ l anc', LookupLeaf t fuel a k (a :: anc) = some (ERROR_NOERROR, l :: l :: anc') ∧
        IsTree t g l ∧ (t.buffercache.blocks l).isLeaf = true ∧ g.rng l k ∧
        IsPath t g l anc' ∧ anc'.length = anc.length + g.lvl a := by
  intro fuel
  induction fuel with
  | zero => intro a anc _ _ h; omega
  | succ n ih =>
    intro a anc ha hk hl hp
    rcases ha.2.2 with hi | hf
    · have hio := hI.interior a ha hi
      rw [lookupLeaf_interior t n a k _ ha.1 hi hio.pos]
      have hv := validIdx_firstIdx_lt hio k hk hkv
      obtain ⟨hc1, hc2, hc3, hc4⟩ := hio.child _ hv
      obtain ⟨l, anc', h1, h2, h3, h4, h5, h6⟩ := ih _ (a :: anc) hc1
        ((hc4 k).2 (inSlice_firstIdx_lt hio k hk hkv)) (by omega)
        ⟨hc2, ha, hi, ⟨_, hv, rfl⟩, hp⟩
      refine ⟨l, anc', h1, h2, h3, h4, h5, ?_⟩
      simp only [List.length_cons] at h6
      omega
    · rw [lookupLeaf_leaf t n a k _ ha.1 hf]
      have hl0 := (hI.leaf_lvl a ha).1 hf
      exact ⟨a, anc, rfl, ha, hf, hk, hp, by omega⟩

/-! ## Steps that keep the invariant -/

theorem freeChain_frame {bc bc' : BufferCache} (hn : bc'.numBlocks = bc.numBlocks) :
    ∀ (l : List Nat) (h : Nat), FreeChain bc h l → (∀ a, a ∈ l → bc'.blocks a = bc.blocks a) →
      FreeChain bc' h l := by
  intro l
  induction l with
  | nil => intro h hc _; exact hc
  | cons a rest ih =>
    intro h hc hb
    obtain ⟨h1, h2, h3, h4, h5⟩ := hc
    have e := hb a (List.mem_cons_self _ _)
    refine ⟨h1, h2, by rw [hn]; exact h3, by rw [e]; exact h4, ?_⟩
    rw [e]
    exact ih _ h5 (fun x hx => hb x (List.mem_cons_of_mem _ hx))

theorem freeChain_mem {bc : BufferCache} :
    ∀ (l : List Nat) (h : Nat), FreeChain bc h l → ∀ a, a ∈ l →
      a ≠ 0 ∧ a < bc.numBlocks ∧ (bc.blocks a).info.nodetype = BTREE_UNALLOCATED_BLOCK := by
  intro l
  induction l with
  | nil => intro h _ a ha; simp at ha
  | cons x rest ih =>
    intro h hc a ha
    obtain ⟨_, h2, h3, h4, h5⟩ := hc
    rcases List.mem_cons.1 ha with e | e
    · subst e; exact ⟨h2, h3, h4⟩
    · exact ih _ h5 a e

theorem unalloc_not_node (b : BTreeNode) (h : b.info.nodetype = BTREE_UNALLOCATED_BLOCK) :
    ¬ (b.isInterior = true ∨ b.isLeaf = true) := by
  simp [BTreeNode.isInterior, BTreeNode.isLeaf, h]

theorem super_not_node (b : BTreeNode) (h : b.info.nodetype = BTREE_SUPERBLOCK) :
    ¬ (b.isInterior = true ∨ b.isLeaf = true) := by
  simp [BTreeNode.isInterior, BTreeNode.isLeaf, h]

/-- The invariant carries over to a state that has the same tree nodes in the same
blocks. -/
theorem inv_frame {t t' : BTreeIndex} {g g' : Ghost} {over : Option Nat} (hI : Inv t g over)
    (h_idx : t'.superblock_index = 0) (h_sb : t'.buffercache.blocks 0 = t'.superblock)
    (h_ty : t'.superblock.info.nodetype = BTREE_SUPERBLOCK)
    (h_max : t'.maxNumKeys = t.maxNumKeys)
    (h_root : t'.superblock.info.rootnode = t.superblock.info.rootnode)
    (h_blk : ∀ a, IsTree t g a → t'.buffercache.blocks a = t.buffercache.blocks a)
    (h_tree : ∀ a, IsTree t' g' a ↔ IsTree t g a)
    (h_kv : g'.kv = g.kv) (h_lvl : g'.lvl = g.lvl) (h_rng : g'.rng = g.rng)
    (h_dead : g'.dead = g.dead)
    (h_free : FreeChain t'.buffercache t'.superblock.info.freelist g'.free)
    (h_nodup : g'.free.Nodup)
    (h_junk : ∀ a, g'.junk a → a < t'.buffercache.numBlocks ∧
      ((t'.buffercache.blocks a).isInterior = true ∨ (t'.buffercache.blocks a).isLeaf = true)) :
    Inv t' g' over := by
  have hthr : threshold t' = threshold t := by simp [threshold, h_max]
  refine
    { sb_index := h_idx, sb_block := h_sb, sb_type := h_ty, thr := by rw [hthr]; exact hI.thr,
      root_tree := by rw [h_root, h_tree]; exact hI.root_tree,
      root_rng := by rw [h_root, h_rng]; exact hI.root_rng,
      root_type := ?_, leaf_lvl := ?_, lvl_lt := ?_, disj := ?_, interior := ?_, leaf := ?_,
      size := ?_, stored := ?_, free_chain := h_free, free_nodup := h_nodup,
      junk_ok := h_junk }
  · intro a ha
    have ha' := (h_tree a).1 ha
    rw [h_blk a ha', h_root]; exact hI.root_type a ha'
  · intro a ha
    have ha' := (h_tree a).1 ha
    rw [h_blk a ha', h_lvl]; exact hI.leaf_lvl a ha'
  · intro a ha
    rw [h_root, h_lvl]; exact hI.lvl_lt a ((h_tree a).1 ha)
  · intro a a' ha ha'
    rw [h_lvl, h_rng]
    exact hI.disj a a' ((h_tree a).1 ha) ((h_tree a').1 ha')
  · intro a ha hi
    have ha' := (h_tree a).1 ha
    have hb := h_blk a ha'
    rw [hb] at hi
    have ho := hI.interior a ha' hi
    refine { pos := ?_, sorted := ?_, keys := ?_, child := ?_, dead := ?_ }
    · rw [hb]; exact ho.pos
    · rw [hb]; exact ho.sorted
    · rw [hb, h_rng, h_kv]; exact ho.keys
    · rw [hb, h_rng, h_dead, h_lvl, h_root]
      intro i hv
      obtain ⟨h1, h2, h3, h4⟩ := ho.child i hv
      exact ⟨(h_tree _).2 h1, h2, h3, h4⟩
    · rw [hb, h_rng, h_dead]; exact ho.dead
  · intro a ha hl
    have ha' := (h_tree a).1 ha
    have hb := h_blk a ha'
    rw [hb] at hl
    have ho := hI.leaf a ha' hl
    refine { sorted := ?_, recs := ?_ }
    · rw [hb]; exact ho.sorted
    · rw [hb, h_rng, h_kv]; exact ho.recs
  · intro a ha
    have ha' := (h_tree a).1 ha
    rw [h_blk a ha', hthr]; exact hI.size a ha'
  · intro k v hk
    rw [h_kv] at hk
    obtain ⟨a, ha, hl, i, hi, h1, h2⟩ := hI.stored k v hk
    have hb := h_blk a ha
    exact ⟨a, (h_tree a).2 ha, by rw [hb]; exact hl, i, by rw [hb]; exact hi,
      by rw [hb]; exact h1, by rw [hb]; exact h2⟩

theorem isPath_frame {t t' : BTreeIndex} {g g' : Ghost}
    (h_root : t'.superblock.info.rootnode = t.superblock.info.rootnode)
    (h_blk : ∀ a, IsTree t g a → t'.buffercache.blocks a = t.buffercache.blocks a)
    (h_tree : ∀ a, IsTree t' g' a ↔ IsTree t g a) (h_dead : g'.dead = g.dead) :
    ∀ (path : List Nat) (x : Nat), IsPath t g x path → IsPath t' g' x path := by
  intro path
  induction path with
  | nil => intro x h; simp only [IsPath] at h ⊢; rw [h_root]; exact h
  | cons p ps ih =>
    intro x h
    obtain ⟨h1, h2, h3, h4, h5⟩ := h
    have hb := h_blk p h2
    refine ⟨by rw [h_root]; exact h1, (h_tree p).2 h2, by rw [hb]; exact h3, ?_, ih p h5⟩
    rw [hb, h_dead]; exact h4

theorem serialize_eq (t : BTreeIndex) (a : Nat) (nd : BTreeNode)
    (h : a < t.buffercache.numBlocks) :
    nd.Serialize t.buffercache a = (ERROR_NOERROR, (t.withBlock a nd).buffercache) := by
  simp [BTreeNode.Serialize, h, BTreeIndex.withBlock]

theorem unserialize_eq (t : BTreeIndex) (a : Nat) (old : BTreeNode)
    (h : a < t.buffercache.numBlocks) :
    old.Unserialize t.buffercache a = (ERROR_NOERROR, t.buffercache.blocks a) := by
  simp [BTreeNode.Unserialize, h]

theorem inv_zero_lt {t : BTreeIndex} {g : Ghost} {over : Option Nat} (hI : Inv t g over) :
    0 < t.buffercache.numBlocks := by
  have := hI.root_tree.1
  omega

theorem isTree_ne_zero {t : BTreeIndex} {g : Ghost} {over : Option Nat} (hI : Inv t g over)
    {a : Nat} (ha : IsTree t g a) : a ≠ 0 := by
  intro e
  subst e
  have h := ha.2.2
  rw [hI.sb_block] at h
  exact super_not_node _ hI.sb_type h

/-- With a block on the free list, `AllocateNode` pops the head of the list. -/
theorem allocate_eq {t : BTreeIndex} {g : Ghost} {over : Option Nat} (hI : Inv t g over)
    {a : Nat} {rest : List Nat} (hf : g.free = a :: rest) :
    AllocateNode t = some (ERROR_NOERROR, a,
      t.withFree (t.buffercache.blocks a).info.freelist) := by
  have hc := hI.free_chain
  rw [hf] at hc
  obtain ⟨h1, h2, h3, h4, _⟩ := hc
  have h0 := inv_zero_lt hI
  simp only [AllocateNode, h1, h2, if_false, BTreeNode.Unserialize, h3, if_true, h4, ne_eq,
    not_true_eq_false, BTreeNode.Serialize, hI.sb_index, h0, BTreeIndex.withFree]

/-- A block popped from the free list and overwritten with a node is a block that holds a
node outside the tree; the tree is as it was. -/
theorem inv_alloc_write {t : BTreeIndex} {g : Ghost} {over : Option Nat} (hI : Inv t g over)
    {a : Nat} {rest : List Nat} (hf : g.free = a :: rest) (nd : BTreeNode)
    (hnd : nd.isInterior = true ∨ nd.isLeaf = true) :
    Inv ((t.withFree (t.buffercache.blocks a).info.freelist).withBlock a nd)
      { g with free := rest, junk := fun x => x = a ∨ g.junk x } over := by
  have hc := hI.free_chain
  have hnd' := hI.free_nodup
  rw [hf] at hc hnd'
  obtain ⟨_, h2, h3, h4, h5⟩ := hc
  have hnot : ∀ x, IsTree t g x → x ≠ a := by
    intro x hx e; subst e; exact unalloc_not_node _ h4 hx.2.2
  apply inv_frame hI
  · exact hI.sb_index
  · simp [BTreeIndex.withBlock, BTreeIndex.withFree, Function.update_noteq (Ne.symm h2)]
  · exact hI.sb_type
  · rfl
  · rfl
  · intro x hx
    have hx0 := isTree_ne_zero hI hx
    simp [BTreeIndex.withBlock, BTreeIndex.withFree, Function.update_noteq (hnot x hx),
      Function.update_noteq hx0]
  · intro x
    by_cases e : x = a
    · subst e
      constructor
      · intro h; exact absurd (Or.inl rfl) h.2.1
      · intro h; exact absurd rfl (hnot x h)
    · by_cases e0 : x = 0
      · subst e0
        constructor
        · intro h
          exfalso
          have := h.2.2
          simp only [BTreeIndex.withBlock, BTreeIndex.withFree, Function.update_noteq e,
            Function.update_same] at this
          exact super_not_node _ hI.sb_type this
        · intro h; exact absurd rfl (isTree_ne_zero hI h)
      · simp [IsTree, BTreeIndex.withBlock, BTreeIndex.withFree, Function.update_noteq e,
          Function.update_noteq e0, e]
  · rfl
  · rfl
  · rfl
  · rfl
  · refine @freeChain_frame t.buffercache _ (by rfl) rest _ h5 ?_
    intro x hx
    have hx' := freeChain_mem rest _ h5 x hx
    have hxa : x ≠ a := by
      intro e; subst e; exact (List.nodup_cons.1 hnd').1 hx
    simp [BTreeIndex.withBlock, BTreeIndex.withFree, Function.update_noteq hxa,
      Function.update_noteq hx'.1]
  · exact (List.nodup_cons.1 hnd').2
  · intro x hx
    rcases hx with e | hx
    · subst e
      exact ⟨h3, by simpa [BTreeIndex.withBlock] using hnd⟩
    · have hj := hI.junk_ok x hx
      have hxa : x ≠ a := by
        intro e; subst e; exact unalloc_not_node _ h4 hj.2
      have hx0 : x ≠ 0 := by
        intro e; subst e
        have := hj.2
        rw [hI.sb_block] at this
        exact super_not_node _ hI.sb_type this
      refine ⟨hj.1, ?_⟩
      simpa [BTreeIndex.withBlock, BTreeIndex.withFree, Function.update_noteq hxa,
        Function.update_noteq hx0] using hj.2

/-- Overwriting a block that holds a node outside the tree with another node. -/
theorem inv_junk_write {t : BTreeIndex} {g : Ghost} {over : Option Nat} (hI : Inv t g over)
    {a : Nat} (ha : g.junk a) (nd : BTreeNode) (hnd : nd.isInterior = true ∨ nd.isLeaf = true) :
    Inv (t.withBlock a nd) g over := by
  have hj := hI.junk_ok a ha
  have ha0 : a ≠ 0 := by
    intro e; subst e
    have := hj.2
    rw [hI.sb_block] at this
    exact super_not_node _ hI.sb_type this
  have hnot : ∀ x, IsTree t g x → x ≠ a := by
    intro x hx e; subst e; exact hx.2.1 ha
  apply inv_frame hI
  · exact hI.sb_index
  · simpa [BTreeIndex.withBlock, Function.update_noteq (Ne.symm ha0)] using hI.sb_block
  · exact hI.sb_type
  · rfl
  · rfl
  · intro x hx
    simp [BTreeIndex.withBlock, Function.update_noteq (hnot x hx)]
  · intro x
    by_cases e : x = a
    · subst e
      constructor
      · intro h; exact absurd ha h.2.1
      · intro h; exact absurd ha h.2.1
    · simp [IsTree, BTreeIndex.withBlock, Function.update_noteq e]
  · rfl
  · rfl
  · rfl
  · rfl
  · refine @freeChain_frame t.buffercache _ (by rfl) _ _ hI.free_chain ?_
    intro x hx
    have hx' := freeChain_mem _ _ hI.free_chain x hx
    have hxa : x ≠ a := by
      intro e; subst e; exact unalloc_not_node _ hx'.2.2 hj.2
    simp [BTreeIndex.withBlock, Function.update_noteq hxa]
  · exact hI.free_nodup
  · intro x hx
    by_cases e : x = a
    · subst e
      exact ⟨hj.1, by simpa [BTreeIndex.withBlock] using hnd⟩
    · have hjx := hI.junk_ok x hx
      refine ⟨hjx.1, ?_⟩
      simpa [BTreeIndex.withBlock, Function.update_noteq e] using hjx.2

theorem junk_ne_zero {t : BTreeIndex} {g : Ghost} {over : Option Nat} (hI : Inv t g over)
    {x : Nat} (hx : g.junk x) : x ≠ 0 := by
  intro e; subst e
  have := (hI.junk_ok 0 hx).2
  rw [hI.sb_block] at this
  exact super_not_node _ hI.sb_type this

theorem node_type_ne {b : BTreeNode} (h : b.isInterior = true ∨ b.isLeaf = true) :
    b.info.nodetype ≠ BTREE_UNALLOCATED_BLOCK := by
  intro e; exact unalloc_not_node b e h

/-- `DeallocateNode` on a block that holds a node outside the tree. -/
theorem deallocate_eq {t : BTreeIndex} {g : Ghost} {over : Option Nat} (hI : Inv t g over)
    {x : Nat} (hx : g.junk x) :
    DeallocateNode t x = some (ERROR_NOERROR, (t.withBlock x (freedNode t x)).withFree x) := by
  have hj := hI.junk_ok x hx
  have h0 := inv_zero_lt hI
  simp only [DeallocateNode, BTreeNode.Unserialize, hj.1, if_true, node_type_ne hj.2, if_false,
    BTreeNode.Serialize, hI.sb_index, h0, BTreeIndex.withFree, BTreeIndex.withBlock, freedNode]

/-- After `DeallocateNode` the block is the head of the free list and no longer holds a
node; the tree is as it was. -/
theorem inv_dealloc {t : BTreeIndex} {g : Ghost} {over : Option Nat} (hI : Inv t g over)
    {x : Nat} (hx : g.junk x) :
    Inv ((t.withBlock x (freedNode t x)).withFree x)
      { g with free := x :: g.free, junk := fun y => g.junk y ∧ y ≠ x } over := by
  have hj := hI.junk_ok x hx
  have hx0 := junk_ne_zero hI hx
  have hnot : ∀ y, IsTree t g y → y ≠ x := by
    intro y hy e; subst e; exact hy.2.1 hx
  have hfree : ∀ y, y ∈ g.free → y ≠ x := by
    intro y hy e; subst e
    exact unalloc_not_node _ (freeChain_mem _ _ hI.free_chain y hy).2.2 hj.2
  apply inv_frame hI
  · exact hI.sb_index
  · simp [BTreeIndex.withBlock, BTreeIndex.withFree]
  · exact hI.sb_type
  · rfl
  · rfl
  · intro y hy
    simp [BTreeIndex.withBlock, BTreeIndex.withFree, Function.update_noteq (hnot y hy),
      Function.update_noteq (isTree_ne_zero hI hy)]
  · intro y
    by_cases e : y = x
    · subst e
      constructor
      · intro h
        exfalso
        have := h.2.2
        simp only [BTreeIndex.withBlock, BTreeIndex.withFree, Function.update_noteq hx0,
          Function.update_same] at this
        exact unalloc_not_node (freedNode t y) rfl this
      · intro h; exact absurd hx h.2.1
    · by_cases e0 : y = 0
      · subst e0
        constructor
        · intro h
          exfalso
          have := h.2.2
          simp only [BTreeIndex.withBlock, BTreeIndex.withFree, Function.update_same] at this
          exact super_not_node _ hI.sb_type this
        · intro h; exact absurd rfl (isTree_ne_zero hI h)
      · simp [IsTree, BTreeIndex.withBlock, BTreeIndex.withFree, Function.update_noteq e,
          Function.update_noteq e0, e]
  · rfl
  · rfl
  · rfl
  · rfl
  · refine ⟨rfl, hx0, hj.1, ?_, ?_⟩
    · simp [BTreeIndex.withBlock, BTreeIndex.withFree, Function.update_noteq hx0, freedNode]
    · have e : (((t.withBlock x (freedNode t x)).withFree x).buffercache.blocks x).info.freelist
          = t.superblock.info.freelist := by
        simp [BTreeIndex.withBlock, BTreeIndex.withFree, Function.update_noteq hx0, freedNode]
      rw [e]
      refine @freeChain_frame t.buffercache _ (by rfl) _ _ hI.free_chain ?_
      intro y hy
      have hy' := freeChain_mem _ _ hI.free_chain y hy
      simp [BTreeIndex.withBlock, BTreeIndex.withFree, Function.update_noteq (hfree y hy),
        Function.update_noteq hy'.1]
  · exact List.nodup_cons.2 ⟨fun h => hfree x h rfl, hI.free_nodup⟩
  · intro y hy
    have hjy := hI.junk_ok y hy.1
    have hy0 := junk_ne_zero hI hy.1
    refine ⟨hjy.1, ?_⟩
    simpa [BTreeIndex.withBlock, BTreeIndex.withFree, Function.update_noteq hy.2,
      Function.update_noteq hy0] using hjy.2


theorem insAt_lt (f : Nat → Nat) (n j x i : Nat) (h : i < j) : insAt f n j x i = f i := by
  simp [insAt, h]

theorem insAt_eq (f : Nat → Nat) (n j x : Nat) : insAt f n j x j = x := by
  simp [insAt]

theorem insAt_gt (f : Nat → Nat) (n j x i : Nat) (h : j < i) (hn : i ≤ n) :
    insAt f n j x i = f (i - 1) := by
  have h1 : ¬ i < j := by omega
  have h2 : ¬ i = j := by omega
  simp [insAt, h1, h2, hn]

theorem leafWith_sorted (b : BTreeNode) (k v : Nat) (hs : SortedKeys b)
    (hk : ∀ i, i < b.info.numkeys → b.keys i ≠ k) : SortedKeys (leafWith b k v) := by
  intro i i' hii hi'
  have hle := firstIdx_le (fun i => decide (k < b.keys i)) b.info.numkeys 0
  have hbef := firstIdx_before (fun i => decide (k < b.keys i)) b.info.numkeys 0
  have hsp := firstIdx_spec (fun i => decide (k < b.keys i)) b.info.numkeys 0
  simp only [decide_eq_false_iff_not, decide_eq_true_eq] at hbef hsp
  simp only [leafWith] at hi' ⊢
  generalize firstIdx (fun i => decide (k < b.keys i)) b.info.numkeys 0 = j at *
  rcases Nat.lt_trichotomy i j with h1 | h1 | h1
  · rw [insAt_lt _ _ _ _ _ h1]
    have hki := hbef i (by omega) h1
    have hne := hk i (by omega)
    rcases Nat.lt_trichotomy i' j with h2 | h2 | h2
    · rw [insAt_lt _ _ _ _ _ h2]; exact hs i i' hii (by omega)
    · rw [h2, insAt_eq]; omega
    · rw [insAt_gt _ _ _ _ _ h2 (by omega)]
      exact hs i (i' - 1) (by omega) (by omega)
  · subst h1
    rw [insAt_eq, insAt_gt _ _ _ _ _ hii (by omega)]
    have h3 := hsp (by omega)
    by_cases e : i' - 1 = i
    · rw [e]; exact h3
    · have := hs i (i' - 1) (by omega) (by omega)
      omega
  · rw [insAt_gt _ _ _ _ _ h1 (by omega), insAt_gt _ _ _ _ _ (by omega) (by omega)]
    exact hs (i - 1) (i' - 1) (by omega) (by omega)

theorem leafWith_old (b : BTreeNode) (k v : Nat) (i : Nat) (hi : i < b.info.numkeys) :
    ∃ i', i' < (leafWith b k v).info.numkeys ∧ (leafWith b k v).keys i' = b.keys i ∧
      (leafWith b k v).vals i' = b.vals i := by
  simp only [leafWith]
  generalize firstIdx (fun i => decide (k < b.keys i)) b.info.numkeys 0 = j at *
  by_cases h : i < j
  · exact ⟨i, by omega, insAt_lt _ _ _ _ _ h, insAt_lt _ _ _ _ _ h⟩
  · refine ⟨i + 1, by omega, ?_, ?_⟩
    · rw [insAt_gt _ _ _ _ _ (by omega) (by omega)]; rfl
    · rw [insAt_gt _ _ _ _ _ (by omega) (by omega)]; rfl

theorem leafWith_new (b : BTreeNode) (k v : Nat) :
    ∃ i', i' < (leafWith b k v).info.numkeys ∧ (leafWith b k v).keys i' = k ∧
      (leafWith b k v).vals i' = v := by
  have hle := firstIdx_le (fun i => decide (k < b.keys i)) b.info.numkeys 0
  simp only [leafWith]
  exact ⟨_, by omega, insAt_eq _ _ _ _, insAt_eq _ _ _ _⟩

theorem leafWith_cases (b : BTreeNode) (k v : Nat) (i' : Nat)
    (hi : i' < (leafWith b k v).info.numkeys) :
    ((leafWith b k v).keys i' = k ∧ (leafWith b k v).vals i' = v) ∨
    ∃ i, i < b.info.numkeys ∧ (leafWith b k v).keys i' = b.keys i ∧
      (leafWith b k v).vals i' = b.vals i := by
  have hle := firstIdx_le (fun i => decide (k < b.keys i)) b.info.numkeys 0
  simp only [leafWith] at hi ⊢
  generalize firstIdx (fun i => decide (k < b.keys i)) b.info.numkeys 0 = j at *
  rcases Nat.lt_trichotomy i' j with h | h | h
  · exact Or.inr ⟨i', by omega, insAt_lt _ _ _ _ _ h, insAt_lt _ _ _ _ _ h⟩
  · subst h; exact Or.inl ⟨insAt_eq _ _ _ _, insAt_eq _ _ _ _⟩
  · exact Or.inr ⟨i' - 1, by omega, insAt_gt _ _ _ _ _ h (by omega),
      insAt_gt _ _ _ _ _ h (by omega)⟩

/-- Putting a record with a new key into the leaf that the key may reach keeps the
invariant, except that this leaf may now hold one key more than the threshold. -/
theorem inv_leaf_insert {t : BTreeIndex} {g : Ghost} (hI : Inv t g none) {l : Nat}
    (hl : IsTree t g l) (hleaf : (t.buffercache.blocks l).isLeaf = true) (k v : Nat)
    (hk : g.rng l k) (hkv : g.kv k = none) :
    Inv (t.withBlock l (leafWith (t.buffercache.blocks l) k v))
      { g with kv := Function.update g.kv k (some v) }
      (if (t.buffercache.blocks l).info.numkeys + 1 > threshold t then some l else none) := by
  have hl0 := isTree_ne_zero hI hl
  have hlo := hI.leaf l hl hleaf
  have hnk : ∀ i, i < (t.buffercache.blocks l).info.numkeys →
      (t.buffercache.blocks l).keys i ≠ k := by
    intro i hi e
    have := (hlo.recs i hi).2
    rw [e, hkv] at this
    simp at this
  have hblk : ∀ a, a ≠ l →
      (t.withBlock l (leafWith (t.buffercache.blocks l) k v)).buffercache.blocks a
        = t.buffercache.blocks a := by
    intro a ha; simp [BTreeIndex.withBlock, Function.update_noteq ha]
  have hbl : (t.withBlock l (leafWith (t.buffercache.blocks l) k v)).buffercache.blocks l
      = leafWith (t.buffercache.blocks l) k v := by
    simp [BTreeIndex.withBlock]
  have hleaf' : (leafWith (t.buffercache.blocks l) k v).isLeaf = true := hleaf
  have hint' : (leafWith (t.buffercache.blocks l) k v).isInterior
      = (t.buffercache.blocks l).isInterior := rfl
  have htree : ∀ a, IsTree (t.withBlock l (leafWith (t.buffercache.blocks l) k v))
      { g with kv := Function.update g.kv k (some v) } a ↔ IsTree t g a := by
    intro a
    by_cases e : a = l
    · subst e
      simp only [IsTree, hbl, hleaf', hleaf, hint']
      rfl
    · simp only [IsTree, hblk a e]
      rfl
  have hkv' : ∀ k', g.kv k' ≠ none → Function.update g.kv k (some v) k' = g.kv k' := by
    intro k' h
    have : k' ≠ k := by intro e; rw [e] at h; exact h hkv
    simp [Function.update_noteq this]
  refine
    { sb_index := hI.sb_index,
      sb_block := by rw [hblk 0 (Ne.symm hl0)]; exact hI.sb_block,
      sb_type := hI.sb_type, thr := hI.thr,
      root_tree := (htree _).2 hI.root_tree,
      root_rng := hI.root_rng,
      root_type := ?_, leaf_lvl := ?_, lvl_lt := fun a ha => hI.lvl_lt a ((htree a).1 ha),
      disj := ?_, interior := ?_, leaf := ?_, size := ?_,
      stored := ?_, free_chain := ?_, free_nodup := hI.free_nodup, junk_ok := ?_ }
  · intro a ha
    have ha' := (htree a).1 ha
    by_cases e : a = l
    · subst e; rw [hbl]; exact hI.root_type a ha'
    · rw [hblk a e]; exact hI.root_type a ha'
  · intro a ha
    have ha' := (htree a).1 ha
    by_cases e : a = l
    · subst e; rw [hbl]; exact hI.leaf_lvl a ha'
    · rw [hblk a e]; exact hI.leaf_lvl a ha'
  · intro a a' ha ha'
    exact hI.disj a a' ((htree a).1 ha) ((htree a').1 ha')
  · intro a ha hi
    have ha' := (htree a).1 ha
    have e : a ≠ l := by
      intro e; subst e
      rw [hbl, hint', isLeaf_not_isInterior _ hleaf] at hi
      simp at hi
    have hb := hblk a e
    rw [hb] at hi
    have ho := hI.interior a ha' hi
    refine { pos := ?_, sorted := ?_, keys := ?_, child := ?_, dead := ?_ }
    · rw [hb]; exact ho.pos
    · rw [hb]; exact ho.sorted
    · rw [hb]
      intro i hi'
      have := ho.keys i hi'
      refine ⟨this.1, ?_⟩
      show Function.update g.kv k (some v) _ ≠ none
      rw [hkv' _ this.2]; exact this.2
    · rw [hb]
      intro i hv
      obtain ⟨h1, h2, h3, h4⟩ := ho.child i hv
      exact ⟨(htree _).2 h1, h2, h3, h4⟩
    · rw [hb]; exact ho.dead
  · intro a ha hf
    have ha' := (htree a).1 ha
    by_cases e : a = l
    · subst e
      refine { sorted := ?_, recs := ?_ }
      · rw [hbl]; exact leafWith_sorted _ k v hlo.sorted hnk
      · rw [hbl]
        intro i hi
        rcases leafWith_cases _ k v i hi with ⟨h1, h2⟩ | ⟨i0, hi0, h1, h2⟩
        · rw [h1, h2]
          exact ⟨hk, by simp⟩
        · rw [h1, h2]
          have := hlo.recs i0 hi0
          refine ⟨this.1, ?_⟩
          show Function.update g.kv k (some v) _ = _
          rw [hkv' _ (by rw [this.2]; simp)]
          exact this.2
    · have hb := hblk a e
      rw [hb] at hf
      have ho := hI.leaf a ha' hf
      refine { sorted := ?_, recs := ?_ }
      · rw [hb]; exact ho.sorted
      · rw [hb]
        intro i hi
        have := ho.recs i hi
        refine ⟨this.1, ?_⟩
        show Function.update g.kv k (some v) _ = _
        rw [hkv' _ (by rw [this.2]; simp)]
        exact this.2
  · intro a ha
    have ha' := (htree a).1 ha
    have hs := hI.size a ha'
    simp only [reduceCtorEq, false_and, or_false] at hs
    by_cases e : a = l
    · subst e
      rw [hbl]
      show (t.buffercache.blocks a).info.numkeys + 1 ≤ threshold t ∨
        (_ ∧ (t.buffercache.blocks a).info.numkeys + 1 = threshold t + 1)
      by_cases h : (t.buffercache.blocks a).info.numkeys + 1 > threshold t
      · right
        simp only [h, if_true, true_and]
        omega
      · left
        omega
    · rw [hblk a e]
      left
      exact hs
  · intro k' v' h
    by_cases e : k' = k
    · subst e
      simp only [Function.update_same, Option.some.injEq] at h
      subst h
      obtain ⟨i', h1, h2, h3⟩ := leafWith_new (t.buffercache.blocks l) k' v
      exact ⟨l, (htree l).2 hl, by rw [hbl]; exact hleaf', i', by rw [hbl]; exact h1,
        by rw [hbl]; exact h2, by rw [hbl]; exact h3⟩
    · simp only [Function.update_noteq e] at h
      obtain ⟨a, ha, hf, i, hi, h1, h2⟩ := hI.stored k' v' h
      by_cases e' : a = l
      · subst e'
        obtain ⟨i', h3, h4, h5⟩ := leafWith_old (t.buffercache.blocks a) k v i hi
        exact ⟨a, (htree a).2 ha, by rw [hbl]; exact hleaf', i', by rw [hbl]; exact h3,
          by rw [hbl, h4]; exact h1, by rw [hbl, h5]; exact h2⟩
      · have hb := hblk a e'
        exact ⟨a, (htree a).2 ha, by rw [hb]; exact hf, i, by rw [hb]; exact hi,
          by rw [hb]; exact h1, by rw [hb]; exact h2⟩
  · refine @freeChain_frame t.buffercache _ (by rfl) _ _ hI.free_chain ?_
    intro x hx
    have hx' := freeChain_mem _ _ hI.free_chain x hx
    have hxa : x ≠ l := by
      intro e; subst e; exact unalloc_not_node _ hx'.2.2 hl.2.2
    exact hblk x hxa
  · intro x hx
    have hj := hI.junk_ok x hx
    have hxa : x ≠ l := by
      intro e; subst e; exact hl.2.1 hx
    rw [hblk x hxa]
    exact hj

/-! ## Node by node: the invariant after a split -/

theorem interiorOk_same {t t' : BTreeIndex} {g g' : Ghost} {a : Nat} (ho : InteriorOk t g a)
    (hb : t'.buffercache.blocks a = t.buffercache.blocks a)
    (hrng : ∀ k, g'.rng a k ↔ g.rng a k) (hdead : g'.dead a = g.dead a)
    (hlvl : g'.lvl a = g.lvl a) (hkv : ∀ k, g.kv k ≠ none → g'.kv k ≠ none)
    (hch : ∀ i, ValidIdx (t.buffercache.blocks a) (g.dead a) i →
      IsTree t' g' ((t.buffercache.blocks a).ptrs i) ∧
      (t.buffercache.blocks a).ptrs i ≠ t'.superblock.info.rootnode ∧
      g'.lvl ((t.buffercache.blocks a).ptrs i) = g.lvl ((t.buffercache.blocks a).ptrs i) ∧
      ∀ k, g'.rng ((t.buffercache.blocks a).ptrs i) k ↔ g.rng ((t.buffercache.blocks a).ptrs i) k) :
    InteriorOk t' g' a := by
  refine { pos := ?_, sorted := ?_, keys := ?_, child := ?_, dead := ?_ }
  · rw [hb]; exact ho.pos
  · rw [hb]; exact ho.sorted
  · rw [hb]
    intro i hi
    have := ho.keys i hi
    exact ⟨(hrng _).2 this.1, hkv _ this.2⟩
  · rw [hb, hdead]
    intro i hv
    obtain ⟨h1, h2, h3, h4⟩ := hch i hv
    obtain ⟨_, _, o3, o4⟩ := ho.child i hv
    refine ⟨h1, h2, by rw [h3, hlvl]; exact o3, ?_⟩
    intro k
    rw [h4 k, o4 k]
    simp only [InSlice, hrng k]
  · rw [hb, hdead]
    intro hd k hk
    exact ho.dead hd k ((hrng k).1 hk)

theorem leafOk_same {t t' : BTreeIndex} {g g' : Ghost} {a : Nat} (ho : LeafOk t g a)
    (hb : t'.buffercache.blocks a = t.buffercache.blocks a)
    (hrng : ∀ k, g'.rng a k ↔ g.rng a k)
    (hkv : ∀ k v, g.kv k = some v → g'.kv k = some v) :
    LeafOk t' g' a := by
  refine { sorted := ?_, recs := ?_ }
  · rw [hb]; exact ho.sorted
  · rw [hb]
    intro i hi
    have := ho.recs i hi
    exact ⟨(hrng _).2 this.1, hkv _ _ this.2⟩

theorem interiorOk_left {t t' : BTreeIndex} {g g' : Ghost} {x L mid : Nat}
    (ho : InteriorOk t g x) (hbi : (t.buffercache.blocks x).isInterior = true)
    (hs : SplitLeft (t.buffercache.blocks x) (t'.buffercache.blocks L) mid)
    (h1 : 1 ≤ mid) (h2 : mid < (t.buffercache.blocks x).info.numkeys)
    (hrng : ∀ k, g'.rng L k ↔ (g.rng x k ∧ k ≤ (t.buffercache.blocks x).keys (mid - 1)))
    (hdead : g'.dead L = true) (hlvl : g'.lvl L = g.lvl x)
    (hkv : ∀ k, g.kv k ≠ none → g'.kv k ≠ none)
    (hch : ∀ i, i < mid →
      IsTree t' g' ((t.buffercache.blocks x).ptrs i) ∧
      (t.buffercache.blocks x).ptrs i ≠ t'.superblock.info.rootnode ∧
      g'.lvl ((t.buffercache.blocks x).ptrs i) = g.lvl ((t.buffercache.blocks x).ptrs i) ∧
      ∀ k, g'.rng ((t.buffercache.blocks x).ptrs i) k ↔ g.rng ((t.buffercache.blocks x).ptrs i) k) :
    InteriorOk t' g' L := by
  obtain ⟨s1, s2, _, s4⟩ := hs
  obtain ⟨_, s5⟩ := s4 hbi
  have hsort := ho.sorted
  refine { pos := ?_, sorted := ?_, keys := ?_, child := ?_, dead := ?_ }
  · omega
  · intro i j hij hj
    rw [s1] at hj
    rw [s2 i (by omega), s2 j hj]
    exact hsort i j hij (by omega)
  · intro i hi
    rw [s1] at hi
    rw [s2 i hi]
    have := ho.keys i (by omega)
    refine ⟨(hrng _).2 ⟨this.1, ?_⟩, hkv _ this.2⟩
    by_cases e : i = mid - 1
    · rw [e]
    · exact le_of_lt (hsort i (mid - 1) (by omega) (by omega))
  · intro i hv
    have hi : i < mid := by
      rcases hv with h | h
      · omega
      · rw [hdead] at h; simp at h
    rw [s5 i hi]
    obtain ⟨c1, c2, c3, c4⟩ := hch i hi
    obtain ⟨_, _, o3, o4⟩ := ho.child i (Or.inl (by omega))
    refine ⟨c1, c2, by rw [c3, hlvl]; exact o3, ?_⟩
    intro k
    rw [c4 k, o4 k]
    simp only [InSlice, hrng k, s1]
    constructor
    · rintro ⟨r1, r2, r3⟩
      have r3' := r3 (by omega)
      refine ⟨⟨r1, ?_⟩, ?_, ?_⟩
      · by_cases e : i = mid - 1
        · rw [← e]; exact r3'
        · have := hsort i (mid - 1) (by omega) (by omega)
          omega
      · intro h0; rw [s2 (i - 1) (by omega)]; exact r2 h0
      · intro _; rw [s2 i hi]; exact r3'
    · rintro ⟨⟨r1, _⟩, r2, r3⟩
      refine ⟨r1, ?_, ?_⟩
      · intro h0; have := r2 h0; rw [s2 (i - 1) (by omega)] at this; exact this
      · intro _; have := r3 hi; rw [s2 i hi] at this; exact this
  · intro _ k hk
    rw [s1, s2 (mid - 1) (by omega)]
    exact ((hrng k).1 hk).2

theorem interiorOk_right {t t' : BTreeIndex} {g g' : Ghost} {x R mid : Nat}
    (ho : InteriorOk t g x) (hbi : (t.buffercache.blocks x).isInterior = true)
    (hs : SplitRight (t.buffercache.blocks x) (t'.buffercache.blocks R) mid)
    (h1 : 1 ≤ mid) (h2 : mid < (t.buffercache.blocks x).info.numkeys)
    (hrng : ∀ k, g'.rng R k ↔ (g.rng x k ∧ (t.buffercache.blocks x).keys (mid - 1) < k))
    (hdead : g'.dead R = g.dead x) (hlvl : g'.lvl R = g.lvl x)
    (hkv : ∀ k, g.kv k ≠ none → g'.kv k ≠ none)
    (hch : ∀ i, mid ≤ i → ValidIdx (t.buffercache.blocks x) (g.dead x) i →
      IsTree t' g' ((t.buffercache.blocks x).ptrs i) ∧
      (t.buffercache.blocks x).ptrs i ≠ t'.superblock.info.rootnode ∧
      g'.lvl ((t.buffercache.blocks x).ptrs i) = g.lvl ((t.buffercache.blocks x).ptrs i) ∧
      ∀ k, g'.rng ((t.buffercache.blocks x).ptrs i) k ↔ g.rng ((t.buffercache.blocks x).ptrs i) k) :
    InteriorOk t' g' R := by
  obtain ⟨s1, s2, _, s4⟩ := hs
  obtain ⟨_, s5⟩ := s4 hbi
  have hsort := ho.sorted
  refine { pos := ?_, sorted := ?_, keys := ?_, child := ?_, dead := ?_ }
  · omega
  · intro i j hij hj
    rw [s1] at hj
    rw [s2 i (by omega), s2 j hj]
    exact hsort _ _ (by omega) (by omega)
  · intro i hi
    rw [s1] at hi
    rw [s2 i hi]
    have := ho.keys (mid + i) (by omega)
    exact ⟨(hrng _).2 ⟨this.1, hsort _ _ (by omega) (by omega)⟩, hkv _ this.2⟩
  · intro i hv
    have hv' : ValidIdx (t.buffercache.blocks x) (g.dead x) (mid + i) := by
      rcases hv with h | h
      · left; omega
      · right; rw [hdead] at h; exact ⟨by omega, h.2⟩
    have hi : i ≤ (t.buffercache.blocks x).info.numkeys - mid := by
      rcases hv with h | h <;> omega
    rw [s5 i hi]
    obtain ⟨c1, c2, c3, c4⟩ := hch (mid + i) (by omega) hv'
    obtain ⟨_, _, o3, o4⟩ := ho.child (mid + i) hv'
    refine ⟨c1, c2, by rw [c3, hlvl]; exact o3, ?_⟩
    intro k
    rw [c4 k, o4 k]
    simp only [InSlice, hrng k, s1]
    constructor
    · rintro ⟨r1, r2, r3⟩
      have r2' := r2 (by omega)
      refine ⟨⟨r1, ?_⟩, ?_, ?_⟩
      · by_cases e : i = 0
        · subst e; simpa using r2'
        · have := hsort (mid - 1) (mid + i - 1) (by omega) (by omega)
          omega
      · intro h0
        rw [s2 (i - 1) (by omega)]
        have e : mid + (i - 1) = mid + i - 1 := by omega
        rw [e]; exact r2'
      · intro h0; rw [s2 i h0]; exact r3 (by omega)
    · rintro ⟨⟨r1, r1'⟩, r2, r3⟩
      refine ⟨r1, ?_, ?_⟩
      · intro _
        by_cases e : i = 0
        · subst e; simpa using r1'
        · have := r2 (by omega)
          rw [s2 (i - 1) (by omega)] at this
          have e : mid + (i - 1) = mid + i - 1 := by omega
          rw [← e]; exact this
      · intro h0
        have := r3 (by omega)
        rw [s2 i (by omega)] at this
        exact this
  · intro hd k hk
    rw [hdead] at hd
    rw [s1, s2 _ (by omega)]
    have := ho.dead hd k ((hrng k).1 hk).1
    have e : mid + ((t.buffercache.blocks x).info.numkeys - mid - 1)
        = (t.buffercache.blocks x).info.numkeys - 1 := by omega
    rw [e]; exact this

theorem leafOk_left {t t' : BTreeIndex} {g g' : Ghost} {x L mid : Nat}
    (ho : LeafOk t g x) (hbl : (t.buffercache.blocks x).isLeaf = true)
    (hs : SplitLeft (t.buffercache.blocks x) (t'.buffercache.blocks L) mid)
    (h1 : 1 ≤ mid) (h2 : mid < (t.buffercache.blocks x).info.numkeys)
    (hrng : ∀ k, g'.rng L k ↔ (g.rng x k ∧ k ≤ (t.buffercache.blocks x).keys (mid - 1)))
    (hkv : ∀ k v, g.kv k = some v → g'.kv k = some v) :
    LeafOk t' g' L := by
  obtain ⟨s1, s2, s3, _⟩ := hs
  obtain ⟨_, s5⟩ := s3 hbl
  have hsort := ho.sorted
  refine { sorted := ?_, recs := ?_ }
  · intro i j hij hj
    rw [s1] at hj
    rw [s2 i (by omega), s2 j hj]
    exact hsort i j hij (by omega)
  · intro i hi
    rw [s1] at hi
    rw [s2 i hi, s5 i hi]
    have := ho.recs i (by omega)
    refine ⟨(hrng _).2 ⟨this.1, ?_⟩, hkv _ _ this.2⟩
    by_cases e : i = mid - 1
    · rw [e]
    · exact le_of_lt (hsort i (mid - 1) (by omega) (by omega))

theorem leafOk_right {t t' : BTreeIndex} {g g' : Ghost} {x R mid : Nat}
    (ho : LeafOk t g x) (hbl : (t.buffercache.blocks x).isLeaf = true)
    (hs : SplitRight (t.buffercache.blocks x) (t'.buffercache.blocks R) mid)
    (h1 : 1 ≤ mid) (h2 : mid < (t.buffercache.blocks x).info.numkeys)
    (hrng : ∀ k, g'.rng R k ↔ (g.rng x k ∧ (t.buffercache.blocks x).keys (mid - 1) < k))
    (hkv : ∀ k v, g.kv k = some v → g'.kv k = some v) :
    LeafOk t' g' R := by
  obtain ⟨s1, s2, s3, _⟩ := hs
  obtain ⟨_, s5⟩ := s3 hbl
  have hsort := ho.sorted
  refine { sorted := ?_, recs := ?_ }
  · intro i j hij hj
    rw [s1] at hj
    rw [s2 i (by omega), s2 j hj]
    exact hsort _ _ (by omega) (by omega)
  · intro i hi
    rw [s1] at hi
    rw [s2 i hi, s5 i hi]
    have := ho.recs (mid + i) (by omega)
    exact ⟨(hrng _).2 ⟨this.1, hsort _ _ (by omega) (by omega)⟩, hkv _ _ this.2⟩

theorem interiorOk_parent {t t' : BTreeIndex} {g g' : Ghost} {p x L R j sk : Nat}
    (ho : InteriorOk t g p)
    (hv0 : ValidIdx (t.buffercache.blocks p) (g.dead p) j)
    (hnp : ParentWith (t.buffercache.blocks p) (t'.buffercache.blocks p) j sk L R)
    (hxr : ∀ k, g.rng x k ↔ InSlice (t.buffercache.blocks p) (g.rng p) j k)
    (hsk : g.rng x sk) (hup : j < (t.buffercache.blocks p).info.numkeys →
      sk < (t.buffercache.blocks p).keys j)
    (hskv : g'.kv sk ≠ none)
    (hrng : ∀ k, g'.rng p k ↔ g.rng p k) (hdead : g'.dead p = g.dead p)
    (hlvl : g'.lvl p = g.lvl p) (hkv : ∀ k, g.kv k ≠ none → g'.kv k ≠ none)
    (hL : IsTree t' g' L ∧ L ≠ t'.superblock.info.rootnode ∧ g'.lvl L + 1 = g.lvl p ∧
      ∀ k, g'.rng L k ↔ (g.rng x k ∧ k ≤ sk))
    (hR : IsTree t' g' R ∧ R ≠ t'.superblock.info.rootnode ∧ g'.lvl R + 1 = g.lvl p ∧
      ∀ k, g'.rng R k ↔ (g.rng x k ∧ sk < k))
    (hch : ∀ i, ValidIdx (t.buffercache.blocks p) (g.dead p) i → i ≠ j →
      IsTree t' g' ((t.buffercache.blocks p).ptrs i) ∧
      (t.buffercache.blocks p).ptrs i ≠ t'.superblock.info.rootnode ∧
      g'.lvl ((t.buffercache.blocks p).ptrs i) = g.lvl ((t.buffercache.blocks p).ptrs i) ∧
      ∀ k, g'.rng ((t.buffercache.blocks p).ptrs i) k ↔ g.rng ((t.buffercache.blocks p).ptrs i) k) :
    InteriorOk t' g' p := by
  obtain ⟨_, n1, n2, n3⟩ := hnp
  have hsort := ho.sorted
  have hjn : j ≤ (t.buffercache.blocks p).info.numkeys := by
    rcases hv0 with h | h <;> omega
  have hskp := (hxr sk).1 hsk
  have hlow : 0 < j → (t.buffercache.blocks p).keys (j - 1) < sk := hskp.2.1
  refine { pos := ?_, sorted := ?_, keys := ?_, child := ?_, dead := ?_ }
  · omega
  · intro a b hab hb
    rw [n1] at hb
    rw [n2 a (by omega), n2 b (by omega)]
    by_cases ha : a < j
    · simp only [ha, if_true]
      by_cases hbj : b < j
      · simp only [hbj, if_true]; exact hsort a b hab (by omega)
      · by_cases hbe : b = j
        · simp only [hbe, lt_self_iff_false, if_false, if_true]
          have := hlow (by omega)
          by_cases e : a = j - 1
          · rw [e]; exact this
          · have := hsort a (j - 1) (by omega) (by omega); omega
        · simp only [hbj, hbe, if_false]
          exact hsort a (b - 1) (by omega) (by omega)
    · by_cases hae : a = j
      · have hbj : ¬ b < j := by omega
        have hbe : ¬ b = j := by omega
        simp only [hae, lt_self_iff_false, if_false, if_true, hbj, hbe]
        have := hup (by omega)
        by_cases e : b - 1 = j
        · rw [e]; exact this
        · have := hsort j (b - 1) (by omega) (by omega); omega
      · have hbj : ¬ b < j := by omega
        have hbe : ¬ b = j := by omega
        simp only [ha, hae, hbj, hbe, if_false]
        exact hsort (a - 1) (b - 1) (by omega) (by omega)
  · intro i hi
    rw [n1] at hi
    rw [n2 i (by omega)]
    by_cases h1 : i < j
    · simp only [h1, if_true]
      have := ho.keys i (by omega)
      exact ⟨(hrng _).2 this.1, hkv _ this.2⟩
    · by_cases h2 : i = j
      · simp only [h2, lt_self_iff_false, if_false, if_true]
        exact ⟨(hrng _).2 hskp.1, hskv⟩
      · simp only [h1, h2, if_false]
        have := ho.keys (i - 1) (by omega)
        exact ⟨(hrng _).2 this.1, hkv _ this.2⟩
  · intro i hv
    rw [hdead] at hv
    simp only [ValidIdx, n1] at hv
    have hi : i ≤ (t.buffercache.blocks p).info.numkeys + 1 := by
      rcases hv with h | h <;> omega
    rw [n3 i hi]
    by_cases h1 : i < j
    · simp only [h1, if_true]
      have hvo : ValidIdx (t.buffercache.blocks p) (g.dead p) i := Or.inl (by omega)
      obtain ⟨c1, c2, c3, c4⟩ := hch i hvo (by omega)
      obtain ⟨_, _, o3, o4⟩ := ho.child i hvo
      refine ⟨c1, c2, by rw [c3, hlvl]; exact o3, ?_⟩
      intro k
      rw [c4 k, o4 k]
      simp only [InSlice, hrng k, n1]
      have e1 : i - 1 ≤ (t.buffercache.blocks p).info.numkeys := by omega
      have e2 : i ≤ (t.buffercache.blocks p).info.numkeys := by omega
      rw [n2 _ e1, n2 _ e2]
      have e3 : i - 1 < j := by omega
      simp only [e3, h1, if_true]
      constructor
      · rintro ⟨r1, r2, r3⟩; exact ⟨r1, r2, fun _ => r3 (by omega)⟩
      · rintro ⟨r1, r2, r3⟩; exact ⟨r1, r2, fun _ => r3 (by omega)⟩
    · by_cases h2 : i = j
      · simp only [h2, lt_self_iff_false, if_false, if_true]
        obtain ⟨c1, c2, c3, c4⟩ := hL
        refine ⟨c1, c2, by rw [c3, hlvl], ?_⟩
        intro k
        rw [c4 k, hxr k]
        simp only [InSlice, hrng k, n1]
        have e1 : j - 1 ≤ (t.buffercache.blocks p).info.numkeys := by omega
        rw [n2 _ e1, n2 _ hjn]
        simp only [lt_self_iff_false, if_false, if_true]
        constructor
        · rintro ⟨⟨r1, r2, _⟩, r4⟩
          refine ⟨r1, ?_, fun _ => r4⟩
          intro h0
          have e3 : j - 1 < j := by omega
          simp only [e3, if_true]; exact r2 h0
        · rintro ⟨r1, r2, r3⟩
          have r3' := r3 (by omega)
          refine ⟨⟨r1, ?_, ?_⟩, r3'⟩
          · intro h0
            have := r2 h0
            have e3 : j - 1 < j := by omega
            simp only [e3, if_true] at this; exact this
          · intro h0; have := hup h0; omega
      · by_cases h3 : i = j + 1
        · have h3' : ¬ j + 1 < j := by omega
          have h3'' : ¬ j + 1 = j := by omega
          simp only [h3, h3', h3'', if_false, if_true]
          obtain ⟨c1, c2, c3, c4⟩ := hR
          refine ⟨c1, c2, by rw [c3, hlvl], ?_⟩
          intro k
          rw [c4 k, hxr k]
          simp only [InSlice, hrng k, n1, Nat.add_sub_cancel]
          rw [n2 _ hjn]
          simp only [lt_self_iff_false, if_false, if_true]
          constructor
          · rintro ⟨⟨r1, _, r3⟩, r4⟩
            refine ⟨r1, fun _ => r4, ?_⟩
            intro h0
            rw [n2 _ (by omega)]
            simp only [h3', h3'', if_false, Nat.add_sub_cancel]
            exact r3 (by omega)
          · rintro ⟨r1, r2, r3⟩
            have r2' := r2 (by omega)
            refine ⟨⟨r1, ?_, ?_⟩, r2'⟩
            · intro h0; have := hlow h0; omega
            · intro h0
              have := r3 (by omega)
              rw [n2 _ (by omega)] at this
              simp only [h3', h3'', if_false, Nat.add_sub_cancel] at this
              exact this
        · simp only [h1, h2, h3, if_false]
          have hvo : ValidIdx (t.buffercache.blocks p) (g.dead p) (i - 1) := by
            rcases hv with h | h
            · left; omega
            · right; exact ⟨by omega, h.2⟩
          obtain ⟨c1, c2, c3, c4⟩ := hch (i - 1) hvo (by omega)
          obtain ⟨_, _, o3, o4⟩ := ho.child (i - 1) hvo
          refine ⟨c1, c2, by rw [c3, hlvl]; exact o3, ?_⟩
          intro k
          rw [c4 k, o4 k]
          simp only [InSlice, hrng k, n1]
          have e1 : i - 1 ≤ (t.buffercache.blocks p).info.numkeys := by omega
          rw [n2 _ e1]
          have e3 : ¬ i - 1 < j := by omega
          have e4 : ¬ i - 1 = j := by omega
          simp only [e3, e4, if_false]
          constructor
          · rintro ⟨r1, r2, r3⟩
            refine ⟨r1, fun _ => r2 (by omega), ?_⟩
            intro h0
            rw [n2 _ (by omega)]
            simp only [h1, h2, if_false]
            exact r3 (by omega)
          · rintro ⟨r1, r2, r3⟩
            refine ⟨r1, fun _ => r2 (by omega), ?_⟩
            intro h0
            have := r3 (by omega)
            rw [n2 _ (by omega)] at this
            simp only [h1, h2, if_false] at this
            exact this
  · intro hd k hk
    rw [hdead] at hd
    have hj : j < (t.buffercache.blocks p).info.numkeys := by
      rcases hv0 with h | h
      · exact h
      · rw [hd] at h; simp at h
    rw [n1, Nat.add_sub_cancel, n2 _ (le_refl _)]
    have e3 : ¬ (t.buffercache.blocks p).info.numkeys < j := by omega
    have e4 : ¬ (t.buffercache.blocks p).info.numkeys = j := by omega
    simp only [e3, e4, if_false]
    exact ho.dead hd k ((hrng k).1 hk)

theorem interiorOk_newroot {t' : BTreeIndex} {g' : Ghost} {q L R sk : Nat}
    (hn : (t'.buffercache.blocks q).info.numkeys = 1)
    (hk0 : (t'.buffercache.blocks q).keys 0 = sk)
    (hp0 : (t'.buffercache.blocks q).ptrs 0 = L) (hp1 : (t'.buffercache.blocks q).ptrs 1 = R)
    (hrng : ∀ k, g'.rng q k) (hdead : g'.dead q = false) (hskv : g'.kv sk ≠ none)
    (hL : IsTree t' g' L ∧ L ≠ t'.superblock.info.rootnode ∧ g'.lvl L + 1 = g'.lvl q ∧
      ∀ k, g'.rng L k ↔ k ≤ sk)
    (hR : IsTree t' g' R ∧ R ≠ t'.superblock.info.rootnode ∧ g'.lvl R + 1 = g'.lvl q ∧
      ∀ k, g'.rng R k ↔ sk < k) :
    InteriorOk t' g' q := by
  refine { pos := ?_, sorted := ?_, keys := ?_, child := ?_, dead := ?_ }
  · omega
  · intro a b hab hb; omega
  · intro i hi
    have e : i = 0 := by omega
    subst e
    rw [hk0]; exact ⟨hrng _, hskv⟩
  · intro i hv
    have hi : i = 0 ∨ i = 1 := by
      rcases hv with h | h <;> omega
    rcases hi with e | e
    · subst e
      rw [hp0]
      obtain ⟨c1, c2, c3, c4⟩ := hL
      refine ⟨c1, c2, c3, ?_⟩
      intro k
      rw [c4 k]
      simp only [InSlice, hn, hk0, hrng k, true_and, lt_self_iff_false, false_implies,
        Nat.zero_lt_one, true_implies]
    · subst e
      rw [hp1]
      obtain ⟨c1, c2, c3, c4⟩ := hR
      refine ⟨c1, c2, c3, ?_⟩
      intro k
      rw [c4 k]
      simp only [InSlice, hn, hk0, hrng k, true_and, lt_self_iff_false, false_implies,
        Nat.zero_lt_one, true_implies, Nat.sub_self, and_true]
  · intro hd; rw [hdead] at hd; simp at hd

/-! ## Replacing a split node in its parent -/

theorem isTree_cases {t : BTreeIndex} {g : Ghost} {a : Nat} (h : IsTree t g a) :
    (t.buffercache.blocks a).isInterior = true ∨ (t.buffercache.blocks a).isLeaf = true := h.2.2

theorem split_key_facts {t : BTreeIndex} {g : Ghost} {over : Option Nat} (hI : Inv t g over)
    {x : Nat} (hx : IsTree t g x) (i : Nat) (hi : i < (t.buffercache.blocks x).info.numkeys) :
    g.rng x ((t.buffercache.blocks x).keys i) ∧ g.kv ((t.buffercache.blocks x).keys i) ≠ none := by
  rcases hx.2.2 with h | h
  · exact (hI.interior x hx h).keys i hi
  · have := (hI.leaf x hx h).recs i hi
    exact ⟨this.1, by rw [this.2]; simp⟩

theorem node_sorted {t : BTreeIndex} {g : Ghost} {over : Option Nat} (hI : Inv t g over)
    {x : Nat} (hx : IsTree t g x) : SortedKeys (t.buffercache.blocks x) := by
  rcases hx.2.2 with h | h
  · exact (hI.interior x hx h).sorted
  · exact (hI.leaf x hx h).sorted

/-- A node of the tree sits in one pointer slot of one interior node only. -/
theorem child_unique {t : BTreeIndex} {g : Ghost} {over : Option Nat} (hI : Inv t g over)
    {a p x i j k : Nat} (ha : IsTree t g a) (hai : (t.buffercache.blocks a).isInterior = true)
    (hp : IsTree t g p) (hpi : (t.buffercache.blocks p).isInterior = true)
    (hi : ValidIdx (t.buffercache.blocks a) (g.dead a) i) (hj : ValidIdx (t.buffercache.blocks p) (g.dead p) j)
    (hxa : (t.buffercache.blocks a).ptrs i = x) (hxp : (t.buffercache.blocks p).ptrs j = x)
    (hk : g.rng x k) : a = p ∧ i = j := by
  obtain ⟨_, _, a3, a4⟩ := (hI.interior a ha hai).child i hi
  obtain ⟨_, _, p3, p4⟩ := (hI.interior p hp hpi).child j hj
  rw [hxa] at a3 a4
  rw [hxp] at p3 p4
  have sa := (a4 k).1 hk
  have sp := (p4 k).1 hk
  have e := hI.disj a p ha hp (by omega) k sa.1 sp.1
  subst e
  refine ⟨rfl, ?_⟩
  have hs := (hI.interior a ha hai).sorted
  have hin : i ≤ (t.buffercache.blocks a).info.numkeys := by rcases hi with h | h <;> omega
  have hjn : j ≤ (t.buffercache.blocks a).info.numkeys := by rcases hj with h | h <;> omega
  rcases Nat.lt_trichotomy i j with h | h | h
  · exfalso
    have h1 := sa.2.2 (by omega)
    have h2 := sp.2.1 (by omega)
    by_cases e : i = j - 1
    · rw [e] at h1; omega
    · have := hs i (j - 1) (by omega) (by omega); omega
  · exact h
  · exfalso
    have h1 := sp.2.2 (by omega)
    have h2 := sa.2.1 (by omega)
    by_cases e : j = i - 1
    · rw [e] at h1; omega
    · have := hs j (i - 1) (by omega) (by omega); omega

theorem linkH_x_ne_p {t : BTreeIndex} {g : Ghost} {x p L R mid j : Nat} {np : BTreeNode}
    (h : LinkH t g x p L R mid j np) : x ≠ p := by
  intro e
  have := ((h.inv.interior p h.p_tree h.p_int).child j h.p_idx).2.2.1
  rw [h.p_ptr, e] at this
  omega

theorem junk_not_tree {t : BTreeIndex} {g : Ghost} {a : Nat} (hj : g.junk a) : ¬ IsTree t g a :=
  fun h => h.2.1 hj

theorem linkH_blocks {t : BTreeIndex} {g : Ghost} {x p L R mid j : Nat} {np : BTreeNode}
    (_h : LinkH t g x p L R mid j np) (a : Nat) (ha : a ≠ p) :
    (t.withBlock p np).buffercache.blocks a = t.buffercache.blocks a := by
  simp [BTreeIndex.withBlock, Function.update_noteq ha]

theorem linkH_block_p {t : BTreeIndex} {g : Ghost} {x p L R mid j : Nat} {np : BTreeNode}
    (_h : LinkH t g x p L R mid j np) :
    (t.withBlock p np).buffercache.blocks p = np := by
  simp [BTreeIndex.withBlock]

theorem split_left_node {b lb : BTreeNode} {mid : Nat} (hs : SplitLeft b lb mid)
    (hb : b.isInterior = true ∨ b.isLeaf = true) :
    (lb.isInterior = true ∨ lb.isLeaf = true) ∧ (lb.isLeaf = b.isLeaf) ∧
      lb.info.nodetype ≠ BTREE_ROOT_NODE := by
  obtain ⟨_, _, s3, s4⟩ := hs
  rcases hb with h | h
  · have hty := (s4 h).1
    have hl : b.isLeaf = false := by
      cases hbl : b.isLeaf with
      | false => rfl
      | true => rw [isLeaf_not_isInterior b hbl] at h; simp at h
    refine ⟨Or.inl (by simp [BTreeNode.isInterior, hty]), ?_, by rw [hty]; decide⟩
    rw [hl]; simp [BTreeNode.isLeaf, hty]
  · have := (s3 h).1
    refine ⟨Or.inr this, by rw [this, h], ?_⟩
    rw [(isLeaf_iff lb).1 this]; decide

theorem split_right_node {b rb : BTreeNode} {mid : Nat} (hs : SplitRight b rb mid)
    (hb : b.isInterior = true ∨ b.isLeaf = true) :
    (rb.isInterior = true ∨ rb.isLeaf = true) ∧ (rb.isLeaf = b.isLeaf) ∧
      rb.info.nodetype ≠ BTREE_ROOT_NODE := by
  obtain ⟨_, _, s3, s4⟩ := hs
  rcases hb with h | h
  · have hty := (s4 h).1
    have hl : b.isLeaf = false := by
      cases hbl : b.isLeaf with
      | false => rfl
      | true => rw [isLeaf_not_isInterior b hbl] at h; simp at h
    refine ⟨Or.inl (by simp [BTreeNode.isInterior, hty]), ?_, by rw [hty]; decide⟩
    rw [hl]; simp [BTreeNode.isLeaf, hty]
  · have := (s3 h).1
    refine ⟨Or.inr this, by rw [this, h], ?_⟩
    rw [(isLeaf_iff rb).1 this]; decide

theorem linkH_tree_iff {t : BTreeIndex} {g : Ghost} {x p L R mid j : Nat} {np : BTreeNode}
    (h : LinkH t g x p L R mid j np) (a : Nat) :
    IsTree (t.withBlock p np) (linkGhost g x L R ((t.buffercache.blocks x).keys (mid - 1))
      (t.buffercache.blocks x).isInterior) a ↔
      (a = L ∨ a = R ∨ (IsTree t g a ∧ a ≠ x)) := by
  have hLp : L ≠ p := fun e => junk_not_tree h.l_junk (e ▸ h.p_tree)
  have hRp : R ≠ p := fun e => junk_not_tree h.r_junk (e ▸ h.p_tree)
  have hLx : L ≠ x := fun e => junk_not_tree h.l_junk (e ▸ h.x_tree)
  have hRx : R ≠ x := fun e => junk_not_tree h.r_junk (e ▸ h.x_tree)
  have hjL := h.inv.junk_ok L h.l_junk
  have hjR := h.inv.junk_ok R h.r_junk
  by_cases eL : a = L
  · subst eL
    simp only [IsTree, linkH_blocks h a hLp, linkGhost, true_or, iff_true]
    exact ⟨hjL.1, by simp [hLx], hjL.2⟩
  · by_cases eR : a = R
    · subst eR
      simp only [IsTree, linkH_blocks h a hRp, linkGhost, true_or, or_true, iff_true]
      exact ⟨hjR.1, by simp [hRx], hjR.2⟩
    · simp only [eL, eR, false_or]
      by_cases ep : a = p
      · subst ep
        have hnt : ((t.withBlock a np).buffercache.blocks a).isInterior = true := by
          rw [linkH_block_p h]
          have := h.parent.1
          have hp := h.p_int
          simp only [BTreeNode.isInterior] at hp ⊢
          rw [this]; exact hp
        simp only [IsTree, linkGhost, eL, eR, ne_eq, not_false_eq_true, and_true, hnt, true_or]
        constructor
        · rintro ⟨h1, h2⟩
          exact ⟨⟨h1, fun hj => h2 (Or.inl hj), Or.inl h.p_int⟩, fun e => h2 (Or.inr e)⟩
        · rintro ⟨⟨h1, h2, _⟩, h4⟩
          exact ⟨h1, fun hj => hj.elim h2 h4⟩
      · simp only [IsTree, linkH_blocks h a ep, linkGhost, eL, eR, ne_eq, not_false_eq_true,
          and_true]
        constructor
        · rintro ⟨h1, h2, h3⟩
          exact ⟨⟨h1, fun hj => h2 (Or.inl hj), h3⟩, fun e => h2 (Or.inr e)⟩
        · rintro ⟨⟨h1, h2, h3⟩, h4⟩
          exact ⟨h1, fun hj => hj.elim h2 h4, h3⟩

theorem linkGhost_lvl_other (g : Ghost) (x L R sk : Nat) (b : Bool) (a : Nat) (h1 : a ≠ L)
    (h2 : a ≠ R) : (linkGhost g x L R sk b).lvl a = g.lvl a := by
  simp [linkGhost, h1, h2]

theorem linkGhost_rng_other (g : Ghost) (x L R sk : Nat) (b : Bool) (a : Nat) (h1 : a ≠ L)
    (h2 : a ≠ R) (k : Nat) : (linkGhost g x L R sk b).rng a k ↔ g.rng a k := by
  simp [linkGhost, h1, h2]

theorem linkGhost_dead_other (g : Ghost) (x L R sk : Nat) (b : Bool) (a : Nat) (h1 : a ≠ L)
    (h2 : a ≠ R) : (linkGhost g x L R sk b).dead a = g.dead a := by
  simp [linkGhost, h1, h2]

theorem linkGhost_rng_L (g : Ghost) (x L R sk : Nat) (b : Bool) (k : Nat) :
    (linkGhost g x L R sk b).rng L k ↔ (g.rng x k ∧ k ≤ sk) := by
  simp [linkGhost]

theorem linkGhost_rng_R (g : Ghost) (x L R sk : Nat) (b : Bool) (k : Nat) (h : L ≠ R) :
    (linkGhost g x L R sk b).rng R k ↔ (g.rng x k ∧ sk < k) := by
  simp [linkGhost, Ne.symm h]

theorem linkGhost_lvl_L (g : Ghost) (x L R sk : Nat) (b : Bool) :
    (linkGhost g x L R sk b).lvl L = g.lvl x := by
  simp [linkGhost]

theorem linkGhost_lvl_R (g : Ghost) (x L R sk : Nat) (b : Bool) :
    (linkGhost g x L R sk b).lvl R = g.lvl x := by
  simp [linkGhost]

/-- An old node of the tree other than the split node is a node of the new tree with the
same ghost data. -/
theorem linkH_old {t : BTreeIndex} {g : Ghost} {x p L R mid j : Nat} {np : BTreeNode}
    (h : LinkH t g x p L R mid j np) {c : Nat} (hc : IsTree t g c) (hcx : c ≠ x) :
    IsTree (t.withBlock p np) (linkGhost g x L R ((t.buffercache.blocks x).keys (mid - 1))
      (t.buffercache.blocks x).isInterior) c ∧
    c ≠ L ∧ c ≠ R ∧
    (linkGhost g x L R ((t.buffercache.blocks x).keys (mid - 1))
      (t.buffercache.blocks x).isInterior).lvl c = g.lvl c ∧
    (∀ k, (linkGhost g x L R ((t.buffercache.blocks x).keys (mid - 1))
      (t.buffercache.blocks x).isInterior).rng c k ↔ g.rng c k) ∧
    (linkGhost g x L R ((t.buffercache.blocks x).keys (mid - 1))
      (t.buffercache.blocks x).isInterior).dead c = g.dead c := by
  have hL : c ≠ L := fun e => junk_not_tree h.l_junk (e ▸ hc)
  have hR : c ≠ R := fun e => junk_not_tree h.r_junk (e ▸ hc)
  exact ⟨(linkH_tree_iff h c).2 (Or.inr (Or.inr ⟨hc, hcx⟩)), hL, hR,
    linkGhost_lvl_other _ _ _ _ _ _ _ hL hR, linkGhost_rng_other _ _ _ _ _ _ _ hL hR,
    linkGhost_dead_other _ _ _ _ _ _ _ hL hR⟩

theorem linkH_sk {t : BTreeIndex} {g : Ghost} {x p L R mid j : Nat} {np : BTreeNode}
    (h : LinkH t g x p L R mid j np) :
    g.rng x ((t.buffercache.blocks x).keys (mid - 1)) ∧
    g.kv ((t.buffercache.blocks x).keys (mid - 1)) ≠ none :=
  split_key_facts h.inv h.x_tree (mid - 1) (by have := h.mid_lt; omega)

/-- The children of an old interior node are old nodes other than the split node, unless
the node is the parent and the slot is the one of the split node. -/
theorem linkH_child {t : BTreeIndex} {g : Ghost} {x p L R mid j : Nat} {np : BTreeNode}
    (h : LinkH t g x p L R mid j np) {a i : Nat} (ha : IsTree t g a)
    (hai : (t.buffercache.blocks a).isInterior = true)
    (hi : ValidIdx (t.buffercache.blocks a) (g.dead a) i) (hne : ¬ (a = p ∧ i = j)) :
    IsTree (t.withBlock p np) (linkGhost g x L R ((t.buffercache.blocks x).keys (mid - 1))
      (t.buffercache.blocks x).isInterior) ((t.buffercache.blocks a).ptrs i) ∧
    (t.buffercache.blocks a).ptrs i ≠ (t.withBlock p np).superblock.info.rootnode ∧
    (linkGhost g x L R ((t.buffercache.blocks x).keys (mid - 1))
      (t.buffercache.blocks x).isInterior).lvl ((t.buffercache.blocks a).ptrs i)
        = g.lvl ((t.buffercache.blocks a).ptrs i) ∧
    ∀ k, (linkGhost g x L R ((t.buffercache.blocks x).keys (mid - 1))
      (t.buffercache.blocks x).isInterior).rng ((t.buffercache.blocks a).ptrs i) k
        ↔ g.rng ((t.buffercache.blocks a).ptrs i) k := by
  obtain ⟨c1, c2, _, _⟩ := (h.inv.interior a ha hai).child i hi
  have hcx : (t.buffercache.blocks a).ptrs i ≠ x := by
    intro e
    exact hne (child_unique h.inv ha hai h.p_tree h.p_int hi h.p_idx e h.p_ptr (linkH_sk h).1)
  obtain ⟨o1, _, _, o4, o5, _⟩ := linkH_old h c1 hcx
  exact ⟨o1, c2, o4, o5⟩

/-- Replacing the over-full node `x` in its parent `p` by its two halves keeps the
invariant; the parent may now be the node with one key too many, and `x` is left as a
block outside the tree. -/
theorem inv_link {t : BTreeIndex} {g : Ghost} {x p L R mid j : Nat} {np : BTreeNode}
    (h : LinkH t g x p L R mid j np) :
    Inv (t.withBlock p np)
      (linkGhost g x L R ((t.buffercache.blocks x).keys (mid - 1))
        (t.buffercache.blocks x).isInterior)
      (if (t.buffercache.blocks p).info.numkeys + 1 > threshold t then some p else none) := by
  have hI := h.inv
  have hxp := linkH_x_ne_p h
  have hp0 := isTree_ne_zero hI h.p_tree
  have hLp : L ≠ p := fun e => junk_not_tree h.l_junk (e ▸ h.p_tree)
  have hRp : R ≠ p := fun e => junk_not_tree h.r_junk (e ▸ h.p_tree)
  have hLx : L ≠ x := fun e => junk_not_tree h.l_junk (e ▸ h.x_tree)
  have hRx : R ≠ x := fun e => junk_not_tree h.r_junk (e ▸ h.x_tree)
  have hLroot : L ≠ t.superblock.info.rootnode := fun e => junk_not_tree h.l_junk (e ▸ hI.root_tree)
  have hRroot : R ≠ t.superblock.info.rootnode := fun e => junk_not_tree h.r_junk (e ▸ hI.root_tree)
  have hbL := linkH_blocks h L hLp
  have hbR := linkH_blocks h R hRp
  have hbp := linkH_block_p h
  have hsL := split_left_node h.left h.x_tree.2.2
  have hsR := split_right_node h.right h.x_tree.2.2
  have hsk := linkH_sk h
  have hpo := hI.interior p h.p_tree h.p_int
  obtain ⟨_, _, px3, px4⟩ := hpo.child j h.p_idx
  rw [h.p_ptr] at px3 px4
  have htL := (linkH_tree_iff h L).2 (Or.inl rfl)
  have htR := (linkH_tree_iff h R).2 (Or.inr (Or.inl rfl))
  have hkvne : ∀ k, g.kv k ≠ none → (linkGhost g x L R ((t.buffercache.blocks x).keys (mid - 1))
      (t.buffercache.blocks x).isInterior).kv k ≠ none := fun _ hk => hk
  have hkvsome : ∀ k v, g.kv k = some v → (linkGhost g x L R ((t.buffercache.blocks x).keys (mid - 1))
      (t.buffercache.blocks x).isInterior).kv k = some v := fun _ _ hk => hk
  have hxlt := hI.lvl_lt x h.x_tree h.x_root
  refine
    { sb_index := hI.sb_index,
      sb_block := by rw [linkH_blocks h 0 (Ne.symm hp0)]; exact hI.sb_block,
      sb_type := hI.sb_type, thr := hI.thr,
      root_tree := (linkH_old h hI.root_tree (Ne.symm h.x_root)).1,
      root_rng := fun k => ((linkH_old h hI.root_tree (Ne.symm h.x_root)).2.2.2.2.1 k).2
        (hI.root_rng k),
      root_type := ?_, leaf_lvl := ?_, lvl_lt := ?_, disj := ?_, interior := ?_, leaf := ?_,
      size := ?_, stored := ?_, free_chain := ?_, free_nodup := hI.free_nodup, junk_ok := ?_ }
  · -- root_type
    intro a ha
    rcases (linkH_tree_iff h a).1 ha with e | e | ⟨hao, hax⟩
    · subst e
      rw [hbL]
      exact ⟨fun hh => absurd hh hsL.2.2, fun hh => absurd hh hLroot⟩
    · subst e
      rw [hbR]
      exact ⟨fun hh => absurd hh hsR.2.2, fun hh => absurd hh hRroot⟩
    · by_cases ep : a = p
      · subst ep
        rw [hbp, h.parent.1]; exact hI.root_type a hao
      · rw [linkH_blocks h a ep]; exact hI.root_type a hao
  · -- leaf_lvl
    intro a ha
    rcases (linkH_tree_iff h a).1 ha with e | e | ⟨hao, hax⟩
    · subst e
      rw [hbL, hsL.2.1, linkGhost_lvl_L]; exact hI.leaf_lvl x h.x_tree
    · subst e
      rw [hbR, hsR.2.1, linkGhost_lvl_R]; exact hI.leaf_lvl x h.x_tree
    · rw [(linkH_old h hao hax).2.2.2.1]
      by_cases ep : a = p
      · subst ep
        rw [hbp]
        have e1 : np.isLeaf = (t.buffercache.blocks a).isLeaf := by
          simp only [BTreeNode.isLeaf, h.parent.1]
        rw [e1]; exact hI.leaf_lvl a hao
      · rw [linkH_blocks h a ep]; exact hI.leaf_lvl a hao
  · -- lvl_lt
    intro a ha hne
    have hroot := (linkH_old h hI.root_tree (Ne.symm h.x_root)).2.2.2.1
    rcases (linkH_tree_iff h a).1 ha with e | e | ⟨hao, hax⟩
    · subst e; rw [linkGhost_lvl_L]; exact lt_of_lt_of_eq hxlt hroot.symm
    · subst e; rw [linkGhost_lvl_R]; exact lt_of_lt_of_eq hxlt hroot.symm
    · rw [(linkH_old h hao hax).2.2.2.1]
      exact lt_of_lt_of_eq (hI.lvl_lt a hao hne) hroot.symm
  · -- disj
    intro a a' ha ha' hl k hk hk'
    rcases (linkH_tree_iff h a).1 ha with e | e | ⟨hao, hax⟩
    · subst e
      rw [linkGhost_lvl_L] at hl
      rw [linkGhost_rng_L] at hk
      rcases (linkH_tree_iff h a').1 ha' with e' | e' | ⟨hao', hax'⟩
      · exact e'.symm
      · subst e'
        rw [linkGhost_rng_R _ _ _ _ _ _ _ h.l_ne_r] at hk'
        omega
      · obtain ⟨_, _, _, o4, o5, _⟩ := linkH_old h hao' hax'
        rw [o4] at hl
        exact absurd (hI.disj a' x hao' h.x_tree hl.symm k ((o5 k).1 hk') hk.1) hax'
    · subst e
      rw [linkGhost_lvl_R] at hl
      rw [linkGhost_rng_R _ _ _ _ _ _ _ h.l_ne_r] at hk
      rcases (linkH_tree_iff h a').1 ha' with e' | e' | ⟨hao', hax'⟩
      · subst e'
        rw [linkGhost_rng_L] at hk'
        omega
      · exact e'.symm
      · obtain ⟨_, _, _, o4, o5, _⟩ := linkH_old h hao' hax'
        rw [o4] at hl
        exact absurd (hI.disj a' x hao' h.x_tree hl.symm k ((o5 k).1 hk') hk.1) hax'
    · obtain ⟨_, _, _, o4, o5, _⟩ := linkH_old h hao hax
      rw [o4] at hl
      have hk0 := (o5 k).1 hk
      rcases (linkH_tree_iff h a').1 ha' with e' | e' | ⟨hao', hax'⟩
      · subst e'
        rw [linkGhost_lvl_L] at hl
        rw [linkGhost_rng_L] at hk'
        exact absurd (hI.disj a x hao h.x_tree hl k hk0 hk'.1) hax
      · subst e'
        rw [linkGhost_lvl_R] at hl
        rw [linkGhost_rng_R _ _ _ _ _ _ _ h.l_ne_r] at hk'
        exact absurd (hI.disj a x hao h.x_tree hl k hk0 hk'.1) hax
      · obtain ⟨_, _, _, o4', o5', _⟩ := linkH_old h hao' hax'
        rw [o4'] at hl
        exact hI.disj a a' hao hao' hl k hk0 ((o5' k).1 hk')
  · -- interior
    intro a ha hai
    rcases (linkH_tree_iff h a).1 ha with e | e | ⟨hao, hax⟩
    · subst e
      rw [hbL] at hai
      have hxi : (t.buffercache.blocks x).isInterior = true := by
        rcases h.x_tree.2.2 with hh | hh
        · exact hh
        · have := hsL.2.1
          rw [hh] at this
          rw [isLeaf_not_isInterior _ this] at hai
          simp at hai
      have hxo := hI.interior x h.x_tree hxi
      refine interiorOk_left hxo hxi (by rw [hbL]; exact h.left) h.mid_pos h.mid_lt
        (fun k => linkGhost_rng_L _ _ _ _ _ _ _) ?_ (linkGhost_lvl_L _ _ _ _ _ _) hkvne ?_
      · simp [linkGhost, hxi]
      · intro i hi
        have hv : ValidIdx (t.buffercache.blocks x) (g.dead x) i := Or.inl (by have := h.mid_lt; omega)
        exact linkH_child h h.x_tree hxi hv (fun e => hxp e.1)
    · subst e
      rw [hbR] at hai
      have hxi : (t.buffercache.blocks x).isInterior = true := by
        rcases h.x_tree.2.2 with hh | hh
        · exact hh
        · have := hsR.2.1
          rw [hh] at this
          rw [isLeaf_not_isInterior _ this] at hai
          simp at hai
      have hxo := hI.interior x h.x_tree hxi
      refine interiorOk_right hxo hxi (by rw [hbR]; exact h.right) h.mid_pos h.mid_lt
        (fun k => linkGhost_rng_R _ _ _ _ _ _ _ h.l_ne_r) ?_ (linkGhost_lvl_R _ _ _ _ _ _) hkvne ?_
      · simp [linkGhost, Ne.symm h.l_ne_r]
      · intro i _ hv
        exact linkH_child h h.x_tree hxi hv (fun e => hxp e.1)
    · obtain ⟨_, oL, oR, o4, o5, o6⟩ := linkH_old h hao hax
      by_cases ep : a = p
      · subst ep
        refine interiorOk_parent hpo h.p_idx (by rw [hbp]; exact h.parent) px4 hsk.1 ?_ hsk.2
          o5 o6 o4 hkvne ⟨htL, hLroot, ?_, fun k => linkGhost_rng_L _ _ _ _ _ _ _⟩
          ⟨htR, hRroot, ?_, fun k => linkGhost_rng_R _ _ _ _ _ _ _ h.l_ne_r⟩ ?_
        · intro hj
          have hs := node_sorted hI h.x_tree
          have hlast := (split_key_facts hI h.x_tree ((t.buffercache.blocks x).info.numkeys - 1)
            (by have := h.mid_lt; omega)).1
          have h1 := ((px4 _).1 hlast).2.2 hj
          have h2 := hs (mid - 1) ((t.buffercache.blocks x).info.numkeys - 1)
            (by have := h.mid_lt; have := h.mid_pos; omega) (by have := h.mid_lt; omega)
          omega
        · rw [linkGhost_lvl_L]; exact px3
        · rw [linkGhost_lvl_R]; exact px3
        · intro i hv hij
          exact linkH_child h h.p_tree h.p_int hv (fun e => hij e.2)
      · have hb := linkH_blocks h a ep
        rw [hb] at hai
        refine interiorOk_same (hI.interior a hao hai) hb o5 o6 o4 hkvne ?_
        intro i hv
        exact linkH_child h hao hai hv (fun e => ep e.1)
  · -- leaf
    intro a ha hal
    rcases (linkH_tree_iff h a).1 ha with e | e | ⟨hao, hax⟩
    · subst e
      rw [hbL, hsL.2.1] at hal
      exact leafOk_left (hI.leaf x h.x_tree hal) hal (by rw [hbL]; exact h.left) h.mid_pos
        h.mid_lt (fun k => linkGhost_rng_L _ _ _ _ _ _ _) hkvsome
    · subst e
      rw [hbR, hsR.2.1] at hal
      exact leafOk_right (hI.leaf x h.x_tree hal) hal (by rw [hbR]; exact h.right) h.mid_pos
        h.mid_lt (fun k => linkGhost_rng_R _ _ _ _ _ _ _ h.l_ne_r) hkvsome
    · obtain ⟨_, oL, oR, o4, o5, o6⟩ := linkH_old h hao hax
      have ep : a ≠ p := by
        intro e; subst e
        rw [hbp] at hal
        have e1 : np.isLeaf = (t.buffercache.blocks a).isLeaf := by
          simp only [BTreeNode.isLeaf, h.parent.1]
        rw [e1] at hal
        have := isLeaf_not_isInterior _ hal
        rw [h.p_int] at this
        simp at this
      have hb := linkH_blocks h a ep
      rw [hb] at hal
      exact leafOk_same (hI.leaf a hao hal) hb o5 hkvsome
  · -- size
    intro a ha
    have hthr : threshold (t.withBlock p np) = threshold t := rfl
    rw [hthr]
    have hxs := hI.size x h.x_tree
    have hxn : (t.buffercache.blocks x).info.numkeys ≤ threshold t + 1 := by
      rcases hxs with hh | hh <;> omega
    rcases (linkH_tree_iff h a).1 ha with e | e | ⟨hao, hax⟩
    · subst e
      rw [hbL, h.left.1]
      left; have := h.mid_lt; omega
    · subst e
      rw [hbR, h.right.1]
      left; have := h.mid_pos; omega
    · have hs := hI.size a hao
      have hs' : (t.buffercache.blocks a).info.numkeys ≤ threshold t := by
        rcases hs with hh | hh
        · exact hh
        · exact absurd (Option.some.inj hh.1).symm hax
      by_cases ep : a = p
      · subst ep
        rw [hbp, h.parent.2.1]
        by_cases hgt : (t.buffercache.blocks a).info.numkeys + 1 > threshold t
        · right; simp only [hgt, if_true, true_and]; omega
        · left; omega
      · rw [linkH_blocks h a ep]; left; exact hs'
  · -- stored
    intro k v hkv
    obtain ⟨a, ha, hal, i, hi, h1, h2⟩ := hI.stored k v hkv
    by_cases ex : a = x
    · subst ex
      by_cases hm : i < mid
      · obtain ⟨s1, s2, s3, _⟩ := h.left
        obtain ⟨s4, s5⟩ := s3 hal
        exact ⟨L, htL, by rw [hbL]; exact s4, i, by rw [hbL, s1]; exact hm,
          by rw [hbL, s2 i hm]; exact h1, by rw [hbL, s5 i hm]; exact h2⟩
      · obtain ⟨s1, s2, s3, _⟩ := h.right
        obtain ⟨s4, s5⟩ := s3 hal
        have e : mid + (i - mid) = i := by omega
        exact ⟨R, htR, by rw [hbR]; exact s4, i - mid, by rw [hbR, s1]; omega,
          by rw [hbR, s2 (i - mid) (by omega), e]; exact h1,
          by rw [hbR, s5 (i - mid) (by omega), e]; exact h2⟩
    · have ep : a ≠ p := by
        intro e; subst e
        have := isLeaf_not_isInterior _ hal
        rw [h.p_int] at this
        simp at this
      have hb := linkH_blocks h a ep
      exact ⟨a, (linkH_old h ha ex).1, by rw [hb]; exact hal, i, by rw [hb]; exact hi,
        by rw [hb]; exact h1, by rw [hb]; exact h2⟩
  · -- free_chain
    refine @freeChain_frame t.buffercache _ (by rfl) _ _ hI.free_chain ?_
    intro y hy
    have hy' := freeChain_mem _ _ hI.free_chain y hy
    have hyp : y ≠ p := by
      intro e; subst e; exact unalloc_not_node _ hy'.2.2 h.p_tree.2.2
    exact linkH_blocks h y hyp
  · -- junk_ok
    intro y hy
    have hyp : y ≠ p := by
      intro e; subst e
      rcases hy with hh | hh
      · exact junk_not_tree hh.1 h.p_tree
      · exact hxp hh.symm
    rw [linkH_blocks h y hyp]
    rcases hy with hh | hh
    · exact hI.junk_ok y hh.1
    · subst hh; exact ⟨h.x_tree.1, h.x_tree.2.2⟩

theorem linkH_path {t : BTreeIndex} {g : Ghost} {x p L R mid j : Nat} {np : BTreeNode}
    (h : LinkH t g x p L R mid j np) :
    ∀ (path : List Nat) (y : Nat), IsPath t g y path → g.lvl p ≤ g.lvl y →
      IsPath (t.withBlock p np)
        (linkGhost g x L R ((t.buffercache.blocks x).keys (mid - 1))
          (t.buffercache.blocks x).isInterior) y path := by
  have hpx := ((h.inv.interior p h.p_tree h.p_int).child j h.p_idx).2.2.1
  rw [h.p_ptr] at hpx
  intro path
  induction path with
  | nil => intro y hy _; exact hy
  | cons q qs ih =>
    intro y hy hl
    obtain ⟨h1, h2, h3, ⟨i, h4, h5⟩, h6⟩ := hy
    have hq := ((h.inv.interior q h2 h3).child i h4).2.2.1
    rw [h5] at hq
    have hqp : q ≠ p := by intro e; rw [e] at hq; omega
    have hqx : q ≠ x := by intro e; rw [e] at hq; omega
    obtain ⟨o1, _, _, _, _, o6⟩ := linkH_old h h2 hqx
    have hb := linkH_blocks h q hqp
    refine ⟨h1, o1, by rw [hb]; exact h3, ⟨i, ?_, by rw [hb]; exact h5⟩, ih q h6 (by omega)⟩
    rw [hb, o6]; exact h4

theorem isPath_length {t : BTreeIndex} {g : Ghost} {over : Option Nat} (hI : Inv t g over) :
    ∀ (path : List Nat) (y : Nat), IsPath t g y path →
      g.lvl y + path.length = g.lvl t.superblock.info.rootnode := by
  intro path
  induction path with
  | nil => intro y hy; simp only [IsPath] at hy; simp [hy]
  | cons q qs ih =>
    intro y hy
    obtain ⟨_, h2, h3, ⟨i, h4, h5⟩, h6⟩ := hy
    have hq := ((hI.interior q h2 h3).child i h4).2.2.1
    rw [h5] at hq
    have := ih q h6
    simp only [List.length_cons]
    omega

theorem rootH_x_tree {t : BTreeIndex} {g : Ghost} {x L R q mid : Nat}
    (h : RootH t g x L R q mid) : IsTree t g x := by
  rw [h.x_root]; exact h.inv.root_tree

theorem rootH_x_int {t : BTreeIndex} {g : Ghost} {x L R q mid : Nat}
    (h : RootH t g x L R q mid) : (t.buffercache.blocks x).isInterior = true := by
  have := (h.inv.root_type x (rootH_x_tree h)).2 h.x_root
  simp [BTreeNode.isInterior, this]

theorem rootH_blocks {t : BTreeIndex} {g : Ghost} {x L R q mid : Nat}
    (_h : RootH t g x L R q mid) (a : Nat) (ha : a ≠ 0) :
    (t.withRoot q).buffercache.blocks a = t.buffercache.blocks a := by
  simp [BTreeIndex.withRoot, Function.update_noteq ha]

theorem rootH_tree_iff {t : BTreeIndex} {g : Ghost} {x L R q mid : Nat}
    (h : RootH t g x L R q mid) (a : Nat) :
    IsTree (t.withRoot q) (rootGhost g x L R q ((t.buffercache.blocks x).keys (mid - 1))) a ↔
      (a = L ∨ a = R ∨ a = q ∨ (IsTree t g a ∧ a ≠ x)) := by
  have hI := h.inv
  have hx := rootH_x_tree h
  have hL0 := junk_ne_zero hI h.l_junk
  have hR0 := junk_ne_zero hI h.r_junk
  have hq0 := junk_ne_zero hI h.q_junk
  have hLx : L ≠ x := fun e => junk_not_tree h.l_junk (e ▸ hx)
  have hRx : R ≠ x := fun e => junk_not_tree h.r_junk (e ▸ hx)
  have hqx : q ≠ x := fun e => junk_not_tree h.q_junk (e ▸ hx)
  have hjL := hI.junk_ok L h.l_junk
  have hjR := hI.junk_ok R h.r_junk
  have hjq := hI.junk_ok q h.q_junk
  by_cases eL : a = L
  · subst eL
    simp only [IsTree, rootH_blocks h a hL0, rootGhost, linkGhost, true_or, iff_true]
    exact ⟨hjL.1, by simp [hLx, h.l_ne_q], hjL.2⟩
  · by_cases eR : a = R
    · subst eR
      simp only [IsTree, rootH_blocks h a hR0, rootGhost, linkGhost, true_or, or_true, iff_true]
      exact ⟨hjR.1, by simp [hRx, h.r_ne_q], hjR.2⟩
    · by_cases eq : a = q
      · subst eq
        simp only [IsTree, rootH_blocks h a hq0, rootGhost, linkGhost, true_or, or_true, iff_true]
        exact ⟨hjq.1, by simp, hjq.2⟩
      · simp only [eL, eR, eq, false_or]
        by_cases e0 : a = 0
        · subst e0
          constructor
          · intro hh
            exfalso
            have := hh.2.2
            simp only [BTreeIndex.withRoot, Function.update_same] at this
            exact super_not_node _ hI.sb_type this
          · intro hh; exact absurd rfl (isTree_ne_zero hI hh.1)
        · simp only [IsTree, rootH_blocks h a e0, rootGhost, linkGhost, eL, eR, eq, ne_eq,
            not_false_eq_true, and_true]
          constructor
          · rintro ⟨h1, h2, h3⟩
            exact ⟨⟨h1, fun hj => h2 (Or.inl hj), h3⟩, fun e => h2 (Or.inr e)⟩
          · rintro ⟨⟨h1, h2, h3⟩, h4⟩
            exact ⟨h1, fun hj => hj.elim h2 h4, h3⟩

theorem rootH_old {t : BTreeIndex} {g : Ghost} {x L R q mid : Nat}
    (h : RootH t g x L R q mid) {c : Nat} (hc : IsTree t g c) (hcx : c ≠ x) :
    IsTree (t.withRoot q) (rootGhost g x L R q ((t.buffercache.blocks x).keys (mid - 1))) c ∧
    c ≠ L ∧ c ≠ R ∧ c ≠ q ∧
    (rootGhost g x L R q ((t.buffercache.blocks x).keys (mid - 1))).lvl c = g.lvl c ∧
    (∀ k, (rootGhost g x L R q ((t.buffercache.blocks x).keys (mid - 1))).rng c k ↔ g.rng c k) ∧
    (rootGhost g x L R q ((t.buffercache.blocks x).keys (mid - 1))).dead c = g.dead c ∧
    (t.withRoot q).buffercache.blocks c = t.buffercache.blocks c := by
  have hL : c ≠ L := fun e => junk_not_tree h.l_junk (e ▸ hc)
  have hR : c ≠ R := fun e => junk_not_tree h.r_junk (e ▸ hc)
  have hq : c ≠ q := fun e => junk_not_tree h.q_junk (e ▸ hc)
  refine ⟨(rootH_tree_iff h c).2 (Or.inr (Or.inr (Or.inr ⟨hc, hcx⟩))), hL, hR, hq, ?_, ?_, ?_,
    rootH_blocks h c (isTree_ne_zero h.inv hc)⟩
  · simp [rootGhost, linkGhost, hL, hR, hq]
  · intro k; simp [rootGhost, linkGhost, hL, hR, hq]
  · simp [rootGhost, linkGhost, hL, hR, hq]

theorem rootH_child {t : BTreeIndex} {g : Ghost} {x L R q mid : Nat}
    (h : RootH t g x L R q mid) {a i : Nat} (ha : IsTree t g a)
    (hai : (t.buffercache.blocks a).isInterior = true)
    (hi : ValidIdx (t.buffercache.blocks a) (g.dead a) i) :
    IsTree (t.withRoot q) (rootGhost g x L R q ((t.buffercache.blocks x).keys (mid - 1)))
      ((t.buffercache.blocks a).ptrs i) ∧
    (t.buffercache.blocks a).ptrs i ≠ (t.withRoot q).superblock.info.rootnode ∧
    (rootGhost g x L R q ((t.buffercache.blocks x).keys (mid - 1))).lvl
      ((t.buffercache.blocks a).ptrs i) = g.lvl ((t.buffercache.blocks a).ptrs i) ∧
    ∀ k, (rootGhost g x L R q ((t.buffercache.blocks x).keys (mid - 1))).rng
      ((t.buffercache.blocks a).ptrs i) k ↔ g.rng ((t.buffercache.blocks a).ptrs i) k := by
  obtain ⟨c1, c2, _, _⟩ := (h.inv.interior a ha hai).child i hi
  rw [← h.x_root] at c2
  obtain ⟨o1, _, _, o4, o5, o6, _, _⟩ := rootH_old h c1 c2
  exact ⟨o1, o4, o5, o6⟩

/-- Replacing the over-full root `x` by its two halves under the new root `q` keeps the
invariant; `x` is left as a block outside the tree. -/
theorem inv_root {t : BTreeIndex} {g : Ghost} {x L R q mid : Nat}
    (h : RootH t g x L R q mid) :
    Inv (t.withRoot q) (rootGhost g x L R q ((t.buffercache.blocks x).keys (mid - 1))) none := by
  have hI := h.inv
  have hx := rootH_x_tree h
  have hxi := rootH_x_int h
  have hxo := hI.interior x hx hxi
  have hL0 := junk_ne_zero hI h.l_junk
  have hR0 := junk_ne_zero hI h.r_junk
  have hq0 := junk_ne_zero hI h.q_junk
  have hLx : L ≠ x := fun e => junk_not_tree h.l_junk (e ▸ hx)
  have hRx : R ≠ x := fun e => junk_not_tree h.r_junk (e ▸ hx)
  have hqx : q ≠ x := fun e => junk_not_tree h.q_junk (e ▸ hx)
  have hbL := rootH_blocks h L hL0
  have hbR := rootH_blocks h R hR0
  have hbq := rootH_blocks h q hq0
  have hsL := split_left_node h.left hx.2.2
  have hsR := split_right_node h.right hx.2.2
  have hsk := split_key_facts hI hx (mid - 1) (by have := h.mid_lt; omega)
  have htL := (rootH_tree_iff h L).2 (Or.inl rfl)
  have htR := (rootH_tree_iff h R).2 (Or.inr (Or.inl rfl))
  have htq := (rootH_tree_iff h q).2 (Or.inr (Or.inr (Or.inl rfl)))
  have hroot : (t.withRoot q).superblock.info.rootnode = q := rfl
  have hxrng : ∀ k, g.rng x k := by rw [h.x_root]; exact hI.root_rng
  have glL : (rootGhost g x L R q ((t.buffercache.blocks x).keys (mid - 1))).lvl L = g.lvl x := by
    simp [rootGhost, linkGhost, h.l_ne_q]
  have glR : (rootGhost g x L R q ((t.buffercache.blocks x).keys (mid - 1))).lvl R = g.lvl x := by
    simp [rootGhost, linkGhost, h.r_ne_q]
  have glq : (rootGhost g x L R q ((t.buffercache.blocks x).keys (mid - 1))).lvl q
      = g.lvl x + 1 := by
    simp [rootGhost]
  have grL : ∀ k, (rootGhost g x L R q ((t.buffercache.blocks x).keys (mid - 1))).rng L k ↔
      (g.rng x k ∧ k ≤ (t.buffercache.blocks x).keys (mid - 1)) := by
    intro k; simp [rootGhost, linkGhost, h.l_ne_q]
  have grR : ∀ k, (rootGhost g x L R q ((t.buffercache.blocks x).keys (mid - 1))).rng R k ↔
      (g.rng x k ∧ (t.buffercache.blocks x).keys (mid - 1) < k) := by
    intro k; simp [rootGhost, linkGhost, h.r_ne_q, Ne.symm h.l_ne_r]
  have grq : ∀ k, (rootGhost g x L R q ((t.buffercache.blocks x).keys (mid - 1))).rng q k := by
    intro k; simp [rootGhost]
  have hkvne : ∀ k, g.kv k ≠ none →
      (rootGhost g x L R q ((t.buffercache.blocks x).keys (mid - 1))).kv k ≠ none :=
    fun _ hk => hk
  have hkvsome : ∀ k v, g.kv k = some v →
      (rootGhost g x L R q ((t.buffercache.blocks x).keys (mid - 1))).kv k = some v :=
    fun _ _ hk => hk
  have hqint : (t.buffercache.blocks q).isInterior = true := by
    simp [BTreeNode.isInterior, h.q_type]
  refine
    { sb_index := hI.sb_index,
      sb_block := by simp [BTreeIndex.withRoot],
      sb_type := hI.sb_type, thr := hI.thr,
      root_tree := htq,
      root_rng := grq,
      root_type := ?_, leaf_lvl := ?_, lvl_lt := ?_, disj := ?_, interior := ?_, leaf := ?_,
      size := ?_, stored := ?_, free_chain := ?_, free_nodup := hI.free_nodup, junk_ok := ?_ }
  · -- root_type
    intro a ha
    rw [hroot]
    rcases (rootH_tree_iff h a).1 ha with e | e | e | ⟨hao, hax⟩
    · subst e
      rw [hbL]
      exact ⟨fun hh => absurd hh hsL.2.2, fun hh => absurd hh h.l_ne_q⟩
    · subst e
      rw [hbR]
      exact ⟨fun hh => absurd hh hsR.2.2, fun hh => absurd hh h.r_ne_q⟩
    · subst e
      rw [hbq]
      exact ⟨fun _ => rfl, fun _ => h.q_type⟩
    · obtain ⟨_, _, _, oq, _, _, _, ob⟩ := rootH_old h hao hax
      rw [ob]
      constructor
      · intro hh
        exact absurd ((hI.root_type a hao).1 hh) (by rw [← h.x_root]; exact hax)
      · intro hh; exact absurd hh oq
  · -- leaf_lvl
    intro a ha
    rcases (rootH_tree_iff h a).1 ha with e | e | e | ⟨hao, hax⟩
    · subst e
      rw [hbL, hsL.2.1, glL]; exact hI.leaf_lvl x hx
    · subst e
      rw [hbR, hsR.2.1, glR]; exact hI.leaf_lvl x hx
    · subst e
      rw [hbq, glq]
      constructor
      · intro hh
        have := isLeaf_not_isInterior _ hh
        rw [hqint] at this
        simp at this
      · intro hh; omega
    · obtain ⟨_, _, _, _, o4, _, _, ob⟩ := rootH_old h hao hax
      rw [ob, o4]; exact hI.leaf_lvl a hao
  · -- lvl_lt
    intro a ha hne
    rw [hroot] at hne ⊢
    rw [glq]
    rcases (rootH_tree_iff h a).1 ha with e | e | e | ⟨hao, hax⟩
    · subst e; rw [glL]; omega
    · subst e; rw [glR]; omega
    · exact absurd e hne
    · obtain ⟨_, _, _, _, o4, _, _, _⟩ := rootH_old h hao hax
      rw [o4]
      have := hI.lvl_lt a hao (by rw [← h.x_root]; exact hax)
      rw [← h.x_root] at this
      omega
  · -- disj
    have hold : ∀ a, IsTree t g a → a ≠ x → g.lvl a < g.lvl x := by
      intro a hao hax
      have := hI.lvl_lt a hao (by rw [← h.x_root]; exact hax)
      rw [← h.x_root] at this
      exact this
    intro a a' ha ha' hl k hk hk'
    rcases (rootH_tree_iff h a).1 ha with e | e | e | ⟨hao, hax⟩
    · subst e
      rw [glL] at hl
      rw [grL] at hk
      rcases (rootH_tree_iff h a').1 ha' with e' | e' | e' | ⟨hao', hax'⟩
      · exact e'.symm
      · subst e'; rw [grR] at hk'; omega
      · subst e'; rw [glq] at hl; omega
      · obtain ⟨_, _, _, _, o4, _, _, _⟩ := rootH_old h hao' hax'
        rw [o4] at hl
        have := hold a' hao' hax'
        omega
    · subst e
      rw [glR] at hl
      rw [grR] at hk
      rcases (rootH_tree_iff h a').1 ha' with e' | e' | e' | ⟨hao', hax'⟩
      · subst e'; rw [grL] at hk'; omega
      · exact e'.symm
      · subst e'; rw [glq] at hl; omega
      · obtain ⟨_, _, _, _, o4, _, _, _⟩ := rootH_old h hao' hax'
        rw [o4] at hl
        have := hold a' hao' hax'
        omega
    · subst e
      rw [glq] at hl
      rcases (rootH_tree_iff h a').1 ha' with e' | e' | e' | ⟨hao', hax'⟩
      · subst e'; rw [glL] at hl; omega
      · subst e'; rw [glR] at hl; omega
      · exact e'.symm
      · obtain ⟨_, _, _, _, o4, _, _, _⟩ := rootH_old h hao' hax'
        rw [o4] at hl
        have := hold a' hao' hax'
        omega
    · obtain ⟨_, _, _, _, o4, o5, _, _⟩ := rootH_old h hao hax
      rw [o4] at hl
      have hlt := hold a hao hax
      rcases (rootH_tree_iff h a').1 ha' with e' | e' | e' | ⟨hao', hax'⟩
      · subst e'; rw [glL] at hl; omega
      · subst e'; rw [glR] at hl; omega
      · subst e'; rw [glq] at hl; omega
      · obtain ⟨_, _, _, _, o4', o5', _, _⟩ := rootH_old h hao' hax'
        rw [o4'] at hl
        exact hI.disj a a' hao hao' hl k ((o5 k).1 hk) ((o5' k).1 hk')
  · -- interior
    intro a ha hai
    rcases (rootH_tree_iff h a).1 ha with e | e | e | ⟨hao, hax⟩
    · subst e
      refine interiorOk_left hxo hxi (by rw [hbL]; exact h.left) h.mid_pos h.mid_lt grL ?_ glL
        hkvne ?_
      · simp [rootGhost, linkGhost, h.l_ne_q]
      · intro i hi
        exact rootH_child h hx hxi (Or.inl (by have := h.mid_lt; omega))
    · subst e
      refine interiorOk_right hxo hxi (by rw [hbR]; exact h.right) h.mid_pos h.mid_lt grR ?_ glR
        hkvne ?_
      · simp [rootGhost, linkGhost, h.r_ne_q, Ne.symm h.l_ne_r]
      · intro i _ hv
        exact rootH_child h hx hxi hv
    · subst e
      refine interiorOk_newroot (by rw [hbq]; exact h.q_keys) (by rw [hbq]; exact h.q_key)
        (by rw [hbq]; exact h.q_left) (by rw [hbq]; exact h.q_right) grq ?_ hsk.2
        ⟨htL, by rw [hroot]; exact h.l_ne_q, by rw [glL, glq], ?_⟩
        ⟨htR, by rw [hroot]; exact h.r_ne_q, by rw [glR, glq], ?_⟩
      · simp [rootGhost]
      · intro k; rw [grL]; simp [hxrng k]
      · intro k; rw [grR]; simp [hxrng k]
    · obtain ⟨_, _, _, _, o4, o5, o6, ob⟩ := rootH_old h hao hax
      rw [ob] at hai
      refine interiorOk_same (hI.interior a hao hai) ob o5 o6 o4 hkvne ?_
      intro i hv
      exact rootH_child h hao hai hv
  · -- leaf
    intro a ha hal
    rcases (rootH_tree_iff h a).1 ha with e | e | e | ⟨hao, hax⟩
    · subst e
      rw [hbL, hsL.2.1] at hal
      exact leafOk_left (hI.leaf x hx hal) hal (by rw [hbL]; exact h.left) h.mid_pos
        h.mid_lt grL hkvsome
    · subst e
      rw [hbR, hsR.2.1] at hal
      exact leafOk_right (hI.leaf x hx hal) hal (by rw [hbR]; exact h.right) h.mid_pos
        h.mid_lt grR hkvsome
    · subst e
      rw [hbq] at hal
      have := isLeaf_not_isInterior _ hal
      rw [hqint] at this
      simp at this
    · obtain ⟨_, _, _, _, _, o5, _, ob⟩ := rootH_old h hao hax
      rw [ob] at hal
      exact leafOk_same (hI.leaf a hao hal) ob o5 hkvsome
  · -- size
    intro a ha
    have hthr : threshold (t.withRoot q) = threshold t := rfl
    rw [hthr]
    have hxs := hI.size x hx
    have hxn : (t.buffercache.blocks x).info.numkeys ≤ threshold t + 1 := by
      rcases hxs with hh | hh <;> omega
    have := hI.thr
    left
    rcases (rootH_tree_iff h a).1 ha with e | e | e | ⟨hao, hax⟩
    · subst e
      rw [hbL, h.left.1]
      have := h.mid_lt; omega
    · subst e
      rw [hbR, h.right.1]
      have := h.mid_pos; omega
    · subst e
      rw [hbq, h.q_keys]; omega
    · obtain ⟨_, _, _, _, _, _, _, ob⟩ := rootH_old h hao hax
      rw [ob]
      rcases hI.size a hao with hh | hh
      · exact hh
      · exact absurd (Option.some.inj hh.1).symm hax
  · -- stored
    intro k v hkv
    obtain ⟨a, ha, hal, i, hi, h1, h2⟩ := hI.stored k v hkv
    have ex : a ≠ x := by
      intro e; subst e
      have := isLeaf_not_isInterior _ hal
      rw [hxi] at this
      simp at this
    obtain ⟨o1, _, _, _, _, _, _, ob⟩ := rootH_old h ha ex
    exact ⟨a, o1, by rw [ob]; exact hal, i, by rw [ob]; exact hi,
      by rw [ob]; exact h1, by rw [ob]; exact h2⟩
  · -- free_chain
    refine @freeChain_frame t.buffercache _ (by rfl) _ _ hI.free_chain ?_
    intro y hy
    have hy' := freeChain_mem _ _ hI.free_chain y hy
    exact rootH_blocks h y hy'.1
  · -- junk_ok
    intro y hy
    have hy0 : y ≠ 0 := by
      rcases hy.1 with hh | hh
      · exact junk_ne_zero hI hh.1
      · rw [hh]; exact isTree_ne_zero hI hx
    rw [rootH_blocks h y hy0]
    rcases hy.1 with hh | hh
    · exact hI.junk_ok y hh.1
    · rw [hh]; exact ⟨hx.1, hx.2.2⟩
theorem split_left_run (b : BTreeNode) (hb : b.isInterior = true ∨ b.isLeaf = true) (mid : Nat)
    (hm : mid ≤ b.info.numkeys) :
    ∃ ln, copyLoop (decide (b.info.nodetype = BTREE_LEAF_NODE)) b mid 0 0
        (BTreeNode.new (if b.info.nodetype = BTREE_LEAF_NODE then BTREE_LEAF_NODE
          else BTREE_INTERIOR_NODE)) = (ERROR_NOERROR, ln) ∧ SplitLeft b ln mid := by
  rcases hb with hb | hb
  · have hnl : b.info.nodetype ≠ BTREE_LEAF_NODE := by
      intro e
      simp [BTreeNode.isInterior, e] at hb
    have hl : b.isLeaf = false := by simp [BTreeNode.isLeaf, hnl]
    simp only [hnl, if_false, decide_False]
    rw [copyLoop_interior b hb mid 0 0 _ rfl (by omega) rfl]
    refine ⟨_, rfl, ?_⟩
    refine ⟨by simp [BTreeNode.new], ?_, ?_, ?_⟩
    · intro i hi; simp [hi]
    · intro h; rw [hl] at h; simp at h
    · intro _
      refine ⟨by simp [BTreeNode.new], ?_⟩
      intro i hi; simp [hi]
  · have hnl : b.info.nodetype = BTREE_LEAF_NODE := by
      simpa [BTreeNode.isLeaf] using hb
    have hi : b.isInterior = false := by simp [BTreeNode.isInterior, hnl]
    simp only [hnl, if_true, decide_True]
    rw [copyLoop_leaf b hnl mid 0 0 _ rfl (by omega) rfl]
    refine ⟨_, rfl, ?_⟩
    refine ⟨by simp [BTreeNode.new], ?_, ?_, ?_⟩
    · intro i hi; simp [hi]
    · intro _
      refine ⟨by simp [BTreeNode.isLeaf, BTreeNode.new], ?_⟩
      intro i hi; simp [hi]
    · intro h; rw [hi] at h; simp at h

theorem split_right_run (b : BTreeNode) (hb : b.isInterior = true ∨ b.isLeaf = true) (mid : Nat)
    (hm : mid ≤ b.info.numkeys) :
    ∃ rn0, copyLoop (decide (b.info.nodetype = BTREE_LEAF_NODE)) b (b.info.numkeys - mid) mid 0
        (BTreeNode.new (if b.info.nodetype = BTREE_LEAF_NODE then BTREE_LEAF_NODE
          else BTREE_INTERIOR_NODE)) = (ERROR_NOERROR, rn0) ∧
      ∃ rn, (if decide (b.info.nodetype = BTREE_LEAF_NODE) = true then (ERROR_NOERROR, rn0)
        else
          match b.GetPtr (mid + (b.info.numkeys - mid)) 0 with
          | (rc, tempPtr) =>
            if rc ≠ ERROR_NOERROR then (rc, rn0)
            else rn0.SetPtr (b.info.numkeys - mid) tempPtr) = (ERROR_NOERROR, rn) ∧
        SplitRight b rn mid := by
  rcases hb with hb | hb
  · have hnl : b.info.nodetype ≠ BTREE_LEAF_NODE := by
      intro e
      simp [BTreeNode.isInterior, e] at hb
    have hl : b.isLeaf = false := by simp [BTreeNode.isLeaf, hnl]
    simp only [hnl, if_false, decide_False]
    rw [copyLoop_interior b hb (b.info.numkeys - mid) mid 0 _ rfl (by omega) rfl]
    refine ⟨_, rfl, ?_⟩
    rw [isInterior_getPtr b hb _ 0 (by omega)]
    simp only [ne_eq, not_true_eq_false, if_false, Bool.false_eq_true]
    rw [mk_setPtr _ _ _ _ _ _ (Or.inr rfl) (by simp)]
    refine ⟨_, rfl, ?_⟩
    refine ⟨by simp [BTreeNode.new], ?_, ?_, ?_⟩
    · intro i hi; simp [hi]
    · intro h; rw [hl] at h; simp at h
    · intro _
      refine ⟨by simp [BTreeNode.new], ?_⟩
      intro i hi
      simp only [Function.update_apply]
      split_ifs <;> first | rfl | omega | (congr 1; omega)
  · have hnl : b.info.nodetype = BTREE_LEAF_NODE := by
      simpa [BTreeNode.isLeaf] using hb
    have hi : b.isInterior = false := by simp [BTreeNode.isInterior, hnl]
    simp only [hnl, if_true, decide_True]
    rw [copyLoop_leaf b hnl (b.info.numkeys - mid) mid 0 _ rfl (by omega) rfl]
    refine ⟨_, rfl, _, rfl, ?_⟩
    refine ⟨by simp [BTreeNode.new], ?_, ?_, ?_⟩
    · intro i hi; simp [hi]
    · intro _
      refine ⟨by simp [BTreeNode.isLeaf, BTreeNode.new], ?_⟩
      intro i hi; simp [hi]
    · intro h; rw [hi] at h; simp at h
theorem withBlock_self (t : BTreeIndex) (x : Nat) :
    t.withBlock x (t.buffercache.blocks x) = t := by
  cases t
  simp [BTreeIndex.withBlock]

theorem free_not_tree {t : BTreeIndex} {g : Ghost} {over : Option Nat} (hI : Inv t g over)
    {a : Nat} (ha : a ∈ g.free) : ¬ IsTree t g a := by
  intro h
  have := (freeChain_mem _ _ hI.free_chain a ha).2.2
  exact node_type_ne h.2.2 this

/-- The run of `splitNode` when both allocations and all reads succeed. -/
theorem splitNode_run (t t1 t3 : BTreeIndex) (x L R sk : Nat) (e1 e3 : ERROR_T)
    (ln rn0 rn : BTreeNode)
    (hx : x < t.buffercache.numBlocks)
    (h1 : AllocateNode t = some (e1, L, t1))
    (hL1 : L < t1.buffercache.numBlocks)
    (h3 : AllocateNode (t1.withBlock L (BTreeNode.new
      (if (t.buffercache.blocks x).info.nodetype = BTREE_LEAF_NODE then BTREE_LEAF_NODE
        else BTREE_INTERIOR_NODE))) = some (e3, R, t3))
    (hL3 : L < t3.buffercache.numBlocks) (hR3 : R < t3.buffercache.numBlocks)
    (hx3 : x < t3.buffercache.numBlocks)
    (hLR : L ≠ R) (hLx : L ≠ x) (hRx : R ≠ x)
    (hbL : t3.buffercache.blocks L = BTreeNode.new
      (if (t.buffercache.blocks x).info.nodetype = BTREE_LEAF_NODE then BTREE_LEAF_NODE
        else BTREE_INTERIOR_NODE))
    (hbx : t3.buffercache.blocks x = t.buffercache.blocks x)
    (hln : copyLoop (decide ((t.buffercache.blocks x).info.nodetype = BTREE_LEAF_NODE))
        (t.buffercache.blocks x) ((t.buffercache.blocks x).info.numkeys / 2) 0 0
        (BTreeNode.new (if (t.buffercache.blocks x).info.nodetype = BTREE_LEAF_NODE
          then BTREE_LEAF_NODE else BTREE_INTERIOR_NODE)) = (ERROR_NOERROR, ln))
    (hrn0 : copyLoop (decide ((t.buffercache.blocks x).info.nodetype = BTREE_LEAF_NODE))
        (t.buffercache.blocks x)
        ((t.buffercache.blocks x).info.numkeys - (t.buffercache.blocks x).info.numkeys / 2)
        ((t.buffercache.blocks x).info.numkeys / 2) 0
        (BTreeNode.new (if (t.buffercache.blocks x).info.nodetype = BTREE_LEAF_NODE
          then BTREE_LEAF_NODE else BTREE_INTERIOR_NODE)) = (ERROR_NOERROR, rn0))
    (hrn : (if decide ((t.buffercache.blocks x).info.nodetype = BTREE_LEAF_NODE) = true
        then (ERROR_NOERROR, rn0)
        else
          match (t.buffercache.blocks x).GetPtr ((t.buffercache.blocks x).info.numkeys / 2 +
              ((t.buffercache.blocks x).info.numkeys -
                (t.buffercache.blocks x).info.numkeys / 2)) 0 with
          | (rc, tempPtr) =>
            if rc ≠ ERROR_NOERROR then (rc, rn0)
            else rn0.SetPtr ((t.buffercache.blocks x).info.numkeys -
              (t.buffercache.blocks x).info.numkeys / 2) tempPtr) = (ERROR_NOERROR, rn))
    (hk : (t.buffercache.blocks x).GetKey
      (((t.buffercache.blocks x).info.numkeys / 2 + 2 ^ 64 - 1) % 2 ^ 64) 0
        = (ERROR_NOERROR, sk)) :
    splitNode t x = some (Except.ok
      ((((t3.withBlock R (BTreeNode.new
        (if (t.buffercache.blocks x).info.nodetype = BTREE_LEAF_NODE then BTREE_LEAF_NODE
          else BTREE_INTERIOR_NODE))).withBlock L ln).withBlock R rn),
        t.buffercache.blocks x, L, R, sk)) := by
  unfold splitNode
  rw [unserialize_eq t x _ hx]
  simp only [ne_eq, not_true_eq_false, if_false]
  rw [h1]
  simp only []
  rw [serialize_eq _ L _ hL1]
  simp only [ne_eq, not_true_eq_false, if_false]
  have e2 : ∀ nd, ({ t1 with buffercache := (t1.withBlock L nd).buffercache } : BTreeIndex)
      = t1.withBlock L nd := fun _ => rfl
  rw [e2, h3]
  simp only []
  rw [serialize_eq _ R _ hR3]
  simp only [ne_eq, not_true_eq_false, if_false]
  have uL : ∀ old nd, BTreeNode.Unserialize old (t3.withBlock R nd).buffercache L
      = (ERROR_NOERROR, BTreeNode.new
      (if (t.buffercache.blocks x).info.nodetype = BTREE_LEAF_NODE then BTREE_LEAF_NODE
        else BTREE_INTERIOR_NODE)) := by
    intro old nd
    rw [unserialize_eq (t3.withBlock R nd) L old hL3]
    simp [BTreeIndex.withBlock, Function.update_apply, hLR, hbL]
  have uR : ∀ old nd, BTreeNode.Unserialize old (t3.withBlock R nd).buffercache R
      = (ERROR_NOERROR, nd) := by
    intro old nd
    rw [unserialize_eq (t3.withBlock R nd) R old hR3]
    simp [BTreeIndex.withBlock]
  simp only [ne_eq] at hrn
  simp only [uL, uR, not_true_eq_false, if_false, hln, hrn0, hrn]
  rw [serialize_eq (t3.withBlock R _) L ln hL3]
  simp only [not_true_eq_false, if_false]
  rw [serialize_eq ((t3.withBlock R _).withBlock L ln) R rn hR3]
  simp only [not_true_eq_false, if_false]
  rw [serialize_eq (((t3.withBlock R _).withBlock L ln).withBlock R rn) x _ hx3]
  simp only [hk, not_true_eq_false, if_false]
  have e7 : ∀ u : BTreeIndex, u.buffercache.blocks x = t.buffercache.blocks x →
      u.superblock = t3.superblock → u.superblock_index = t3.superblock_index →
      u.maxNumKeys = t3.maxNumKeys → u.initBlock = t3.initBlock →
      ({ superblock := t3.superblock, superblock_index := t3.superblock_index,
         buffercache := (u.withBlock x (t.buffercache.blocks x)).buffercache,
         maxNumKeys := t3.maxNumKeys, initBlock := t3.initBlock } : BTreeIndex) = u := by
    intro u h1 h2 h3 h4 h5
    have hw := withBlock_self u x
    rw [h1] at hw
    rw [hw]
    cases u
    simp only [BTreeIndex.mk.injEq] at h2 h3 h4 h5 ⊢
    exact ⟨h2.symm, h3.symm, trivial, h4.symm, h5.symm⟩
  rw [e7 (((t3.withBlock R _).withBlock L ln).withBlock R rn) (by simp [BTreeIndex.withBlock, Function.update_apply, Ne.symm hLx, Ne.symm hRx, hbx])
    rfl rfl rfl rfl]
theorem node_getKey (b : BTreeNode) (hb : b.isInterior = true ∨ b.isLeaf = true) (o x : Nat)
    (ho : o < b.info.numkeys) : b.GetKey o x = (ERROR_NOERROR, b.keys o) := by
  rcases hb with hb | hb
  · exact isInterior_getKey b hb o x ho
  · exact isLeaf_getKey b hb o x ho

/-- The split key of a child finds, in the parent, the slot that points to the child. -/
theorem slot_firstIdx {t : BTreeIndex} {g : Ghost} {over : Option Nat} (hI : Inv t g over)
    {p x i : Nat} (hp : IsTree t g p) (hpi : (t.buffercache.blocks p).isInterior = true)
    (hi : ValidIdx (t.buffercache.blocks p) (g.dead p) i)
    (hpx : (t.buffercache.blocks p).ptrs i = x) (hx : IsTree t g x) (m : Nat)
    (hm : m + 1 < (t.buffercache.blocks x).info.numkeys) :
    firstIdx (fun i => decide ((t.buffercache.blocks x).keys m < (t.buffercache.blocks p).keys i))
      (t.buffercache.blocks p).info.numkeys 0 = i := by
  have hpo := hI.interior p hp hpi
  obtain ⟨_, _, _, c4⟩ := hpo.child i hi
  rw [hpx] at c4
  have k1 := (c4 _).1 (split_key_facts hI hx m (by omega)).1
  have k2 := (c4 _).1 (split_key_facts hI hx (m + 1) hm).1
  have hs := node_sorted hI hx m (m + 1) (by omega) hm
  have hile : i ≤ (t.buffercache.blocks p).info.numkeys := by
    rcases hi with h | h <;> omega
  apply firstIdx_unique _ _ _ _ (Nat.zero_le _) (by omega)
  · intro i' _ hlt
    have h1 := k1.2.1 (by omega)
    have : (t.buffercache.blocks p).keys i' ≤ (t.buffercache.blocks p).keys (i - 1) := by
      by_cases e : i' = i - 1
      · rw [e]
      · exact Nat.le_of_lt (hpo.sorted i' (i - 1) (by omega) (by omega))
    simp only [decide_eq_false_iff_not, not_lt]
    omega
  · intro hlt
    have h2 := k2.2.2 (by omega)
    simp only [decide_eq_true_eq]
    omega

theorem dealloc_congr (t t' : BTreeIndex) (x : Nat)
    (hs : t.superblock = t'.superblock) (hi : t.superblock_index = 0)
    (hi' : t'.superblock_index = 0) (hm : t.maxNumKeys = t'.maxNumKeys)
    (hb : t.initBlock = t'.initBlock)
    (hn : t.buffercache.numBlocks = t'.buffercache.numBlocks)
    (h0 : 0 < t.buffercache.numBlocks) (hx : x < t.buffercache.numBlocks)
    (hblk : ∀ a, a ≠ 0 → t.buffercache.blocks a = t'.buffercache.blocks a) (hx0 : x ≠ 0) :
    DeallocateNode t x = DeallocateNode t' x := by
  have hx' : x < t'.buffercache.numBlocks := by omega
  have h0' : 0 < t'.buffercache.numBlocks := by omega
  simp only [DeallocateNode, BTreeNode.Unserialize, hx, hx', if_true, hblk x hx0, hs,
    BTreeNode.Serialize, hi, hi', h0, h0']
  split
  · rfl
  · congr 3
    rw [hn]
    congr 1
    funext a
    simp only [Function.update_apply]
    split_ifs
    · rfl
    · rfl
    · exact hblk a (by assumption)
/-- The run of `Rebalance` on the root once the node is split. -/
theorem rebalance_root_run (fuel : Nat) (t t7 t8 : BTreeIndex) (x L R sk q : Nat)
    (b : BTreeNode) (e : ERROR_T) (path : List Nat)
    (hs : splitNode t x = some (Except.ok (t7, b, L, R, sk)))
    (hb : b.info.nodetype = BTREE_ROOT_NODE)
    (ha : AllocateNode t7 = some (e, q, t8))
    (hq : q < t8.buffercache.numBlocks) :
    Rebalance (fuel + 1) t x path =
      DeallocateNode
        { t8 with
          superblock := { t8.superblock with info := { t8.superblock.info with rootnode := q } },
          buffercache := (t8.withBlock q (rootWith q sk L R)).buffercache } x := by
  have hn : ((((⟨⟨BTREE_ROOT_NODE, q, 0, 1⟩, fun _ => 0, fun _ => 0, fun _ => 0⟩ :
      BTreeNode).SetKey 0 sk).2.SetPtr 0 L).2.SetPtr 1 R).2 = rootWith q sk L R := by
    rw [mk_setKey _ _ _ _ _ _ (Or.inl rfl) Nat.zero_lt_one]
    rw [mk_setPtr _ _ _ _ _ _ (Or.inl rfl) (Nat.zero_le _)]
    rw [mk_setPtr _ _ _ _ _ _ (Or.inl rfl) (Nat.le_refl _)]
    rfl
  simp only [Rebalance, hs, hb, if_true, ha, BTreeNode.new]
  rw [hn, serialize_eq t8 q _ hq]
  simp only [ne_eq, not_true_eq_false, if_false]

/-- The run of `Rebalance` on a node below the root once the node is split. -/
theorem rebalance_parent_run (fuel : Nat) (t t7 : BTreeIndex) (x L R sk p : Nat)
    (b np : BTreeNode) (ps : List Nat)
    (hs : splitNode t x = some (Except.ok (t7, b, L, R, sk)))
    (hb : b.info.nodetype ≠ BTREE_ROOT_NODE)
    (hp : p < t7.buffercache.numBlocks)
    (hty : (t7.buffercache.blocks p).info.nodetype ≠ BTREE_SUPERBLOCK)
    (hins : parentInsert (t7.buffercache.blocks p) sk L R = (ERROR_NOERROR, np)) :
    Rebalance (fuel + 1) t x (p :: ps) =
      if np.info.numkeys > threshold t7 then
        match Rebalance fuel (t7.withBlock p np) p ps with
        | none => none
        | some (rc, t10) => if rc ≠ ERROR_NOERROR then some (rc, t10) else DeallocateNode t10 x
      else DeallocateNode (t7.withBlock p np) x := by
  have e9 : ({ t7 with buffercache := (t7.withBlock p np).buffercache } : BTreeIndex)
      = t7.withBlock p np := rfl
  have eth : threshold (t7.withBlock p np) = threshold t7 := rfl
  simp only [Rebalance, hs, hb, if_false, unserialize_eq t7 p _ hp, ne_eq, not_true_eq_false,
    hty, hins, serialize_eq t7 p np hp, e9, eth]
theorem junk_not_free {t : BTreeIndex} {g : Ghost} {over : Option Nat} (hI : Inv t g over)
    {y : Nat} (hy : g.junk y) : y ∉ g.free := by
  intro hm
  have h1 := (freeChain_mem _ _ hI.free_chain y hm).2.2
  exact node_type_ne (hI.junk_ok y hy).2 h1

theorem thr_le (t : BTreeIndex) : threshold t ≤ t.maxNumKeys := by
  unfold threshold
  omega

theorem rootWith_node (q sk L R : Nat) :
    (rootWith q sk L R).isInterior = true ∨ (rootWith q sk L R).isLeaf = true := by
  left; rfl

theorem isPath_leaf_write {t : BTreeIndex} {g g' : Ghost} {l : Nat} (nd : BTreeNode)
    (hl : (t.buffercache.blocks l).isLeaf = true)
    (hj : g'.junk = g.junk) (hd : g'.dead = g.dead) :
    ∀ (path : List Nat) (x : Nat), IsPath t g x path → IsPath (t.withBlock l nd) g' x path := by
  intro path
  induction path with
  | nil => intro x h; exact h
  | cons p ps ih =>
    intro x h
    obtain ⟨h1, h2, h3, h4, h5⟩ := h
    have hpl : p ≠ l := by
      intro e
      rw [e] at h3
      have := isLeaf_not_isInterior _ hl
      rw [h3] at this
      simp at this
    have hb : (t.withBlock l nd).buffercache.blocks p = t.buffercache.blocks p := by
      simp [BTreeIndex.withBlock, Function.update_apply, hpl]
    refine ⟨h1, ?_, by rw [hb]; exact h3, ?_, ih p h5⟩
    · unfold IsTree
      rw [hb, hj]
      exact h2
    · rw [hb, hd]; exact h4

/-- The run of `Insert` when the probe does not find the key and the root has keys. -/
theorem insert_run (t : BTreeIndex) (fuel k v v0 : Nat)
    (hprobe : LookupOrUpdateInternal t fuel t.superblock.info.rootnode BTREE_OP_LOOKUP k 0
      = some (ERROR_NONEXISTENT, v0, t))
    (hroot : t.superblock.info.rootnode < t.buffercache.numBlocks)
    (hn : (t.buffercache.blocks t.superblock.info.rootnode).info.numkeys ≠ 0) :
    Insert t fuel k v = insertLeaf { t with initBlock := true } fuel k v := by
  have e : ∀ b : Bool, (⟨t.superblock, t.superblock_index,
      (t.withBlock t.superblock.info.rootnode
        (t.buffercache.blocks t.superblock.info.rootnode)).buffercache,
      t.maxNumKeys, b⟩ : BTreeIndex) = { t with initBlock := b } := by
    intro b
    rw [withBlock_self]
  simp only [Insert, hprobe, unserialize_eq t _ _ hroot, ne_eq, hn, not_false_eq_true, if_true,
    serialize_eq t _ _ hroot]
  rw [e true]
  simp

/-- The run of `insertLeaf` when `LookupLeaf` arrives at the leaf `l`. -/
theorem insertLeaf_run (t : BTreeIndex) (fuel k v l : Nat) (e : ERROR_T) (anc : List Nat)
    (hLL : LookupLeaf t fuel t.superblock.info.rootnode k [t.superblock.info.rootnode]
      = some (e, l :: l :: anc))
    (hl : l < t.buffercache.numBlocks) (hleaf : (t.buffercache.blocks l).isLeaf = true) :
    insertLeaf t fuel k v =
      if (t.buffercache.blocks l).info.numkeys + 1 > threshold t then
        match Rebalance fuel (t.withBlock l (leafWith (t.buffercache.blocks l) k v)) l anc with
        | none => none
        | some (_, t2) => some (ERROR_NOERROR, t2)
      else some (ERROR_NOERROR, t.withBlock l (leafWith (t.buffercache.blocks l) k v)) := by
  have hfill := leafFill_eq ⟨⟨(t.buffercache.blocks l).info.nodetype,
    (t.buffercache.blocks l).info.rootnode, (t.buffercache.blocks l).info.freelist,
    (t.buffercache.blocks l).info.numkeys + 1⟩, (t.buffercache.blocks l).keys,
    (t.buffercache.blocks l).vals, (t.buffercache.blocks l).ptrs⟩ hleaf k v (Nat.succ_pos _)
  simp only [Nat.add_sub_cancel] at hfill
  have e1 : ∀ nd, (⟨t.superblock, t.superblock_index, (t.withBlock l nd).buffercache,
      t.maxNumKeys, t.initBlock⟩ : BTreeIndex) = t.withBlock l nd := fun _ => rfl
  have eth : ∀ nd, threshold (t.withBlock l nd) = threshold t := fun _ => rfl
  simp only [insertLeaf, hLL, unserialize_eq t l _ hl, ne_eq, not_true_eq_false, if_false, hfill,
    serialize_eq t l _ hl, e1, eth, leafWith]
theorem inv_initBlock {t : BTreeIndex} {g : Ghost} {over : Option Nat} (hI : Inv t g over)
    (b : Bool) : Inv { t with initBlock := b } g over :=
  inv_frame hI hI.sb_index hI.sb_block hI.sb_type rfl rfl (fun _ _ => rfl) (fun _ => Iff.rfl)
    rfl rfl rfl rfl hI.free_chain hI.free_nodup hI.junk_ok

theorem attachFreeLoop_eq : ∀ (cnt i : Nat) (bc : BufferCache), i + cnt = bc.numBlocks →
    attachFreeLoop cnt i bc = (ERROR_NOERROR,
      { bc with blocks := fun y => if i ≤ y ∧ y < bc.numBlocks then freeBlock bc.numBlocks y
          else bc.blocks y }) := by
  intro cnt
  induction cnt with
  | zero =>
    intro i bc h
    simp only [attachFreeLoop]
    congr 1
    cases bc
    simp only [BufferCache.mk.injEq, true_and]
    funext y
    simp only at h
    have : ¬ (i ≤ y ∧ y < i) := by omega
    simp [← h, this]
  | succ n ih =>
    intro i bc h
    have hi : i < bc.numBlocks := by omega
    simp only [attachFreeLoop, BTreeNode.Serialize, hi, if_true, ne_eq, not_true_eq_false,
      if_false, BTreeNode.new]
    rw [ih (i + 1) _ (by simp only; omega)]
    congr 2
    funext y
    simp only [Function.update_apply, freeBlock]
    by_cases h1 : y = i
    · subst h1
      simp [hi]
    · by_cases h2 : i + 1 ≤ y ∧ y < bc.numBlocks
      · have : i ≤ y ∧ y < bc.numBlocks := ⟨by omega, h2.2⟩
        simp [h2, this]
      · have : ¬ (i ≤ y ∧ y < bc.numBlocks) := by omega
        simp [h2, this, h1]

theorem freeChain_range (bc : BufferCache) :
    ∀ (cnt i : Nat), i + cnt = bc.numBlocks → 0 < i →
      (∀ y, i ≤ y → y < bc.numBlocks → bc.blocks y = freeBlock bc.numBlocks y) →
      FreeChain bc (if cnt = 0 then 0 else i) (List.range' i cnt) := by
  intro cnt
  induction cnt with
  | zero => intro i _ _ _; simp [FreeChain, List.range']
  | succ n ih =>
    intro i h hi hb
    simp only [List.range', FreeChain, Nat.succ_ne_zero, if_false, true_and]
    refine ⟨by omega, by omega, ?_, ?_⟩
    · rw [hb i (Nat.le_refl _) (by omega)]; rfl
    · have := ih (i + 1) (by omega) (by omega) (fun y h1 h2 => hb y (by omega) h2)
      rw [hb i (Nat.le_refl _) (by omega)]
      simp only [freeBlock]
      by_cases hn : n = 0
      · subst hn
        simp only [if_true] at this
        have e : i + 1 = bc.numBlocks := by omega
        simp only [e, if_true]
        exact this
      · simp only [hn, if_false] at this
        have e : i + 1 ≠ bc.numBlocks := by omega
        simp only [e, if_false]
        exact this

/-- `Attach` with `create = true` on an untouched cache of at least three blocks returns
`ERROR_NOERROR` and leaves an index without keys, all blocks from `2` on free. -/
theorem attach_fresh (n m : Nat) (hn : 3 ≤ n) :
    ∃ t0, Attach (BTreeIndex.new (emptyCache n) m) 0 true = some (ERROR_NOERROR, t0) ∧
      Fresh t0 (List.range' 2 (n - 2)) ∧ t0.maxNumKeys = m := by
  have h0 : 0 < n := by omega
  have h1 : 1 < n := by omega
  simp only [Attach, BTreeIndex.new, emptyCache, BTreeNode.Serialize, h0, h1, if_true, ne_eq,
    not_true_eq_false, if_false, BTreeNode.new, Nat.zero_add]
  rw [attachFreeLoop_eq (n - 2) 2 _ (by simp only; omega)]
  simp only [ne_eq, not_true_eq_false, if_false, BTreeNode.Unserialize, h0, if_true]
  refine ⟨_, rfl, ?_, rfl⟩
  have hsb : (if 2 ≤ 0 ∧ True then freeBlock n 0
      else Function.update (Function.update (fun _ => BTreeNode.default) 0
        (⟨⟨BTREE_SUPERBLOCK, 1, 2, 0⟩, fun _ => 0, fun _ => 0, fun _ => 0⟩ : BTreeNode)) 1
        (⟨⟨BTREE_ROOT_NODE, 1, 2, 0⟩, fun _ => 0, fun _ => 0, fun _ => 0⟩ : BTreeNode) 0)
      = (⟨⟨BTREE_SUPERBLOCK, 1, 2, 0⟩, fun _ => 0, fun _ => 0, fun _ => 0⟩ : BTreeNode) := by
    simp
  rw [hsb]
  refine
    { sb_index := rfl
      sb_block := by simp
      sb_type := rfl
      root_ne := by simp
      root_lt := h1
      root_type := by simp
      root_keys := by simp
      others := ?_
      free_chain := ?_
      free_nodup := List.nodup_range' 2 (n - 2) }
  · intro y hy
    simp only at hy
    simp only
    by_cases h2 : 2 ≤ y ∧ y < n
    · simp only [h2, and_self, if_true]
      simp [freeBlock, BTreeNode.isInterior, BTreeNode.isLeaf]
    · simp only [h2, if_false, Function.update_apply, hy]
      by_cases h3 : y = 0
      · simp [h3, BTreeNode.isInterior, BTreeNode.isLeaf]
      · simp [h3, BTreeNode.isInterior, BTreeNode.isLeaf, BTreeNode.default, BTreeNode.new]
  · have := freeChain_range
      { numBlocks := n,
        blocks := fun y =>
          if 2 ≤ y ∧ y < n then freeBlock n y
          else Function.update (Function.update (fun _ => BTreeNode.default) 0
            (⟨⟨BTREE_SUPERBLOCK, 1, 2, 0⟩, fun _ => 0, fun _ => 0, fun _ => 0⟩ : BTreeNode)) 1
            (⟨⟨BTREE_ROOT_NODE, 1, 2, 0⟩, fun _ => 0, fun _ => 0, fun _ => 0⟩ : BTreeNode) y }
      (n - 2) 2 (by simp only; omega) (by omega)
      (by intro y h3 h4
          simp only at h4
          simp only [h3, h4, and_self, if_true])
    have e : n - 2 ≠ 0 := by omega
    simp only [e, if_false] at this
    exact this
/-- On an index without keys every search ends at the root with `ERROR_NONEXISTENT`. -/
theorem lui_fresh {t : BTreeIndex} {free : List Nat} (h : Fresh t free) (fuel : Nat)
    (op : BTreeOp) (k v : Nat) :
    LookupOrUpdateInternal t (fuel + 1) t.superblock.info.rootnode op k v
      = some (ERROR_NONEXISTENT, v, t) := by
  have hi : (t.buffercache.blocks t.superblock.info.rootnode).isInterior = true := by
    simp [BTreeNode.isInterior, h.root_type]
  simp [LookupOrUpdateInternal, BTreeNode.Unserialize, h.root_lt, hi, h.root_keys, lookupScan]

/-- A store that holds a root with one key over two leaves, the left one with the one
record, satisfies the invariant. -/
theorem inv_first {t : BTreeIndex} {r a b k v : Nat} {rest : List Nat}
    (h_idx : t.superblock_index = 0) (h_sb : t.buffercache.blocks 0 = t.superblock)
    (h_ty : t.superblock.info.nodetype = BTREE_SUPERBLOCK) (h_thr : 1 ≤ threshold t)
    (h_root : t.superblock.info.rootnode = r)
    (hra : r ≠ a) (hrb : r ≠ b) (hab : a ≠ b)
    (hr : r < t.buffercache.numBlocks) (ha : a < t.buffercache.numBlocks)
    (hb : b < t.buffercache.numBlocks)
    (hRt : (t.buffercache.blocks r).info.nodetype = BTREE_ROOT_NODE)
    (hRn : (t.buffercache.blocks r).info.numkeys = 1)
    (hRk : (t.buffercache.blocks r).keys 0 = k)
    (hR0 : (t.buffercache.blocks r).ptrs 0 = a)
    (hR1 : (t.buffercache.blocks r).ptrs 1 = b)
    (hAt : (t.buffercache.blocks a).info.nodetype = BTREE_LEAF_NODE)
    (hAn : (t.buffercache.blocks a).info.numkeys = 1)
    (hAk : (t.buffercache.blocks a).keys 0 = k)
    (hAv : (t.buffercache.blocks a).vals 0 = v)
    (hBt : (t.buffercache.blocks b).info.nodetype = BTREE_LEAF_NODE)
    (hBn : (t.buffercache.blocks b).info.numkeys = 0)
    (hoth : ∀ y, y ≠ r → y ≠ a → y ≠ b →
      ¬ ((t.buffercache.blocks y).isInterior = true ∨ (t.buffercache.blocks y).isLeaf = true))
    (h_free : FreeChain t.buffercache t.superblock.info.freelist rest)
    (h_nodup : rest.Nodup) :
    Inv t (firstGhost r a b k v rest) none := by
  have hRi : (t.buffercache.blocks r).isInterior = true := by simp [BTreeNode.isInterior, hRt]
  have hRl : (t.buffercache.blocks r).isLeaf = false := by simp [BTreeNode.isLeaf, hRt]
  have hAl : (t.buffercache.blocks a).isLeaf = true := by simp [BTreeNode.isLeaf, hAt]
  have hAi : (t.buffercache.blocks a).isInterior = false := by simp [BTreeNode.isInterior, hAt]
  have hBl : (t.buffercache.blocks b).isLeaf = true := by simp [BTreeNode.isLeaf, hBt]
  have hBi : (t.buffercache.blocks b).isInterior = false := by simp [BTreeNode.isInterior, hBt]
  have htree : ∀ y, IsTree t (firstGhost r a b k v rest) y ↔ (y = r ∨ y = a ∨ y = b) := by
    intro y
    constructor
    · intro h
      by_contra hc
      simp only [not_or] at hc
      exact hoth y hc.1 hc.2.1 hc.2.2 h.2.2
    · rintro (e | e | e)
      · subst e; exact ⟨hr, fun hh => hh, Or.inl hRi⟩
      · subst e; exact ⟨ha, fun hh => hh, Or.inr hAl⟩
      · subst e; exact ⟨hb, fun hh => hh, Or.inr hBl⟩
  have hlr : (firstGhost r a b k v rest).lvl r = 1 := by simp [firstGhost]
  have hla : (firstGhost r a b k v rest).lvl a = 0 := by simp [firstGhost, Ne.symm hra]
  have hlb : (firstGhost r a b k v rest).lvl b = 0 := by simp [firstGhost, Ne.symm hrb]
  have hgr : ∀ key, (firstGhost r a b k v rest).rng r key := by intro key; simp [firstGhost]
  have hga : ∀ key, (firstGhost r a b k v rest).rng a key ↔ key ≤ k := by
    intro key; simp [firstGhost, Ne.symm hra]
  have hgb : ∀ key, (firstGhost r a b k v rest).rng b key ↔ k < key := by
    intro key; simp [firstGhost, Ne.symm hrb, Ne.symm hab]
  have hkv : (firstGhost r a b k v rest).kv k = some v := by simp [firstGhost]
  refine
    { sb_index := h_idx, sb_block := h_sb, sb_type := h_ty, thr := h_thr,
      root_tree := by rw [h_root]; exact (htree r).2 (Or.inl rfl),
      root_rng := by rw [h_root]; exact hgr,
      root_type := ?_, leaf_lvl := ?_, lvl_lt := ?_, disj := ?_, interior := ?_, leaf := ?_,
      size := ?_, stored := ?_, free_chain := h_free, free_nodup := h_nodup,
      junk_ok := fun _ hh => absurd hh (fun hh => hh) }
  · intro y hy
    rw [h_root]
    rcases (htree y).1 hy with e | e | e
    · subst e; exact ⟨fun _ => rfl, fun _ => hRt⟩
    · subst e
      exact ⟨fun hh => (by rw [hAt] at hh; cases hh), fun hh => absurd hh.symm hra⟩
    · subst e
      exact ⟨fun hh => (by rw [hBt] at hh; cases hh), fun hh => absurd hh.symm hrb⟩
  · intro y hy
    rcases (htree y).1 hy with e | e | e
    · subst e; rw [hRl, hlr]; simp
    · subst e; rw [hAl, hla]; simp
    · subst e; rw [hBl, hlb]; simp
  · intro y hy hne
    rw [h_root] at hne ⊢
    rcases (htree y).1 hy with e | e | e
    · exact absurd e hne
    · subst e; rw [hla, hlr]; exact Nat.zero_lt_one
    · subst e; rw [hlb, hlr]; exact Nat.zero_lt_one
  · intro y y' hy hy' hl key hk hk'
    rcases (htree y).1 hy with e | e | e <;> rcases (htree y').1 hy' with e' | e' | e' <;>
      subst e <;> subst e' <;> first
      | rfl
      | (rw [hlr] at hl; omega)
      | (rw [hga] at hk; rw [hgb] at hk'; omega)
      | (rw [hgb] at hk; rw [hga] at hk'; omega)
  · intro y hy hyi
    have e : y = r := by
      rcases (htree y).1 hy with e | e | e
      · exact e
      · subst e; rw [hAi] at hyi; cases hyi
      · subst e; rw [hBi] at hyi; cases hyi
    subst e
    refine ⟨by omega, ?_, ?_, ?_, ?_⟩
    · intro i j hij hj; omega
    · intro i hi
      have : i = 0 := by omega
      subst this
      rw [hRk]
      exact ⟨hgr k, by rw [hkv]; simp⟩
    · intro i hi
      have hi' : i = 0 ∨ i = 1 := by
        rcases hi with h | h
        · left; omega
        · right; omega
      rcases hi' with e | e
      · subst e
        rw [hR0]
        refine ⟨(htree _).2 (Or.inr (Or.inl rfl)), by rw [h_root]; exact Ne.symm hra,
          by rw [hla, hlr], ?_⟩
        intro key
        rw [hga]
        simp [InSlice, hgr, hRn, hRk]
      · subst e
        rw [hR1]
        refine ⟨(htree _).2 (Or.inr (Or.inr rfl)), by rw [h_root]; exact Ne.symm hrb,
          by rw [hlb, hlr], ?_⟩
        intro key
        rw [hgb]
        simp [InSlice, hgr, hRn, hRk]
    · intro hd; simp [firstGhost] at hd
  · intro y hy hyl
    rcases (htree y).1 hy with e | e | e
    · subst e; rw [hRl] at hyl; cases hyl
    · subst e
      refine ⟨fun i j hij hj => by omega, ?_⟩
      intro i hi
      have : i = 0 := by omega
      subst this
      rw [hAk, hAv, hga]
      exact ⟨Nat.le_refl _, hkv⟩
    · subst e
      exact ⟨fun i j hij hj => by omega, fun i hi => by omega⟩
  · intro y hy
    left
    rcases (htree y).1 hy with e | e | e
    · subst e; omega
    · subst e; omega
    · subst e; omega
  · intro key val hh
    have hk : key = k := by
      by_contra hne
      simp [firstGhost, Function.update_apply, hne] at hh
    subst hk
    rw [hkv] at hh
    have hv := Option.some.inj hh
    exact ⟨a, (htree a).2 (Or.inr (Or.inl rfl)), hAl, 0, by omega, hAk, by rw [hAv]; exact hv⟩
theorem allocate_chain (t : BTreeIndex) (a : Nat) (rest : List Nat)
    (hi : t.superblock_index = 0) (h0 : 0 < t.buffercache.numBlocks)
    (hc : FreeChain t.buffercache t.superblock.info.freelist (a :: rest)) :
    AllocateNode t = some (ERROR_NOERROR, a,
      t.withFree (t.buffercache.blocks a).info.freelist) := by
  obtain ⟨h1, h2, h3, h4, _⟩ := hc
  simp only [AllocateNode, h1, h2, if_false, BTreeNode.Unserialize, h3, if_true, h4, ne_eq,
    not_true_eq_false, BTreeNode.Serialize, hi, h0, BTreeIndex.withFree]

theorem mk_setVal (info : NodeMetadata) (k v p : Nat → Nat) (o x : Nat)
    (h : info.nodetype = BTREE_LEAF_NODE) (ho : o < info.numkeys) :
    (⟨info, k, v, p⟩ : BTreeNode).SetVal o x
      = (ERROR_NOERROR, ⟨info, k, Function.update v o x, p⟩) := by
  simp [BTreeNode.SetVal, BTreeNode.isLeaf, h, ho]

/-- The run of `insertFirst` when both allocations succeed. -/
theorem insertFirst_run (t t1 t4 : BTreeIndex) (k v a b : Nat) (e1 e4 : ERROR_T)
    (rootNode : BTreeNode)
    (h1 : AllocateNode { t with initBlock := true } = some (e1, a, t1))
    (ha : a < t1.buffercache.numBlocks)
    (hr : t1.superblock.info.rootnode < t1.buffercache.numBlocks)
    (hra : t1.superblock.info.rootnode ≠ a)
    (hri : (t1.buffercache.blocks t1.superblock.info.rootnode).info.nodetype = BTREE_ROOT_NODE)
    (h4 : AllocateNode (t1.withBlock a (firstLeaf k v)) = some (e4, b, t4))
    (hb : b < t4.buffercache.numBlocks)
    (hr4 : t4.superblock.info.rootnode < t4.buffercache.numBlocks) :
    insertFirst t k v rootNode = some (ERROR_NOERROR,
      (t4.withBlock b (BTreeNode.new BTREE_LEAF_NODE)).withBlock t4.superblock.info.rootnode
        (firstRoot (t1.buffercache.blocks t1.superblock.info.rootnode) k a b)) := by
  unfold insertFirst
  simp only [h1]
  rw [serialize_eq t1 a _ ha]
  simp only []
  have u1 : ∀ old nd, BTreeNode.Unserialize old (t1.withBlock a nd).buffercache a
      = (ERROR_NOERROR, nd) := by
    intro old nd
    rw [unserialize_eq (t1.withBlock a nd) a old ha]
    simp [BTreeIndex.withBlock]
  rw [u1]
  simp only [ne_eq, not_true_eq_false, if_false, BTreeNode.new, Nat.zero_add]
  rw [mk_setKey _ _ _ _ _ _ (Or.inr (Or.inr rfl)) Nat.zero_lt_one]
  simp only []
  rw [mk_setVal _ _ _ _ _ _ rfl Nat.zero_lt_one]
  simp only []
  rw [serialize_eq (t1.withBlock a _) a _ ha]
  simp only []
  have e3 : ∀ nd0 nd1, (⟨t1.superblock, t1.superblock_index,
      ((t1.withBlock a nd0).withBlock a nd1).buffercache, t1.maxNumKeys, t1.initBlock⟩ :
      BTreeIndex) = t1.withBlock a nd1 := by
    intro nd0 nd1
    simp [BTreeIndex.withBlock]
  have e3b : ∀ nd0 nd1, ((t1.withBlock a nd0).withBlock a nd1).buffercache
      = (t1.withBlock a nd1).buffercache := by
    intro nd0 nd1
    simp [BTreeIndex.withBlock]
  rw [e3, e3b]
  have u2 : ∀ old nd, BTreeNode.Unserialize old (t1.withBlock a nd).buffercache
      t1.superblock.info.rootnode
      = (ERROR_NOERROR, t1.buffercache.blocks t1.superblock.info.rootnode) := by
    intro old nd
    rw [unserialize_eq (t1.withBlock a nd) _ old hr]
    simp [BTreeIndex.withBlock, Function.update_apply, hra]
  rw [u2]
  simp only [ne_eq, not_true_eq_false, if_false]
  have h4' : AllocateNode (t1.withBlock a ⟨⟨BTREE_LEAF_NODE, 0, 0, 1⟩,
      Function.update (fun _ => 0) 0 k, Function.update (fun _ => 0) 0 v, fun _ => 0⟩)
      = some (e4, b, t4) := h4
  rw [h4']
  simp only []
  rw [serialize_eq t4 b _ hb]
  simp only [ne_eq, not_true_eq_false, if_false]
  generalize t1.buffercache.blocks t1.superblock.info.rootnode = R at hri ⊢
  rw [mk_setPtr ⟨R.info.nodetype, R.info.rootnode, R.info.freelist, R.info.numkeys + 1⟩
    _ _ _ 0 a (Or.inl hri) (Nat.zero_le _)]
  simp only []
  rw [mk_setKey ⟨R.info.nodetype, R.info.rootnode, R.info.freelist, R.info.numkeys + 1⟩
    _ _ _ 0 k (Or.inl hri) (Nat.succ_pos _)]
  simp only []
  rw [mk_setPtr ⟨R.info.nodetype, R.info.rootnode, R.info.freelist, R.info.numkeys + 1⟩
    _ _ _ 1 b (Or.inl hri) (Nat.succ_le_succ (Nat.zero_le _))]
  simp only []
  rw [serialize_eq (t4.withBlock b _) _ _ hr4]
  simp only [not_true_eq_false, if_false]
  rfl
/-- The run of `Insert` on an index without keys up to the call of `insertFirst`. -/
theorem insert_fresh_run (t : BTreeIndex) (fuel k v : Nat)
    (hprobe : LookupOrUpdateInternal t fuel t.superblock.info.rootnode BTREE_OP_LOOKUP k 0
      = some (ERROR_NONEXISTENT, 0, t))
    (hroot : t.superblock.info.rootnode < t.buffercache.numBlocks)
    (hn : (t.buffercache.blocks t.superblock.info.rootnode).info.numkeys = 0) :
    Insert t fuel k v = insertFirst { t with initBlock := false } k v
      (t.buffercache.blocks t.superblock.info.rootnode) := by
  have e : ∀ b : Bool, (⟨t.superblock, t.superblock_index,
      (t.withBlock t.superblock.info.rootnode
        (t.buffercache.blocks t.superblock.info.rootnode)).buffercache,
      t.maxNumKeys, b⟩ : BTreeIndex) = { t with initBlock := b } := by
    intro b
    rw [withBlock_self]
  simp only [Insert, hprobe, unserialize_eq t _ _ hroot, ne_eq, hn, not_true_eq_false, if_false,
    serialize_eq t _ _ hroot]
  rw [e false]
  simp

/-- The first `Insert` into an index without keys, with two free blocks: it returns
`ERROR_NOERROR` and leaves a root over two leaves that holds the one record. -/
theorem insert_fresh {t : BTreeIndex} {a b : Nat} {rest : List Nat}
    (h : Fresh t (a :: b :: rest)) (hthr : 1 ≤ threshold t) (fuel k v : Nat) :
    ∃ t', Insert t (fuel + 1) k v = some (ERROR_NOERROR, t') ∧
      Inv t' (firstGhost t.superblock.info.rootnode a b k v rest) none ∧
      t'.maxNumKeys = t.maxNumKeys ∧ t'.superblock.info.rootnode = t.superblock.info.rootnode := by
  have hc := h.free_chain
  obtain ⟨c1, c2, c3, c4, c5⟩ := hc
  have hc5 := c5
  obtain ⟨d1, d2, d3, d4, d5⟩ := c5
  have hnd := h.free_nodup
  have hab : a ≠ b := by
    intro e; subst e; simp at hnd
  have h0 : 0 < t.buffercache.numBlocks := by omega
  have hr0 := h.root_ne
  have hra : t.superblock.info.rootnode ≠ a := by
    intro e
    have := h.root_type
    rw [e, c4] at this
    cases this
  have hrb : t.superblock.info.rootnode ≠ b := by
    intro e
    have := h.root_type
    rw [e, d4] at this
    cases this
  have hmem : ∀ y, y ∈ rest → y ≠ 0 ∧ y < t.buffercache.numBlocks ∧ y ≠ a ∧ y ≠ b ∧
      y ≠ t.superblock.info.rootnode := by
    intro y hy
    have m := freeChain_mem _ _ d5 y hy
    refine ⟨m.1, m.2.1, ?_, ?_, ?_⟩
    · intro e; subst e; simp [hy] at hnd
    · intro e; subst e; simp [hy] at hnd
    · intro e
      have := h.root_type
      rw [← e, m.2.2] at this
      cases this
  rw [insert_fresh_run t (fuel + 1) k v (lui_fresh h fuel _ k 0) h.root_lt h.root_keys]
  have h1 := allocate_chain ⟨t.superblock, t.superblock_index, t.buffercache, t.maxNumKeys, true⟩
    a (b :: rest) h.sb_index h0 h.free_chain
  have h4 := allocate_chain
    ((BTreeIndex.withFree ⟨t.superblock, t.superblock_index, t.buffercache, t.maxNumKeys, true⟩
      (t.buffercache.blocks a).info.freelist).withBlock a (firstLeaf k v))
    b rest h.sb_index h0
    (by
      refine @freeChain_frame t.buffercache _ (by rfl) _ _ hc5 ?_
      intro y hy
      have hy0 : y ≠ 0 := by
        rcases List.mem_cons.1 hy with e | e
        · rw [e]; exact d2
        · exact (hmem y e).1
      have hya : y ≠ a := by
        rcases List.mem_cons.1 hy with e | e
        · rw [e]; exact Ne.symm hab
        · exact (hmem y e).2.2.1
      simp [BTreeIndex.withBlock, BTreeIndex.withFree, Function.update_apply, hy0, hya])
  rw [insertFirst_run ⟨t.superblock, t.superblock_index, t.buffercache, t.maxNumKeys, false⟩
    _ _ k v a b _ _ _ h1 c3 h.root_lt hra
    (by simp [BTreeIndex.withFree, Function.update_apply, hr0]; exact h.root_type)
    h4 d3 h.root_lt]
  refine ⟨_, rfl, ?_, rfl, rfl⟩
  apply inv_first
  · exact h.sb_index
  · simp [BTreeIndex.withBlock, BTreeIndex.withFree, Function.update_apply, Ne.symm hr0,
      Ne.symm d2]
  · exact h.sb_type
  · exact hthr
  · rfl
  · exact hra
  · exact hrb
  · exact hab
  · exact h.root_lt
  · exact c3
  · exact d3
  · simp [BTreeIndex.withBlock, BTreeIndex.withFree, Function.update_apply, hr0, hra, firstRoot]
    exact h.root_type
  · simp [BTreeIndex.withBlock, BTreeIndex.withFree, Function.update_apply, hr0, hra, firstRoot]
    exact h.root_keys
  · simp [BTreeIndex.withBlock, BTreeIndex.withFree, Function.update_apply, firstRoot]
  · simp [BTreeIndex.withBlock, BTreeIndex.withFree, Function.update_apply, firstRoot]
  · simp [BTreeIndex.withBlock, BTreeIndex.withFree, Function.update_apply, firstRoot]
  · simp [BTreeIndex.withBlock, BTreeIndex.withFree, Function.update_apply, Ne.symm hra, hab,
      firstLeaf, c2]
  · simp [BTreeIndex.withBlock, BTreeIndex.withFree, Function.update_apply, Ne.symm hra, hab,
      firstLeaf, c2]
  · simp [BTreeIndex.withBlock, BTreeIndex.withFree, Function.update_apply, Ne.symm hra, hab,
      firstLeaf, c2]
  · simp [BTreeIndex.withBlock, BTreeIndex.withFree, Function.update_apply, Ne.symm hra, hab,
      firstLeaf, c2]
  · simp [BTreeIndex.withBlock, BTreeIndex.withFree, Function.update_apply, Ne.symm hrb,
      BTreeNode.new, d2]
  · simp [BTreeIndex.withBlock, BTreeIndex.withFree, Function.update_apply, Ne.symm hrb,
      BTreeNode.new, d2]
  · intro y h1 h2 h3
    by_cases hy0 : y = 0
    · subst hy0
      apply super_not_node
      simp [BTreeIndex.withBlock, BTreeIndex.withFree, Function.update_apply, Ne.symm hr0,
        Ne.symm d2, Ne.symm c2]
      exact h.sb_type
    · simp only [BTreeIndex.withBlock, BTreeIndex.withFree, Function.update_apply, hy0, h2, h3,
        h1, if_false]
      exact h.others y h1
  · refine @freeChain_frame t.buffercache _ (by rfl) _ _ ?_ ?_
    · simp [BTreeIndex.withBlock, BTreeIndex.withFree, Function.update_apply, Ne.symm hab, d2]
      exact d5
    · intro y hy
      have m := hmem y hy
      simp only [BTreeIndex.withBlock, BTreeIndex.withFree, Function.update_apply, m.1, m.2.2.1,
        m.2.2.2.1, m.2.2.2.2, if_false]
  · exact (List.nodup_cons.1 (List.nodup_cons.1 hnd).2).2
theorem applyKvs_not_mem : ∀ (kvs : List (Nat × Nat)) (f : Nat → Option Nat) (k : Nat),
    k ∉ kvs.map Prod.fst → applyKvs f kvs k = f k := by
  intro kvs
  induction kvs with
  | nil => intro f k _; rfl
  | cons kv kvs ih =>
    intro f k hk
    simp only [List.map_cons, List.mem_cons, not_or] at hk
    show applyKvs (Function.update f kv.1 (some kv.2)) kvs k = f k
    rw [ih _ k hk.2, Function.update_noteq hk.1]

theorem applyKvs_mem : ∀ (kvs : List (Nat × Nat)) (f : Nat → Option Nat) (k v : Nat),
    (kvs.map Prod.fst).Nodup → (k, v) ∈ kvs → applyKvs f kvs k = some v := by
  intro kvs
  induction kvs with
  | nil => intro f k v _ h; cases h
  | cons kv kvs ih =>
    intro f k v hnd hm
    simp only [List.map_cons, List.nodup_cons] at hnd
    show applyKvs (Function.update f kv.1 (some kv.2)) kvs k = some v
    rcases List.mem_cons.1 hm with e | e
    · subst e
      rw [applyKvs_not_mem kvs _ k hnd.1]
      simp
    · exact ih _ k v hnd.2 e

theorem sanityLeafLoop_ok (b : BTreeNode) (hb : b.isLeaf = true) :
    ∀ (cnt off tk : Nat) (cout : List Token), off + cnt ≤ b.info.numkeys →
      (sanityLeafLoop b cnt off tk cout).1 = ERROR_NOERROR := by
  intro cnt
  induction cnt with
  | zero => intro off tk cout _; rfl
  | succ n ih =>
    intro off tk cout h
    have ho : off < b.info.numkeys := by omega
    simp only [sanityLeafLoop, isLeaf_getKey b hb off 0 ho, isLeaf_getVal b hb off 0 ho, ne_eq,
      not_true_eq_false, if_false]
    split
    · exact ih _ _ _ (by omega)
    · exact ih _ _ _ (by omega)

/-- `SanityHelper` on a node of a tree that satisfies the invariant returns
`ERROR_NOERROR`. -/
theorem sanity_of_inv {t : BTreeIndex} {g : Ghost} {over : Option Nat} (hI : Inv t g over) :
    ∀ (fuel a : Nat) (cout : List Token), IsTree t g a → g.lvl a < fuel →
      ∃ out, SanityHelper t fuel a cout = some (ERROR_NOERROR, out) := by
  intro fuel
  induction fuel with
  | zero => intro a cout _ h; omega
  | succ n ih =>
    intro a cout ha hl
    rcases ha.2.2 with hi | hf
    · have hio := hI.interior a ha hi
      have hpos : 0 < (t.buffercache.blocks a).info.numkeys := hio.pos
      obtain ⟨hc1, _, hc3, _⟩ := hio.child 0 (Or.inl hpos)
      simp only [SanityHelper, unserialize_eq t a _ ha.1, ne_eq, not_true_eq_false, if_false, hi,
        if_true, hpos, isInterior_getKey _ hi 0 0 hpos,
        isInterior_getPtr _ hi 0 0 (Nat.zero_le _)]
      exact ih _ _ hc1 (by omega)
    · have hni := isLeaf_not_isInterior _ hf
      simp only [SanityHelper, unserialize_eq t a _ ha.1, ne_eq, not_true_eq_false, if_false, hni,
        Bool.false_eq_true, hf, if_true]
      have h1 := fun c => sanityLeafLoop_ok _ hf (t.buffercache.blocks a).info.numkeys 0 0 c
        (by omega)
      simp only [h1, not_true_eq_false, if_false]
      exact ⟨_, rfl⟩
/-- Writing a new value into a record of a leaf keeps the invariant, with the record
changed. -/
theorem inv_setval {t : BTreeIndex} {g : Ghost} {over : Option Nat} (hI : Inv t g over)
    {l i : Nat} (hl : IsTree t g l) (hleaf : (t.buffercache.blocks l).isLeaf = true)
    (hi : i < (t.buffercache.blocks l).info.numkeys) (v : Nat) :
    Inv (t.withBlock l (leafSet (t.buffercache.blocks l) i v))
      { g with kv := Function.update g.kv ((t.buffercache.blocks l).keys i) (some v) } over := by
  have hl0 := isTree_ne_zero hI hl
  have hlo := hI.leaf l hl hleaf
  have hblk : ∀ a, a ≠ l →
      (t.withBlock l (leafSet (t.buffercache.blocks l) i v)).buffercache.blocks a
        = t.buffercache.blocks a := by
    intro a ha; simp [BTreeIndex.withBlock, Function.update_noteq ha]
  have hbl : (t.withBlock l (leafSet (t.buffercache.blocks l) i v)).buffercache.blocks l
      = leafSet (t.buffercache.blocks l) i v := by
    simp [BTreeIndex.withBlock]
  have hleaf' : (leafSet (t.buffercache.blocks l) i v).isLeaf = true := hleaf
  have hint' : (leafSet (t.buffercache.blocks l) i v).isInterior
      = (t.buffercache.blocks l).isInterior := rfl
  have htree : ∀ a, IsTree (t.withBlock l (leafSet (t.buffercache.blocks l) i v))
      { g with kv := Function.update g.kv ((t.buffercache.blocks l).keys i) (some v) } a
        ↔ IsTree t g a := by
    intro a
    by_cases e : a = l
    · subst e
      simp only [IsTree, hbl, hleaf', hleaf, hint']
      rfl
    · simp only [IsTree, hblk a e]
      rfl
  have hkvne : ∀ k', g.kv k' ≠ none →
      Function.update g.kv ((t.buffercache.blocks l).keys i) (some v) k' ≠ none := by
    intro k' h
    by_cases e : k' = (t.buffercache.blocks l).keys i
    · rw [e]; simp
    · rw [Function.update_noteq e]; exact h
  have hdist : ∀ j, j < (t.buffercache.blocks l).info.numkeys →
      (t.buffercache.blocks l).keys j = (t.buffercache.blocks l).keys i → j = i := by
    intro j hj e
    rcases Nat.lt_trichotomy j i with h | h | h
    · have := hlo.sorted j i h hi; omega
    · exact h
    · have := hlo.sorted i j h hj; omega
  refine
    { sb_index := hI.sb_index,
      sb_block := by rw [hblk 0 (Ne.symm hl0)]; exact hI.sb_block,
      sb_type := hI.sb_type, thr := hI.thr,
      root_tree := (htree _).2 hI.root_tree,
      root_rng := hI.root_rng,
      root_type := ?_, leaf_lvl := ?_, lvl_lt := fun a ha => hI.lvl_lt a ((htree a).1 ha),
      disj := ?_, interior := ?_, leaf := ?_, size := ?_,
      stored := ?_, free_chain := ?_, free_nodup := hI.free_nodup, junk_ok := ?_ }
  · intro a ha
    have ha' := (htree a).1 ha
    by_cases e : a = l
    · subst e; rw [hbl]; exact hI.root_type a ha'
    · rw [hblk a e]; exact hI.root_type a ha'
  · intro a ha
    have ha' := (htree a).1 ha
    by_cases e : a = l
    · subst e; rw [hbl]; exact hI.leaf_lvl a ha'
    · rw [hblk a e]; exact hI.leaf_lvl a ha'
  · intro a a' ha ha'
    exact hI.disj a a' ((htree a).1 ha) ((htree a').1 ha')
  · intro a ha hi'
    have ha' := (htree a).1 ha
    have e : a ≠ l := by
      intro e; subst e
      rw [hbl, hint', isLeaf_not_isInterior _ hleaf] at hi'
      simp at hi'
    have hb := hblk a e
    rw [hb] at hi'
    have ho := hI.interior a ha' hi'
    refine { pos := ?_, sorted := ?_, keys := ?_, child := ?_, dead := ?_ }
    · rw [hb]; exact ho.pos
    · rw [hb]; exact ho.sorted
    · rw [hb]
      intro j hj
      have := ho.keys j hj
      exact ⟨this.1, hkvne _ this.2⟩
    · rw [hb]
      intro j hv
      obtain ⟨h1, h2, h3, h4⟩ := ho.child j hv
      exact ⟨(htree _).2 h1, h2, h3, h4⟩
    · rw [hb]; exact ho.dead
  · intro a ha hf
    have ha' := (htree a).1 ha
    by_cases e : a = l
    · subst e
      refine { sorted := ?_, recs := ?_ }
      · rw [hbl]; exact hlo.sorted
      · rw [hbl]
        intro j hj
        have := hlo.recs j hj
        refine ⟨this.1, ?_⟩
        show Function.update g.kv ((t.buffercache.blocks a).keys i) (some v)
          ((t.buffercache.blocks a).keys j) = some (Function.update (t.buffercache.blocks a).vals i v j)
        by_cases ej : j = i
        · subst ej; simp
        · have hk : (t.buffercache.blocks a).keys j ≠ (t.buffercache.blocks a).keys i :=
            fun e => ej (hdist j hj e)
          rw [Function.update_noteq hk, Function.update_noteq ej]
          exact this.2
    · have hb := hblk a e
      rw [hb] at hf
      have ho := hI.leaf a ha' hf
      refine { sorted := ?_, recs := ?_ }
      · rw [hb]; exact ho.sorted
      · rw [hb]
        intro j hj
        have := ho.recs j hj
        refine ⟨this.1, ?_⟩
        have hk : (t.buffercache.blocks a).keys j ≠ (t.buffercache.blocks l).keys i := by
          intro ek
          have h0 := (hI.leaf_lvl a ha').1 hf
          have h0' := (hI.leaf_lvl l hl).1 hleaf
          have hr := (hlo.recs i hi).1
          rw [← ek] at hr
          exact e (hI.disj a l ha' hl (by omega) _ this.1 hr)
        show Function.update g.kv _ (some v) _ = _
        rw [Function.update_noteq hk]
        exact this.2
  · intro a ha
    have ha' := (htree a).1 ha
    by_cases e : a = l
    · subst e; rw [hbl]; exact hI.size a ha'
    · rw [hblk a e]; exact hI.size a ha'
  · intro k' v' h
    by_cases e : k' = (t.buffercache.blocks l).keys i
    · subst e
      simp only [Function.update_same, Option.some.injEq] at h
      subst h
      exact ⟨l, (htree l).2 hl, by rw [hbl]; exact hleaf', i, by rw [hbl]; exact hi,
        by rw [hbl]; rfl, by rw [hbl]; simp [leafSet]⟩
    · simp only [Function.update_noteq e] at h
      obtain ⟨a, ha, hf, j, hj, h1, h2⟩ := hI.stored k' v' h
      by_cases e' : a = l
      · subst e'
        have ej : j ≠ i := by
          intro ej; subst ej; exact e h1.symm
        exact ⟨a, (htree a).2 ha, by rw [hbl]; exact hleaf', j, by rw [hbl]; exact hj,
          by rw [hbl]; exact h1, by rw [hbl]; simp [leafSet, Function.update_noteq ej, h2]⟩
      · have hb := hblk a e'
        exact ⟨a, (htree a).2 ha, by rw [hb]; exact hf, j, by rw [hb]; exact hj,
          by rw [hb]; exact h1, by rw [hb]; exact h2⟩
  · refine @freeChain_frame t.buffercache _ (by rfl) _ _ hI.free_chain ?_
    intro x hx
    have hx' := freeChain_mem _ _ hI.free_chain x hx
    have hxa : x ≠ l := by
      intro e; subst e; exact unalloc_not_node _ hx'.2.2 hl.2.2
    exact hblk x hxa
  · intro x hx
    have hj := hI.junk_ok x hx
    have hxa : x ≠ l := by
      intro e; subst e; exact hl.2.1 hx
    rw [hblk x hxa]
    exact hj
/-- `LookupOrUpdateInternal` with `BTREE_OP_UPDATE` on a key that is in the tree: it returns
`ERROR_NOERROR` and writes the new value into the leaf that holds the key. -/
theorem lui_update_of_inv {t : BTreeIndex} {g : Ghost} {over : Option Nat} (hI : Inv t g over)
    (k v v1 : Nat) (hkv : g.kv k = some v1) :
    ∀ (fuel a : Nat), IsTree t g a → g.rng a k → g.lvl a < fuel →
      ∃ l i, IsTree t g l ∧ (t.buffercache.blocks l).isLeaf = true ∧
        i < (t.buffercache.blocks l).info.numkeys ∧ (t.buffercache.blocks l).keys i = k ∧
        LookupOrUpdateInternal t fuel a BTREE_OP_UPDATE k v =
          some (ERROR_NOERROR, v, t.withBlock l (leafSet (t.buffercache.blocks l) i v)) := by
  intro fuel
  induction fuel with
  | zero => intro a _ _ h; omega
  | succ n ih =>
    intro a ha hk hl
    rcases ha.2.2 with hi | hf
    · have hio := hI.interior a ha hi
      rw [lui_interior t n a _ k _ ha.1 hi, nextChild_eq _ hi k hio.pos]
      have hv := validIdx_firstIdx hio k hk
      obtain ⟨hc1, _, hc3, hc4⟩ := hio.child _ hv
      exact ih _ hc1 ((hc4 k).2 (inSlice_firstIdx _ _ k hk)) (by omega)
    · have hlo := hI.leaf a ha hf
      rw [lui_leaf t n a _ k _ ha.1 hf, leafScan_eq _ hf k _ 0 (by omega)]
      have hle := firstIdx_le (fun i => decide ((t.buffercache.blocks a).keys i = k))
        (t.buffercache.blocks a).info.numkeys 0
      rw [Nat.zero_add] at hle ⊢
      have hj : firstIdx (fun i => decide ((t.buffercache.blocks a).keys i = k))
          (t.buffercache.blocks a).info.numkeys 0 < (t.buffercache.blocks a).info.numkeys := by
        by_contra hj
        obtain ⟨a', ha', hf', i, hi, hki, _⟩ := hI.stored k v1 hkv
        have hr := (hI.leaf a' ha' hf').recs i hi
        rw [hki] at hr
        have hl0 := (hI.leaf_lvl a ha).1 hf
        have hl0' := (hI.leaf_lvl a' ha').1 hf'
        have e := hI.disj a a' ha ha' (by omega) k hk hr.1
        subst e
        have h2 := firstIdx_before (fun i => decide ((t.buffercache.blocks a).keys i = k))
          (t.buffercache.blocks a).info.numkeys 0 i (by omega) (by omega)
        simp only [decide_eq_false_iff_not] at h2
        exact h2 hki
      have h2 := firstIdx_spec (fun i => decide ((t.buffercache.blocks a).keys i = k))
        (t.buffercache.blocks a).info.numkeys 0 (by omega)
      simp only [decide_eq_true_eq] at h2
      refine ⟨a, _, ha, hf, hj, h2, ?_⟩
      simp only [hj, if_true, setVal_ok _ _ v hf hj, reduceCtorEq, if_false, ne_eq,
        not_true_eq_false, leafSet]

/-! ## Further results on the parts of `Insert` and `Rebalance` -/

/-- The parent that `Rebalance` builds: the split key goes to the first slot `j` whose key
is above it, the two halves to the pointer slots `j` and `j + 1`, and the keys from `j` on
and the pointers after `j` move up by one slot. -/
theorem parentInsert_spec (p : BTreeNode) (hp : p.isInterior = true) (sk L R : Nat) :
    ∃ j np, parentInsert p sk L R = (ERROR_NOERROR, np) ∧
      j ≤ p.info.numkeys ∧ (∀ i, i < j → ¬ sk < p.keys i) ∧
      (j < p.info.numkeys → sk < p.keys j) ∧
      np.info.nodetype = p.info.nodetype ∧ np.info.numkeys = p.info.numkeys + 1 ∧
      (∀ i, i < j → np.keys i = p.keys i) ∧ np.keys j = sk ∧
      (∀ i, j ≤ i → i < p.info.numkeys → np.keys (i + 1) = p.keys i) ∧
      (∀ i, i < j → np.ptrs i = p.ptrs i) ∧ np.ptrs j = L ∧ np.ptrs (j + 1) = R ∧
      (∀ i, j < i → i ≤ p.info.numkeys → np.ptrs (i + 1) = p.ptrs i) := by
  have hle := firstIdx_le (fun i => decide (sk < p.keys i)) p.info.numkeys 0
  have hbef := firstIdx_before (fun i => decide (sk < p.keys i)) p.info.numkeys 0
  have hsp := firstIdx_spec (fun i => decide (sk < p.keys i)) p.info.numkeys 0
  simp only [decide_eq_false_iff_not, decide_eq_true_eq, Nat.zero_add] at hbef hsp hle
  refine ⟨firstIdx (fun i => decide (sk < p.keys i)) p.info.numkeys 0, _,
    parentInsert_eq p hp sk L R, hle, ?_, hsp, rfl, rfl, ?_, ?_, ?_, ?_, ?_, ?_, ?_⟩
  · intro i hi; exact hbef i (Nat.zero_le _) hi
  · intro i hi; simp only [hi, if_true]
  · simp only [lt_self_iff_false, if_false, if_true]
  · intro i h1 h2
    have e1 : ¬ (i + 1 < firstIdx (fun i => decide (sk < p.keys i)) p.info.numkeys 0) := by
      omega
    have e2 : i + 1 ≠ firstIdx (fun i => decide (sk < p.keys i)) p.info.numkeys 0 := by omega
    have e3 : i + 1 ≤ p.info.numkeys := by omega
    simp only [e1, e2, e3, if_false, if_true, Nat.add_sub_cancel]
  · intro i hi; simp only [hi, if_true]
  · simp only [lt_self_iff_false, if_false, if_true]
  · have e1 : ¬ (firstIdx (fun i => decide (sk < p.keys i)) p.info.numkeys 0 + 1 <
        firstIdx (fun i => decide (sk < p.keys i)) p.info.numkeys 0) := by omega
    have e2 : firstIdx (fun i => decide (sk < p.keys i)) p.info.numkeys 0 + 1 ≠
        firstIdx (fun i => decide (sk < p.keys i)) p.info.numkeys 0 := by omega
    simp only [e1, e2, if_false, if_true]
  · intro i h1 h2
    have e1 : ¬ (i + 1 < firstIdx (fun i => decide (sk < p.keys i)) p.info.numkeys 0) := by
      omega
    have e2 : i + 1 ≠ firstIdx (fun i => decide (sk < p.keys i)) p.info.numkeys 0 := by omega
    have e3 : i + 1 ≠ firstIdx (fun i => decide (sk < p.keys i)) p.info.numkeys 0 + 1 := by
      omega
    have e4 : i + 1 ≤ p.info.numkeys + 1 := by omega
    simp only [e1, e2, e3, e4, if_false, if_true, Nat.add_sub_cancel]
theorem allocate_head (t : BTreeIndex) (a : Nat)
    (hi : t.superblock_index = 0) (h0 : 0 < t.buffercache.numBlocks)
    (h1 : t.superblock.info.freelist = a) (h2 : a ≠ 0) (h3 : a < t.buffercache.numBlocks)
    (h4 : (t.buffercache.blocks a).info.nodetype = BTREE_UNALLOCATED_BLOCK) :
    AllocateNode t = some (ERROR_NOERROR, a,
      t.withFree (t.buffercache.blocks a).info.freelist) := by
  simp only [AllocateNode, h1, h2, if_false, BTreeNode.Unserialize, h3, if_true, h4, ne_eq,
    not_true_eq_false, BTreeNode.Serialize, hi, h0, BTreeIndex.withFree]

theorem lui_empty_root (t : BTreeIndex) (fuel : Nat) (op : BTreeOp) (k v : Nat)
    (hr : t.superblock.info.rootnode < t.buffercache.numBlocks)
    (hty : (t.buffercache.blocks t.superblock.info.rootnode).info.nodetype = BTREE_ROOT_NODE)
    (hn : (t.buffercache.blocks t.superblock.info.rootnode).info.numkeys = 0) :
    LookupOrUpdateInternal t (fuel + 1) t.superblock.info.rootnode op k v
      = some (ERROR_NONEXISTENT, v, t) := by
  have hi : (t.buffercache.blocks t.superblock.info.rootnode).isInterior = true := by
    simp [BTreeNode.isInterior, hty]
  simp [LookupOrUpdateInternal, BTreeNode.Unserialize, hr, hi, hn, lookupScan]

/-- The first `Insert` into an index whose root has no keys, with the two blocks `a`, `b` at
the head of the free list: the state it leaves. -/
theorem insert_first_state (t : BTreeIndex) (a b fuel k v : Nat)
    (hi : t.superblock_index = 0)
    (hr0 : t.superblock.info.rootnode ≠ 0)
    (hr : t.superblock.info.rootnode < t.buffercache.numBlocks)
    (hty : (t.buffercache.blocks t.superblock.info.rootnode).info.nodetype = BTREE_ROOT_NODE)
    (hn : (t.buffercache.blocks t.superblock.info.rootnode).info.numkeys = 0)
    (ha1 : t.superblock.info.freelist = a) (ha2 : a ≠ 0) (ha3 : a < t.buffercache.numBlocks)
    (ha4 : (t.buffercache.blocks a).info.nodetype = BTREE_UNALLOCATED_BLOCK)
    (hb1 : (t.buffercache.blocks a).info.freelist = b) (hb2 : b ≠ 0)
    (hb3 : b < t.buffercache.numBlocks)
    (hb4 : (t.buffercache.blocks b).info.nodetype = BTREE_UNALLOCATED_BLOCK)
    (hab : a ≠ b) :
    ∃ t', Insert t (fuel + 1) k v = some (ERROR_NOERROR, t') ∧
      t'.superblock.info.rootnode = t.superblock.info.rootnode ∧
      (t'.buffercache.blocks t.superblock.info.rootnode).info.nodetype = BTREE_ROOT_NODE ∧
      (t'.buffercache.blocks t.superblock.info.rootnode).info.numkeys = 1 ∧
      (t'.buffercache.blocks t.superblock.info.rootnode).keys 0 = k ∧
      (t'.buffercache.blocks t.superblock.info.rootnode).ptrs 0 = a ∧
      (t'.buffercache.blocks t.superblock.info.rootnode).ptrs 1 = b ∧
      (t'.buffercache.blocks a).info.nodetype = BTREE_LEAF_NODE ∧
      (t'.buffercache.blocks a).info.numkeys = 1 ∧
      (t'.buffercache.blocks a).keys 0 = k ∧ (t'.buffercache.blocks a).vals 0 = v ∧
      (t'.buffercache.blocks b).info.nodetype = BTREE_LEAF_NODE ∧
      (t'.buffercache.blocks b).info.numkeys = 0 ∧
      t'.superblock.info.freelist = (t.buffercache.blocks b).info.freelist := by
  have h0 : 0 < t.buffercache.numBlocks := by omega
  have hra : t.superblock.info.rootnode ≠ a := by
    intro e; rw [e, ha4] at hty; cases hty
  have hrb : t.superblock.info.rootnode ≠ b := by
    intro e; rw [e, hb4] at hty; cases hty
  rw [insert_fresh_run t (fuel + 1) k v (lui_empty_root t fuel _ k 0 hr hty hn) hr hn]
  have h1 := allocate_head ⟨t.superblock, t.superblock_index, t.buffercache, t.maxNumKeys, true⟩
    a hi h0 ha1 ha2 ha3 ha4
  have h4 := allocate_head
    ((BTreeIndex.withFree ⟨t.superblock, t.superblock_index, t.buffercache, t.maxNumKeys, true⟩
      (t.buffercache.blocks a).info.freelist).withBlock a (firstLeaf k v))
    b hi h0 (by simp [BTreeIndex.withBlock, BTreeIndex.withFree, hb1]) hb2 hb3
    (by simp [BTreeIndex.withBlock, BTreeIndex.withFree, Function.update_apply, hb2,
          Ne.symm hab, hb4])
  rw [insertFirst_run ⟨t.superblock, t.superblock_index, t.buffercache, t.maxNumKeys, false⟩
    _ _ k v a b _ _ _ h1 ha3 hr hra
    (by simp [BTreeIndex.withFree, Function.update_apply, hr0]; exact hty)
    h4 hb3 hr]
  refine ⟨_, rfl, rfl, ?_, ?_, ?_, ?_, ?_, ?_, ?_, ?_, ?_, ?_, ?_, ?_⟩
  · simp [BTreeIndex.withBlock, BTreeIndex.withFree, Function.update_apply, hr0, hra, firstRoot]
    exact hty
  · simp [BTreeIndex.withBlock, BTreeIndex.withFree, Function.update_apply, hr0, hra, firstRoot]
    exact hn
  · simp [BTreeIndex.withBlock, BTreeIndex.withFree, Function.update_apply, firstRoot]
  · simp [BTreeIndex.withBlock, BTreeIndex.withFree, Function.update_apply, firstRoot]
  · simp [BTreeIndex.withBlock, BTreeIndex.withFree, Function.update_apply, firstRoot]
  · simp [BTreeIndex.withBlock, BTreeIndex.withFree, Function.update_apply, Ne.symm hra, hab,
      firstLeaf, ha2]
  · simp [BTreeIndex.withBlock, BTreeIndex.withFree, Function.update_apply, Ne.symm hra, hab,
      firstLeaf, ha2]
  · simp [BTreeIndex.withBlock, BTreeIndex.withFree, Function.update_apply, Ne.symm hra, hab,
      firstLeaf, ha2]
  · simp [BTreeIndex.withBlock, BTreeIndex.withFree, Function.update_apply, Ne.symm hra, hab,
      firstLeaf, ha2]
  · simp [BTreeIndex.withBlock, BTreeIndex.withFree, Function.update_apply, Ne.symm hrb,
      BTreeNode.new, hb2]
  · simp [BTreeIndex.withBlock, BTreeIndex.withFree, Function.update_apply, Ne.symm hrb,
      BTreeNode.new, hb2]
  · simp [BTreeIndex.withBlock, BTreeIndex.withFree, Function.update_apply, Ne.symm hab, hb2]

theorem deallocate_run (t : BTreeIndex) (x : Nat)
    (hi : t.superblock_index = 0) (h0 : 0 < t.buffercache.numBlocks)
    (hx : x < t.buffercache.numBlocks)
    (hty : (t.buffercache.blocks x).info.nodetype ≠ BTREE_UNALLOCATED_BLOCK) :
    DeallocateNode t x = some (ERROR_NOERROR, (t.withBlock x (freedNode t x)).withFree x) := by
  simp only [DeallocateNode, BTreeNode.Unserialize, hx, if_true, hty, if_false,
    BTreeNode.Serialize, hi, h0, BTreeIndex.withFree, BTreeIndex.withBlock, freedNode]

theorem deallocate_after {r : Option (ERROR_T × BTreeIndex)} (s : BTreeIndex) (x : Nat)
    (hrun : r = DeallocateNode s x)
    (hi : s.superblock_index = 0) (h0 : 0 < s.buffercache.numBlocks)
    (hx : x < s.buffercache.numBlocks)
    (hty : (s.buffercache.blocks x).info.nodetype ≠ BTREE_UNALLOCATED_BLOCK) :
    r = some (ERROR_NOERROR, (s.withBlock x (freedNode s x)).withFree x) := by
  rw [hrun]
  exact deallocate_run s x hi h0 hx hty

/-- `Rebalance` on a ROOT node with at least two keys and three blocks `L`, `R`, `q` at the
head of the free list: the state it leaves. -/
theorem root_split_state (t : BTreeIndex) (x L R q fuel : Nat) (path : List Nat)
    (hi : t.superblock_index = 0)
    (hx0 : x ≠ 0) (hx : x < t.buffercache.numBlocks)
    (hty : (t.buffercache.blocks x).info.nodetype = BTREE_ROOT_NODE)
    (hn2 : 2 ≤ (t.buffercache.blocks x).info.numkeys)
    (hn64 : (t.buffercache.blocks x).info.numkeys ≤ 2 ^ 64)
    (hL1 : t.superblock.info.freelist = L) (hL2 : L ≠ 0) (hL3 : L < t.buffercache.numBlocks)
    (hL4 : (t.buffercache.blocks L).info.nodetype = BTREE_UNALLOCATED_BLOCK)
    (hR1 : (t.buffercache.blocks L).info.freelist = R) (hR2 : R ≠ 0)
    (hR3 : R < t.buffercache.numBlocks)
    (hR4 : (t.buffercache.blocks R).info.nodetype = BTREE_UNALLOCATED_BLOCK)
    (hq1 : (t.buffercache.blocks R).info.freelist = q) (hq2 : q ≠ 0)
    (hq3 : q < t.buffercache.numBlocks)
    (hq4 : (t.buffercache.blocks q).info.nodetype = BTREE_UNALLOCATED_BLOCK)
    (hLR : L ≠ R) (hLq : L ≠ q) (hRq : R ≠ q) :
    ∃ t', Rebalance (fuel + 1) t x path = some (ERROR_NOERROR, t') ∧
      (t'.buffercache.blocks q).info.nodetype = BTREE_ROOT_NODE ∧
      (t'.buffercache.blocks q).info.numkeys = 1 ∧
      (t'.buffercache.blocks q).keys 0
        = (t.buffercache.blocks x).keys ((t.buffercache.blocks x).info.numkeys / 2 - 1) ∧
      (t'.buffercache.blocks q).ptrs 0 = L ∧ (t'.buffercache.blocks q).ptrs 1 = R ∧
      q ≠ x ∧ t'.superblock.info.rootnode = q ∧
      (t'.buffercache.blocks 0).info.rootnode = q ∧
      (t'.buffercache.blocks L).info.nodetype = BTREE_INTERIOR_NODE ∧
      (t'.buffercache.blocks R).info.nodetype = BTREE_INTERIOR_NODE ∧
      (t'.buffercache.blocks x).info.nodetype = BTREE_UNALLOCATED_BLOCK ∧
      t'.superblock.info.freelist = x ∧ (t'.buffercache.blocks 0).info.freelist = x := by
  have h0 : 0 < t.buffercache.numBlocks := by omega
  have hxi : (t.buffercache.blocks x).isInterior = true := by simp [BTreeNode.isInterior, hty]
  have hnl : (t.buffercache.blocks x).info.nodetype ≠ BTREE_LEAF_NODE := by
    rw [hty]; decide
  have hLx : L ≠ x := by intro e; rw [e, hty] at hL4; cases hL4
  have hRx : R ≠ x := by intro e; rw [e, hty] at hR4; cases hR4
  have hqx : q ≠ x := by intro e; rw [e, hty] at hq4; cases hq4
  obtain ⟨ln, hln, hsl⟩ := split_left_run (t.buffercache.blocks x) (Or.inl hxi)
    ((t.buffercache.blocks x).info.numkeys / 2) (by omega)
  obtain ⟨rn0, hrn0, rn, hrn, hsr⟩ := split_right_run (t.buffercache.blocks x) (Or.inl hxi)
    ((t.buffercache.blocks x).info.numkeys / 2) (by omega)
  have hk : (t.buffercache.blocks x).GetKey
      (((t.buffercache.blocks x).info.numkeys / 2 + 2 ^ 64 - 1) % 2 ^ 64) 0
        = (ERROR_NOERROR,
          (t.buffercache.blocks x).keys ((t.buffercache.blocks x).info.numkeys / 2 - 1)) := by
    have e : ((t.buffercache.blocks x).info.numkeys / 2 + 2 ^ 64 - 1) % 2 ^ 64
        = (t.buffercache.blocks x).info.numkeys / 2 - 1 := by
      omega
    rw [e]
    exact node_getKey _ (Or.inl hxi) _ _ (by omega)
  have h1 := allocate_head t L hi h0 hL1 hL2 hL3 hL4
  have h3 := allocate_head
    ((t.withFree (t.buffercache.blocks L).info.freelist).withBlock L
      (BTreeNode.new (if (t.buffercache.blocks x).info.nodetype = BTREE_LEAF_NODE
        then BTREE_LEAF_NODE else BTREE_INTERIOR_NODE)))
    R hi h0 (by simp [BTreeIndex.withBlock, BTreeIndex.withFree, hR1]) hR2 hR3
    (by simp [BTreeIndex.withBlock, BTreeIndex.withFree, Function.update_apply, hR2,
          Ne.symm hLR, hR4])
  have hs := splitNode_run t _ _ x L R _ _ _ ln rn0 rn hx h1 hL3 h3 hL3 hR3 hx hLR hLx hRx
    (by simp [BTreeIndex.withBlock, BTreeIndex.withFree, Function.update_apply, hL2])
    (by simp [BTreeIndex.withBlock, BTreeIndex.withFree, Function.update_apply, hx0,
          Ne.symm hLx])
    hln hrn0 hrn hk
  have h8 := allocate_head
    ((((((t.withFree (t.buffercache.blocks L).info.freelist).withBlock L
      (BTreeNode.new (if (t.buffercache.blocks x).info.nodetype = BTREE_LEAF_NODE
        then BTREE_LEAF_NODE else BTREE_INTERIOR_NODE))).withFree
      (((t.withFree (t.buffercache.blocks L).info.freelist).withBlock L
        (BTreeNode.new (if (t.buffercache.blocks x).info.nodetype = BTREE_LEAF_NODE
          then BTREE_LEAF_NODE else BTREE_INTERIOR_NODE))).buffercache.blocks
            R).info.freelist).withBlock R
      (BTreeNode.new (if (t.buffercache.blocks x).info.nodetype = BTREE_LEAF_NODE
        then BTREE_LEAF_NODE else BTREE_INTERIOR_NODE))).withBlock L ln).withBlock R rn)
    q hi h0
    (by simp [BTreeIndex.withBlock, BTreeIndex.withFree, Function.update_apply, hR2,
          Ne.symm hLR, hq1])
    hq2 hq3
    (by simp [BTreeIndex.withBlock, BTreeIndex.withFree, Function.update_apply, hq2,
          Ne.symm hLq, Ne.symm hRq, hq4])
  have hrun := rebalance_root_run fuel t _ _ x L R _ q _ _ path hs hty h8 hq3
  have hfin := deallocate_after _ x hrun hi h0 hx
    (by simp [BTreeIndex.withBlock, BTreeIndex.withFree, Function.update_apply, hx0,
          Ne.symm hLx, Ne.symm hRx, Ne.symm hqx, hty])
  have hsL := split_left_node hsl (Or.inl hxi)
  have hsR := split_right_node hsr (Or.inl hxi)
  refine ⟨_, hfin, ?_, ?_, ?_, ?_, ?_, hqx, rfl, ?_, ?_, ?_, ?_, rfl, ?_⟩
  · simp [BTreeIndex.withBlock, BTreeIndex.withFree, Function.update_apply, hq2, hqx, rootWith]
  · simp [BTreeIndex.withBlock, BTreeIndex.withFree, Function.update_apply, hq2, hqx, rootWith]
  · simp [BTreeIndex.withBlock, BTreeIndex.withFree, Function.update_apply, hq2, hqx, rootWith]
  · simp [BTreeIndex.withBlock, BTreeIndex.withFree, Function.update_apply, hq2, hqx, rootWith]
  · simp [BTreeIndex.withBlock, BTreeIndex.withFree, Function.update_apply, hq2, hqx, rootWith]
  · simp [BTreeIndex.withBlock, BTreeIndex.withFree, Function.update_apply]
  · simp [BTreeIndex.withBlock, BTreeIndex.withFree, Function.update_apply, hL2, hLx, hLq, hLR]
    exact (hsl.2.2.2 hxi).1
  · simp [BTreeIndex.withBlock, BTreeIndex.withFree, Function.update_apply, hR2, hRx, hRq]
    exact (hsr.2.2.2 hxi).1
  · simp [BTreeIndex.withBlock, BTreeIndex.withFree, Function.update_apply, hx0, freedNode]
  · simp [BTreeIndex.withBlock, BTreeIndex.withFree, Function.update_apply]

/-! ## The first inserts: a root over two leaves -/

/-- The state after `Attach` with `create = true`: besides being fresh, the root is block
`1`, the store keeps its size and the superblock counts no keys. -/
theorem attach_state (n m : Nat) (hn : 3 ≤ n) :
    ∃ t0, Attach (BTreeIndex.new (emptyCache n) m) 0 true = some (ERROR_NOERROR, t0) ∧
      Fresh t0 (List.range' 2 (n - 2)) ∧ t0.maxNumKeys = m ∧
      t0.superblock.info.rootnode = 1 ∧ t0.buffercache.numBlocks = n ∧
      t0.superblock.info.numkeys = 0 := by
  obtain ⟨t0, h, hF, hm⟩ := attach_fresh n m hn
  refine ⟨t0, h, hF, hm, ?_⟩
  have h0 : 0 < n := by omega
  have h1 : 1 < n := by omega
  simp only [Attach, BTreeIndex.new, emptyCache, BTreeNode.Serialize, h0, h1, if_true, ne_eq,
    not_true_eq_false, if_false, BTreeNode.new, Nat.zero_add] at h
  rw [attachFreeLoop_eq (n - 2) 2 _ (by simp only; omega)] at h
  simp only [ne_eq, not_true_eq_false, if_false, BTreeNode.Unserialize, h0, if_true] at h
  have e := (Prod.mk.inj (Option.some.inj h)).2
  subst e
  simp
/-- The first `Insert` into an index whose root has no keys: what it leaves as it was. -/
theorem insert_first_frame (t : BTreeIndex) (a b fuel k v : Nat)
    (hi : t.superblock_index = 0)
    (hr0 : t.superblock.info.rootnode ≠ 0)
    (hr : t.superblock.info.rootnode < t.buffercache.numBlocks)
    (hty : (t.buffercache.blocks t.superblock.info.rootnode).info.nodetype = BTREE_ROOT_NODE)
    (hn : (t.buffercache.blocks t.superblock.info.rootnode).info.numkeys = 0)
    (ha1 : t.superblock.info.freelist = a) (ha2 : a ≠ 0) (ha3 : a < t.buffercache.numBlocks)
    (ha4 : (t.buffercache.blocks a).info.nodetype = BTREE_UNALLOCATED_BLOCK)
    (hb1 : (t.buffercache.blocks a).info.freelist = b) (hb2 : b ≠ 0)
    (hb3 : b < t.buffercache.numBlocks)
    (hb4 : (t.buffercache.blocks b).info.nodetype = BTREE_UNALLOCATED_BLOCK)
    (hab : a ≠ b) :
    ∃ t', Insert t (fuel + 1) k v = some (ERROR_NOERROR, t') ∧
      t'.buffercache.numBlocks = t.buffercache.numBlocks ∧
      t'.maxNumKeys = t.maxNumKeys ∧
      t'.superblock.info.numkeys = t.superblock.info.numkeys ∧
      (∀ y, y ≠ 0 → y ≠ t.superblock.info.rootnode → y ≠ a → y ≠ b →
        t'.buffercache.blocks y = t.buffercache.blocks y) := by
  have h0 : 0 < t.buffercache.numBlocks := by omega
  have hra : t.superblock.info.rootnode ≠ a := by
    intro e; rw [e, ha4] at hty; cases hty
  have hrb : t.superblock.info.rootnode ≠ b := by
    intro e; rw [e, hb4] at hty; cases hty
  rw [insert_fresh_run t (fuel + 1) k v (lui_empty_root t fuel _ k 0 hr hty hn) hr hn]
  have h1 := allocate_head ⟨t.superblock, t.superblock_index, t.buffercache, t.maxNumKeys, true⟩
    a hi h0 ha1 ha2 ha3 ha4
  have h4 := allocate_head
    ((BTreeIndex.withFree ⟨t.superblock, t.superblock_index, t.buffercache, t.maxNumKeys, true⟩
      (t.buffercache.blocks a).info.freelist).withBlock a (firstLeaf k v))
    b hi h0 (by simp [BTreeIndex.withBlock, BTreeIndex.withFree, hb1]) hb2 hb3
    (by simp [BTreeIndex.withBlock, BTreeIndex.withFree, Function.update_apply, hb2,
          Ne.symm hab, hb4])
  rw [insertFirst_run ⟨t.superblock, t.superblock_index, t.buffercache, t.maxNumKeys, false⟩
    _ _ k v a b _ _ _ h1 ha3 hr hra
    (by simp [BTreeIndex.withFree, Function.update_apply, hr0]; exact hty)
    h4 hb3 hr]
  refine ⟨_, rfl, rfl, rfl, rfl, ?_⟩
  intro y h1 h2 h3 h4
  simp [BTreeIndex.withBlock, BTreeIndex.withFree, Function.update_apply, h1, h2, h3, h4]

/-- The first insert into a freshly created index over at least four blocks leaves the
root in block `1` over the leaves in blocks `2` and `3`. -/
theorem twoLeaves_first (n m fuel : Nat) (kv : Nat × Nat) (hn : 4 ≤ n) (hthr : 1 ≤ 2 * m / 3) :
    ∃ t0 t, Attach (BTreeIndex.new (emptyCache n) m) 0 true = some (ERROR_NOERROR, t0) ∧
      Insert t0 (fuel + 1) kv.1 kv.2 = some (ERROR_NOERROR, t) ∧
      Inv t (firstGhost 1 2 3 kv.1 kv.2 (List.range' 4 (n - 4))) none ∧
      TwoLeaves t kv [] ∧ t.maxNumKeys = m := by
  obtain ⟨t0, hA, hF, hm, hroot, hN, _⟩ := attach_state n m (by omega)
  have e : List.range' 2 (n - 2) = 2 :: 3 :: List.range' 4 (n - 4) := by
    obtain ⟨k, rfl⟩ : ∃ k, n = k + 4 := ⟨n - 4, by omega⟩
    rfl
  rw [e] at hF
  have hth : 1 ≤ threshold t0 := by unfold threshold; rw [hm]; exact hthr
  obtain ⟨t, hIns, hI, hmax, hr⟩ := insert_fresh hF hth fuel kv.1 kv.2
  rw [hroot] at hI
  obtain ⟨c1, c2, c3, c4, d1, d2, d3, d4, d5⟩ := hF.free_chain
  have hab : (2 : Nat) ≠ 3 := by decide
  have hr0 := hF.root_ne
  have hrl := hF.root_lt
  have hty := hF.root_type
  have hk := hF.root_keys
  obtain ⟨t1, hIns1, s1, s2, s3, s4, s5, s6, s7, s8, s9, s10, s11, s12, _⟩ :=
    insert_first_state t0 2 3 fuel kv.1 kv.2 hF.sb_index hr0 hrl hty hk c1 c2 c3 c4 d1 d2 d3 d4
      hab
  obtain ⟨t2, hIns2, f1, _, _, f4⟩ :=
    insert_first_frame t0 2 3 fuel kv.1 kv.2 hF.sb_index hr0 hrl hty hk c1 c2 c3 c4 d1 d2 d3 d4
      hab
  rw [hIns] at hIns1 hIns2
  have e1 := (Prod.mk.inj (Option.some.inj hIns1)).2
  have e2 := (Prod.mk.inj (Option.some.inj hIns2)).2
  subst e1
  rw [hroot] at s1 s2 s3 s4 s5 s6
  refine ⟨t0, t, hA, hIns, hI, ?_, by rw [hmax, hm]⟩
  refine
    { root := s1
      root_type := s2
      root_keys := s3
      root_key := s4
      root_left := s5
      root_right := s6
      left_type := s7
      left_keys := s8
      left_key := s9
      left_val := s10
      right_type := s11
      right_keys := s12
      right_recs := by intro i hi; simp at hi
      others := ?_ }
  intro a ha1 ha2
  rw [e2] at ha2 ⊢
  rw [f1] at ha2
  rw [f4 a (by omega) (by rw [hroot]; omega) (by omega) (by omega)]
  exact (freeChain_mem _ _ d5 a (by
    rw [List.mem_range']
    exact ⟨a - 4, by omega, by omega⟩)).2.2

/-- One more insert of a key above all the keys of the store goes into the right leaf, as
long as the leaf stays within the threshold: no block is allocated. -/
theorem twoLeaves_step {t : BTreeIndex} {g : Ghost} {kv : Nat × Nat} {recs : List (Nat × Nat)}
    (hI : Inv t g none) (hT : TwoLeaves t kv recs)
    (hrng : g.rng = (firstGhost 1 2 3 kv.1 kv.2 []).rng) (hlvl : g.lvl 1 = 1)
    (fuel k v : Nat) (hfuel : 2 ≤ fuel) (hk : kv.1 < k) (hks : ∀ r, r ∈ recs → r.1 < k)
    (hlen : recs.length < threshold t) :
    ∃ t', Insert t fuel k v = some (ERROR_NOERROR, t') ∧
      Inv t' { g with kv := Function.update g.kv k (some v) } none ∧
      TwoLeaves t' kv (recs ++ [(k, v)]) ∧ t'.maxNumKeys = t.maxNumKeys := by
  have hrt := hI.root_tree
  have hroot := hT.root
  have hr1 : (t.buffercache.blocks 1).isLeaf = false := by
    simp [BTreeNode.isLeaf, hT.root_type]
  have hleafkey : ∀ a, IsTree t g a → (t.buffercache.blocks a).isLeaf = true → g.rng a k →
      a = 3 := by
    intro a ha hl hr
    rw [hrng] at hr
    simp only [firstGhost] at hr
    by_cases e1 : a = 1
    · rw [e1, hr1] at hl; cases hl
    · by_cases e2 : a = 2
      · rw [if_neg e1, if_pos e2] at hr
        omega
      · rw [if_neg e1, if_neg e2] at hr
        exact hr.1
  have hkv : g.kv k = none := by
    cases hg : g.kv k with
    | none => rfl
    | some v' =>
      exfalso
      obtain ⟨a, ha, hl, i, hi, hki, _⟩ := hI.stored k v' hg
      have hr := ((hI.leaf a ha hl).recs i hi).1
      rw [hki] at hr
      have e3 := hleafkey a ha hl hr
      subst e3
      rw [hT.right_keys] at hi
      have h5 := (hT.right_recs i hi).1
      rw [hki] at h5
      have h6 := hks (recs.getD i (0, 0)) (by
        rw [List.getD_eq_getElem _ _ hi]
        exact List.getElem_mem _)
      omega
  have hprobe := lui_of_inv hI k fuel _ 0 hrt (hI.root_rng k) (by rw [hroot, hlvl]; omega)
  rw [hkv] at hprobe
  rw [insert_run t fuel k v 0 hprobe hrt.1 (by rw [hroot, hT.root_keys]; omega)]
  have hI' := inv_initBlock hI true
  obtain ⟨l, anc, hLL, hl, hleaf, hrl, _, _⟩ :=
    lookupLeaf_of_inv hI' k hkv fuel t.superblock.info.rootnode [] hrt (hI.root_rng k)
      (by rw [hroot, hlvl]; omega) rfl
  have e3 : l = 3 := hleafkey l hl hleaf hrl
  subst e3
  rw [insertLeaf_run _ fuel k v 3 _ anc hLL hl.1 hleaf]
  have hI1 := inv_leaf_insert hI' hl hleaf k v hrl hkv
  have hno : ¬ ((t.buffercache.blocks 3).info.numkeys + 1 > threshold t) := by
    rw [hT.right_keys]; omega
  have hno' : ¬ ((BTreeIndex.buffercache
      ⟨t.superblock, t.superblock_index, t.buffercache, t.maxNumKeys, true⟩).blocks
        3).info.numkeys + 1 > threshold
          ⟨t.superblock, t.superblock_index, t.buffercache, t.maxNumKeys, true⟩ := hno
  rw [if_neg hno'] at hI1 ⊢
  have hfi : firstIdx (fun i => decide (k < (t.buffercache.blocks 3).keys i))
      (t.buffercache.blocks 3).info.numkeys 0 = (t.buffercache.blocks 3).info.numkeys := by
    apply firstIdx_unique _ _ _ _ (Nat.zero_le _) (by omega)
    · intro i _ hi
      rw [hT.right_keys] at hi
      have h5 := (hT.right_recs i hi).1
      have h6 := hks (recs.getD i (0, 0)) (by
        rw [List.getD_eq_getElem _ _ hi]
        exact List.getElem_mem _)
      simp only [decide_eq_false_iff_not, not_lt]
      omega
    · intro h; omega
  refine ⟨_, rfl, hI1, ?_, rfl⟩
  have hb : ∀ y, y ≠ 3 →
      ((BTreeIndex.withBlock ⟨t.superblock, t.superblock_index, t.buffercache, t.maxNumKeys, true⟩
        3 (leafWith (t.buffercache.blocks 3) k v)).buffercache.blocks y)
        = t.buffercache.blocks y := by
    intro y hy
    simp [BTreeIndex.withBlock, Function.update_apply, hy]
  have hb3 : ((BTreeIndex.withBlock
      ⟨t.superblock, t.superblock_index, t.buffercache, t.maxNumKeys, true⟩
        3 (leafWith (t.buffercache.blocks 3) k v)).buffercache.blocks 3)
        = leafWith (t.buffercache.blocks 3) k v := by
    simp [BTreeIndex.withBlock]
  refine
    { root := hT.root
      root_type := by rw [hb 1 (by decide)]; exact hT.root_type
      root_keys := by rw [hb 1 (by decide)]; exact hT.root_keys
      root_key := by rw [hb 1 (by decide)]; exact hT.root_key
      root_left := by rw [hb 1 (by decide)]; exact hT.root_left
      root_right := by rw [hb 1 (by decide)]; exact hT.root_right
      left_type := by rw [hb 2 (by decide)]; exact hT.left_type
      left_keys := by rw [hb 2 (by decide)]; exact hT.left_keys
      left_key := by rw [hb 2 (by decide)]; exact hT.left_key
      left_val := by rw [hb 2 (by decide)]; exact hT.left_val
      right_type := by rw [hb3]; exact hT.right_type
      right_keys := by rw [hb3]; simp [leafWith, hT.right_keys]
      right_recs := ?_
      others := ?_ }
  · intro i hi
    rw [hb3]
    simp only [leafWith, hfi]
    simp only [List.length_append, List.length_singleton] at hi
    by_cases e : i < recs.length
    · rw [insAt_lt _ _ _ _ _ (by rw [hT.right_keys]; exact e),
        insAt_lt _ _ _ _ _ (by rw [hT.right_keys]; exact e),
        List.getD_append _ _ _ _ e]
      exact hT.right_recs i e
    · have e' : i = (t.buffercache.blocks 3).info.numkeys := by rw [hT.right_keys]; omega
      rw [e', insAt_eq, insAt_eq, List.getD_append_right _ _ _ _ (by rw [hT.right_keys])]
      simp [hT.right_keys]
  · intro a h1 h2
    rw [hb a (by omega)]
    exact hT.others a h1 h2

/-- Further inserts of increasing keys above all the keys of the store all go into the
right leaf, as long as it stays within the threshold. -/
theorem twoLeaves_inserts (fuel : Nat) (kv : Nat × Nat) (hfuel : 2 ≤ fuel) :
    ∀ (more : List (Nat × Nat)) (t : BTreeIndex) (g : Ghost) (recs : List (Nat × Nat)),
      Inv t g none → TwoLeaves t kv recs →
      g.rng = (firstGhost 1 2 3 kv.1 kv.2 []).rng → g.lvl 1 = 1 →
      (∀ r, r ∈ more → kv.1 < r.1) →
      ((recs ++ more).map Prod.fst).Pairwise (fun a b => a < b) →
      recs.length + more.length ≤ threshold t →
      ∃ t', insertAll t fuel more = some t' ∧ TwoLeaves t' kv (recs ++ more) ∧
        t'.maxNumKeys = t.maxNumKeys := by
  intro more
  induction more with
  | nil =>
    intro t g recs _ hT _ _ _ _ _
    exact ⟨t, rfl, by simpa using hT, rfl⟩
  | cons r more ih =>
    intro t g recs hI hT hrng hlvl hk hs hlen
    simp only [List.length_cons] at hlen
    have hks : ∀ s, s ∈ recs → s.1 < r.1 := by
      intro s hs'
      rw [List.map_append, List.pairwise_append] at hs
      exact hs.2.2 s.1 (List.mem_map_of_mem _ hs') r.1 (by simp)
    obtain ⟨t1, h1, hI1, hT1, hm1⟩ :=
      twoLeaves_step hI hT hrng hlvl fuel r.1 r.2 hfuel (hk r (by simp)) hks (by omega)
    have hth : threshold t1 = threshold t := by unfold threshold; rw [hm1]
    obtain ⟨t2, h2, hT2, hm2⟩ := ih t1 _ (recs ++ [(r.1, r.2)]) hI1 hT1 hrng hlvl
      (fun s hs' => hk s (by simp [hs']))
      (by simpa using hs)
      (by rw [hth]; simp only [List.length_append, List.length_singleton]; omega)
    refine ⟨t2, ?_, by simpa using hT2, by rw [hm2, hm1]⟩
    simp only [insertAll, h1]
    exact h2

/-- After `Attach` with `create = true`, inserts of strictly increasing keys do not split a
node as long as the right leaf, which takes all records but the first, stays within the
threshold. -/
theorem increasing_inserts_no_split (n m fuel : Nat) (kv : Nat × Nat)
    (recs : List (Nat × Nat)) (hn : 4 ≤ n) (hfuel : 2 ≤ fuel)
    (hs : ((kv :: recs).map Prod.fst).Pairwise (fun a b => a < b))
    (hthr : 1 ≤ 2 * m / 3) (hlen : recs.length ≤ 2 * m / 3) :
    ∃ t0 t, Attach (BTreeIndex.new (emptyCache n) m) 0 true = some (ERROR_NOERROR, t0) ∧
      insertAll t0 fuel (kv :: recs) = some t ∧ TwoLeaves t kv recs := by
  obtain ⟨f, rfl⟩ : ∃ f, fuel = f + 1 := ⟨fuel - 1, by omega⟩
  obtain ⟨t0, t1, hA, hIns, hI, hT, hm⟩ := twoLeaves_first n m f kv hn hthr
  simp only [List.map_cons, List.pairwise_cons] at hs
  obtain ⟨t2, h2, hT2, _⟩ := twoLeaves_inserts (f + 1) kv hfuel recs t1 _ [] hI hT rfl rfl
    (fun r hr => hs.1 r.1 (List.mem_map_of_mem _ hr))
    (by simpa using hs.2)
    (by unfold threshold; rw [hm]; simpa using hlen)
  refine ⟨t0, t2, hA, ?_, by simpa using hT2⟩
  simp only [insertAll, hIns]
  exact h2

/-! ## The store around the tree: blocks accounted for -/

theorem sameTree_alloc {t : BTreeIndex} {g : Ghost} {over : Option Nat} (hI : Inv t g over)
    {a : Nat} {rest : List Nat} (hf : g.free = a :: rest) (nd : BTreeNode) :
    SameTree t ((t.withFree (t.buffercache.blocks a).info.freelist).withBlock a nd) g
      { g with free := rest, junk := fun x => x = a ∨ g.junk x } := by
  have hc := hI.free_chain
  rw [hf] at hc
  obtain ⟨_, h2, h3, h4, h5⟩ := hc
  have hnot : ∀ x, IsTree t g x → x ≠ a := by
    intro x hx e; subst e; exact unalloc_not_node _ h4 hx.2.2
  refine ⟨rfl, rfl, ?_, ?_, rfl, rfl, rfl, rfl⟩
  · intro x hx
    have hx0 := isTree_ne_zero hI hx
    simp [BTreeIndex.withBlock, BTreeIndex.withFree, Function.update_noteq (hnot x hx),
      Function.update_noteq hx0]
  · intro x
    by_cases e : x = a
    · subst e
      constructor
      · intro h; exact absurd (Or.inl rfl) h.2.1
      · intro h; exact absurd rfl (hnot x h)
    · by_cases e0 : x = 0
      · subst e0
        constructor
        · intro h
          exfalso
          have := h.2.2
          simp only [BTreeIndex.withBlock, BTreeIndex.withFree, Function.update_noteq e,
            Function.update_same] at this
          exact super_not_node _ hI.sb_type this
        · intro h; exact absurd rfl (isTree_ne_zero hI h)
      · simp [IsTree, BTreeIndex.withBlock, BTreeIndex.withFree, Function.update_noteq e,
          Function.update_noteq e0, e]

theorem sameTree_junk_write {t : BTreeIndex} {g : Ghost} {a : Nat} (ha : g.junk a)
    (nd : BTreeNode) : SameTree t (t.withBlock a nd) g g := by
  have hnot : ∀ x, IsTree t g x → x ≠ a := by
    intro x hx e; subst e; exact hx.2.1 ha
  refine ⟨rfl, rfl, ?_, ?_, rfl, rfl, rfl, rfl⟩
  · intro x hx
    simp [BTreeIndex.withBlock, Function.update_noteq (hnot x hx)]
  · intro x
    by_cases e : x = a
    · subst e
      constructor
      · intro h; exact absurd ha h.2.1
      · intro h; exact absurd ha h.2.1
    · simp [IsTree, BTreeIndex.withBlock, Function.update_noteq e]

theorem sameTree_dealloc {t : BTreeIndex} {g : Ghost} {over : Option Nat} (hI : Inv t g over)
    {x : Nat} (hx : g.junk x) :
    SameTree t ((t.withBlock x (freedNode t x)).withFree x) g
      { g with free := x :: g.free, junk := fun y => g.junk y ∧ y ≠ x } := by
  have hx0 := junk_ne_zero hI hx
  have hnot : ∀ y, IsTree t g y → y ≠ x := by
    intro y hy e; subst e; exact hy.2.1 hx
  refine ⟨rfl, rfl, ?_, ?_, rfl, rfl, rfl, rfl⟩
  · intro y hy
    simp [BTreeIndex.withBlock, BTreeIndex.withFree, Function.update_noteq (hnot y hy),
      Function.update_noteq (isTree_ne_zero hI hy)]
  · intro y
    by_cases e : y = x
    · subst e
      constructor
      · intro h
        exfalso
        have := h.2.2
        simp only [BTreeIndex.withBlock, BTreeIndex.withFree, Function.update_noteq hx0,
          Function.update_same] at this
        exact unalloc_not_node (freedNode t y) rfl this
      · intro h; exact absurd hx h.2.1
    · by_cases e0 : y = 0
      · subst e0
        constructor
        · intro h
          exfalso
          have := h.2.2
          simp only [BTreeIndex.withBlock, BTreeIndex.withFree, Function.update_same] at this
          exact super_not_node _ hI.sb_type this
        · intro h; exact absurd rfl (isTree_ne_zero hI h)
      · simp [IsTree, BTreeIndex.withBlock, BTreeIndex.withFree, Function.update_noteq e,
          Function.update_noteq e0, e]

/-- A step that leaves the tree as it is keeps the blocks accounted for, if the blocks
outside the tree are. -/
theorem ext_frame {t t' : BTreeIndex} {g g' : Ghost} (hE : Ext t g) (hS : SameTree t t' g g')
    (h_n : t'.buffercache.numBlocks = t.buffercache.numBlocks)
    (h_sbk : t'.superblock.info.numkeys = t.superblock.info.numkeys)
    (h_cover : ∀ a, a < t.buffercache.numBlocks → a ∈ g.free ∨ g.junk a →
      a ∈ g'.free ∨ g'.junk a)
    (h_junk : ∀ a, g'.junk a → (t'.buffercache.blocks a).info.numkeys ≤ threshold t + 1) :
    Ext t' g' := by
  refine ⟨?_, ?_, ?_, ?_⟩
  · intro a ha
    rw [h_n] at ha
    rcases hE.cover a ha with h | h | h | h
    · exact Or.inl h
    · rcases h_cover a ha (Or.inl h) with h' | h'
      · exact Or.inr (Or.inl h')
      · exact Or.inr (Or.inr (Or.inl h'))
    · rcases h_cover a ha (Or.inr h) with h' | h'
      · exact Or.inr (Or.inl h')
      · exact Or.inr (Or.inr (Or.inl h'))
    · exact Or.inr (Or.inr (Or.inr ((hS.tree a).2 h)))
  · intro a ha hi hd
    have ha' := (hS.tree a).1 ha
    rw [hS.blk a ha'] at hi ⊢
    rw [hS.dead] at hd
    exact hE.dead_zero a ha' hi hd
  · rw [h_sbk]; exact hE.sb_keys
  · intro a ha
    have e : threshold t' = threshold t := by unfold threshold; rw [hS.max]
    rw [e]
    exact h_junk a ha

theorem ext_alloc_write {t : BTreeIndex} {g : Ghost} {over : Option Nat} (hI : Inv t g over)
    (hE : Ext t g) {a : Nat} {rest : List Nat} (hf : g.free = a :: rest) (nd : BTreeNode)
    (hk : nd.info.numkeys ≤ threshold t + 1) :
    Ext ((t.withFree (t.buffercache.blocks a).info.freelist).withBlock a nd)
      { g with free := rest, junk := fun x => x = a ∨ g.junk x } := by
  have hc := hI.free_chain
  rw [hf] at hc
  obtain ⟨_, h2, h3, h4, h5⟩ := hc
  refine ext_frame hE (sameTree_alloc hI hf nd) rfl rfl ?_ ?_
  · intro y _ hy
    rcases hy with hy | hy
    · rw [hf] at hy
      rcases List.mem_cons.1 hy with e | e
      · exact Or.inr (Or.inl e)
      · exact Or.inl e
    · exact Or.inr (Or.inr hy)
  · intro y hy
    rcases hy with e | hy
    · subst e
      simpa [BTreeIndex.withBlock] using hk
    · have hj := hI.junk_ok y hy
      have hya : y ≠ a := by
        intro e; subst e; exact unalloc_not_node _ h4 hj.2
      have hy0 := junk_ne_zero hI hy
      simpa [BTreeIndex.withBlock, BTreeIndex.withFree, Function.update_noteq hya,
        Function.update_noteq hy0] using hE.junk_keys y hy

theorem ext_junk_write {t : BTreeIndex} {g : Ghost} (hE : Ext t g)
    {a : Nat} (ha : g.junk a) (nd : BTreeNode) (hk : nd.info.numkeys ≤ threshold t + 1) :
    Ext (t.withBlock a nd) g := by
  refine ext_frame hE (sameTree_junk_write ha nd) rfl rfl (fun _ _ h => h) ?_
  intro y hy
  by_cases e : y = a
  · subst e
    simpa [BTreeIndex.withBlock] using hk
  · simpa [BTreeIndex.withBlock, Function.update_noteq e] using hE.junk_keys y hy

theorem ext_dealloc {t : BTreeIndex} {g : Ghost} {over : Option Nat} (hI : Inv t g over)
    (hE : Ext t g) {x : Nat} (hx : g.junk x) :
    Ext ((t.withBlock x (freedNode t x)).withFree x)
      { g with free := x :: g.free, junk := fun y => g.junk y ∧ y ≠ x } := by
  refine ext_frame hE (sameTree_dealloc hI hx) rfl rfl ?_ ?_
  · intro y _ hy
    by_cases e : y = x
    · exact Or.inl (by rw [e]; exact List.mem_cons_self _ _)
    · rcases hy with hy | hy
      · exact Or.inl (List.mem_cons_of_mem _ hy)
      · exact Or.inr ⟨hy, e⟩
  · intro y hy
    have hy0 := junk_ne_zero hI hy.1
    simpa [BTreeIndex.withBlock, BTreeIndex.withFree, Function.update_noteq hy.2,
      Function.update_noteq hy0] using hE.junk_keys y hy.1

theorem ext_initBlock {t : BTreeIndex} {g : Ghost} (hE : Ext t g) (b : Bool) :
    Ext { t with initBlock := b } g :=
  ⟨hE.cover, hE.dead_zero, hE.sb_keys, hE.junk_keys⟩

theorem ext_leaf_insert {t : BTreeIndex} {g : Ghost} (hE : Ext t g) {l : Nat}
    (hl : IsTree t g l) (hleaf : (t.buffercache.blocks l).isLeaf = true) (k v : Nat) :
    Ext (t.withBlock l (leafWith (t.buffercache.blocks l) k v))
      { g with kv := Function.update g.kv k (some v) } := by
  have hb : ∀ y, y ≠ l →
      (t.withBlock l (leafWith (t.buffercache.blocks l) k v)).buffercache.blocks y
        = t.buffercache.blocks y := by
    intro y hy
    simp [BTreeIndex.withBlock, Function.update_noteq hy]
  have hbl : (t.withBlock l (leafWith (t.buffercache.blocks l) k v)).buffercache.blocks l
      = leafWith (t.buffercache.blocks l) k v := by
    simp [BTreeIndex.withBlock]
  have hli : (leafWith (t.buffercache.blocks l) k v).isInterior = false := by
    have := isLeaf_not_isInterior _ hleaf
    simpa [leafWith, BTreeNode.isInterior] using this
  have hll : (leafWith (t.buffercache.blocks l) k v).isLeaf = true := by
    simpa [leafWith, BTreeNode.isLeaf] using hleaf
  refine ⟨?_, ?_, hE.sb_keys, ?_⟩
  · intro a ha
    rcases hE.cover a ha with h | h | h | h
    · exact Or.inl h
    · exact Or.inr (Or.inl h)
    · exact Or.inr (Or.inr (Or.inl h))
    · refine Or.inr (Or.inr (Or.inr ⟨h.1, h.2.1, ?_⟩))
      by_cases e : a = l
      · subst e; rw [hbl]; exact Or.inr hll
      · rw [hb a e]; exact h.2.2
  · intro a ha hi hd
    by_cases e : a = l
    · subst e
      rw [hbl, hli] at hi
      cases hi
    · rw [hb a e] at hi ⊢
      exact hE.dead_zero a ⟨ha.1, ha.2.1, by have := ha.2.2; rw [hb a e] at this; exact this⟩
        hi hd
  · intro a ha
    have e : a ≠ l := fun e => hl.2.1 (e ▸ ha)
    rw [hb a e]
    exact hE.junk_keys a ha

theorem ext_link {t : BTreeIndex} {g : Ghost} {x p L R mid j : Nat} {np : BTreeNode}
    (h : LinkH t g x p L R mid j np) (hE : Ext t g)
    (hz : (t.buffercache.blocks x).isInterior = true → (t.buffercache.blocks L).ptrs mid = 0) :
    Ext (t.withBlock p np)
      (linkGhost g x L R ((t.buffercache.blocks x).keys (mid - 1))
        (t.buffercache.blocks x).isInterior) := by
  have hI := h.inv
  have hxp := linkH_x_ne_p h
  have hLt : ¬ IsTree t g L := junk_not_tree h.l_junk
  have hRt : ¬ IsTree t g R := junk_not_tree h.r_junk
  have hLp : L ≠ p := fun e => hLt (e ▸ h.p_tree)
  have hRp : R ≠ p := fun e => hRt (e ▸ h.p_tree)
  have hLx : L ≠ x := fun e => hLt (e ▸ h.x_tree)
  have hRx : R ≠ x := fun e => hRt (e ▸ h.x_tree)
  refine ⟨?_, ?_, hE.sb_keys, ?_⟩
  · intro a ha
    rcases hE.cover a ha with h0 | h0 | h0 | h0
    · exact Or.inl h0
    · exact Or.inr (Or.inl h0)
    · by_cases e1 : a = L
      · exact Or.inr (Or.inr (Or.inr ((linkH_tree_iff h a).2 (Or.inl e1))))
      · by_cases e2 : a = R
        · exact Or.inr (Or.inr (Or.inr ((linkH_tree_iff h a).2 (Or.inr (Or.inl e2)))))
        · exact Or.inr (Or.inr (Or.inl (Or.inl ⟨h0, e1, e2⟩)))
    · by_cases e : a = x
      · exact Or.inr (Or.inr (Or.inl (Or.inr e)))
      · exact Or.inr (Or.inr (Or.inr ((linkH_tree_iff h a).2 (Or.inr (Or.inr ⟨h0, e⟩)))))
  · intro a ha hi hd
    rcases (linkH_tree_iff h a).1 ha with e | e | ⟨ha0, hax⟩
    · subst e
      rw [linkH_blocks h a hLp] at hi ⊢
      have hd' : (t.buffercache.blocks x).isInterior = true := by
        simpa [linkGhost] using hd
      rw [h.left.1]
      exact hz hd'
    · subst e
      rw [linkH_blocks h a hRp] at hi ⊢
      have hd' : g.dead x = true := by
        simpa [linkGhost, Ne.symm h.l_ne_r] using hd
      have hxi : (t.buffercache.blocks x).isInterior = true := by
        rcases h.x_tree.2.2 with h1 | h1
        · exact h1
        · have h2 := (split_right_node h.right h.x_tree.2.2).2.1
          rw [h1] at h2
          have h3 := isLeaf_not_isInterior _ h2
          rw [h3] at hi
          cases hi
      have hr := h.right
      rw [hr.1, (hr.2.2.2 hxi).2 _ (Nat.le_refl _)]
      have e : mid + ((t.buffercache.blocks x).info.numkeys - mid)
          = (t.buffercache.blocks x).info.numkeys := by
        have := h.mid_lt
        omega
      rw [e]
      exact hE.dead_zero x h.x_tree hxi hd'
    · obtain ⟨_, o2, o3, _, _, o6⟩ := linkH_old h ha0 hax
      rw [o6] at hd
      by_cases e : a = p
      · subst e
        rw [linkH_block_p h] at hi ⊢
        have hv : j < (t.buffercache.blocks a).info.numkeys := by
          rcases h.p_idx with h1 | h1
          · exact h1
          · rw [hd] at h1
            exact absurd h1.2 (by simp)
        obtain ⟨_, p2, _, p4⟩ := h.parent
        rw [p2, p4 _ (Nat.le_refl _)]
        have n1 : ¬ ((t.buffercache.blocks a).info.numkeys + 1 < j) := by omega
        have n2 : ¬ ((t.buffercache.blocks a).info.numkeys + 1 = j) := by omega
        have n3 : ¬ ((t.buffercache.blocks a).info.numkeys + 1 = j + 1) := by omega
        rw [if_neg n1, if_neg n2, if_neg n3, Nat.add_sub_cancel]
        exact hE.dead_zero a ha0 h.p_int hd
      · rw [linkH_blocks h a e] at hi ⊢
        exact hE.dead_zero a ha0 hi hd
  · intro a ha
    have eth : threshold (t.withBlock p np) = threshold t := rfl
    rw [eth]
    rcases ha with ⟨ha, _, _⟩ | e
    · have hap : a ≠ p := fun e => junk_not_tree ha (e ▸ h.p_tree)
      rw [linkH_blocks h a hap]
      exact hE.junk_keys a ha
    · subst e
      rw [linkH_blocks h a hxp]
      rcases hI.size a h.x_tree with h1 | h1
      · omega
      · omega

theorem ext_root {t : BTreeIndex} {g : Ghost} {x L R q mid : Nat}
    (h : RootH t g x L R q mid) (hE : Ext t g)
    (hz : (t.buffercache.blocks L).ptrs mid = 0) :
    Ext (t.withRoot q) (rootGhost g x L R q ((t.buffercache.blocks x).keys (mid - 1))) := by
  have hI := h.inv
  have hx := rootH_x_tree h
  have hxi := rootH_x_int h
  have hLt : ¬ IsTree t g L := junk_not_tree h.l_junk
  have hRt : ¬ IsTree t g R := junk_not_tree h.r_junk
  have hqt : ¬ IsTree t g q := junk_not_tree h.q_junk
  have hxq : x ≠ q := fun e => hqt (e ▸ hx)
  have hL0 := junk_ne_zero hI h.l_junk
  have hR0 := junk_ne_zero hI h.r_junk
  have hx0 := isTree_ne_zero hI hx
  refine ⟨?_, ?_, ?_, ?_⟩
  · intro a ha
    rcases hE.cover a ha with h0 | h0 | h0 | h0
    · exact Or.inl h0
    · exact Or.inr (Or.inl h0)
    · by_cases e1 : a = L
      · exact Or.inr (Or.inr (Or.inr ((rootH_tree_iff h a).2 (Or.inl e1))))
      · by_cases e2 : a = R
        · exact Or.inr (Or.inr (Or.inr ((rootH_tree_iff h a).2 (Or.inr (Or.inl e2)))))
        · by_cases e3 : a = q
          · exact Or.inr (Or.inr (Or.inr ((rootH_tree_iff h a).2
              (Or.inr (Or.inr (Or.inl e3))))))
          · exact Or.inr (Or.inr (Or.inl ⟨Or.inl ⟨h0, e1, e2⟩, e3⟩))
    · by_cases e : a = x
      · exact Or.inr (Or.inr (Or.inl ⟨Or.inr e, by rw [e]; exact hxq⟩))
      · exact Or.inr (Or.inr (Or.inr ((rootH_tree_iff h a).2
          (Or.inr (Or.inr (Or.inr ⟨h0, e⟩))))))
  · intro a ha hi hd
    rcases (rootH_tree_iff h a).1 ha with e | e | e | ⟨ha0, hax⟩
    · subst e
      rw [rootH_blocks h a hL0, h.left.1]
      exact hz
    · subst e
      rw [rootH_blocks h a hR0]
      have hd' : g.dead x = true := by
        simpa [rootGhost, linkGhost, h.r_ne_q, Ne.symm h.l_ne_r] using hd
      have hr := h.right
      rw [hr.1, (hr.2.2.2 hxi).2 _ (Nat.le_refl _)]
      have e : mid + ((t.buffercache.blocks x).info.numkeys - mid)
          = (t.buffercache.blocks x).info.numkeys := by
        have := h.mid_lt
        omega
      rw [e]
      exact hE.dead_zero x hx hxi hd'
    · subst e
      simp [rootGhost] at hd
    · obtain ⟨_, _, _, _, _, _, o7, o8⟩ := rootH_old h ha0 hax
      rw [o7] at hd
      rw [o8] at hi ⊢
      exact hE.dead_zero a ha0 hi hd
  · simpa [BTreeIndex.withRoot] using hE.sb_keys
  · intro a ha
    have eth : threshold (t.withRoot q) = threshold t := rfl
    rw [eth]
    obtain ⟨ha1, _⟩ := ha
    rcases ha1 with ⟨ha, _, _⟩ | e
    · rw [rootH_blocks h a (junk_ne_zero hI ha)]
      exact hE.junk_keys a ha
    · subst e
      rw [rootH_blocks h a hx0]
      rcases hI.size a hx with h1 | h1
      · omega
      · omega

/-! ## The nodes that the parts of an insert write -/

theorem allocWrites_keys (t : BTreeIndex) :
    ∀ w, w ∈ AllocateNodeWrites t → w.info.numkeys = t.superblock.info.numkeys := by
  intro w hw
  unfold AllocateNodeWrites at hw
  simp only at hw
  split at hw
  · simp at hw
  · split at hw
    · simp at hw
    · simp only [List.mem_singleton] at hw
      rw [hw]

theorem deallocWrites_keys (t : BTreeIndex) (x : Nat) (hx : x < t.buffercache.numBlocks) :
    ∀ w, w ∈ DeallocateNodeWrites t x → w.info.numkeys = t.superblock.info.numkeys ∨
      w.info.numkeys = (t.buffercache.blocks x).info.numkeys := by
  intro w hw
  unfold DeallocateNodeWrites at hw
  simp only [BTreeNode.Unserialize, hx, if_true] at hw
  split at hw
  · simp at hw
  · simp only [List.mem_cons, List.mem_singleton, List.not_mem_nil, or_false] at hw
    rcases hw with e | e
    · right; rw [e]
    · left; rw [e]

/-- The writes of `splitNode` when both allocations and all reads succeed. -/
theorem splitNodeWrites_run (t t1 t3 : BTreeIndex) (x L R : Nat) (e1 e3 : ERROR_T)
    (ln rn0 rn : BTreeNode)
    (hx : x < t.buffercache.numBlocks)
    (h1 : AllocateNode t = some (e1, L, t1))
    (hL1 : L < t1.buffercache.numBlocks)
    (h3 : AllocateNode (t1.withBlock L (BTreeNode.new
      (if (t.buffercache.blocks x).info.nodetype = BTREE_LEAF_NODE then BTREE_LEAF_NODE
        else BTREE_INTERIOR_NODE))) = some (e3, R, t3))
    (hL3 : L < t3.buffercache.numBlocks) (hR3 : R < t3.buffercache.numBlocks)
    (hLR : L ≠ R)
    (hbL : t3.buffercache.blocks L = BTreeNode.new
      (if (t.buffercache.blocks x).info.nodetype = BTREE_LEAF_NODE then BTREE_LEAF_NODE
        else BTREE_INTERIOR_NODE))
    (hln : copyLoop (decide ((t.buffercache.blocks x).info.nodetype = BTREE_LEAF_NODE))
        (t.buffercache.blocks x) ((t.buffercache.blocks x).info.numkeys / 2) 0 0
        (BTreeNode.new (if (t.buffercache.blocks x).info.nodetype = BTREE_LEAF_NODE
          then BTREE_LEAF_NODE else BTREE_INTERIOR_NODE)) = (ERROR_NOERROR, ln))
    (hrn0 : copyLoop (decide ((t.buffercache.blocks x).info.nodetype = BTREE_LEAF_NODE))
        (t.buffercache.blocks x)
        ((t.buffercache.blocks x).info.numkeys - (t.buffercache.blocks x).info.numkeys / 2)
        ((t.buffercache.blocks x).info.numkeys / 2) 0
        (BTreeNode.new (if (t.buffercache.blocks x).info.nodetype = BTREE_LEAF_NODE
          then BTREE_LEAF_NODE else BTREE_INTERIOR_NODE)) = (ERROR_NOERROR, rn0))
    (hrn : (if decide ((t.buffercache.blocks x).info.nodetype = BTREE_LEAF_NODE) = true
        then (ERROR_NOERROR, rn0)
        else
          match (t.buffercache.blocks x).GetPtr ((t.buffercache.blocks x).info.numkeys / 2 +
              ((t.buffercache.blocks x).info.numkeys -
                (t.buffercache.blocks x).info.numkeys / 2)) 0 with
          | (rc, tempPtr) =>
            if rc ≠ ERROR_NOERROR then (rc, rn0)
            else rn0.SetPtr ((t.buffercache.blocks x).info.numkeys -
              (t.buffercache.blocks x).info.numkeys / 2) tempPtr) = (ERROR_NOERROR, rn)) :
    splitNodeWrites t x =
      AllocateNodeWrites t ++ [BTreeNode.new
        (if (t.buffercache.blocks x).info.nodetype = BTREE_LEAF_NODE then BTREE_LEAF_NODE
          else BTREE_INTERIOR_NODE)] ++
      AllocateNodeWrites (t1.withBlock L (BTreeNode.new
        (if (t.buffercache.blocks x).info.nodetype = BTREE_LEAF_NODE then BTREE_LEAF_NODE
          else BTREE_INTERIOR_NODE))) ++
      [BTreeNode.new
        (if (t.buffercache.blocks x).info.nodetype = BTREE_LEAF_NODE then BTREE_LEAF_NODE
          else BTREE_INTERIOR_NODE)] ++ [ln, rn, t.buffercache.blocks x] := by
  unfold splitNodeWrites
  rw [unserialize_eq t x _ hx]
  simp only [ne_eq, not_true_eq_false, if_false]
  rw [h1]
  simp only []
  rw [serialize_eq _ L _ hL1]
  simp only [ne_eq, not_true_eq_false, if_false]
  have e2 : ∀ nd, ({ t1 with buffercache := (t1.withBlock L nd).buffercache } : BTreeIndex)
      = t1.withBlock L nd := fun _ => rfl
  rw [e2, h3]
  simp only []
  rw [serialize_eq _ R _ hR3]
  simp only [ne_eq, not_true_eq_false, if_false]
  have uL : ∀ old nd, BTreeNode.Unserialize old (t3.withBlock R nd).buffercache L
      = (ERROR_NOERROR, BTreeNode.new
      (if (t.buffercache.blocks x).info.nodetype = BTREE_LEAF_NODE then BTREE_LEAF_NODE
        else BTREE_INTERIOR_NODE)) := by
    intro old nd
    rw [unserialize_eq (t3.withBlock R nd) L old hL3]
    simp [BTreeIndex.withBlock, Function.update_apply, hLR, hbL]
  have uR : ∀ old nd, BTreeNode.Unserialize old (t3.withBlock R nd).buffercache R
      = (ERROR_NOERROR, nd) := by
    intro old nd
    rw [unserialize_eq (t3.withBlock R nd) R old hR3]
    simp [BTreeIndex.withBlock]
  simp only [ne_eq] at hrn
  simp only [uL, uR, not_true_eq_false, if_false, hln, hrn0, hrn]
  rw [serialize_eq (t3.withBlock R _) L ln hL3]
  simp only [not_true_eq_false, if_false]
  rw [serialize_eq ((t3.withBlock R _).withBlock L ln) R rn hR3]
  simp only [not_true_eq_false, if_false]

/-- The writes of `Rebalance` on the root once the node is split. -/
theorem rebalanceWrites_root_run (fuel : Nat) (t t7 t8 : BTreeIndex) (x L R sk q : Nat)
    (b : BTreeNode) (e : ERROR_T) (path : List Nat)
    (hs : splitNode t x = some (Except.ok (t7, b, L, R, sk)))
    (hb : b.info.nodetype = BTREE_ROOT_NODE)
    (ha : AllocateNode t7 = some (e, q, t8))
    (hq : q < t8.buffercache.numBlocks) :
    RebalanceWrites (fuel + 1) t x path =
      splitNodeWrites t x ++ (AllocateNodeWrites t7 ++ [rootWith q sk L R] ++
        DeallocateNodeWrites
          { t8 with
            superblock := { t8.superblock with info := { t8.superblock.info with rootnode := q } },
            buffercache := (t8.withBlock q (rootWith q sk L R)).buffercache } x) := by
  have hn : ((((⟨⟨BTREE_ROOT_NODE, q, 0, 1⟩, fun _ => 0, fun _ => 0, fun _ => 0⟩ :
      BTreeNode).SetKey 0 sk).2.SetPtr 0 L).2.SetPtr 1 R).2 = rootWith q sk L R := by
    rw [mk_setKey _ _ _ _ _ _ (Or.inl rfl) Nat.zero_lt_one]
    rw [mk_setPtr _ _ _ _ _ _ (Or.inl rfl) (Nat.zero_le _)]
    rw [mk_setPtr _ _ _ _ _ _ (Or.inl rfl) (Nat.le_refl _)]
    rfl
  simp only [RebalanceWrites, hs, hb, if_true, ha, BTreeNode.new]
  rw [hn, serialize_eq t8 q _ hq]
  simp only [ne_eq, not_true_eq_false, if_false]

/-- The writes of `Rebalance` on a node below the root whose parent takes the new key
without getting over-full. -/
theorem rebalanceWrites_parent_run (fuel : Nat) (t t7 : BTreeIndex) (x L R sk p : Nat)
    (b np : BTreeNode) (ps : List Nat)
    (hs : splitNode t x = some (Except.ok (t7, b, L, R, sk)))
    (hb : b.info.nodetype ≠ BTREE_ROOT_NODE)
    (hp : p < t7.buffercache.numBlocks)
    (hty : (t7.buffercache.blocks p).info.nodetype ≠ BTREE_SUPERBLOCK)
    (hins : parentInsert (t7.buffercache.blocks p) sk L R = (ERROR_NOERROR, np))
    (hno : ¬ np.info.numkeys > threshold t7) :
    RebalanceWrites (fuel + 1) t x (p :: ps) =
      splitNodeWrites t x ++ ([np] ++ DeallocateNodeWrites (t7.withBlock p np) x) := by
  have e9 : ({ t7 with buffercache := (t7.withBlock p np).buffercache } : BTreeIndex)
      = t7.withBlock p np := rfl
  have eth : threshold (t7.withBlock p np) = threshold t7 := rfl
  simp only [RebalanceWrites, hs, hb, if_false, unserialize_eq t7 p _ hp, ne_eq,
    not_true_eq_false, hty, hins, serialize_eq t7 p np hp, e9, eth, List.nil_append, hno]

/-- The writes of `Rebalance` on a node below the root whose parent gets over-full and is
split in turn. -/
theorem rebalanceWrites_parent_rec (fuel : Nat) (t t7 t10 : BTreeIndex) (x L R sk p : Nat)
    (b np : BTreeNode) (ps : List Nat)
    (hs : splitNode t x = some (Except.ok (t7, b, L, R, sk)))
    (hb : b.info.nodetype ≠ BTREE_ROOT_NODE)
    (hp : p < t7.buffercache.numBlocks)
    (hty : (t7.buffercache.blocks p).info.nodetype ≠ BTREE_SUPERBLOCK)
    (hins : parentInsert (t7.buffercache.blocks p) sk L R = (ERROR_NOERROR, np))
    (hover : np.info.numkeys > threshold t7)
    (hrec : Rebalance fuel (t7.withBlock p np) p ps = some (ERROR_NOERROR, t10)) :
    RebalanceWrites (fuel + 1) t x (p :: ps) =
      splitNodeWrites t x ++ ([np] ++
        (RebalanceWrites fuel (t7.withBlock p np) p ps ++ DeallocateNodeWrites t10 x)) := by
  have e9 : ({ t7 with buffercache := (t7.withBlock p np).buffercache } : BTreeIndex)
      = t7.withBlock p np := rfl
  have eth : threshold (t7.withBlock p np) = threshold t7 := rfl
  simp only [RebalanceWrites, hs, hb, if_false, unserialize_eq t7 p _ hp, ne_eq,
    not_true_eq_false, hty, hins, serialize_eq t7 p np hp, e9, eth, List.nil_append, hover,
    if_true, hrec]

/-- The writes of `Insert` when the probe does not find the key and the root has keys. -/
theorem insertWrites_run (t : BTreeIndex) (fuel k v v0 : Nat)
    (hprobe : LookupOrUpdateInternal t fuel t.superblock.info.rootnode BTREE_OP_LOOKUP k 0
      = some (ERROR_NONEXISTENT, v0, t))
    (hroot : t.superblock.info.rootnode < t.buffercache.numBlocks)
    (hn : (t.buffercache.blocks t.superblock.info.rootnode).info.numkeys ≠ 0) :
    InsertWrites t fuel k v = [t.buffercache.blocks t.superblock.info.rootnode] ++
      insertLeafWrites { t with initBlock := true } fuel k v := by
  have e : ∀ b : Bool, (⟨t.superblock, t.superblock_index,
      (t.withBlock t.superblock.info.rootnode
        (t.buffercache.blocks t.superblock.info.rootnode)).buffercache,
      t.maxNumKeys, b⟩ : BTreeIndex) = { t with initBlock := b } := by
    intro b
    rw [withBlock_self]
  simp only [InsertWrites, hprobe, unserialize_eq t _ _ hroot, ne_eq, hn, not_false_eq_true,
    if_true, serialize_eq t _ _ hroot]
  rw [e true]
  simp

/-- The writes of `Insert` when the probe finds the key: none. -/
theorem insertWrites_found (t : BTreeIndex) (fuel k v v0 : Nat)
    (hprobe : LookupOrUpdateInternal t fuel t.superblock.info.rootnode BTREE_OP_LOOKUP k 0
      = some (ERROR_NOERROR, v0, t)) :
    InsertWrites t fuel k v = [] := by
  simp only [InsertWrites, hprobe, if_true]

/-- The writes of `insertLeaf` when `LookupLeaf` arrives at the leaf `l`. -/
theorem insertLeafWrites_run (t : BTreeIndex) (fuel k v l : Nat) (e : ERROR_T) (anc : List Nat)
    (hLL : LookupLeaf t fuel t.superblock.info.rootnode k [t.superblock.info.rootnode]
      = some (e, l :: l :: anc))
    (hl : l < t.buffercache.numBlocks) (hleaf : (t.buffercache.blocks l).isLeaf = true) :
    insertLeafWrites t fuel k v =
      [leafWith (t.buffercache.blocks l) k v] ++
      (if (t.buffercache.blocks l).info.numkeys + 1 > threshold t then
        RebalanceWrites fuel (t.withBlock l (leafWith (t.buffercache.blocks l) k v)) l anc
      else []) := by
  have hfill := leafFill_eq ⟨⟨(t.buffercache.blocks l).info.nodetype,
    (t.buffercache.blocks l).info.rootnode, (t.buffercache.blocks l).info.freelist,
    (t.buffercache.blocks l).info.numkeys + 1⟩, (t.buffercache.blocks l).keys,
    (t.buffercache.blocks l).vals, (t.buffercache.blocks l).ptrs⟩ hleaf k v (Nat.succ_pos _)
  simp only [Nat.add_sub_cancel] at hfill
  have e1 : ∀ nd, (⟨t.superblock, t.superblock_index, (t.withBlock l nd).buffercache,
      t.maxNumKeys, t.initBlock⟩ : BTreeIndex) = t.withBlock l nd := fun _ => rfl
  have eth : ∀ nd, threshold (t.withBlock l nd) = threshold t := fun _ => rfl
  simp only [insertLeafWrites, hLL, unserialize_eq t l _ hl, ne_eq, not_true_eq_false, if_false,
    hfill, serialize_eq t l _ hl, e1, eth, leafWith]

/-- The writes of `Insert` on an index without keys up to the call of `insertFirst`. -/
theorem insertWrites_fresh_run (t : BTreeIndex) (fuel k v : Nat)
    (hprobe : LookupOrUpdateInternal t fuel t.superblock.info.rootnode BTREE_OP_LOOKUP k 0
      = some (ERROR_NONEXISTENT, 0, t))
    (hroot : t.superblock.info.rootnode < t.buffercache.numBlocks)
    (hn : (t.buffercache.blocks t.superblock.info.rootnode).info.numkeys = 0) :
    InsertWrites t fuel k v = [t.buffercache.blocks t.superblock.info.rootnode] ++
      insertFirstWrites { t with initBlock := false } k v
        (t.buffercache.blocks t.superblock.info.rootnode) := by
  have e : ∀ b : Bool, (⟨t.superblock, t.superblock_index,
      (t.withBlock t.superblock.info.rootnode
        (t.buffercache.blocks t.superblock.info.rootnode)).buffercache,
      t.maxNumKeys, b⟩ : BTreeIndex) = { t with initBlock := b } := by
    intro b
    rw [withBlock_self]
  simp only [InsertWrites, hprobe, unserialize_eq t _ _ hroot, ne_eq, hn, not_true_eq_false,
    if_false, serialize_eq t _ _ hroot]
  rw [e false]
  simp

/-- The writes of `insertFirst` when both allocations succeed. -/
theorem insertFirstWrites_run (t t1 t4 : BTreeIndex) (k v a b : Nat) (e1 e4 : ERROR_T)
    (rootNode : BTreeNode)
    (h1 : AllocateNode { t with initBlock := true } = some (e1, a, t1))
    (ha : a < t1.buffercache.numBlocks)
    (hr : t1.superblock.info.rootnode < t1.buffercache.numBlocks)
    (hra : t1.superblock.info.rootnode ≠ a)
    (hri : (t1.buffercache.blocks t1.superblock.info.rootnode).info.nodetype = BTREE_ROOT_NODE)
    (h4 : AllocateNode (t1.withBlock a (firstLeaf k v)) = some (e4, b, t4))
    (hb : b < t4.buffercache.numBlocks) :
    insertFirstWrites t k v rootNode =
      AllocateNodeWrites { t with initBlock := true } ++ [BTreeNode.new BTREE_LEAF_NODE] ++
      [firstLeaf k v] ++ AllocateNodeWrites (t1.withBlock a (firstLeaf k v)) ++
      [BTreeNode.new BTREE_LEAF_NODE] ++
      [firstRoot (t1.buffercache.blocks t1.superblock.info.rootnode) k a b] := by
  unfold insertFirstWrites
  simp only [h1]
  rw [serialize_eq t1 a _ ha]
  simp only []
  have u1 : ∀ old nd, BTreeNode.Unserialize old (t1.withBlock a nd).buffercache a
      = (ERROR_NOERROR, nd) := by
    intro old nd
    rw [unserialize_eq (t1.withBlock a nd) a old ha]
    simp [BTreeIndex.withBlock]
  rw [u1]
  simp only [ne_eq, not_true_eq_false, if_false, BTreeNode.new, Nat.zero_add]
  rw [mk_setKey _ _ _ _ _ _ (Or.inr (Or.inr rfl)) Nat.zero_lt_one]
  simp only []
  rw [mk_setVal _ _ _ _ _ _ rfl Nat.zero_lt_one]
  simp only []
  rw [serialize_eq (t1.withBlock a _) a _ ha]
  simp only []
  have e3 : ∀ nd0 nd1, (⟨t1.superblock, t1.superblock_index,
      ((t1.withBlock a nd0).withBlock a nd1).buffercache, t1.maxNumKeys, t1.initBlock⟩ :
      BTreeIndex) = t1.withBlock a nd1 := by
    intro nd0 nd1
    simp [BTreeIndex.withBlock]
  have e3b : ∀ nd0 nd1, ((t1.withBlock a nd0).withBlock a nd1).buffercache
      = (t1.withBlock a nd1).buffercache := by
    intro nd0 nd1
    simp [BTreeIndex.withBlock]
  rw [e3, e3b]
  have u2 : ∀ old nd, BTreeNode.Unserialize old (t1.withBlock a nd).buffercache
      t1.superblock.info.rootnode
      = (ERROR_NOERROR, t1.buffercache.blocks t1.superblock.info.rootnode) := by
    intro old nd
    rw [unserialize_eq (t1.withBlock a nd) _ old hr]
    simp [BTreeIndex.withBlock, Function.update_apply, hra]
  rw [u2]
  simp only [ne_eq, not_true_eq_false, if_false]
  have h4' : AllocateNode (t1.withBlock a ⟨⟨BTREE_LEAF_NODE, 0, 0, 1⟩,
      Function.update (fun _ => 0) 0 k, Function.update (fun _ => 0) 0 v, fun _ => 0⟩)
      = some (e4, b, t4) := h4
  rw [h4']
  simp only []
  rw [serialize_eq t4 b _ hb]
  simp only [ne_eq, not_true_eq_false, if_false]
  generalize t1.buffercache.blocks t1.superblock.info.rootnode = R at hri ⊢
  rw [mk_setPtr ⟨R.info.nodetype, R.info.rootnode, R.info.freelist, R.info.numkeys + 1⟩
    _ _ _ 0 a (Or.inl hri) (Nat.zero_le _)]
  simp only []
  rw [mk_setKey ⟨R.info.nodetype, R.info.rootnode, R.info.freelist, R.info.numkeys + 1⟩
    _ _ _ 0 k (Or.inl hri) (Nat.succ_pos _)]
  simp only []
  rw [mk_setPtr ⟨R.info.nodetype, R.info.rootnode, R.info.freelist, R.info.numkeys + 1⟩
    _ _ _ 1 b (Or.inl hri) (Nat.succ_le_succ (Nat.zero_le _))]
  rfl

/-! ## The invariant along an insert, with every block accounted for -/

theorem split_left_zero (b : BTreeNode) (hb : b.isInterior = true) (mid : Nat)
    (hm : mid ≤ b.info.numkeys) (ln : BTreeNode)
    (hln : copyLoop (decide (b.info.nodetype = BTREE_LEAF_NODE)) b mid 0 0
        (BTreeNode.new (if b.info.nodetype = BTREE_LEAF_NODE then BTREE_LEAF_NODE
          else BTREE_INTERIOR_NODE)) = (ERROR_NOERROR, ln)) :
    ln.ptrs mid = 0 := by
  have hnl : b.info.nodetype ≠ BTREE_LEAF_NODE := by
    intro e
    simp [BTreeNode.isInterior, e] at hb
  simp only [hnl, if_false, decide_False] at hln
  rw [copyLoop_interior b hb mid 0 0 _ rfl (by omega) rfl] at hln
  have e := (Prod.mk.inj hln).2
  rw [← e]
  simp [BTreeNode.new]

/-- The first half of `Rebalance` on an over-full node of the tree, with two blocks on the
free list: as `splitNode_eq`, and every block stays accounted for, the left half of an
interior node has `0` in its last pointer slot, and no node written has more keys than the
node that is split. -/
theorem splitNode_ext {t : BTreeIndex} {g : Ghost} {x L R : Nat} {rest : List Nat}
    (hI : Inv t g (some x)) (hE : Ext t g) (hx : IsTree t g x)
    (hn : 2 ≤ (t.buffercache.blocks x).info.numkeys)
    (hb : (t.buffercache.blocks x).info.numkeys ≤ 2 ^ 64)
    (hk : (t.buffercache.blocks x).info.numkeys ≤ threshold t + 1)
    (hf : g.free = L :: R :: rest) :
    ∃ t7, splitNode t x = some (Except.ok (t7, t.buffercache.blocks x, L, R,
        (t.buffercache.blocks x).keys ((t.buffercache.blocks x).info.numkeys / 2 - 1))) ∧
      Inv t7 { g with free := rest, junk := fun y => y = R ∨ (y = L ∨ g.junk y) } (some x) ∧
      SameTree t t7 g { g with free := rest, junk := fun y => y = R ∨ (y = L ∨ g.junk y) } ∧
      L ≠ R ∧
      SplitLeft (t.buffercache.blocks x) (t7.buffercache.blocks L)
        ((t.buffercache.blocks x).info.numkeys / 2) ∧
      SplitRight (t.buffercache.blocks x) (t7.buffercache.blocks R)
        ((t.buffercache.blocks x).info.numkeys / 2) ∧
      Ext t7 { g with free := rest, junk := fun y => y = R ∨ (y = L ∨ g.junk y) } ∧
      t7.buffercache.numBlocks = t.buffercache.numBlocks ∧
      ((t.buffercache.blocks x).isInterior = true →
        (t7.buffercache.blocks L).ptrs ((t.buffercache.blocks x).info.numkeys / 2) = 0) ∧
      (∀ w, w ∈ splitNodeWrites t x → w.info.numkeys ≤ threshold t + 1) := by
  have hnd := hI.free_nodup
  rw [hf] at hnd
  have hLR : L ≠ R := by
    intro e; subst e; simp at hnd
  have hLt : ¬ IsTree t g L := free_not_tree hI (by rw [hf]; simp)
  have hRt : ¬ IsTree t g R := free_not_tree hI (by rw [hf]; simp)
  have hLx : L ≠ x := fun e => hLt (e ▸ hx)
  have hRx : R ≠ x := fun e => hRt (e ▸ hx)
  have hx0 := isTree_ne_zero hI hx
  have hLm := freeChain_mem _ _ hI.free_chain L (by rw [hf]; simp)
  have hRm := freeChain_mem _ _ hI.free_chain R (by rw [hf]; simp)
  obtain ⟨ln, hln, hsl⟩ := split_left_run (t.buffercache.blocks x) hx.2.2
    ((t.buffercache.blocks x).info.numkeys / 2) (by omega)
  obtain ⟨rn0, hrn0, rn, hrn, hsr⟩ := split_right_run (t.buffercache.blocks x) hx.2.2
    ((t.buffercache.blocks x).info.numkeys / 2) (by omega)
  have hnew : (BTreeNode.new (if (t.buffercache.blocks x).info.nodetype = BTREE_LEAF_NODE
      then BTREE_LEAF_NODE else BTREE_INTERIOR_NODE)).isInterior = true ∨
      (BTreeNode.new (if (t.buffercache.blocks x).info.nodetype = BTREE_LEAF_NODE
      then BTREE_LEAF_NODE else BTREE_INTERIOR_NODE)).isLeaf = true := by
    by_cases e : (t.buffercache.blocks x).info.nodetype = BTREE_LEAF_NODE
    · right; simp [e, BTreeNode.new, BTreeNode.isLeaf]
    · left; simp [e, BTreeNode.new, BTreeNode.isInterior]
  have hnewk : ∀ ty, (BTreeNode.new ty).info.numkeys = 0 := fun _ => rfl
  have h1 := allocate_eq hI hf
  have hI2 := inv_alloc_write hI hf _ hnew
  have hE2 := ext_alloc_write hI hE hf (BTreeNode.new
    (if (t.buffercache.blocks x).info.nodetype = BTREE_LEAF_NODE then BTREE_LEAF_NODE
      else BTREE_INTERIOR_NODE)) (by rw [hnewk]; omega)
  have h3 := allocate_eq hI2 (rfl : _ = R :: rest)
  have hI4 := inv_alloc_write hI2 (rfl : _ = R :: rest) _ hnew
  have hE4 := ext_alloc_write hI2 hE2 (rfl : _ = R :: rest) (BTreeNode.new
    (if (t.buffercache.blocks x).info.nodetype = BTREE_LEAF_NODE then BTREE_LEAF_NODE
      else BTREE_INTERIOR_NODE)) (by rw [hnewk]; omega)
  have hsL := split_left_node hsl hx.2.2
  have hsR := split_right_node hsr hx.2.2
  have hI5 := inv_junk_write hI4 (Or.inr (Or.inl rfl)) ln hsL.1
  have hlnk : ln.info.numkeys ≤ threshold t + 1 := by rw [hsl.1]; omega
  have hrnk : rn.info.numkeys ≤ threshold t + 1 := by rw [hsr.1]; omega
  have hE5 := ext_junk_write hE4 (Or.inr (Or.inl rfl)) ln hlnk
  have hI6 := inv_junk_write hI5 (Or.inl rfl) rn hsR.1
  have hE6 := ext_junk_write hE5 (Or.inl rfl) rn hrnk
  have hk' : (t.buffercache.blocks x).GetKey
      (((t.buffercache.blocks x).info.numkeys / 2 + 2 ^ 64 - 1) % 2 ^ 64) 0
        = (ERROR_NOERROR,
          (t.buffercache.blocks x).keys ((t.buffercache.blocks x).info.numkeys / 2 - 1)) := by
    have e : ((t.buffercache.blocks x).info.numkeys / 2 + 2 ^ 64 - 1) % 2 ^ 64
        = (t.buffercache.blocks x).info.numkeys / 2 - 1 := by
      omega
    rw [e]
    exact node_getKey _ hx.2.2 _ _ (by omega)
  have hb6L : ∀ (u : BTreeIndex) (nd : BTreeNode),
      (((u.withBlock R nd).withBlock L ln).withBlock R rn).buffercache.blocks L = ln := by
    intro u nd
    simp [BTreeIndex.withBlock, Function.update_apply, hLR]
  have hb6R : ∀ (u : BTreeIndex) (nd : BTreeNode),
      (((u.withBlock R nd).withBlock L ln).withBlock R rn).buffercache.blocks R = rn := by
    intro u nd
    simp [BTreeIndex.withBlock]
  have hb6 : ∀ a, a ≠ 0 → a ≠ L → a ≠ R →
      ((((((t.withFree (t.buffercache.blocks L).info.freelist).withBlock L
        (BTreeNode.new (if (t.buffercache.blocks x).info.nodetype = BTREE_LEAF_NODE
          then BTREE_LEAF_NODE else BTREE_INTERIOR_NODE))).withFree
        (((t.withFree (t.buffercache.blocks L).info.freelist).withBlock L
          (BTreeNode.new (if (t.buffercache.blocks x).info.nodetype = BTREE_LEAF_NODE
            then BTREE_LEAF_NODE else BTREE_INTERIOR_NODE))).buffercache.blocks
              R).info.freelist).withBlock R
        (BTreeNode.new (if (t.buffercache.blocks x).info.nodetype = BTREE_LEAF_NODE
          then BTREE_LEAF_NODE else BTREE_INTERIOR_NODE))).withBlock L ln).withBlock R
            rn).buffercache.blocks a = t.buffercache.blocks a := by
    intro a h0 hL hR
    simp [BTreeIndex.withBlock, BTreeIndex.withFree, Function.update_apply, h0, hL, hR]
  have hbL3 : ((((t.withFree (t.buffercache.blocks L).info.freelist).withBlock L
        (BTreeNode.new (if (t.buffercache.blocks x).info.nodetype = BTREE_LEAF_NODE
          then BTREE_LEAF_NODE else BTREE_INTERIOR_NODE))).withFree
        (((t.withFree (t.buffercache.blocks L).info.freelist).withBlock L
          (BTreeNode.new (if (t.buffercache.blocks x).info.nodetype = BTREE_LEAF_NODE
            then BTREE_LEAF_NODE else BTREE_INTERIOR_NODE))).buffercache.blocks
              R).info.freelist).buffercache.blocks L)
      = BTreeNode.new (if (t.buffercache.blocks x).info.nodetype = BTREE_LEAF_NODE
          then BTREE_LEAF_NODE else BTREE_INTERIOR_NODE) := by
    simp [BTreeIndex.withBlock, BTreeIndex.withFree, Function.update_apply, hLm.1]
  refine ⟨_, ?_, hI6, ?_, hLR, ?_, ?_, hE6, rfl, ?_, ?_⟩
  · refine splitNode_run t _ _ x L R _ _ _ ln rn0 rn hx.1 h1 hLm.2.1 h3 hLm.2.1 hRm.2.1 hx.1
      hLR hLx hRx hbL3 ?_ hln hrn0 hrn hk'
    simp [BTreeIndex.withBlock, BTreeIndex.withFree, Function.update_apply, hx0,
      Ne.symm hLx]
  · refine ⟨rfl, rfl, ?_, ?_, rfl, rfl, rfl, rfl⟩
    · intro a ha
      exact hb6 a (isTree_ne_zero hI ha) (fun e => hLt (e ▸ ha)) (fun e => hRt (e ▸ ha))
    · intro a
      by_cases h0 : a = 0
      · subst h0
        exact ⟨fun h => absurd rfl (isTree_ne_zero hI6 h),
          fun h => absurd rfl (isTree_ne_zero hI h)⟩
      by_cases hL : a = L
      · subst hL
        exact ⟨fun h => absurd (Or.inr (Or.inl rfl)) h.2.1, fun h => absurd h hLt⟩
      by_cases hR : a = R
      · subst hR
        exact ⟨fun h => absurd (Or.inl rfl) h.2.1, fun h => absurd h hRt⟩
      unfold IsTree
      rw [hb6 a h0 hL hR]
      simp only [hL, hR, false_or]
      exact Iff.rfl
  · rw [hb6L]; exact hsl
  · rw [hb6R]; exact hsr
  · intro hxi
    rw [hb6L]
    exact split_left_zero _ hxi _ (by omega) ln hln
  · intro w hw
    rw [splitNodeWrites_run t _ _ x L R _ _ ln rn0 rn hx.1 h1 hLm.2.1 h3 hLm.2.1 hRm.2.1
      hLR hbL3 hln hrn0 hrn] at hw
    simp only [List.mem_append, List.mem_cons, List.mem_singleton, List.not_mem_nil,
      or_false] at hw
    rcases hw with (((h | h) | h) | h) | h
    · rw [allocWrites_keys _ w h, hE.sb_keys]; omega
    · rw [h, hnewk]; omega
    · rw [allocWrites_keys _ w h]
      have := hE2.sb_keys
      rw [this]; omega
    · rw [h, hnewk]; omega
    · rcases h with h | h | h
      · rw [h]; exact hlnk
      · rw [h]; exact hrnk
      · rw [h]; exact hk

theorem deallocWrites_bound (s : BTreeIndex) (x B : Nat) (hx : x < s.buffercache.numBlocks)
    (h1 : s.superblock.info.numkeys ≤ B) (h2 : (s.buffercache.blocks x).info.numkeys ≤ B) :
    ∀ w, w ∈ DeallocateNodeWrites s x → w.info.numkeys ≤ B := by
  intro w hw
  rcases deallocWrites_keys s x hx w hw with e | e
  · rw [e]; exact h1
  · rw [e]; exact h2

/-- The root case of `Rebalance`, with every block accounted for: the tree gets one level
higher under a new root, the nodes outside the tree are the same as before, and no node
written has more than `threshold + 1` keys. -/
theorem rebalance_root_ext (fuel : Nat) {t : BTreeIndex} {g : Ghost} {x : Nat}
    (path : List Nat)
    (hI : Inv t g (some x)) (hE : Ext t g) (hx : IsTree t g x)
    (hn : (t.buffercache.blocks x).info.numkeys = threshold t + 1)
    (hmax : t.maxNumKeys < 2 ^ 64)
    (hroot : x = t.superblock.info.rootnode)
    (hfree : 3 ≤ g.free.length) :
    ∃ t' g', Rebalance (fuel + 1) t x path = some (ERROR_NOERROR, t') ∧ Inv t' g' none ∧
      Ext t' g' ∧ g'.kv = g.kv ∧ (∀ y, g'.junk y ↔ g.junk y) ∧
      t'.maxNumKeys = t.maxNumKeys ∧
      t'.buffercache.numBlocks = t.buffercache.numBlocks ∧
      (t'.superblock.info.rootnode ≠ t.superblock.info.rootnode ∧
        g'.lvl t'.superblock.info.rootnode = g.lvl t.superblock.info.rootnode + 1) ∧
      g.free.length ≤ g'.free.length + 2 ∧
      (∀ w, w ∈ RebalanceWrites (fuel + 1) t x path → w.info.numkeys ≤ threshold t + 1) := by
  obtain ⟨L, R, q, rest, hf⟩ : ∃ L R q rest, g.free = L :: R :: q :: rest := by
    match hg : g.free, hfree with
    | L :: R :: q :: rest, _ => exact ⟨L, R, q, rest, rfl⟩
  have hthr := hI.thr
  have hle := thr_le t
  obtain ⟨t7, hs, hI7, hST, hLR, hsl, hsr, hE7, hN7, hz7, hw7⟩ :=
    splitNode_ext hI hE hx (by omega) (by omega) (by omega) hf
  have hnd := hI.free_nodup
  rw [hf] at hnd
  have hLq : L ≠ q := by
    intro e; subst e; simp at hnd
  have hRq : R ≠ q := by
    intro e; subst e; simp at hnd
  have hbx := hST.blk x hx
  have hb : (t.buffercache.blocks x).info.nodetype = BTREE_ROOT_NODE :=
    (hI.root_type x hx).2 hroot
  have hxi : (t.buffercache.blocks x).isInterior = true := by
    simp [BTreeNode.isInterior, hb]
  have hqm := freeChain_mem _ _ hI7.free_chain q (by simp)
  have h8 := allocate_eq hI7 (rfl : _ = q :: rest)
  have hI8 := inv_alloc_write hI7 (rfl : _ = q :: rest)
    (rootWith q ((t.buffercache.blocks x).keys ((t.buffercache.blocks x).info.numkeys / 2 - 1))
      L R) (rootWith_node _ _ _ _)
  have eth7 : threshold t7 = threshold t := by unfold threshold; rw [hST.max]
  have hE8 := ext_alloc_write hI7 hE7 (rfl : _ = q :: rest)
    (rootWith q ((t.buffercache.blocks x).keys ((t.buffercache.blocks x).info.numkeys / 2 - 1))
      L R) (by show 1 ≤ _; omega)
  have hx7 : IsTree t7 _ x := (hST.tree x).2 hx
  have hx0 := isTree_ne_zero hI hx
  have hL0 := junk_ne_zero hI7 (Or.inr (Or.inl rfl))
  have hR0 := junk_ne_zero hI7 (Or.inl rfl)
  have hxq : x ≠ q := fun e => free_not_tree hI7 (by simp) (e ▸ hx7)
  have hb8 : ∀ a, a ≠ 0 → a ≠ q →
      ((t7.withFree (t7.buffercache.blocks q).info.freelist).withBlock q
        (rootWith q ((t.buffercache.blocks x).keys
          ((t.buffercache.blocks x).info.numkeys / 2 - 1)) L R)).buffercache.blocks a
        = t7.buffercache.blocks a := by
    intro a h0 hq
    simp [BTreeIndex.withBlock, BTreeIndex.withFree, Function.update_apply, h0, hq]
  have hb8q : ((t7.withFree (t7.buffercache.blocks q).info.freelist).withBlock q
        (rootWith q ((t.buffercache.blocks x).keys
          ((t.buffercache.blocks x).info.numkeys / 2 - 1)) L R)).buffercache.blocks q
        = rootWith q ((t.buffercache.blocks x).keys
          ((t.buffercache.blocks x).info.numkeys / 2 - 1)) L R := by
    simp [BTreeIndex.withBlock]
  have hRH : RootH ((t7.withFree (t7.buffercache.blocks q).info.freelist).withBlock q
        (rootWith q ((t.buffercache.blocks x).keys
          ((t.buffercache.blocks x).info.numkeys / 2 - 1)) L R)) _ x L R q
        ((t.buffercache.blocks x).info.numkeys / 2) :=
    { inv := hI8
      x_root := by rw [hroot]; exact hST.root.symm
      mid_pos := by omega
      mid_lt := by rw [hb8 x hx0 hxq, hbx]; omega
      l_junk := Or.inr (Or.inr (Or.inl rfl))
      r_junk := Or.inr (Or.inl rfl)
      q_junk := Or.inl rfl
      l_ne_r := hLR
      l_ne_q := hLq
      r_ne_q := hRq
      left := by rw [hb8 x hx0 hxq, hb8 L hL0 hLq, hbx]; exact hsl
      right := by rw [hb8 x hx0 hxq, hb8 R hR0 hRq, hbx]; exact hsr
      q_type := by rw [hb8q]; rfl
      q_keys := by rw [hb8q]; rfl
      q_key := by rw [hb8q, hb8 x hx0 hxq, hbx]; rfl
      q_left := by rw [hb8q]; simp [rootWith]
      q_right := by rw [hb8q]; simp [rootWith] }
  have hIr := inv_root hRH
  have hEr := ext_root hRH hE8 (by rw [hb8 L hL0 hLq]; exact hz7 hxi)
  have hjx : (rootGhost { g with free := rest, junk := fun y => y = q ∨ (y = R ∨ (y = L ∨ g.junk y)) }
      x L R q ((((t7.withFree (t7.buffercache.blocks q).info.freelist).withBlock q
        (rootWith q ((t.buffercache.blocks x).keys
          ((t.buffercache.blocks x).info.numkeys / 2 - 1)) L R)).buffercache.blocks x).keys
            ((t.buffercache.blocks x).info.numkeys / 2 - 1))).junk x :=
    ⟨Or.inr rfl, hxq⟩
  have hd := deallocate_eq hIr hjx
  have hId := inv_dealloc hIr hjx
  have hEd := ext_dealloc hIr hEr hjx
  refine ⟨_, _, ?_, hId, hEd, rfl, ?_, ?_, ?_, ⟨?_, ?_⟩, ?_, ?_⟩
  · rw [rebalance_root_run fuel t t7 _ x L R _ q _ _ path hs hb h8 hqm.2.1, ← hd]
    apply dealloc_congr
    · rfl
    · exact hI8.sb_index
    · exact hI8.sb_index
    · rfl
    · rfl
    · rfl
    · exact (inv_zero_lt hI7 : 0 < t7.buffercache.numBlocks)
    · exact hx7.1
    · intro a ha
      simp [BTreeIndex.withRoot, BTreeIndex.withBlock, Function.update_apply, ha]
    · exact hx0
  · intro y
    constructor
    · intro hy
      obtain ⟨⟨hy1, _⟩, hyx⟩ := hy
      rcases hy1 with ⟨hy2, hyL, hyR⟩ | e
      · rcases hy2 with e | e | e | e
        · exact absurd e (by assumption)
        · exact absurd e hyR
        · exact absurd e hyL
        · exact e
      · exact absurd e hyx
    · intro hy
      have hyf := junk_not_free hI hy
      rw [hf] at hyf
      simp only [List.mem_cons, not_or] at hyf
      have hyx : y ≠ x := fun e => hx.2.1 (e ▸ hy)
      exact ⟨⟨Or.inl ⟨Or.inr (Or.inr (Or.inr hy)), hyf.1, hyf.2.1⟩, hyf.2.2.1⟩, hyx⟩
  · exact hST.max
  · exact hN7
  · show q ≠ t.superblock.info.rootnode
    rw [← hroot]; exact Ne.symm hxq
  · show (rootGhost _ x L R q _).lvl q = _
    simp only [rootGhost, if_true]
    rw [hroot]
  · rw [hf]
    show (L :: R :: q :: rest).length ≤ (x :: rest).length + 2
    simp
  · intro w hw
    rw [rebalanceWrites_root_run fuel t t7 _ x L R _ q _ _ path hs hb h8 hqm.2.1] at hw
    simp only [List.mem_append, List.mem_singleton] at hw
    rcases hw with h | (h | h) | h
    · exact hw7 w h
    · rw [allocWrites_keys _ w h, hE7.sb_keys]; omega
    · rw [h]; show 1 ≤ _; omega
    · refine deallocWrites_bound _ x _ ?_ ?_ ?_ w h
      · exact hx7.1
      · show t7.superblock.info.numkeys ≤ _
        rw [hE7.sb_keys]; omega
      · have e2 := hb8 x hx0 hxq
        rw [hbx] at e2
        show (((t7.withFree (t7.buffercache.blocks q).info.freelist).withBlock q
          _).buffercache.blocks x).info.numkeys ≤ _
        rw [e2, hn]

/-- The first `Insert` into a freshly created index, with every block accounted for. -/
theorem insert_fresh_ext {t : BTreeIndex} {a b : Nat} {rest : List Nat}
    (h : Fresh t (a :: b :: rest)) (hthr : 1 ≤ threshold t)
    (hcov : ∀ y, y < t.buffercache.numBlocks →
      y = 0 ∨ y = t.superblock.info.rootnode ∨ y ∈ a :: b :: rest)
    (hsb : t.superblock.info.numkeys = 0) (fuel k v : Nat) :
    ∃ t', Insert t (fuel + 1) k v = some (ERROR_NOERROR, t') ∧
      Inv t' (firstGhost t.superblock.info.rootnode a b k v rest) none ∧
      Ext t' (firstGhost t.superblock.info.rootnode a b k v rest) ∧
      t'.maxNumKeys = t.maxNumKeys ∧
      t'.superblock.info.rootnode = t.superblock.info.rootnode ∧
      t'.buffercache.numBlocks = t.buffercache.numBlocks ∧
      (∀ w, w ∈ InsertWrites t (fuel + 1) k v → w.info.numkeys ≤ threshold t + 1) := by
  obtain ⟨t', hIns, hI, hmax, hr⟩ := insert_fresh h hthr fuel k v
  obtain ⟨c1, c2, c3, c4, d1, d2, d3, d4, d5⟩ := h.free_chain
  have hnd := h.free_nodup
  have hab : a ≠ b := by
    intro e; subst e; simp at hnd
  have hr0 := h.root_ne
  have hrl := h.root_lt
  have hty := h.root_type
  have hk := h.root_keys
  have h0 : 0 < t.buffercache.numBlocks := by omega
  have hra : t.superblock.info.rootnode ≠ a := by
    intro e; rw [e, c4] at hty; cases hty
  have hrb : t.superblock.info.rootnode ≠ b := by
    intro e; rw [e, d4] at hty; cases hty
  obtain ⟨t1, hIns1, s1, s2, s3, s4, s5, s6, s7, s8, s9, s10, s11, s12, _⟩ :=
    insert_first_state t a b fuel k v h.sb_index hr0 hrl hty hk c1 c2 c3 c4 d1 d2 d3 d4 hab
  obtain ⟨t2, hIns2, f1, _, f3, f4⟩ :=
    insert_first_frame t a b fuel k v h.sb_index hr0 hrl hty hk c1 c2 c3 c4 d1 d2 d3 d4 hab
  rw [hIns] at hIns1 hIns2
  have e1 := (Prod.mk.inj (Option.some.inj hIns1)).2
  have e2 := (Prod.mk.inj (Option.some.inj hIns2)).2
  subst e1
  subst e2
  refine ⟨t', hIns, hI, ⟨?_, ?_, ?_, ?_⟩, hmax, hr, f1, ?_⟩
  · intro y hy
    rw [f1] at hy
    rcases hcov y hy with e | e | e
    · exact Or.inl e
    · refine Or.inr (Or.inr (Or.inr ⟨by rw [f1]; exact hy, fun hj => hj, Or.inl ?_⟩))
      rw [e]
      simp [BTreeNode.isInterior, s2]
    · rcases List.mem_cons.1 e with e | e
      · refine Or.inr (Or.inr (Or.inr ⟨by rw [f1]; exact hy, fun hj => hj, Or.inr ?_⟩))
        rw [e]
        simp [BTreeNode.isLeaf, s7]
      · rcases List.mem_cons.1 e with e | e
        · refine Or.inr (Or.inr (Or.inr ⟨by rw [f1]; exact hy, fun hj => hj, Or.inr ?_⟩))
          rw [e]
          simp [BTreeNode.isLeaf, s11]
        · exact Or.inr (Or.inl e)
  · intro y _ _ hd
    simp [firstGhost] at hd
  · rw [f3]; exact hsb
  · intro y hy
    exact absurd hy (fun hj => hj)
  · intro w hw
    rw [insertWrites_fresh_run t (fuel + 1) k v (lui_empty_root t fuel _ k 0 hrl hty hk) hrl hk]
      at hw
    have h1 := allocate_head ⟨t.superblock, t.superblock_index, t.buffercache, t.maxNumKeys, true⟩
      a h.sb_index h0 c1 c2 c3 c4
    have h4 := allocate_head
      ((BTreeIndex.withFree ⟨t.superblock, t.superblock_index, t.buffercache, t.maxNumKeys, true⟩
        (t.buffercache.blocks a).info.freelist).withBlock a (firstLeaf k v))
      b h.sb_index h0 (by simp [BTreeIndex.withBlock, BTreeIndex.withFree, d1]) d2 d3
      (by simp [BTreeIndex.withBlock, BTreeIndex.withFree, Function.update_apply, d2,
            Ne.symm hab, d4])
    rw [insertFirstWrites_run
      ⟨t.superblock, t.superblock_index, t.buffercache, t.maxNumKeys, false⟩
      _ _ k v a b _ _ _ h1 c3 hrl hra
      (by simp [BTreeIndex.withFree, Function.update_apply, hr0]; exact hty)
      h4 d3] at hw
    simp only [List.mem_append, List.mem_singleton] at hw
    rcases hw with h | ((((h | h) | h) | h) | h) | h
    · rw [h, hk]; omega
    · rw [allocWrites_keys _ w h]
      show t.superblock.info.numkeys ≤ _
      rw [hsb]; omega
    · rw [h]; show 0 ≤ _; omega
    · rw [h]; show 1 ≤ _; omega
    · rw [allocWrites_keys _ w h]
      show t.superblock.info.numkeys ≤ _
      rw [hsb]; omega
    · rw [h]; show 0 ≤ _; omega
    · rw [h]
      simp [firstRoot, BTreeIndex.withFree, Function.update_apply, hr0, hk]

/-! ## What the invariant says about the store as a whole -/

theorem node_is_tree {t : BTreeIndex} {g : Ghost} {over : Option Nat} (hI : Inv t g over)
    (hE : Ext t g) (hJ : ∀ y, ¬ g.junk y) {a : Nat} (ha : IsNode t a) : IsTree t g a := by
  rcases hE.cover a ha.1 with h | h | h | h
  · exfalso
    have h2 := ha.2
    rw [h, hI.sb_block] at h2
    exact super_not_node _ hI.sb_type h2
  · exact absurd ha.2 (unalloc_not_node _ (freeChain_mem _ _ hI.free_chain a h).2.2)
  · exact absurd h (hJ a)
  · exact h

theorem reach_zero {t : BTreeIndex} {g : Ghost} {over : Option Nat} (hI : Inv t g over)
    {l : Nat} (hr : Reach t 0 l) (hl : (t.buffercache.blocks l).isLeaf = true) : False := by
  have h0 : ¬ ((t.buffercache.blocks 0).isInterior = true ∨
      (t.buffercache.blocks 0).isLeaf = true) := by
    rw [hI.sb_block]
    exact super_not_node _ hI.sb_type
  cases hr with
  | here => exact h0 (Or.inr hl)
  | step _ _ _ _ h2 _ _ => exact h0 (Or.inl h2)

/-- A leaf reached from a node of the tree by following pointers is a leaf of the tree, and
the keys a search may carry into it are keys a search may carry into the node. -/
theorem reach_leaf {t : BTreeIndex} {g : Ghost} {over : Option Nat} (hI : Inv t g over)
    (hE : Ext t g) :
    ∀ (y l : Nat), Reach t y l → IsTree t g y → (t.buffercache.blocks l).isLeaf = true →
      IsTree t g l ∧ ∀ k, g.rng l k → g.rng y k := by
  intro y l hr
  induction hr with
  | here a => intro ha _; exact ⟨ha, fun _ h => h⟩
  | step a i c _ h2 h3 h4 ih =>
    intro ha hl
    have hio := hI.interior a ha h2
    by_cases hv : ValidIdx (t.buffercache.blocks a) (g.dead a) i
    · obtain ⟨c1, _, _, c4⟩ := hio.child i hv
      obtain ⟨r1, r2⟩ := ih c1 hl
      exact ⟨r1, fun k hk => ((c4 k).1 (r2 k hk)).1⟩
    · exfalso
      have hd : i = (t.buffercache.blocks a).info.numkeys ∧ g.dead a = true := by
        unfold ValidIdx at hv
        simp only [not_or, not_and, not_lt] at hv
        have e : i = (t.buffercache.blocks a).info.numkeys := by omega
        refine ⟨e, ?_⟩
        have := hv.2 e
        simpa using this
      have hz := hE.dead_zero a ha h2 hd.2
      rw [hd.1, hz] at h4
      exact reach_zero hI h4 hl

/-- The ordering of the search tree in a store that satisfies the invariant with every
block accounted for: every node is sorted, and the keys of the leaves below a pointer are on
the right side of the separator next to it. -/
theorem ordered_of_inv {t : BTreeIndex} {g : Ghost} (hI : Inv t g none) (hE : Ext t g)
    (hJ : ∀ y, ¬ g.junk y) :
    (∀ a, IsNode t a → ∀ i j, i < j → j < (t.buffercache.blocks a).info.numkeys →
      (t.buffercache.blocks a).keys i < (t.buffercache.blocks a).keys j) ∧
    (∀ a, IsNode t a → (t.buffercache.blocks a).isInterior = true →
      ∀ i, i < (t.buffercache.blocks a).info.numkeys →
      ∀ l, IsNode t l → (t.buffercache.blocks l).isLeaf = true →
      ∀ s, s < (t.buffercache.blocks l).info.numkeys →
        (Reach t ((t.buffercache.blocks a).ptrs i) l →
          (t.buffercache.blocks l).keys s ≤ (t.buffercache.blocks a).keys i) ∧
        (Reach t ((t.buffercache.blocks a).ptrs (i + 1)) l →
          (t.buffercache.blocks a).keys i < (t.buffercache.blocks l).keys s)) := by
  refine ⟨?_, ?_⟩
  · intro a ha i j hij hj
    exact node_sorted hI (node_is_tree hI hE hJ ha) i j hij hj
  · intro a ha hai i hi l _ hll s hs
    have hat := node_is_tree hI hE hJ ha
    have hio := hI.interior a hat hai
    refine ⟨?_, ?_⟩
    · intro hr
      obtain ⟨c1, _, _, c4⟩ := hio.child i (Or.inl hi)
      obtain ⟨r1, r2⟩ := reach_leaf hI hE _ l hr c1 hll
      have hk := ((hI.leaf l r1 hll).recs s hs).1
      exact ((c4 _).1 (r2 _ hk)).2.2 hi
    · intro hr
      by_cases hv : ValidIdx (t.buffercache.blocks a) (g.dead a) (i + 1)
      · obtain ⟨c1, _, _, c4⟩ := hio.child (i + 1) hv
        obtain ⟨r1, r2⟩ := reach_leaf hI hE _ l hr c1 hll
        have hk := ((hI.leaf l r1 hll).recs s hs).1
        have := ((c4 _).1 (r2 _ hk)).2.1 (Nat.succ_pos _)
        simpa using this
      · exfalso
        have hd : i + 1 = (t.buffercache.blocks a).info.numkeys ∧ g.dead a = true := by
          unfold ValidIdx at hv
          simp only [not_or, not_and, not_lt] at hv
          have e : i + 1 = (t.buffercache.blocks a).info.numkeys := by omega
          refine ⟨e, ?_⟩
          have := hv.2 e
          simpa using this
        have hz := hE.dead_zero a hat hai hd.2
        rw [hd.1, hz] at hr
        exact reach_zero hI hr hll

/-- With fuel for no more blocks than the height of a node, the descend-only traversal
from that node does not come to an end. -/
theorem lui_none_of_inv {t : BTreeIndex} {g : Ghost} {over : Option Nat} (hI : Inv t g over)
    (k : Nat) (op : BTreeOp) :
    ∀ (fuel a v0 : Nat), IsTree t g a → g.rng a k → fuel ≤ g.lvl a →
      LookupOrUpdateInternal t fuel a op k v0 = none := by
  intro fuel
  induction fuel with
  | zero => intro a v0 _ _ _; rfl
  | succ n ih =>
    intro a v0 ha hk hl
    rcases ha.2.2 with hi | hf
    · have hio := hI.interior a ha hi
      rw [lui_interior t n a _ k _ ha.1 hi, nextChild_eq _ hi k hio.pos]
      have hv := validIdx_firstIdx hio k hk
      obtain ⟨hc1, _, hc3, hc4⟩ := hio.child _ hv
      exact ih _ v0 hc1 ((hc4 k).2 (inSlice_firstIdx _ _ k hk)) (by omega)
    · have := (hI.leaf_lvl a ha).1 hf
      omega

/-- In a store that satisfies the invariant `Lookup` returns exactly when it has fuel for
one block more than the height of the root: every search visits that many blocks. -/
theorem lookup_depth {t : BTreeIndex} {g : Ghost} {over : Option Nat} (hI : Inv t g over)
    (k v fuel : Nat) :
    (Lookup t fuel k v).isSome = true ↔ g.lvl t.superblock.info.rootnode + 1 ≤ fuel := by
  by_cases h : g.lvl t.superblock.info.rootnode < fuel
  · rw [lookup_of_inv hI k v fuel h]
    simp only [Option.isSome_some, true_iff]
    omega
  · have e : Lookup t fuel k v = none :=
      lui_none_of_inv hI k _ fuel _ v hI.root_tree (hI.root_rng k) (by omega)
    rw [e]
    simp only [Option.isSome_none, Bool.false_eq_true, false_iff]
    omega

/-- Block accounting from its parts: a superblock in block `0`, a free list without
repetition, and every other block on the free list or a node. -/
theorem accounted (t : BTreeIndex) (free : List Nat)
    (h_sb : t.buffercache.blocks 0 = t.superblock)
    (h_ty : t.superblock.info.nodetype = BTREE_SUPERBLOCK)
    (h_chain : FreeChain t.buffercache t.superblock.info.freelist free)
    (h_nodup : free.Nodup)
    (h_cover : ∀ a, a < t.buffercache.numBlocks → a = 0 ∨ a ∈ free ∨ IsNode t a) :
    FreeChain t.buffercache t.superblock.info.freelist free ∧ free.Nodup ∧
    (∀ a, a ∈ free ↔ a < t.buffercache.numBlocks ∧
      (t.buffercache.blocks a).info.nodetype = BTREE_UNALLOCATED_BLOCK) ∧
    (t.buffercache.blocks 0).info.nodetype = BTREE_SUPERBLOCK ∧
    (∀ a, a < t.buffercache.numBlocks →
      (a = 0 ∧ a ∉ free ∧ ¬ IsNode t a) ∨ (a ≠ 0 ∧ a ∈ free ∧ ¬ IsNode t a) ∨
      (a ≠ 0 ∧ a ∉ free ∧ IsNode t a)) := by
  have h0 : (t.buffercache.blocks 0).info.nodetype = BTREE_SUPERBLOCK := by
    rw [h_sb]; exact h_ty
  have hn0 : ¬ IsNode t 0 := fun h => super_not_node _ h0 h.2
  have hf : ∀ a, a ∈ free → a ≠ 0 ∧ a < t.buffercache.numBlocks ∧
      (t.buffercache.blocks a).info.nodetype = BTREE_UNALLOCATED_BLOCK :=
    fun a ha => freeChain_mem _ _ h_chain a ha
  have hfn : ∀ a, a ∈ free → ¬ IsNode t a :=
    fun a ha h => unalloc_not_node _ (hf a ha).2.2 h.2
  refine ⟨h_chain, h_nodup, ?_, h0, ?_⟩
  · intro a
    constructor
    · intro ha
      exact (hf a ha).2
    · intro ha
      rcases h_cover a ha.1 with e | e | e
      · rw [e, h0] at ha
        exact absurd ha.2 (by decide)
      · exact e
      · exact absurd ha.2 (node_type_ne e.2)
  · intro a ha
    rcases h_cover a ha with e | e | e
    · left
      exact ⟨e, fun h => (hf a h).1 e, by rw [e]; exact hn0⟩
    · right; left
      exact ⟨(hf a e).1, e, hfn a e⟩
    · right; right
      exact ⟨fun e0 => hn0 (e0 ▸ e), fun h => hfn a h e, e⟩

theorem cover_of_inv {t : BTreeIndex} {g : Ghost} (hE : Ext t g)
    (hJ : ∀ y, ¬ g.junk y) :
    ∀ a, a < t.buffercache.numBlocks → a = 0 ∨ a ∈ g.free ∨ IsNode t a := by
  intro a ha
  rcases hE.cover a ha with h | h | h | h
  · exact Or.inl h
  · exact Or.inr (Or.inl h)
  · exact absurd h (hJ a)
  · exact Or.inr (Or.inr ⟨h.1, h.2.2⟩)

theorem cover_of_fresh {t : BTreeIndex} {n : Nat} (h : Fresh t (List.range' 2 (n - 2)))
    (hr : t.superblock.info.rootnode = 1) (hn : t.buffercache.numBlocks = n) :
    ∀ a, a < t.buffercache.numBlocks → a = 0 ∨ a ∈ List.range' 2 (n - 2) ∨ IsNode t a := by
  intro a ha
  by_cases e0 : a = 0
  · exact Or.inl e0
  · by_cases e1 : a = 1
    · refine Or.inr (Or.inr ⟨ha, Or.inl ?_⟩)
      rw [e1, ← hr]
      simp [BTreeNode.isInterior, h.root_type]
    · refine Or.inr (Or.inl ?_)
      rw [List.mem_range']
      rw [hn] at ha
      exact ⟨a - 2, by omega, by omega⟩

/-- Between two inserts every node of the store is within the threshold. -/
theorem nodes_within {t : BTreeIndex} {g : Ghost} (hI : Inv t g none) (hE : Ext t g)
    (hJ : ∀ y, ¬ g.junk y) :
    ∀ a, IsNode t a → (t.buffercache.blocks a).info.numkeys ≤ threshold t := by
  intro a ha
  rcases hI.size a (node_is_tree hI hE hJ ha) with h | h
  · exact h
  · exact absurd h.1 (by simp)

/-! ## `AllocateNode`, and `Insert` after a probe that fails -/

theorem allocate_nospace (t : BTreeIndex) (h : t.superblock.info.freelist = 0) :
    AllocateNode t = some (ERROR_NOSPACE, 0, t) := by
  simp [AllocateNode, h]

/-- `AllocateNode` with the UNALLOCATED block `h` at the head of the free list. -/
theorem allocate_pop (t : BTreeIndex) (hi : t.superblock_index = 0)
    (h0 : 0 < t.buffercache.numBlocks) (h2 : t.superblock.info.freelist ≠ 0)
    (h3 : t.superblock.info.freelist < t.buffercache.numBlocks)
    (h4 : (t.buffercache.blocks t.superblock.info.freelist).info.nodetype
      = BTREE_UNALLOCATED_BLOCK) :
    ∃ t', AllocateNode t = some (ERROR_NOERROR, t.superblock.info.freelist, t') ∧
      t'.superblock.info.freelist
        = (t.buffercache.blocks t.superblock.info.freelist).info.freelist ∧
      t'.superblock.info.nodetype = t.superblock.info.nodetype ∧
      t'.superblock.info.rootnode = t.superblock.info.rootnode ∧
      t'.superblock.info.numkeys = t.superblock.info.numkeys ∧
      t'.buffercache.blocks 0 = t'.superblock ∧
      (∀ x, x ≠ 0 → t'.buffercache.blocks x = t.buffercache.blocks x) ∧
      t'.buffercache.numBlocks = t.buffercache.numBlocks := by
  refine ⟨_, allocate_head t _ hi h0 rfl h2 h3 h4, rfl, rfl, rfl, rfl, ?_, ?_, rfl⟩
  · simp [BTreeIndex.withFree]
  · intro x hx
    simp [BTreeIndex.withFree, Function.update_apply, hx]

/-- `Insert` after a probe that returns a code other than `ERROR_NOERROR` and
`ERROR_NONEXISTENT`: the `switch` has no case for it and `Insert` returns
`ERROR_NOERROR`. -/
theorem insert_probe_error (t t' : BTreeIndex) (fuel key value v' : Nat) (rc : ERROR_T)
    (h : LookupOrUpdateInternal t fuel t.superblock.info.rootnode BTREE_OP_LOOKUP key 0
      = some (rc, v', t'))
    (h1 : rc ≠ ERROR_NOERROR) (h2 : rc ≠ ERROR_NONEXISTENT) :
    Insert t fuel key value = some (ERROR_NOERROR, t') := by
  simp [Insert, h, h1, h2]

/-! ## The split of a leaf -/

theorem records_split (b lb rb : BTreeNode) (mid : Nat) (hm : mid ≤ b.info.numkeys)
    (hl : lb.info.numkeys = mid) (hr : rb.info.numkeys = b.info.numkeys - mid)
    (hlk : ∀ i, i < mid → lb.keys i = b.keys i ∧ lb.vals i = b.vals i)
    (hrk : ∀ i, i < b.info.numkeys - mid →
      rb.keys i = b.keys (mid + i) ∧ rb.vals i = b.vals (mid + i)) :
    lb.records ++ rb.records = b.records := by
  have e : b.info.numkeys = mid + (b.info.numkeys - mid) := by omega
  unfold BTreeNode.records
  rw [hl, hr]
  conv_rhs => rw [e, List.range_add, List.map_append, List.map_map]
  congr 1
  · apply List.map_congr_left
    intro i hi
    rw [List.mem_range] at hi
    rw [(hlk i hi).1, (hlk i hi).2]
  · apply List.map_congr_left
    intro i hi
    rw [List.mem_range] at hi
    simp only [Function.comp_apply]
    rw [(hrk i hi).1, (hrk i hi).2]

/-- The first half of `Rebalance` on the LEAF in block `x` with at least two records, with
the two blocks `L`, `R` at the head of the free list: the state it leaves and the split key
it hands on. -/
theorem leaf_split_state (t : BTreeIndex) (x L R : Nat)
    (hi : t.superblock_index = 0)
    (hx0 : x ≠ 0) (hx : x < t.buffercache.numBlocks)
    (hty : (t.buffercache.blocks x).info.nodetype = BTREE_LEAF_NODE)
    (hn2 : 2 ≤ (t.buffercache.blocks x).info.numkeys)
    (hn64 : (t.buffercache.blocks x).info.numkeys ≤ 2 ^ 64)
    (hs : ∀ j, j < (t.buffercache.blocks x).info.numkeys → ∀ i, i < j →
      (t.buffercache.blocks x).keys i < (t.buffercache.blocks x).keys j)
    (hL1 : t.superblock.info.freelist = L) (hL2 : L ≠ 0) (hL3 : L < t.buffercache.numBlocks)
    (hL4 : (t.buffercache.blocks L).info.nodetype = BTREE_UNALLOCATED_BLOCK)
    (hR1 : (t.buffercache.blocks L).info.freelist = R) (hR2 : R ≠ 0)
    (hR3 : R < t.buffercache.numBlocks)
    (hR4 : (t.buffercache.blocks R).info.nodetype = BTREE_UNALLOCATED_BLOCK)
    (hLR : L ≠ R) :
    ∃ t7 mid sk, splitNode t x = some (Except.ok (t7, t.buffercache.blocks x, L, R, sk)) ∧
      mid = (t.buffercache.blocks x).info.numkeys / 2 ∧
      (t7.buffercache.blocks L).info.nodetype = BTREE_LEAF_NODE ∧
      (t7.buffercache.blocks R).info.nodetype = BTREE_LEAF_NODE ∧
      (t7.buffercache.blocks L).info.numkeys = mid ∧
      (t7.buffercache.blocks R).info.numkeys = (t.buffercache.blocks x).info.numkeys - mid ∧
      (∀ i, i < mid →
        (t7.buffercache.blocks L).keys i = (t.buffercache.blocks x).keys i ∧
        (t7.buffercache.blocks L).vals i = (t.buffercache.blocks x).vals i) ∧
      (∀ i, i < (t.buffercache.blocks x).info.numkeys - mid →
        (t7.buffercache.blocks R).keys i = (t.buffercache.blocks x).keys (mid + i) ∧
        (t7.buffercache.blocks R).vals i = (t.buffercache.blocks x).vals (mid + i)) ∧
      (t7.buffercache.blocks L).records ++ (t7.buffercache.blocks R).records
        = (t.buffercache.blocks x).records ∧
      0 < (t7.buffercache.blocks L).info.numkeys ∧
      0 < (t7.buffercache.blocks R).info.numkeys ∧
      sk = (t.buffercache.blocks x).keys (mid - 1) ∧
      sk = (t7.buffercache.blocks L).keys ((t7.buffercache.blocks L).info.numkeys - 1) ∧
      (∀ i, i < (t7.buffercache.blocks L).info.numkeys →
        (t7.buffercache.blocks L).keys i ≤ sk) ∧
      (∀ i, i < (t7.buffercache.blocks R).info.numkeys →
        sk < (t7.buffercache.blocks R).keys i) := by
  have h0 : 0 < t.buffercache.numBlocks := by omega
  have hxl : (t.buffercache.blocks x).isLeaf = true := by simp [BTreeNode.isLeaf, hty]
  have hLx : L ≠ x := by intro e; rw [e, hty] at hL4; cases hL4
  have hRx : R ≠ x := by intro e; rw [e, hty] at hR4; cases hR4
  obtain ⟨ln, hln, hsl⟩ := split_left_run (t.buffercache.blocks x) (Or.inr hxl)
    ((t.buffercache.blocks x).info.numkeys / 2) (by omega)
  obtain ⟨rn0, hrn0, rn, hrn, hsr⟩ := split_right_run (t.buffercache.blocks x) (Or.inr hxl)
    ((t.buffercache.blocks x).info.numkeys / 2) (by omega)
  have hk : (t.buffercache.blocks x).GetKey
      (((t.buffercache.blocks x).info.numkeys / 2 + 2 ^ 64 - 1) % 2 ^ 64) 0
        = (ERROR_NOERROR,
          (t.buffercache.blocks x).keys ((t.buffercache.blocks x).info.numkeys / 2 - 1)) := by
    have e : ((t.buffercache.blocks x).info.numkeys / 2 + 2 ^ 64 - 1) % 2 ^ 64
        = (t.buffercache.blocks x).info.numkeys / 2 - 1 := by
      omega
    rw [e]
    exact node_getKey _ (Or.inr hxl) _ _ (by omega)
  have h1 := allocate_head t L hi h0 hL1 hL2 hL3 hL4
  have h3 := allocate_head
    ((t.withFree (t.buffercache.blocks L).info.freelist).withBlock L
      (BTreeNode.new (if (t.buffercache.blocks x).info.nodetype = BTREE_LEAF_NODE
        then BTREE_LEAF_NODE else BTREE_INTERIOR_NODE)))
    R hi h0 (by simp [BTreeIndex.withBlock, BTreeIndex.withFree, hR1]) hR2 hR3
    (by simp [BTreeIndex.withBlock, BTreeIndex.withFree, Function.update_apply, hR2,
          Ne.symm hLR, hR4])
  have hsp := splitNode_run t _ _ x L R _ _ _ ln rn0 rn hx h1 hL3 h3 hL3 hR3 hx hLR hLx hRx
    (by simp [BTreeIndex.withBlock, BTreeIndex.withFree, Function.update_apply, hL2])
    (by simp [BTreeIndex.withBlock, BTreeIndex.withFree, Function.update_apply, hx0,
          Ne.symm hLx])
    hln hrn0 hrn hk
  obtain ⟨l1, l2, l3, _⟩ := hsl
  obtain ⟨r1, r2, r3, _⟩ := hsr
  have l3' := l3 hxl
  have r3' := r3 hxl
  have eL : ∀ (s : BTreeIndex) (a b : BTreeNode),
      (((s.withBlock R a).withBlock L ln).withBlock R b).buffercache.blocks L = ln := by
    intro s a b
    simp [BTreeIndex.withBlock, Function.update_apply, hLR]
  have eR : ∀ (s : BTreeIndex) (a b : BTreeNode),
      (((s.withBlock R a).withBlock L ln).withBlock R b).buffercache.blocks R = b := by
    intro s a b
    simp [BTreeIndex.withBlock, Function.update_apply]
  have hlk : ∀ i, i < (t.buffercache.blocks x).info.numkeys / 2 →
      ln.keys i = (t.buffercache.blocks x).keys i ∧
      ln.vals i = (t.buffercache.blocks x).vals i := fun i hi => ⟨l2 i hi, l3'.2 i hi⟩
  have hrk : ∀ i, i < (t.buffercache.blocks x).info.numkeys
        - (t.buffercache.blocks x).info.numkeys / 2 →
      rn.keys i = (t.buffercache.blocks x).keys ((t.buffercache.blocks x).info.numkeys / 2 + i) ∧
      rn.vals i = (t.buffercache.blocks x).vals ((t.buffercache.blocks x).info.numkeys / 2 + i) :=
    fun i hi => ⟨r2 i hi, r3'.2 i hi⟩
  refine ⟨_, (t.buffercache.blocks x).info.numkeys / 2, _, hsp, rfl, ?_, ?_, ?_, ?_, ?_, ?_, ?_,
    ?_, ?_, rfl, ?_, ?_, ?_⟩
  · rw [eL]; simpa [BTreeNode.isLeaf] using l3'.1
  · rw [eR]; simpa [BTreeNode.isLeaf] using r3'.1
  · rw [eL]; exact l1
  · rw [eR]; exact r1
  · rw [eL]; exact hlk
  · rw [eR]; exact hrk
  · rw [eL, eR]
    exact records_split _ ln rn _ (by omega) l1 r1 hlk hrk
  · rw [eL, l1]; omega
  · rw [eR, r1]; omega
  · rw [eL, l1, l2 _ (by omega)]
  · rw [eL, l1]
    intro i hi
    rw [l2 i hi]
    by_cases e : i = (t.buffercache.blocks x).info.numkeys / 2 - 1
    · rw [e]
    · exact le_of_lt (hs _ (by omega) i (by omega))
  · rw [eR, r1]
    intro i hi
    rw [r2 i hi]
    exact hs _ (by omega) _ (by omega)

/-! ## The two traversals side by side -/

theorem firstIdx_congr (p q : Nat → Bool) :
    ∀ (cnt off : Nat), (∀ i, off ≤ i → i < off + cnt → p i = q i) →
      firstIdx p cnt off = firstIdx q cnt off := by
  intro cnt
  induction cnt with
  | zero => intro off _; rfl
  | succ n ih =>
    intro off h
    simp only [firstIdx]
    rw [h off (le_refl _) (by omega), ih (off + 1) (fun i h1 h2 => h i (by omega) (by omega))]

/-- At a node none of whose keys is the search key, the scans of the two traversals stop at
the same slot. -/
theorem firstIdx_lt_eq_le (b : BTreeNode) (k : Nat)
    (h : ∀ i, i < b.info.numkeys → b.keys i ≠ k) :
    firstIdx (fun i => decide (k < b.keys i)) b.info.numkeys 0
      = firstIdx (fun i => decide (k ≤ b.keys i)) b.info.numkeys 0 := by
  apply firstIdx_congr
  intro i _ hi
  have := h i (by omega)
  by_cases e : k < b.keys i
  · have e2 : k ≤ b.keys i := le_of_lt e
    simp [e, e2]
  · have e2 : ¬ k ≤ b.keys i := by omega
    simp [e, e2]

/-- The child that `LookupLeaf` descends into from a ROOT/INTERIOR node with at least one
key. -/
theorem nextLeafChild_eq (b : BTreeNode) (hb : b.isInterior = true) (key : Nat)
    (hn : 0 < b.info.numkeys) :
    nextLeafChild b key =
      Except.ok (b.ptrs (firstIdx (fun i => decide (key < b.keys i)) b.info.numkeys 0)) := by
  unfold nextLeafChild
  rw [leafPathScan_eq b hb key b.info.numkeys 0 (by omega)]
  by_cases h : firstIdx (fun i => decide (key < b.keys i)) b.info.numkeys 0 < 0 + b.info.numkeys
  · have h' : firstIdx (fun i => decide (key < b.keys i)) b.info.numkeys 0 < b.info.numkeys := by
      omega
    simp [h']
  · have h1 := firstIdx_le (fun i => decide (key < b.keys i)) b.info.numkeys 0
    have e : firstIdx (fun i => decide (key < b.keys i)) b.info.numkeys 0 = b.info.numkeys := by
      omega
    simp [h, hn, isInterior_getPtr b hb b.info.numkeys 0 (le_refl _), e]

theorem lookupPath_interior (t : BTreeIndex) (fuel node key : Nat)
    (h : node < t.buffercache.numBlocks) (hb : (t.buffercache.blocks node).isInterior = true)
    (hn : 0 < (t.buffercache.blocks node).info.numkeys) :
    lookupPath t (fuel + 1) node key =
      node :: lookupPath t fuel
        ((t.buffercache.blocks node).ptrs
          (firstIdx (fun i => decide (key ≤ (t.buffercache.blocks node).keys i))
            (t.buffercache.blocks node).info.numkeys 0)) key := by
  simp only [lookupPath, BTreeNode.Unserialize, h, if_true, hb, ne_eq, not_true_eq_false,
    if_false, nextChild_eq _ hb key hn]

theorem lookupPath_leaf (t : BTreeIndex) (fuel node key : Nat)
    (h : node < t.buffercache.numBlocks) (hb : (t.buffercache.blocks node).isLeaf = true) :
    lookupPath t (fuel + 1) node key = [node] := by
  simp [lookupPath, BTreeNode.Unserialize, h, isLeaf_not_isInterior _ hb]

/-- In a store that satisfies the invariant, for a key that is none of the keys of the
ROOT/INTERIOR nodes of the tree, the path-recording traversal goes through the blocks that
the descend-only traversal reads, and at each of them both choose the same child. -/
theorem descent_agree {t : BTreeIndex} {g : Ghost} {over : Option Nat} (hI : Inv t g over)
    (k : Nat)
    (hsep : ∀ a, IsTree t g a → (t.buffercache.blocks a).isInterior = true →
      ∀ i, i < (t.buffercache.blocks a).info.numkeys → (t.buffercache.blocks a).keys i ≠ k) :
    ∀ (fuel a : Nat) (rest : List Nat), IsTree t g a → g.rng a k → g.lvl a < fuel →
      ∃ l anc, lookupPath t fuel a k = (l :: anc).reverse ∧
        LookupLeaf t fuel a k (a :: rest) = some (ERROR_NOERROR, l :: l :: (anc ++ rest)) ∧
        (t.buffercache.blocks l).isLeaf = true ∧
        ∀ c, c ∈ anc → (t.buffercache.blocks c).isInterior = true ∧
          nextLeafChild (t.buffercache.blocks c) k = nextChild (t.buffercache.blocks c) k := by
  intro fuel
  induction fuel with
  | zero => intro a rest _ _ h; omega
  | succ n ih =>
    intro a rest ha hk hl
    rcases ha.2.2 with hi | hf
    · have hio := hI.interior a ha hi
      have e := firstIdx_lt_eq_le (t.buffercache.blocks a) k (hsep a ha hi)
      rw [lookupPath_interior t n a k ha.1 hi hio.pos,
        lookupLeaf_interior t n a k _ ha.1 hi hio.pos, e]
      have hv := validIdx_firstIdx hio k hk
      obtain ⟨hc1, _, hc3, hc4⟩ := hio.child _ hv
      obtain ⟨l, anc, h1, h2, h3, h4⟩ := ih _ (a :: rest) hc1
        ((hc4 k).2 (inSlice_firstIdx _ _ k hk)) (by omega)
      refine ⟨l, anc ++ [a], ?_, ?_, h3, ?_⟩
      · rw [h1]
        simp
      · rw [h2]
        simp
      · intro c hc
        rcases List.mem_append.1 hc with hc | hc
        · exact h4 c hc
        · have ec : c = a := by simpa using hc
          rw [ec]
          refine ⟨hi, ?_⟩
          rw [nextLeafChild_eq _ hi k hio.pos, nextChild_eq _ hi k hio.pos, e]
    · rw [lookupPath_leaf t n a k ha.1 hf, lookupLeaf_leaf t n a k _ ha.1 hf]
      exact ⟨a, [], rfl, rfl, hf, fun c hc => by simp at hc⟩

/-! ## Allocations that hand out a block -/

theorem allocOk_of_run (t t1 : BTreeIndex) (a : Nat) (h : AllocateNode t = some (ERROR_NOERROR, a, t1))
    (ha : a < t.buffercache.numBlocks) : AllocateNodeOk t = true := by
  simp [AllocateNodeOk, h, ha]

/-- An allocation that hands out a block finds a block on the free list. -/
theorem allocOk_chain (t : BTreeIndex) (free : List Nat)
    (hc : FreeChain t.buffercache t.superblock.info.freelist free)
    (h : AllocateNodeOk t = true) : ∃ a rest, free = a :: rest := by
  cases free with
  | nil =>
    have h0 : t.superblock.info.freelist = 0 := hc
    rw [AllocateNodeOk, allocate_nospace t h0] at h
    simp at h
  | cons a rest => exact ⟨a, rest, rfl⟩

theorem allocOk_free {t : BTreeIndex} {g : Ghost} {over : Option Nat} (hI : Inv t g over)
    (h : AllocateNodeOk t = true) : ∃ a rest, g.free = a :: rest :=
  allocOk_chain t g.free hI.free_chain h

/-- The allocations of `splitNode` when the first one succeeds. -/
theorem splitNodeAllocs_run (t t1 : BTreeIndex) (x L : Nat) (e1 : ERROR_T)
    (hx : x < t.buffercache.numBlocks)
    (h1 : AllocateNode t = some (e1, L, t1))
    (hL1 : L < t1.buffercache.numBlocks) :
    splitNodeAllocs t x = [AllocateNodeOk t, AllocateNodeOk (t1.withBlock L (BTreeNode.new
      (if (t.buffercache.blocks x).info.nodetype = BTREE_LEAF_NODE then BTREE_LEAF_NODE
        else BTREE_INTERIOR_NODE)))] := by
  unfold splitNodeAllocs
  rw [unserialize_eq t x _ hx]
  simp only [ne_eq, not_true_eq_false, if_false]
  rw [h1]
  simp only []
  rw [serialize_eq _ L _ hL1]
  simp only [ne_eq, not_true_eq_false, if_false]
  rfl

theorem splitNodeAllocs_first (t : BTreeIndex) (x : Nat) (hx : x < t.buffercache.numBlocks)
    (h : ∀ b, b ∈ splitNodeAllocs t x → b = true) : AllocateNodeOk t = true := by
  unfold splitNodeAllocs at h
  rw [unserialize_eq t x _ hx] at h
  simp only [ne_eq, not_true_eq_false, if_false] at h
  cases ha : AllocateNode t with
  | none =>
    rw [ha] at h
    have := h false (by simp)
    cases this
  | some r =>
    obtain ⟨e, L, t1⟩ := r
    rw [ha] at h
    simp only [] at h
    apply h
    repeat' split
    all_goals simp

/-- When every allocation of `splitNode` hands out a block, the free list holds two blocks
at least. -/
theorem split_free_two {t : BTreeIndex} {g : Ghost} {over : Option Nat} (hI : Inv t g over)
    {x : Nat} (hx : x < t.buffercache.numBlocks)
    (h : ∀ b, b ∈ splitNodeAllocs t x → b = true) : ∃ L R rest, g.free = L :: R :: rest := by
  obtain ⟨L, r1, hf⟩ := allocOk_free hI (splitNodeAllocs_first t x hx h)
  have h1 := allocate_eq hI hf
  have hc := hI.free_chain
  rw [hf] at hc
  obtain ⟨_, _, hL3, _, hc5⟩ := hc
  rw [splitNodeAllocs_run t _ x L _ hx h1 hL3] at h
  have h2 := h (AllocateNodeOk ((t.withFree (t.buffercache.blocks L).info.freelist).withBlock L
    (BTreeNode.new (if (t.buffercache.blocks x).info.nodetype = BTREE_LEAF_NODE
      then BTREE_LEAF_NODE else BTREE_INTERIOR_NODE)))) (by simp)
  cases r1 with
  | nil =>
    have h0 : (t.buffercache.blocks L).info.freelist = 0 := hc5
    rw [AllocateNodeOk, allocate_nospace _ (by simp [BTreeIndex.withBlock, BTreeIndex.withFree, h0])]
      at h2
    simp at h2
  | cons R rest => exact ⟨L, R, rest, hf⟩

theorem splitAllocs_sub (fuel : Nat) (t : BTreeIndex) (x : Nat) (path : List Nat) :
    ∀ b, b ∈ splitNodeAllocs t x → b ∈ RebalanceAllocs (fuel + 1) t x path := by
  intro b hb
  unfold RebalanceAllocs
  split
  · exact hb
  · exact hb
  · exact List.mem_append_left _ hb

/-- The allocations of `Rebalance` on the root once the node is split. -/
theorem rebalanceAllocs_root_run (fuel : Nat) (t t7 : BTreeIndex) (x L R sk : Nat)
    (b : BTreeNode) (path : List Nat)
    (hs : splitNode t x = some (Except.ok (t7, b, L, R, sk)))
    (hb : b.info.nodetype = BTREE_ROOT_NODE) :
    RebalanceAllocs (fuel + 1) t x path = splitNodeAllocs t x ++ [AllocateNodeOk t7] := by
  simp only [RebalanceAllocs, hs, hb, if_true]

/-- The allocations of `Rebalance` on a node below the root once the node is split. -/
theorem rebalanceAllocs_parent_run (fuel : Nat) (t t7 : BTreeIndex) (x L R sk p : Nat)
    (b np : BTreeNode) (ps : List Nat)
    (hs : splitNode t x = some (Except.ok (t7, b, L, R, sk)))
    (hb : b.info.nodetype ≠ BTREE_ROOT_NODE)
    (hp : p < t7.buffercache.numBlocks)
    (hty : (t7.buffercache.blocks p).info.nodetype ≠ BTREE_SUPERBLOCK)
    (hins : parentInsert (t7.buffercache.blocks p) sk L R = (ERROR_NOERROR, np)) :
    RebalanceAllocs (fuel + 1) t x (p :: ps) =
      splitNodeAllocs t x ++
        (if np.info.numkeys > threshold t7 then RebalanceAllocs fuel (t7.withBlock p np) p ps
         else []) := by
  have e9 : ({ t7 with buffercache := (t7.withBlock p np).buffercache } : BTreeIndex)
      = t7.withBlock p np := rfl
  have eth : threshold (t7.withBlock p np) = threshold t7 := rfl
  simp only [RebalanceAllocs, hs, hb, if_false, unserialize_eq t7 p _ hp, ne_eq,
    not_true_eq_false, hty, hins, serialize_eq t7 p np hp, e9, eth, List.nil_append]

/-- `Rebalance` on an over-full node of the tree, given its ancestors, when every
allocation hands out a block, with every block accounted for: it returns `ERROR_NOERROR`, the records and the
nodes outside the tree are the same, the tree gets one level higher exactly when the root
pointer changes, and no node written has more than `threshold + 1` keys. -/
theorem rebalance_allocs_ext : ∀ (fuel : Nat) (t : BTreeIndex) (g : Ghost) (x : Nat)
    (path : List Nat),
    Inv t g (some x) → Ext t g → IsTree t g x →
    (t.buffercache.blocks x).info.numkeys = threshold t + 1 →
    t.maxNumKeys < 2 ^ 64 →
    IsPath t g x path → path.length < fuel →
    (∀ b, b ∈ RebalanceAllocs fuel t x path → b = true) →
    ∃ t' g', Rebalance fuel t x path = some (ERROR_NOERROR, t') ∧ Inv t' g' none ∧
      Ext t' g' ∧ g'.kv = g.kv ∧ (∀ y, g'.junk y ↔ g.junk y) ∧
      t'.maxNumKeys = t.maxNumKeys ∧
      t'.buffercache.numBlocks = t.buffercache.numBlocks ∧
      ((t'.superblock.info.rootnode = t.superblock.info.rootnode ∧
          g'.lvl t'.superblock.info.rootnode = g.lvl t.superblock.info.rootnode) ∨
        (t'.superblock.info.rootnode ≠ t.superblock.info.rootnode ∧
          g'.lvl t'.superblock.info.rootnode = g.lvl t.superblock.info.rootnode + 1)) ∧
      g.free.length ≤ g'.free.length + path.length + 2 ∧
      (∀ w, w ∈ RebalanceWrites fuel t x path → w.info.numkeys ≤ threshold t + 1) := by
  intro fuel
  induction fuel with
  | zero => intro t g x path _ _ _ _ _ _ hf _; omega
  | succ fuel ih =>
    intro t g x path hI hE hx hn hmax hpath hfuel hfree
    have hthr := hI.thr
    have hle := thr_le t
    have hal2 : ∀ b, b ∈ splitNodeAllocs t x → b = true :=
      fun b hb => hfree b (splitAllocs_sub fuel t x path b hb)
    obtain ⟨L, R, rest, hf⟩ := split_free_two hI hx.1 hal2
    by_cases hroot : x = t.superblock.info.rootnode
    · obtain ⟨t7, hs, hI7, _⟩ := splitNode_ext hI hE hx (by omega) (by omega) (by omega) hf
      have hbr : (t.buffercache.blocks x).info.nodetype = BTREE_ROOT_NODE :=
        (hI.root_type x hx).2 hroot
      rw [rebalanceAllocs_root_run fuel t t7 x L R _ _ path hs hbr] at hfree
      obtain ⟨q, rest', hq⟩ := allocOk_free hI7 (hfree _ (by simp))
      have hq' : rest = q :: rest' := hq
      have h3 : 3 ≤ g.free.length := by
        rw [hf, hq']
        simp
      obtain ⟨t', g', h1, h2, h3, h4, h5, h6, h7, h8, h9, h10⟩ :=
        rebalance_root_ext fuel path hI hE hx hn hmax hroot h3
      exact ⟨t', g', h1, h2, h3, h4, h5, h6, h7, Or.inr h8, by omega, h10⟩
    · match path, hpath, hfuel, hfree with
      | [], hpath, _, _ => exact absurd hpath hroot
      | p :: ps, hpath, hfuel, hfree =>
        obtain ⟨_, hp, hpi, ⟨i, hi, hpx⟩, hps⟩ := hpath
        obtain ⟨t7, hs, hI7, hST, hLR, hsl, hsr, hE7, hN7, hz7, hw7⟩ :=
          splitNode_ext hI hE hx (by omega) (by omega) (by omega) hf
        have hbx := hST.blk x hx
        have hbp := hST.blk p hp
        have hx7 : IsTree t7 _ x := (hST.tree x).2 hx
        have hp7 : IsTree t7 _ p := (hST.tree p).2 hp
        have hb : (t.buffercache.blocks x).info.nodetype ≠ BTREE_ROOT_NODE :=
          fun e => hroot ((hI.root_type x hx).1 e)
        have hpi7 : (t7.buffercache.blocks p).isInterior = true := by rw [hbp]; exact hpi
        have hty : (t7.buffercache.blocks p).info.nodetype ≠ BTREE_SUPERBLOCK := by
          intro e
          exact super_not_node _ e hp7.2.2
        have hins := parentInsert_eq (t7.buffercache.blocks p) hpi7
          ((t.buffercache.blocks x).keys ((t.buffercache.blocks x).info.numkeys / 2 - 1)) L R
        have hj := slot_firstIdx hI7 hp7 hpi7 (by rw [hbp]; exact hi) (by rw [hbp]; exact hpx)
          hx7 ((t.buffercache.blocks x).info.numkeys / 2 - 1) (by rw [hbx]; omega)
        rw [hbx] at hj
        rw [hj] at hins
        generalize hnp : (⟨⟨(t7.buffercache.blocks p).info.nodetype, 0,
            (t7.buffercache.blocks p).info.freelist,
            (t7.buffercache.blocks p).info.numkeys + 1⟩, _, _, _⟩ : BTreeNode) = np at hins
        have hpw : ParentWith (t7.buffercache.blocks p) np i
            ((t7.buffercache.blocks x).keys ((t.buffercache.blocks x).info.numkeys / 2 - 1))
            L R := by
          rw [hbx, ← hnp]
          refine ⟨rfl, rfl, ?_, ?_⟩
          · intro a ha
            simp only [ha, if_true]
          · intro a ha
            simp only [ha, if_true]
        have hLH : LinkH t7 _ x p L R ((t.buffercache.blocks x).info.numkeys / 2) i np :=
          { inv := hI7
            x_tree := hx7
            x_root := by rw [hST.root]; exact hroot
            p_tree := hp7
            p_int := hpi7
            p_idx := by rw [hbp]; exact hi
            p_ptr := by rw [hbp]; exact hpx
            mid_pos := by omega
            mid_lt := by rw [hbx]; omega
            l_junk := Or.inr (Or.inl rfl)
            r_junk := Or.inl rfl
            l_ne_r := hLR
            left := by rw [hbx]; exact hsl
            right := by rw [hbx]; exact hsr
            parent := hpw }
        have hI9 := inv_link hLH
        have hE9 := ext_link hLH hE7 (by rw [hbx]; exact hz7)
        have hrun := rebalance_parent_run fuel t t7 x L R _ p _ np ps hs hb hp7.1 hty hins
        have hnpk : np.info.numkeys = (t7.buffercache.blocks p).info.numkeys + 1 := by
          rw [← hnp]
        rw [hnpk] at hrun
        have hrt := hI.root_tree
        have hrL : t.superblock.info.rootnode ≠ L :=
          fun e => free_not_tree hI (by rw [hf]; simp) (e ▸ hrt)
        have hrR : t.superblock.info.rootnode ≠ R :=
          fun e => free_not_tree hI (by rw [hf]; simp) (e ▸ hrt)
        have hjunk : ∀ y, g.junk y →
            (linkGhost { g with free := rest, junk := fun y => y = R ∨ (y = L ∨ g.junk y) }
              x L R ((t7.buffercache.blocks x).keys
                ((t.buffercache.blocks x).info.numkeys / 2 - 1))
              (t7.buffercache.blocks x).isInterior).junk y ∧ y ≠ x := by
          intro y hy
          have hyf := junk_not_free hI hy
          rw [hf] at hyf
          simp only [List.mem_cons, not_or] at hyf
          exact ⟨Or.inl ⟨Or.inr (Or.inr hy), hyf.1, hyf.2.1⟩, fun e => hx.2.1 (e ▸ hy)⟩
        have hjunk' : ∀ y,
            (linkGhost { g with free := rest, junk := fun y => y = R ∨ (y = L ∨ g.junk y) }
              x L R ((t7.buffercache.blocks x).keys
                ((t.buffercache.blocks x).info.numkeys / 2 - 1))
              (t7.buffercache.blocks x).isInterior).junk y → y ≠ x → g.junk y := by
          intro y hy hyx
          rcases hy with ⟨hy2, hyL, hyR⟩ | e
          · rcases hy2 with e | e | e
            · exact absurd e hyR
            · exact absurd e hyL
            · exact e
          · exact absurd e hyx
        have hlen : g.free.length = rest.length + 2 := by rw [hf]; simp
        have hth : threshold t7 = threshold t := by
          unfold threshold; rw [hST.max]
        have hsz : (t7.buffercache.blocks p).info.numkeys ≤ threshold t7 := by
          rcases hI7.size p hp7 with h | h
          · exact h
          · exact absurd (Option.some.inj h.1) (linkH_x_ne_p hLH)
        have hlv9 : (linkGhost
            { g with free := rest, junk := fun y => y = R ∨ (y = L ∨ g.junk y) }
            x L R ((t7.buffercache.blocks x).keys
              ((t.buffercache.blocks x).info.numkeys / 2 - 1))
            (t7.buffercache.blocks x).isInterior).lvl t.superblock.info.rootnode
            = g.lvl t.superblock.info.rootnode :=
          linkGhost_lvl_other _ _ _ _ _ _ _ hrL hrR
        have hjx : (linkGhost
            { g with free := rest, junk := fun y => y = R ∨ (y = L ∨ g.junk y) }
            x L R ((t7.buffercache.blocks x).keys
              ((t.buffercache.blocks x).info.numkeys / 2 - 1))
            (t7.buffercache.blocks x).isInterior).junk x := Or.inr rfl
        by_cases hover : (t7.buffercache.blocks p).info.numkeys + 1 > threshold t7
        · rw [if_pos hover] at hI9 hrun
          obtain ⟨t10, g10, h10, hI10, hE10, hkv, hjk, hmx, hN10, hlv, hfr, hw10⟩ :=
            ih (t7.withBlock p np) _ p ps hI9 hE9
              ((linkH_tree_iff hLH p).2 (Or.inr (Or.inr ⟨hp7, (linkH_x_ne_p hLH).symm⟩)))
              (by rw [linkH_block_p hLH, hnpk]
                  show _ = threshold t7 + 1
                  omega)
              (by show t7.maxNumKeys < _
                  rw [hST.max]; exact hmax)
              (linkH_path hLH ps p
                (isPath_frame hST.root hST.blk hST.tree hST.dead ps p hps) (Nat.le_refl _))
              (by simp only [List.length_cons] at hfuel; omega)
              (by intro c hc
                  apply hfree
                  rw [rebalanceAllocs_parent_run fuel t t7 x L R _ p _ np ps hs hb hp7.1 hty hins,
                    hnpk, if_pos hover]
                  exact List.mem_append_right _ hc)
          rw [h10] at hrun
          simp only [ne_eq, not_true_eq_false, if_false] at hrun
          have hjx10 := (hjk x).2 hjx
          rw [deallocate_eq hI10 hjx10] at hrun
          have hmx' : t10.maxNumKeys = t.maxNumKeys := by
            rw [hmx]; exact hST.max
          have hth10 : threshold t10 = threshold t := by
            unfold threshold; rw [hmx']
          refine ⟨_, _, hrun, inv_dealloc hI10 hjx10, ext_dealloc hI10 hE10 hjx10, hkv, ?_,
            hmx', ?_, ?_, ?_, ?_⟩
          · intro y
            constructor
            · intro hy
              exact hjunk' y ((hjk y).1 hy.1) hy.2
            · intro hy
              exact ⟨(hjk y).2 (hjunk y hy).1, (hjunk y hy).2⟩
          · show t10.buffercache.numBlocks = _
            rw [hN10]
            exact hN7
          · have e9 : (t7.withBlock p np).superblock.info.rootnode
                = t.superblock.info.rootnode := hST.root
            rw [e9, hlv9] at hlv
            exact hlv
          · show _ ≤ (x :: g10.free).length + _ + 2
            have : rest.length ≤ g10.free.length + ps.length + 2 := hfr
            simp only [List.length_cons]
            omega
          · intro w hw
            rw [rebalanceWrites_parent_rec fuel t t7 t10 x L R _ p _ np ps hs hb hp7.1 hty hins
              (by rw [hnpk]; exact hover) h10] at hw
            simp only [List.mem_append, List.mem_singleton] at hw
            rcases hw with h | h | h | h
            · exact hw7 w h
            · rw [h, hnpk]; omega
            · have := hw10 w h
              have e : threshold (t7.withBlock p np) = threshold t7 := rfl
              rw [e, hth] at this
              exact this
            · refine deallocWrites_bound t10 x _ ?_ ?_ ?_ w h
              · exact (hI10.junk_ok x hjx10).1
              · rw [hE10.sb_keys]; omega
              · have := hE10.junk_keys x hjx10
                rw [hth10] at this
                exact this
        · rw [if_neg hover] at hI9 hrun
          rw [deallocate_eq hI9 hjx] at hrun
          refine ⟨_, _, hrun, inv_dealloc hI9 hjx, ext_dealloc hI9 hE9 hjx, rfl, ?_, hST.max,
            hN7, Or.inl ⟨hST.root, ?_⟩, ?_, ?_⟩
          · intro y
            constructor
            · intro hy
              exact hjunk' y hy.1 hy.2
            · intro hy
              exact hjunk y hy
          · have e := hST.root
            simp [linkGhost, BTreeIndex.withFree, BTreeIndex.withBlock, e, hrL, hrR]
          · show _ ≤ (x :: rest).length + _ + 2
            simp only [List.length_cons]
            omega
          · intro w hw
            rw [rebalanceWrites_parent_run fuel t t7 x L R _ p _ np ps hs hb hp7.1 hty hins
              (by rw [hnpk]; exact hover)] at hw
            simp only [List.mem_append, List.mem_singleton] at hw
            rcases hw with h | h | h
            · exact hw7 w h
            · rw [h, hnpk]; omega
            · refine deallocWrites_bound (t7.withBlock p np) x _ ?_ ?_ ?_ w h
              · exact hx7.1
              · rw [hE9.sb_keys]; omega
              · have := hE9.junk_keys x hjx
                have e : threshold (t7.withBlock p np) = threshold t7 := rfl
                rw [e, hth] at this
                exact this

/-- The allocations of `insertLeaf` when `LookupLeaf` arrives at the leaf `l`. -/
theorem insertLeafAllocs_run (t : BTreeIndex) (fuel k v l : Nat) (e : ERROR_T) (anc : List Nat)
    (hLL : LookupLeaf t fuel t.superblock.info.rootnode k [t.superblock.info.rootnode]
      = some (e, l :: l :: anc))
    (hl : l < t.buffercache.numBlocks) (hleaf : (t.buffercache.blocks l).isLeaf = true) :
    insertLeafAllocs t fuel k v =
      if (t.buffercache.blocks l).info.numkeys + 1 > threshold t then
        RebalanceAllocs fuel (t.withBlock l (leafWith (t.buffercache.blocks l) k v)) l anc
      else [] := by
  have hfill := leafFill_eq ⟨⟨(t.buffercache.blocks l).info.nodetype,
    (t.buffercache.blocks l).info.rootnode, (t.buffercache.blocks l).info.freelist,
    (t.buffercache.blocks l).info.numkeys + 1⟩, (t.buffercache.blocks l).keys,
    (t.buffercache.blocks l).vals, (t.buffercache.blocks l).ptrs⟩ hleaf k v (Nat.succ_pos _)
  simp only [Nat.add_sub_cancel] at hfill
  have e1 : ∀ nd, (⟨t.superblock, t.superblock_index, (t.withBlock l nd).buffercache,
      t.maxNumKeys, t.initBlock⟩ : BTreeIndex) = t.withBlock l nd := fun _ => rfl
  have eth : ∀ nd, threshold (t.withBlock l nd) = threshold t := fun _ => rfl
  simp only [insertLeafAllocs, hLL, unserialize_eq t l _ hl, ne_eq, not_true_eq_false, if_false,
    hfill, serialize_eq t l _ hl, e1, eth, leafWith]

/-- The allocations of `Insert` when the probe does not find the key and the root has
keys. -/
theorem insertAllocs_run (t : BTreeIndex) (fuel k v v0 : Nat)
    (hprobe : LookupOrUpdateInternal t fuel t.superblock.info.rootnode BTREE_OP_LOOKUP k 0
      = some (ERROR_NONEXISTENT, v0, t))
    (hroot : t.superblock.info.rootnode < t.buffercache.numBlocks)
    (hn : (t.buffercache.blocks t.superblock.info.rootnode).info.numkeys ≠ 0) :
    InsertAllocs t fuel k v = insertLeafAllocs { t with initBlock := true } fuel k v := by
  have e : ∀ b : Bool, (⟨t.superblock, t.superblock_index,
      (t.withBlock t.superblock.info.rootnode
        (t.buffercache.blocks t.superblock.info.rootnode)).buffercache,
      t.maxNumKeys, b⟩ : BTreeIndex) = { t with initBlock := b } := by
    intro b
    rw [withBlock_self]
  simp only [InsertAllocs, hprobe, unserialize_eq t _ _ hroot, ne_eq, hn, not_false_eq_true,
    if_true, serialize_eq t _ _ hroot]
  rw [e true]
  simp

/-- The allocations of `Insert` when the probe finds the key: none. -/
theorem insertAllocs_found (t : BTreeIndex) (fuel k v v0 : Nat)
    (hprobe : LookupOrUpdateInternal t fuel t.superblock.info.rootnode BTREE_OP_LOOKUP k 0
      = some (ERROR_NOERROR, v0, t)) :
    InsertAllocs t fuel k v = [] := by
  simp only [InsertAllocs, hprobe, if_true]

/-- The allocations of `Insert` on an index without keys are the ones of `insertFirst`. -/
theorem insertAllocs_fresh_run (t : BTreeIndex) (fuel k v : Nat)
    (hprobe : LookupOrUpdateInternal t fuel t.superblock.info.rootnode BTREE_OP_LOOKUP k 0
      = some (ERROR_NONEXISTENT, 0, t))
    (hroot : t.superblock.info.rootnode < t.buffercache.numBlocks)
    (hn : (t.buffercache.blocks t.superblock.info.rootnode).info.numkeys = 0) :
    InsertAllocs t fuel k v = insertFirstAllocs { t with initBlock := false } k v
        (t.buffercache.blocks t.superblock.info.rootnode) := by
  have e : ∀ b : Bool, (⟨t.superblock, t.superblock_index,
      (t.withBlock t.superblock.info.rootnode
        (t.buffercache.blocks t.superblock.info.rootnode)).buffercache,
      t.maxNumKeys, b⟩ : BTreeIndex) = { t with initBlock := b } := by
    intro b
    rw [withBlock_self]
  simp only [InsertAllocs, hprobe, unserialize_eq t _ _ hroot, ne_eq, hn, not_true_eq_false,
    if_false, serialize_eq t _ _ hroot]
  rw [e false]
  simp

/-- The branch of `Insert` for a tree that has keys, on a key that is not in the tree and
when every allocation hands out a block, with every block accounted for. -/
theorem insertLeaf_allocs_ext {t : BTreeIndex} {g : Ghost} (hI : Inv t g none) (hE : Ext t g)
    (fuel k v : Nat)
    (hkv : g.kv k = none) (hfuel : g.lvl t.superblock.info.rootnode < fuel)
    (hmax : t.maxNumKeys < 2 ^ 64)
    (hal : ∀ b, b ∈ insertLeafAllocs t fuel k v → b = true) :
    ∃ t' g', insertLeaf t fuel k v = some (ERROR_NOERROR, t') ∧ Inv t' g' none ∧
      Ext t' g' ∧ g'.kv = Function.update g.kv k (some v) ∧ (∀ y, g'.junk y ↔ g.junk y) ∧
      t'.maxNumKeys = t.maxNumKeys ∧
      t'.buffercache.numBlocks = t.buffercache.numBlocks ∧
      ((t'.superblock.info.rootnode = t.superblock.info.rootnode ∧
          g'.lvl t'.superblock.info.rootnode = g.lvl t.superblock.info.rootnode) ∨
        (t'.superblock.info.rootnode ≠ t.superblock.info.rootnode ∧
          g'.lvl t'.superblock.info.rootnode = g.lvl t.superblock.info.rootnode + 1)) ∧
      g.free.length ≤ g'.free.length + g.lvl t.superblock.info.rootnode + 2 ∧
      (∀ w, w ∈ insertLeafWrites t fuel k v → w.info.numkeys ≤ threshold t + 1) := by
  have hrt := hI.root_tree
  obtain ⟨l, anc, hLL, hl, hleaf, hrng, hpath, hlen⟩ :=
    lookupLeaf_of_inv hI k hkv fuel t.superblock.info.rootnode [] hrt (hI.root_rng k) hfuel rfl
  simp only [List.length_nil, Nat.zero_add] at hlen
  rw [insertLeaf_run _ fuel k v l _ anc hLL hl.1 hleaf]
  have hI1 := inv_leaf_insert hI hl hleaf k v hrng hkv
  have hE1 := ext_leaf_insert hE hl hleaf k v
  have hsz := hI.size l hl
  have h8 : (t.buffercache.blocks l).info.numkeys ≤ threshold t := by
    rcases hsz with h | h
    · exact h
    · exact absurd h.1 (by simp)
  have hwr := insertLeafWrites_run t fuel k v l _ anc hLL hl.1 hleaf
  have hlw : (leafWith (t.buffercache.blocks l) k v).info.numkeys ≤ threshold t + 1 := by
    show (t.buffercache.blocks l).info.numkeys + 1 ≤ _
    omega
  by_cases hover : (t.buffercache.blocks l).info.numkeys + 1 > threshold t
  · rw [if_pos hover] at hI1 hwr ⊢
    have hbl : (t.withBlock l (leafWith (t.buffercache.blocks l) k v)).buffercache.blocks l
        = leafWith (t.buffercache.blocks l) k v := by
      simp [BTreeIndex.withBlock]
    have a1 : IsTree (t.withBlock l (leafWith (t.buffercache.blocks l) k v))
        { g with kv := Function.update g.kv k (some v) } l :=
      ⟨hl.1, hl.2.1, Or.inr (by rw [hbl]; exact hleaf)⟩
    have a3 := @isPath_leaf_write _ g { g with kv := Function.update g.kv k (some v) } _
      (leafWith (t.buffercache.blocks l) k v) hleaf rfl rfl anc l hpath
    obtain ⟨t', g', h1, h2, h2e, h3, h4, h5, h5n, h6, h7, h7w⟩ :=
      rebalance_allocs_ext fuel _ _ l anc hI1 hE1 a1
        (by rw [hbl]
            show (t.buffercache.blocks l).info.numkeys + 1 = threshold t + 1
            omega)
        hmax a3 (by omega)
        (by intro c hc
            apply hal
            rw [insertLeafAllocs_run t fuel k v l _ anc hLL hl.1 hleaf, if_pos hover]
            exact hc)
    rw [h1]
    refine ⟨t', g', rfl, h2, h2e, h3, h4, h5, h5n, h6, ?_, ?_⟩
    · rw [hlen] at h7
      exact h7
    · intro w hw
      rw [hwr] at hw
      simp only [List.mem_append, List.mem_singleton] at hw
      rcases hw with h | h
      · rw [h]; exact hlw
      · exact h7w w h
  · rw [if_neg hover] at hI1 hwr ⊢
    refine ⟨_, _, rfl, hI1, hE1, rfl, fun _ => Iff.rfl, rfl, rfl, Or.inl ⟨rfl, rfl⟩, ?_, ?_⟩
    · show g.free.length ≤ g.free.length + _ + 2
      omega
    · intro w hw
      rw [hwr] at hw
      simp only [List.mem_append, List.mem_singleton, List.not_mem_nil, or_false] at hw
      rw [hw]; exact hlw

/-- `Insert` of a key that is not in the tree, into a tree that has keys, when every
allocation hands out a block, with every block accounted for: besides what `insert_of_inv` says, the nodes
outside the tree are the same, the tree gets one level higher exactly when the root pointer
changes, and no node written has more than `threshold + 1` keys. -/
theorem insert_allocs_ext {t : BTreeIndex} {g : Ghost} (hI : Inv t g none) (hE : Ext t g)
    (fuel k v : Nat)
    (hkv : g.kv k = none) (hfuel : g.lvl t.superblock.info.rootnode < fuel)
    (hmax : t.maxNumKeys < 2 ^ 64)
    (hal : ∀ b, b ∈ InsertAllocs t fuel k v → b = true) :
    ∃ t' g', Insert t fuel k v = some (ERROR_NOERROR, t') ∧ Inv t' g' none ∧
      Ext t' g' ∧ g'.kv = Function.update g.kv k (some v) ∧ (∀ y, g'.junk y ↔ g.junk y) ∧
      t'.maxNumKeys = t.maxNumKeys ∧
      t'.buffercache.numBlocks = t.buffercache.numBlocks ∧
      ((t'.superblock.info.rootnode = t.superblock.info.rootnode ∧
          g'.lvl t'.superblock.info.rootnode = g.lvl t.superblock.info.rootnode) ∨
        (t'.superblock.info.rootnode ≠ t.superblock.info.rootnode ∧
          g'.lvl t'.superblock.info.rootnode = g.lvl t.superblock.info.rootnode + 1)) ∧
      g.free.length ≤ g'.free.length + g.lvl t.superblock.info.rootnode + 2 ∧
      (∀ w, w ∈ InsertWrites t fuel k v → w.info.numkeys ≤ threshold t + 1) := by
  have hprobe := lui_of_inv hI k fuel _ 0 hI.root_tree (hI.root_rng k) hfuel
  rw [hkv] at hprobe
  have hrt := hI.root_tree
  have hri : (t.buffercache.blocks t.superblock.info.rootnode).isInterior = true := by
    have := (hI.root_type _ hrt).2 rfl
    simp [BTreeNode.isInterior, this]
  have hpos := (hI.interior _ hrt hri).pos
  rw [insert_run t fuel k v 0 hprobe hrt.1 (by omega)]
  obtain ⟨t', g', h1, h2, h3, h4, h5, h6, h7, h8, h9, h10⟩ :=
    insertLeaf_allocs_ext (inv_initBlock hI true) (ext_initBlock hE true) fuel k v hkv hfuel hmax
      (by intro c hc
          apply hal
          rw [insertAllocs_run t fuel k v 0 hprobe hrt.1 (by omega)]
          exact hc)
  refine ⟨t', g', h1, h2, h3, h4, h5, h6, h7, h8, h9, ?_⟩
  intro w hw
  rw [insertWrites_run t fuel k v 0 hprobe hrt.1 (by omega)] at hw
  simp only [List.mem_append, List.mem_singleton] at hw
  rcases hw with h | h
  · rw [h]
    rcases hI.size _ hrt with h' | h'
    · omega
    · exact absurd h'.1 (by simp)
  · exact h10 w h

/-! ## The first insert and the store that `Attach` creates -/

theorem fresh_empty {t : BTreeIndex} {free : List Nat} (h : Fresh t free) : EmptyTree t :=
  ⟨h.sb_index, h.sb_block, h.sb_type, h.root_ne, h.root_lt, h.root_type, h.root_keys, h.others⟩

theorem lui_empty {t : BTreeIndex} (h : EmptyTree t) (fuel : Nat) (op : BTreeOp) (k v : Nat) :
    LookupOrUpdateInternal t (fuel + 1) t.superblock.info.rootnode op k v
      = some (ERROR_NONEXISTENT, v, t) :=
  lui_empty_root t fuel op k v h.root_lt h.root_type h.root_keys

/-- The allocations of `insertFirst` when the first one succeeds. -/
theorem insertFirstAllocs_run (t t1 : BTreeIndex) (k v a : Nat) (e1 : ERROR_T)
    (rootNode : BTreeNode)
    (h1 : AllocateNode { t with initBlock := true } = some (e1, a, t1))
    (ha : a < t1.buffercache.numBlocks)
    (hr : t1.superblock.info.rootnode < t1.buffercache.numBlocks) :
    insertFirstAllocs t k v rootNode =
      [AllocateNodeOk { t with initBlock := true }, AllocateNodeOk (t1.withBlock a (firstLeaf k v))] := by
  unfold insertFirstAllocs
  simp only [h1]
  rw [serialize_eq t1 a _ ha]
  simp only []
  have u1 : ∀ old nd, BTreeNode.Unserialize old (t1.withBlock a nd).buffercache a
      = (ERROR_NOERROR, nd) := by
    intro old nd
    rw [unserialize_eq (t1.withBlock a nd) a old ha]
    simp [BTreeIndex.withBlock]
  rw [u1]
  simp only [ne_eq, not_true_eq_false, if_false, BTreeNode.new, Nat.zero_add]
  rw [mk_setKey _ _ _ _ _ _ (Or.inr (Or.inr rfl)) Nat.zero_lt_one]
  simp only []
  rw [mk_setVal _ _ _ _ _ _ rfl Nat.zero_lt_one]
  simp only []
  rw [serialize_eq (t1.withBlock a _) a _ ha]
  simp only []
  have e3 : ∀ nd0 nd1, (⟨t1.superblock, t1.superblock_index,
      ((t1.withBlock a nd0).withBlock a nd1).buffercache, t1.maxNumKeys, t1.initBlock⟩ :
      BTreeIndex) = t1.withBlock a nd1 := by
    intro nd0 nd1
    simp [BTreeIndex.withBlock]
  have e3b : ∀ nd0 nd1, ((t1.withBlock a nd0).withBlock a nd1).buffercache
      = (t1.withBlock a nd1).buffercache := by
    intro nd0 nd1
    simp [BTreeIndex.withBlock]
  rw [e3, e3b]
  have u2 : ∀ old nd, (BTreeNode.Unserialize old (t1.withBlock a nd).buffercache
      t1.superblock.info.rootnode).1 = ERROR_NOERROR := by
    intro old nd
    rw [unserialize_eq (t1.withBlock a nd) _ old hr]
  have e4 : ∀ nd, (t1.withBlock a nd).superblock.info.rootnode = t1.superblock.info.rootnode :=
    fun _ => rfl
  simp only [e4, u2, not_true_eq_false, if_false]
  rfl

theorem insertFirstAllocs_first (t : BTreeIndex) (k v : Nat) (rootNode : BTreeNode)
    (h : ∀ b, b ∈ insertFirstAllocs t k v rootNode → b = true) :
    AllocateNodeOk { t with initBlock := true } = true := by
  unfold insertFirstAllocs at h
  simp only [] at h
  cases ha : AllocateNode { t with initBlock := true } with
  | none =>
    rw [ha] at h
    have := h false (by simp)
    cases this
  | some r =>
    obtain ⟨e, L, t1⟩ := r
    rw [ha] at h
    simp only [] at h
    apply h
    repeat' split
    all_goals simp

/-- When every allocation of the first `Insert` into an index without keys hands out a
block, the free list holds two blocks at least. -/
theorem fresh_free_two {t : BTreeIndex} {free : List Nat} (h : Fresh t free) (fuel k v : Nat)
    (hal : ∀ b, b ∈ InsertAllocs t (fuel + 1) k v → b = true) :
    ∃ a b rest, free = a :: b :: rest := by
  have hE := fresh_empty h
  rw [insertAllocs_fresh_run t (fuel + 1) k v (lui_empty hE fuel _ k 0) h.root_lt h.root_keys]
    at hal
  have h1 := insertFirstAllocs_first _ k v _ hal
  obtain ⟨a, r1, hf⟩ := allocOk_chain
    ⟨t.superblock, t.superblock_index, t.buffercache, t.maxNumKeys, true⟩ free h.free_chain h1
  have hc := h.free_chain
  rw [hf] at hc
  obtain ⟨c1, c2, c3, c4, c5⟩ := hc
  have h0 : 0 < t.buffercache.numBlocks := by omega
  have ha := allocate_head ⟨t.superblock, t.superblock_index, t.buffercache, t.maxNumKeys, true⟩
    a h.sb_index h0 c1 c2 c3 c4
  rw [insertFirstAllocs_run ⟨t.superblock, t.superblock_index, t.buffercache, t.maxNumKeys, false⟩
    _ k v a _ _ ha c3 h.root_lt] at hal
  have h2 := hal (AllocateNodeOk
    ((BTreeIndex.withFree ⟨t.superblock, t.superblock_index, t.buffercache, t.maxNumKeys, true⟩
      (t.buffercache.blocks a).info.freelist).withBlock a (firstLeaf k v))) (by simp)
  cases r1 with
  | nil =>
    have hz : (t.buffercache.blocks a).info.freelist = 0 := c5
    rw [AllocateNodeOk, allocate_nospace _ (by simp [BTreeIndex.withBlock, BTreeIndex.withFree, hz])]
      at h2
    simp at h2
  | cons b rest => exact ⟨a, b, rest, hf⟩

theorem attach_ge_two (n m : Nat) (t0 : BTreeIndex)
    (hA : Attach (BTreeIndex.new (emptyCache n) m) 0 true = some (ERROR_NOERROR, t0)) :
    2 ≤ n := by
  by_contra hn
  have h : n = 0 ∨ n = 1 := by omega
  rcases h with h | h
  · subst h
    simp [Attach, BTreeNode.Serialize, emptyCache, BTreeIndex.new] at hA
  · subst h
    simp [Attach, BTreeNode.Serialize, emptyCache, BTreeIndex.new] at hA

/-- `Attach` with `create = true` on an untouched cache of at least two blocks returns
`ERROR_NOERROR` and leaves a superblock and a root without keys; the head of the free list
is `2`. -/
theorem attach_empty (n m : Nat) (hn : 2 ≤ n) :
    ∃ t0, Attach (BTreeIndex.new (emptyCache n) m) 0 true = some (ERROR_NOERROR, t0) ∧
      EmptyTree t0 ∧ t0.maxNumKeys = m ∧ t0.superblock.info.rootnode = 1 ∧
      t0.buffercache.numBlocks = n ∧ t0.superblock.info.numkeys = 0 ∧
      t0.superblock.info.freelist = 2 := by
  have h0 : 0 < n := by omega
  have h1 : 1 < n := by omega
  simp only [Attach, BTreeIndex.new, emptyCache, BTreeNode.Serialize, h0, h1, if_true, ne_eq,
    not_true_eq_false, if_false, BTreeNode.new, Nat.zero_add]
  rw [attachFreeLoop_eq (n - 2) 2 _ (by simp only; omega)]
  simp only [ne_eq, not_true_eq_false, if_false, BTreeNode.Unserialize, h0, if_true]
  have hsb : (if 2 ≤ 0 ∧ True then freeBlock n 0
      else Function.update (Function.update (fun _ => BTreeNode.default) 0
        (⟨⟨BTREE_SUPERBLOCK, 1, 2, 0⟩, fun _ => 0, fun _ => 0, fun _ => 0⟩ : BTreeNode)) 1
        (⟨⟨BTREE_ROOT_NODE, 1, 2, 0⟩, fun _ => 0, fun _ => 0, fun _ => 0⟩ : BTreeNode) 0)
      = (⟨⟨BTREE_SUPERBLOCK, 1, 2, 0⟩, fun _ => 0, fun _ => 0, fun _ => 0⟩ : BTreeNode) := by
    simp
  rw [hsb]
  refine ⟨_, rfl, ?_, rfl, rfl, rfl, rfl, rfl⟩
  refine
    { sb_index := rfl
      sb_block := by simp
      sb_type := rfl
      root_ne := by simp
      root_lt := h1
      root_type := by simp
      root_keys := by simp
      others := ?_ }
  intro y hy
  simp only at hy
  simp only
  by_cases h2 : 2 ≤ y ∧ y < n
  · simp only [h2, and_self, if_true]
    simp [freeBlock, BTreeNode.isInterior, BTreeNode.isLeaf]
  · simp only [h2, if_false, Function.update_apply, hy]
    by_cases h3 : y = 0
    · simp [h3, BTreeNode.isInterior, BTreeNode.isLeaf]
    · simp [h3, BTreeNode.isInterior, BTreeNode.isLeaf, BTreeNode.default, BTreeNode.new]

/-- What `Attach` with `create = true` leaves when it returns `ERROR_NOERROR`: the cache has
at least two blocks; there is a superblock and a root without keys; with three blocks or
more the blocks from `2` on are the free list. -/
theorem attach_ok (n m : Nat) (t0 : BTreeIndex)
    (hA : Attach (BTreeIndex.new (emptyCache n) m) 0 true = some (ERROR_NOERROR, t0)) :
    2 ≤ n ∧ EmptyTree t0 ∧ t0.maxNumKeys = m ∧ t0.superblock.info.rootnode = 1 ∧
      t0.buffercache.numBlocks = n ∧ t0.superblock.info.numkeys = 0 ∧
      t0.superblock.info.freelist = 2 ∧ (3 ≤ n → Fresh t0 (List.range' 2 (n - 2))) := by
  have hn := attach_ge_two n m t0 hA
  obtain ⟨t1, h1, hE, a1, a2, a3, a4, a5⟩ := attach_empty n m hn
  rw [hA] at h1
  have e := (Prod.mk.inj (Option.some.inj h1)).2
  subst e
  refine ⟨hn, hE, a1, a2, a3, a4, a5, ?_⟩
  intro h3
  obtain ⟨t2, h2, hF, _⟩ := attach_fresh n m h3
  rw [hA] at h2
  have e := (Prod.mk.inj (Option.some.inj h2)).2
  subst e
  exact hF

/-- On a cache of two blocks the first allocation of an insert does not hand out a block:
the head of the free list is `2`, which is no block of the store. -/
theorem insert_two_blocks (t : BTreeIndex) (hE : EmptyTree t)
    (hN : t.buffercache.numBlocks = 2) (hf : t.superblock.info.freelist = 2) (fuel k v : Nat)
    (hal : ∀ b, b ∈ InsertAllocs t (fuel + 1) k v → b = true) : False := by
  rw [insertAllocs_fresh_run t (fuel + 1) k v (lui_empty hE fuel _ k 0) hE.root_lt hE.root_keys]
    at hal
  have h1 := insertFirstAllocs_first _ k v _ hal
  simp [AllocateNodeOk, AllocateNode, hf, BTreeNode.Unserialize, hN, BTreeNode.default,
    BTreeNode.new] at h1

/-! ## Sequences of inserts whose allocations all hand out a block -/

/-- The first `Insert` into the index that `Attach` has created, when its allocations hand
out blocks: it returns `ERROR_NOERROR` and leaves a root over two leaves. -/
theorem first_insert_allocs (n m : Nat) (t0 : BTreeIndex)
    (hA : Attach (BTreeIndex.new (emptyCache n) m) 0 true = some (ERROR_NOERROR, t0))
    (hthr : 1 ≤ 2 * m / 3) (fuel k v : Nat)
    (hal : ∀ b, b ∈ InsertAllocs t0 (fuel + 1) k v → b = true) :
    ∃ t' a b rest, Insert t0 (fuel + 1) k v = some (ERROR_NOERROR, t') ∧
      Inv t' (firstGhost 1 a b k v rest) none ∧ Ext t' (firstGhost 1 a b k v rest) ∧
      t'.maxNumKeys = m ∧ t'.superblock.info.rootnode = 1 ∧ t'.buffercache.numBlocks = n ∧
      (∀ w, w ∈ InsertWrites t0 (fuel + 1) k v → w.info.numkeys ≤ 2 * m / 3 + 1) := by
  obtain ⟨hn, hE, hmax0, hroot0, hN0, hsb0, hfl0, hF⟩ := attach_ok n m t0 hA
  by_cases h2 : n = 2
  · exact absurd hal (fun h => insert_two_blocks t0 hE (by rw [hN0, h2]) hfl0 fuel k v h)
  · have hF := hF (by omega)
    obtain ⟨a, b, rest, hr⟩ := fresh_free_two hF fuel k v hal
    have hcov : ∀ y, y < t0.buffercache.numBlocks →
        y = 0 ∨ y = t0.superblock.info.rootnode ∨ y ∈ a :: b :: rest := by
      intro y hy
      rw [hN0] at hy
      rw [hroot0, ← hr, List.mem_range']
      by_cases e0 : y = 0
      · exact Or.inl e0
      · by_cases e1 : y = 1
        · exact Or.inr (Or.inl e1)
        · exact Or.inr (Or.inr ⟨y - 2, by omega, by omega⟩)
    rw [hr] at hF
    have hth : threshold t0 = 2 * m / 3 := by unfold threshold; rw [hmax0]
    obtain ⟨t1, h1, hI1, hE1, hmax1, hroot1, hN1, hw1⟩ :=
      insert_fresh_ext hF (by rw [hth]; exact hthr) hcov hsb0 fuel k v
    rw [hroot0] at hI1 hE1
    refine ⟨t1, a, b, rest, h1, hI1, hE1, by rw [hmax1, hmax0], by rw [hroot1, hroot0],
      by rw [hN1, hN0], ?_⟩
    intro w hw
    have := hw1 w hw
    rw [hth] at this
    exact this

/-- A sequence of inserts of new, pairwise distinct keys into a tree that has keys, when
every allocation hands out a block, with every block accounted for and no node left outside
the tree. -/
theorem inserts_allocs_ext (fuel : Nat) : ∀ (kvs : List (Nat × Nat)) (t : BTreeIndex)
    (g : Ghost) (h : Nat),
    Inv t g none → Ext t g → (∀ y, ¬ g.junk y) →
    (kvs.map Prod.fst).Nodup → (∀ k, k ∈ kvs.map Prod.fst → g.kv k = none) →
    t.maxNumKeys < 2 ^ 64 → g.lvl t.superblock.info.rootnode ≤ h → h + kvs.length < fuel →
    (∀ b, b ∈ insertAllAllocs t fuel kvs → b = true) →
    ∃ t' g', insertAll t fuel kvs = some t' ∧ Inv t' g' none ∧ Ext t' g' ∧
      (∀ y, ¬ g'.junk y) ∧ g'.kv = applyKvs g.kv kvs ∧
      g'.lvl t'.superblock.info.rootnode ≤ h + kvs.length ∧ t'.maxNumKeys = t.maxNumKeys ∧
      t'.buffercache.numBlocks = t.buffercache.numBlocks := by
  intro kvs
  induction kvs with
  | nil =>
    intro t g h hI hE hJ _ _ _ hl _ _
    exact ⟨t, g, rfl, hI, hE, hJ, rfl, hl, rfl, rfl⟩
  | cons kv kvs ih =>
    intro t g h hI hE hJ hnd hnew hmax hl hfuel hal
    simp only [List.map_cons, List.nodup_cons] at hnd
    simp only [List.length_cons] at hfuel
    obtain ⟨t1, g1, h1, hI1, hE1, hkv1, hJ1, hmax1, hN1, hl1, _, _⟩ :=
      insert_allocs_ext hI hE fuel kv.1 kv.2 (hnew _ (by simp)) (by omega) hmax
        (fun b hb => hal b (by simp only [insertAllAllocs]; exact List.mem_append_left _ hb))
    have hl1' : g1.lvl t1.superblock.info.rootnode ≤ h + 1 := by
      rcases hl1 with ⟨_, e⟩ | ⟨_, e⟩ <;> omega
    obtain ⟨t', g', h2, hI2, hE2, hJ2, hkv2, hl2, hmax2, hN2⟩ :=
      ih t1 g1 (h + 1) hI1 hE1 (fun y hy => hJ y ((hJ1 y).1 hy)) hnd.2
        (by intro k hk
            have hne : k ≠ kv.1 := fun e => hnd.1 (by rw [← e]; exact hk)
            rw [hkv1, Function.update_noteq hne]
            exact hnew k (by simp [hk]))
        (by rw [hmax1]; exact hmax) hl1' (by omega)
        (fun b hb => hal b (by
          simp only [insertAllAllocs, h1]
          exact List.mem_append_right _ hb))
    refine ⟨t', g', ?_, hI2, hE2, hJ2, ?_, ?_, ?_, ?_⟩
    · simp only [insertAll, h1]
      exact h2
    · rw [hkv2, hkv1]; rfl
    · simp only [List.length_cons]; omega
    · rw [hmax2, hmax1]
    · rw [hN2, hN1]

/-- An index created on an untouched cache and filled by inserts of pairwise distinct keys,
when every allocation hands out a block: every insert returns `ERROR_NOERROR`; without
inserts the store is the one `Attach` has left, and otherwise it satisfies the invariant
with every block accounted for. -/
theorem build_allocs (n m fuel : Nat) (kvs : List (Nat × Nat)) (t0 : BTreeIndex)
    (hA : Attach (BTreeIndex.new (emptyCache n) m) 0 true = some (ERROR_NOERROR, t0))
    (hthr : 1 ≤ 2 * m / 3) (hm : m < 2 ^ 64) (hnd : (kvs.map Prod.fst).Nodup)
    (hfuel : kvs.length + 2 ≤ fuel)
    (hal : ∀ b, b ∈ insertAllAllocs t0 fuel kvs → b = true) :
    ∃ t, insertAll t0 fuel kvs = some t ∧ t.maxNumKeys = m ∧ t.buffercache.numBlocks = n ∧
      ((kvs = [] ∧ t = t0) ∨
        (kvs ≠ [] ∧ ∃ g, Inv t g none ∧ Ext t g ∧ (∀ y, ¬ g.junk y) ∧
          g.kv = applyKvs (fun _ => none) kvs ∧
          g.lvl t.superblock.info.rootnode ≤ kvs.length)) := by
  obtain ⟨hn, hE, hmax0, hroot0, hN0, hsb0, hfl0, hF⟩ := attach_ok n m t0 hA
  match kvs, hnd, hfuel, hal with
  | [], _, _, _ => exact ⟨t0, rfl, hmax0, hN0, Or.inl ⟨rfl, rfl⟩⟩
  | kv :: kvs, hnd, hfuel, hal =>
    simp only [List.map_cons, List.nodup_cons] at hnd
    simp only [List.length_cons] at hfuel
    obtain ⟨fuel', hfe⟩ : ∃ f, fuel = f + 1 := ⟨fuel - 1, by omega⟩
    obtain ⟨t1, a, b, rest, h1, hI1, hE1, hmax1, hroot1, hN1, _⟩ :=
      first_insert_allocs n m t0 hA hthr fuel' kv.1 kv.2
        (fun c hc => hal c (by
          rw [hfe]
          simp only [insertAllAllocs]
          exact List.mem_append_left _ hc))
    rw [← hfe] at h1
    obtain ⟨t', g', h2, hI2, hE2, hJ2, hkv2, hl2, hmax2, hN2⟩ :=
      inserts_allocs_ext fuel kvs t1 _ 1 hI1 hE1 (fun _ hj => hj) hnd.2
        (by intro k hk
            have hne : k ≠ kv.1 := fun e => hnd.1 (by rw [← e]; exact hk)
            show Function.update (fun _ => none) kv.1 (some kv.2) k = none
            rw [Function.update_noteq hne])
        (by rw [hmax1]; exact hm)
        (by rw [hroot1]; simp [firstGhost])
        (by omega)
        (fun c hc => hal c (by
          simp only [insertAllAllocs, h1]
          exact List.mem_append_right _ hc))
    refine ⟨t', ?_, by rw [hmax2, hmax1], by rw [hN2, hN1],
      Or.inr ⟨by simp, g', hI2, hE2, hJ2, ?_, ?_⟩⟩
    · simp only [insertAll, h1]
      exact h2
    · rw [hkv2]; rfl
    · simp only [List.length_cons]
      omega

/-! # Inserts whose allocations hand out blocks: what holds afterwards -/

/-- On a store that satisfies the invariant, `AllocateNode` hands out a block exactly when
the free list is not empty. -/
theorem allocOk_iff_head {t : BTreeIndex} {g : Ghost} {over : Option Nat} (hI : Inv t g over) :
    AllocateNodeOk t = true ↔ t.superblock.info.freelist ≠ 0 := by
  constructor
  · intro h
    obtain ⟨a, rest, hf⟩ := allocOk_free hI h
    have hc := hI.free_chain
    rw [hf] at hc
    rw [hc.1]
    exact hc.2.1
  · intro h
    have hc := hI.free_chain
    cases hf : g.free with
    | nil =>
      rw [hf] at hc
      exact absurd hc h
    | cons a rest =>
      rw [hf] at hc
      have hlt : a < t.buffercache.numBlocks := hc.2.2.1
      simp [AllocateNodeOk, allocate_eq hI hf, hlt]

/-! ## What holds of an index filled by inserts whose allocations hand out blocks -/

theorem ordered_of_empty {t : BTreeIndex} (h : EmptyTree t) :
    (∀ a, IsNode t a → ∀ i j, i < j → j < (t.buffercache.blocks a).info.numkeys →
      (t.buffercache.blocks a).keys i < (t.buffercache.blocks a).keys j) ∧
    (∀ a, IsNode t a → (t.buffercache.blocks a).isInterior = true →
      ∀ i, i < (t.buffercache.blocks a).info.numkeys →
      ∀ l, IsNode t l → (t.buffercache.blocks l).isLeaf = true →
      ∀ s, s < (t.buffercache.blocks l).info.numkeys →
        (Reach t ((t.buffercache.blocks a).ptrs i) l →
          (t.buffercache.blocks l).keys s ≤ (t.buffercache.blocks a).keys i) ∧
        (Reach t ((t.buffercache.blocks a).ptrs (i + 1)) l →
          (t.buffercache.blocks a).keys i < (t.buffercache.blocks l).keys s)) := by
  have hr : ∀ a, IsNode t a → a = t.superblock.info.rootnode := by
    intro a ha
    by_contra e
    exact h.others a e ha.2
  refine ⟨?_, ?_⟩
  · intro a ha i j _ hj
    rw [hr a ha, h.root_keys] at hj
    omega
  · intro a ha _ i hi
    rw [hr a ha, h.root_keys] at hi
    omega

/-- In an index without keys `Lookup` returns exactly when it has fuel for one block. -/
theorem lookup_depth_empty {t : BTreeIndex} (h : EmptyTree t) (k v fuel : Nat) :
    (Lookup t fuel k v).isSome = true ↔ 1 ≤ fuel := by
  cases fuel with
  | zero => simp [Lookup, lui_zero]
  | succ n =>
    have := lui_empty h n BTREE_OP_LOOKUP k v
    simp [Lookup, this]

/-- `SanityCheck` on an index without keys returns `ERROR_NONEXISTENT`. -/
theorem sanity_empty {t : BTreeIndex} (h : EmptyTree t) (fuel : Nat) (cout : List Token) :
    ∃ out, SanityCheck t (fuel + 1) cout = some (ERROR_NONEXISTENT, out) := by
  have hi : (t.buffercache.blocks t.superblock.info.rootnode).isInterior = true := by
    simp [BTreeNode.isInterior, h.root_type]
  simp only [SanityCheck, SanityHelper, unserialize_eq t _ _ h.root_lt, ne_eq, not_true_eq_false,
    if_false, hi, if_true, h.root_keys, Nat.lt_irrefl]
  exact ⟨_, rfl⟩

theorem insertAllAllocs_front (fuel : Nat) (rest : List (Nat × Nat)) :
    ∀ (kvs : List (Nat × Nat)) (t : BTreeIndex) (b : Bool),
      b ∈ insertAllAllocs t fuel kvs → b ∈ insertAllAllocs t fuel (kvs ++ rest) := by
  intro kvs
  induction kvs with
  | nil => intro t b hb; simp [insertAllAllocs] at hb
  | cons kv kvs ih =>
    intro t b hb
    simp only [insertAllAllocs, List.cons_append, List.mem_append] at hb ⊢
    rcases hb with hb | hb
    · exact Or.inl hb
    · right
      cases hI : Insert t fuel kv.1 kv.2 with
      | none => rw [hI] at hb; simp at hb
      | some r =>
        rw [hI] at hb
        exact ih _ b hb

theorem insertAllAllocs_back (fuel : Nat) (rest : List (Nat × Nat)) :
    ∀ (kvs : List (Nat × Nat)) (t t' : BTreeIndex), insertAll t fuel kvs = some t' →
      ∀ b, b ∈ insertAllAllocs t' fuel rest → b ∈ insertAllAllocs t fuel (kvs ++ rest) := by
  intro kvs
  induction kvs with
  | nil =>
    intro t t' h b hb
    have e : t = t' := Option.some.inj h
    rw [e]
    exact hb
  | cons kv kvs ih =>
    intro t t' h b hb
    simp only [insertAllAllocs, List.cons_append, List.mem_append]
    right
    cases hI : Insert t fuel kv.1 kv.2 with
    | none => simp [insertAll, hI] at h
    | some r =>
      obtain ⟨rc, t1⟩ := r
      cases rc <;> simp only [insertAll, hI] at h <;> first | exact ih t1 t' h b hb | cases h

/-- Claim C1, the statement: after `Attach` and inserts of pairwise distinct keys whose
allocations hand out blocks, every insert has returned `ERROR_NOERROR` and `Lookup` finds
every inserted record. -/
theorem lookup_after_allocs (n m fuel : Nat) (kvs : List (Nat × Nat)) (t0 : BTreeIndex)
    (hA : Attach (BTreeIndex.new (emptyCache n) m) 0 true = some (ERROR_NOERROR, t0))
    (hthr : 1 ≤ 2 * m / 3) (hm : m < 2 ^ 64) (hnd : (kvs.map Prod.fst).Nodup)
    (hfuel : kvs.length + 2 ≤ fuel)
    (hal : ∀ b, b ∈ insertAllAllocs t0 fuel kvs → b = true) :
    ∃ t, insertAll t0 fuel kvs = some t ∧
      ∀ k v, (k, v) ∈ kvs → ∀ v0, Lookup t fuel k v0 = some (ERROR_NOERROR, v, t) := by
  obtain ⟨t, hi, _, _, hs⟩ := build_allocs n m fuel kvs t0 hA hthr hm hnd hfuel hal
  refine ⟨t, hi, ?_⟩
  intro k v hkv v0
  rcases hs with ⟨he, _⟩ | ⟨_, g, hI, _, _, hg, hl⟩
  · rw [he] at hkv; cases hkv
  · rw [lookup_of_inv hI k v0 fuel (by omega), hg, applyKvs_mem kvs _ k v hnd hkv]

/-- `Lookup` of a key that was not inserted, after `Attach` and inserts of pairwise distinct
keys whose allocations hand out blocks. -/
theorem lookup_absent_allocs (n m fuel : Nat) (kvs : List (Nat × Nat)) (t0 : BTreeIndex)
    (hA : Attach (BTreeIndex.new (emptyCache n) m) 0 true = some (ERROR_NOERROR, t0))
    (hthr : 1 ≤ 2 * m / 3) (hm : m < 2 ^ 64) (hnd : (kvs.map Prod.fst).Nodup)
    (hfuel : kvs.length + 2 ≤ fuel)
    (hal : ∀ b, b ∈ insertAllAllocs t0 fuel kvs → b = true) :
    ∃ t, insertAll t0 fuel kvs = some t ∧
      ∀ k, k ∉ kvs.map Prod.fst → ∀ v0, Lookup t fuel k v0 = some (ERROR_NONEXISTENT, v0, t) := by
  obtain ⟨t, hi, _, _, hs⟩ := build_allocs n m fuel kvs t0 hA hthr hm hnd hfuel hal
  refine ⟨t, hi, ?_⟩
  intro k hk v0
  rcases hs with ⟨_, he⟩ | ⟨_, g, hI, _, _, hg, hl⟩
  · obtain ⟨f, hf⟩ : ∃ f, fuel = f + 1 := ⟨fuel - 1, by omega⟩
    rw [hf, he]
    exact lui_empty (attach_ok n m t0 hA).2.1 f _ k v0
  · rw [lookup_of_inv hI k v0 fuel (by omega), hg, applyKvs_not_mem kvs _ k hk]

/-- Search-tree ordering after `Attach` and inserts of pairwise distinct keys whose
allocations hand out blocks. -/
theorem ordered_allocs (n m fuel : Nat) (kvs : List (Nat × Nat)) (t0 : BTreeIndex)
    (hA : Attach (BTreeIndex.new (emptyCache n) m) 0 true = some (ERROR_NOERROR, t0))
    (hthr : 1 ≤ 2 * m / 3) (hm : m < 2 ^ 64) (hnd : (kvs.map Prod.fst).Nodup)
    (hfuel : kvs.length + 2 ≤ fuel)
    (hal : ∀ b, b ∈ insertAllAllocs t0 fuel kvs → b = true) :
    ∃ t, insertAll t0 fuel kvs = some t ∧
      (∀ a, IsNode t a → ∀ i j, i < j → j < (t.buffercache.blocks a).info.numkeys →
        (t.buffercache.blocks a).keys i < (t.buffercache.blocks a).keys j) ∧
      (∀ a, IsNode t a → (t.buffercache.blocks a).isInterior = true →
        ∀ i, i < (t.buffercache.blocks a).info.numkeys →
        ∀ l, IsNode t l → (t.buffercache.blocks l).isLeaf = true →
        ∀ s, s < (t.buffercache.blocks l).info.numkeys →
          (Reach t ((t.buffercache.blocks a).ptrs i) l →
            (t.buffercache.blocks l).keys s ≤ (t.buffercache.blocks a).keys i) ∧
          (Reach t ((t.buffercache.blocks a).ptrs (i + 1)) l →
            (t.buffercache.blocks a).keys i < (t.buffercache.blocks l).keys s)) := by
  obtain ⟨t, hi, _, _, hs⟩ := build_allocs n m fuel kvs t0 hA hthr hm hnd hfuel hal
  refine ⟨t, hi, ?_⟩
  rcases hs with ⟨_, he⟩ | ⟨_, g, hI, hE, hJ, _⟩
  · rw [he]
    exact ordered_of_empty (attach_ok n m t0 hA).2.1
  · exact ordered_of_inv hI hE hJ

/-- Balance after `Attach` and inserts of pairwise distinct keys whose allocations hand out
blocks: every search visits the same number `d` of blocks; one more insert of a new key into
a tree that has keys changes `d` only together with the root pointer, by one; and the first
insert into the tree without keys makes it two. -/
theorem balanced_allocs (n m fuel : Nat) (kvs : List (Nat × Nat)) (t0 : BTreeIndex)
    (hA : Attach (BTreeIndex.new (emptyCache n) m) 0 true = some (ERROR_NOERROR, t0))
    (hthr : 1 ≤ 2 * m / 3) (hm : m < 2 ^ 64) (hnd : (kvs.map Prod.fst).Nodup)
    (hfuel : kvs.length + 3 ≤ fuel)
    (hal : ∀ b, b ∈ insertAllAllocs t0 fuel kvs → b = true) :
    ∃ t d, insertAll t0 fuel kvs = some t ∧
      (∀ k v f, (Lookup t f k v).isSome = true ↔ d ≤ f) ∧
      (∀ k v, k ∉ kvs.map Prod.fst → (∀ b, b ∈ InsertAllocs t fuel k v → b = true) →
        ∃ t' d', Insert t fuel k v = some (ERROR_NOERROR, t') ∧
          (∀ k' v' f, (Lookup t' f k' v').isSome = true ↔ d' ≤ f) ∧
          (kvs ≠ [] →
            (t'.superblock.info.rootnode = t.superblock.info.rootnode ∧ d' = d) ∨
            (t'.superblock.info.rootnode ≠ t.superblock.info.rootnode ∧ d' = d + 1)) ∧
          (kvs = [] →
            t'.superblock.info.rootnode = t.superblock.info.rootnode ∧ d = 1 ∧ d' = 2)) := by
  obtain ⟨t, hi, hM, _, hs⟩ := build_allocs n m fuel kvs t0 hA hthr hm hnd (by omega) hal
  rcases hs with ⟨he, het⟩ | ⟨hne, g, hI, hE, hJ, hkv, hl⟩
  · subst het
    have hET := (attach_ok n m t hA).2.1
    refine ⟨t, 1, hi, fun k v f => lookup_depth_empty hET k v f, ?_⟩
    intro k v _ hal1
    obtain ⟨f, hf⟩ : ∃ f, fuel = f + 1 := ⟨fuel - 1, by omega⟩
    rw [hf] at hal1 ⊢
    obtain ⟨t', a, b, rest, h1, hI', _, _, hr', _, _⟩ :=
      first_insert_allocs n m t hA hthr f k v hal1
    have hr0 := (attach_ok n m t hA).2.2.2.1
    refine ⟨t', 2, h1, ?_, fun h => absurd he h, fun _ => ⟨by rw [hr', hr0], rfl, rfl⟩⟩
    intro k' v' f'
    have := lookup_depth hI' k' v' f'
    rw [hr'] at this
    simpa [firstGhost] using this
  · refine ⟨t, g.lvl t.superblock.info.rootnode + 1, hi,
      fun k v f => lookup_depth hI k v f, ?_⟩
    intro k v hk hal1
    have hnone : g.kv k = none := by
      rw [hkv, applyKvs_not_mem kvs _ k hk]
    obtain ⟨t', g', h1, hI', _, _, _, _, _, hlv, _⟩ :=
      insert_allocs_ext hI hE fuel k v hnone (by omega) (by rw [hM]; exact hm) hal1
    refine ⟨t', g'.lvl t'.superblock.info.rootnode + 1, h1,
      fun k' v' f => lookup_depth hI' k' v' f, ?_, fun h => absurd h hne⟩
    intro _
    rcases hlv with ⟨e1, e2⟩ | ⟨e1, e2⟩
    · exact Or.inl ⟨e1, by rw [e2]⟩
    · exact Or.inr ⟨e1, by rw [e2]⟩

/-- One more `Insert`, of any key, after `Attach` and inserts of pairwise distinct keys, all
allocations handing out blocks: it returns, after it every node of the store is within the
threshold, and no node it writes has more than `maxNumKeys` keys. -/
theorem insert_within_allocs (n m fuel : Nat) (kvs : List (Nat × Nat)) (k v : Nat)
    (t0 : BTreeIndex)
    (hA : Attach (BTreeIndex.new (emptyCache n) m) 0 true = some (ERROR_NOERROR, t0))
    (hthr : 1 ≤ 2 * m / 3) (hm : m < 2 ^ 64) (hnd : (kvs.map Prod.fst).Nodup)
    (hfuel : kvs.length + 3 ≤ fuel)
    (hal : ∀ b, b ∈ insertAllAllocs t0 fuel (kvs ++ [(k, v)]) → b = true) :
    ∃ t rc t', insertAll t0 fuel kvs = some t ∧ Insert t fuel k v = some (rc, t') ∧
      (∀ a, IsNode t' a → (t'.buffercache.blocks a).info.numkeys ≤ 2 * m / 3) ∧
      (∀ w, w ∈ InsertWrites t fuel k v → w.info.numkeys ≤ m) := by
  obtain ⟨t, hi, hM, hN, hs⟩ := build_allocs n m fuel kvs t0 hA hthr hm hnd (by omega)
    (fun b hb => hal b (insertAllAllocs_front fuel _ kvs t0 b hb))
  have hal1 : ∀ b, b ∈ InsertAllocs t fuel k v → b = true := by
    intro b hb
    apply hal
    apply insertAllAllocs_back fuel _ kvs t0 t hi
    simp only [insertAllAllocs]
    exact List.mem_append_left _ hb
  have hth : threshold t = 2 * m / 3 := by unfold threshold; rw [hM]
  rcases hs with ⟨_, het⟩ | ⟨_, g, hI, hE, hJ, hkv, hl⟩
  · subst het
    obtain ⟨f, hf⟩ : ∃ f, fuel = f + 1 := ⟨fuel - 1, by omega⟩
    rw [hf] at hal1 ⊢
    obtain ⟨t', a, b, rest, h1, hI', hE', hM', _, _, hw⟩ :=
      first_insert_allocs n m t hA hthr f k v hal1
    have hth' : threshold t' = 2 * m / 3 := by unfold threshold; rw [hM']
    rw [hf] at hi
    refine ⟨t, _, t', hi, h1, ?_, ?_⟩
    · intro a ha
      rw [← hth']
      exact nodes_within hI' hE' (fun _ hj => hj) a ha
    · intro w hw'
      have := hw w hw'
      omega
  · by_cases hk : k ∈ kvs.map Prod.fst
    · obtain ⟨kv, hkv1, hkv2⟩ := List.mem_map.1 hk
      have hs : g.kv k = some kv.2 := by
        rw [hkv]
        exact applyKvs_mem kvs _ k kv.2 hnd (by rw [← hkv2]; exact hkv1)
      have hL := lookup_of_inv hI k 0 fuel (by omega)
      rw [hs] at hL
      refine ⟨t, _, t, hi, insert_of_lookup_ok t fuel k 0 kv.2 v t hL, ?_, ?_⟩
      · intro a ha
        rw [← hth]
        exact nodes_within hI hE hJ a ha
      · intro w hw
        rw [insertWrites_found t fuel k v kv.2 hL] at hw
        simp at hw
    · have hnone : g.kv k = none := by
        rw [hkv, applyKvs_not_mem kvs _ k hk]
      obtain ⟨t', g', h1, hI', hE', _, hJ', hM', _, _, _, hw⟩ :=
        insert_allocs_ext hI hE fuel k v hnone (by omega) (by rw [hM]; exact hm) hal1
      have hth' : threshold t' = 2 * m / 3 := by unfold threshold; rw [hM', hM]
      refine ⟨t, _, t', hi, h1, ?_, ?_⟩
      · intro a ha
        rw [← hth']
        exact nodes_within hI' hE' (fun y hy => hJ y ((hJ' y).1 hy)) a ha
      · intro w hw'
        have := hw w hw'
        rw [hth] at this
        omega

/-- Block accounting after `Attach` on a cache of at least three blocks and inserts of
pairwise distinct keys whose allocations hand out blocks. -/
theorem accounted_allocs (n m fuel : Nat) (kvs : List (Nat × Nat)) (t0 : BTreeIndex)
    (hA : Attach (BTreeIndex.new (emptyCache n) m) 0 true = some (ERROR_NOERROR, t0))
    (hn : 3 ≤ n)
    (hthr : 1 ≤ 2 * m / 3) (hm : m < 2 ^ 64) (hnd : (kvs.map Prod.fst).Nodup)
    (hfuel : kvs.length + 2 ≤ fuel)
    (hal : ∀ b, b ∈ insertAllAllocs t0 fuel kvs → b = true) :
    ∃ t free, insertAll t0 fuel kvs = some t ∧ t.buffercache.numBlocks = n ∧
      FreeChain t.buffercache t.superblock.info.freelist free ∧ free.Nodup ∧
      (∀ a, a ∈ free ↔ a < t.buffercache.numBlocks ∧
        (t.buffercache.blocks a).info.nodetype = BTREE_UNALLOCATED_BLOCK) ∧
      (t.buffercache.blocks 0).info.nodetype = BTREE_SUPERBLOCK ∧
      (∀ a, a < t.buffercache.numBlocks →
        (a = 0 ∧ a ∉ free ∧ ¬ IsNode t a) ∨ (a ≠ 0 ∧ a ∈ free ∧ ¬ IsNode t a) ∨
        (a ≠ 0 ∧ a ∉ free ∧ IsNode t a)) := by
  obtain ⟨t, hi, _, hN, hs⟩ := build_allocs n m fuel kvs t0 hA hthr hm hnd hfuel hal
  rcases hs with ⟨_, het⟩ | ⟨_, g, hI, hE, hJ, _⟩
  · subst het
    obtain ⟨_, _, _, hr, _, _, _, hF⟩ := attach_ok n m t hA
    have hF := hF hn
    exact ⟨t, _, hi, hN,
      accounted t _ hF.sb_block hF.sb_type hF.free_chain hF.free_nodup
        (cover_of_fresh hF hr hN)⟩
  · exact ⟨t, _, hi, hN,
      accounted t _ hI.sb_block hI.sb_type hI.free_chain hI.free_nodup (cover_of_inv hE hJ)⟩

/-! ## Sequences of operations whose allocations hand out blocks -/

theorem ext_setval {t : BTreeIndex} {g : Ghost} (hE : Ext t g) {l : Nat}
    (hl : IsTree t g l) (hleaf : (t.buffercache.blocks l).isLeaf = true) (i v k : Nat) :
    Ext (t.withBlock l (leafSet (t.buffercache.blocks l) i v))
      { g with kv := Function.update g.kv k (some v) } := by
  have hb : ∀ y, y ≠ l →
      (t.withBlock l (leafSet (t.buffercache.blocks l) i v)).buffercache.blocks y
        = t.buffercache.blocks y := by
    intro y hy
    simp [BTreeIndex.withBlock, Function.update_noteq hy]
  have hbl : (t.withBlock l (leafSet (t.buffercache.blocks l) i v)).buffercache.blocks l
      = leafSet (t.buffercache.blocks l) i v := by
    simp [BTreeIndex.withBlock]
  have hli : (leafSet (t.buffercache.blocks l) i v).isInterior = false := by
    have := isLeaf_not_isInterior _ hleaf
    simpa [leafSet, BTreeNode.isInterior] using this
  have hll : (leafSet (t.buffercache.blocks l) i v).isLeaf = true := by
    simpa [leafSet, BTreeNode.isLeaf] using hleaf
  refine ⟨?_, ?_, hE.sb_keys, ?_⟩
  · intro a ha
    rcases hE.cover a ha with h | h | h | h
    · exact Or.inl h
    · exact Or.inr (Or.inl h)
    · exact Or.inr (Or.inr (Or.inl h))
    · refine Or.inr (Or.inr (Or.inr ⟨h.1, h.2.1, ?_⟩))
      by_cases e : a = l
      · subst e; rw [hbl]; exact Or.inr hll
      · rw [hb a e]; exact h.2.2
  · intro a ha hi hd
    by_cases e : a = l
    · subst e
      rw [hbl, hli] at hi
      cases hi
    · rw [hb a e] at hi ⊢
      exact hE.dead_zero a ⟨ha.1, ha.2.1, by have := ha.2.2; rw [hb a e] at this; exact this⟩
        hi hd
  · intro a ha
    have e : a ≠ l := fun e => hl.2.1 (e ▸ ha)
    rw [hb a e]
    exact hE.junk_keys a ha

/-- `Update` of a key that is in the tree returns `ERROR_NOERROR` and keeps the invariant and
the cover of the store, with the record changed. -/
theorem update_ext {t : BTreeIndex} {g : Ghost} (hI : Inv t g none) (hE : Ext t g)
    (fuel k v v1 : Nat) (hkv : g.kv k = some v1)
    (hfuel : g.lvl t.superblock.info.rootnode < fuel) :
    ∃ t', Update t fuel k v = some (ERROR_NOERROR, t') ∧
      Inv t' { g with kv := Function.update g.kv k (some v) } none ∧
      Ext t' { g with kv := Function.update g.kv k (some v) } ∧
      t'.maxNumKeys = t.maxNumKeys ∧
      t'.superblock.info.rootnode = t.superblock.info.rootnode := by
  obtain ⟨l, i, hl, hleaf, hi, hk, hu⟩ :=
    lui_update_of_inv hI k v v1 hkv fuel _ hI.root_tree (hI.root_rng k) hfuel
  refine ⟨t.withBlock l (leafSet (t.buffercache.blocks l) i v), ?_, ?_, ?_, rfl, rfl⟩
  · simp only [Update, hu]
  · have := inv_setval hI hl hleaf hi v
    rw [hk] at this
    exact this
  · exact ext_setval hE hl hleaf i v k

/-- A sequence of operations on a tree that has keys, every allocation handing out a block:
every call returns and the invariant holds afterwards. -/
theorem ops_allocs_inv (fuel : Nat) : ∀ (ops : List Op) (t : BTreeIndex) (g : Ghost) (h : Nat),
    Inv t g none → Ext t g → t.maxNumKeys < 2 ^ 64 → g.lvl t.superblock.info.rootnode ≤ h →
    h + ops.length < fuel → (∀ b, b ∈ runOpsAllocs t fuel ops → b = true) →
    ∃ t' g', runOps t fuel ops = some t' ∧ Inv t' g' none ∧
      g'.lvl t'.superblock.info.rootnode < fuel := by
  intro ops
  induction ops with
  | nil =>
    intro t g h hI _ _ hl hf _
    exact ⟨t, g, rfl, hI, by simp only [List.length_nil] at hf; omega⟩
  | cons op ops ih =>
    intro t g h hI hE hmax hl hfuel hal
    simp only [List.length_cons] at hfuel
    have hlf : g.lvl t.superblock.info.rootnode < fuel := by omega
    cases op with
    | insert k v =>
      cases hkv : g.kv k with
      | none =>
        have hal1 : ∀ b, b ∈ InsertAllocs t fuel k v → b = true := by
          intro b hb
          apply hal
          simp only [runOpsAllocs]
          exact List.mem_append_left _ hb
        obtain ⟨t1, g1, h1, hI1, hE1, _, _, hmax1, _, hlv, _⟩ :=
          insert_allocs_ext hI hE fuel k v hkv hlf hmax hal1
        have hl1 : g1.lvl t1.superblock.info.rootnode ≤ h + 1 := by
          rcases hlv with ⟨_, e⟩ | ⟨_, e⟩ <;> omega
        obtain ⟨t', g', h2, hI2, hl2⟩ :=
          ih t1 g1 (h + 1) hI1 hE1 (by rw [hmax1]; exact hmax) hl1 (by omega)
            (by
              intro b hb
              apply hal
              simp only [runOpsAllocs, h1]
              exact List.mem_append_right _ hb)
        exact ⟨t', g', by simp only [runOps, h1]; exact h2, hI2, hl2⟩
      | some v1 =>
        have hL := lookup_of_inv hI k 0 fuel hlf
        rw [hkv] at hL
        have h1 := insert_of_lookup_ok t fuel k 0 v1 v t hL
        obtain ⟨t', g', h2, hI2, hl2⟩ :=
          ih t g (h + 1) hI hE hmax (by omega) (by omega)
            (by
              intro b hb
              apply hal
              simp only [runOpsAllocs, h1]
              exact List.mem_append_right _ hb)
        exact ⟨t', g', by simp only [runOps, h1]; exact h2, hI2, hl2⟩
    | update k v =>
      cases hkv : g.kv k with
      | none =>
        have hL := lookup_of_inv hI k 0 fuel hlf
        rw [hkv] at hL
        have h1 := update_of_lookup_fail t fuel k 0 0 v _ t hL (by decide)
        obtain ⟨t', g', h2, hI2, hl2⟩ :=
          ih t g (h + 1) hI hE hmax (by omega) (by omega)
            (by
              intro b hb
              apply hal
              simp only [runOpsAllocs, h1]
              exact hb)
        exact ⟨t', g', by simp only [runOps, h1]; exact h2, hI2, hl2⟩
      | some v1 =>
        obtain ⟨t1, h1, hI1, hE1, hmax1, hr1⟩ := update_ext hI hE fuel k v v1 hkv hlf
        obtain ⟨t', g', h2, hI2, hl2⟩ :=
          ih t1 _ (h + 1) hI1 hE1 (by rw [hmax1]; exact hmax)
            (by rw [hr1]; show g.lvl _ ≤ _; omega) (by omega)
            (by
              intro b hb
              apply hal
              simp only [runOpsAllocs, h1]
              exact hb)
        exact ⟨t', g', by simp only [runOps, h1]; exact h2, hI2, hl2⟩
    | lookup k =>
      have hL := lookup_of_inv hI k 0 fuel hlf
      obtain ⟨t', g', h2, hI2, hl2⟩ :=
        ih t g (h + 1) hI hE hmax (by omega) (by omega)
          (by
            intro b hb
            apply hal
            simp only [runOpsAllocs, hL]
            cases g.kv k <;> exact hb)
      refine ⟨t', g', ?_, hI2, hl2⟩
      simp only [runOps, hL]
      cases g.kv k <;> exact h2

/-- A sequence of operations after `Attach`, every allocation handing out a block: every call
returns; afterwards the index is still the one `Attach` left when no operation was an insert,
and is a tree that satisfies the invariant otherwise. -/
theorem ops_allocs_empty (n m fuel : Nat) (t0 : BTreeIndex)
    (hA : Attach (BTreeIndex.new (emptyCache n) m) 0 true = some (ERROR_NOERROR, t0))
    (hthr : 1 ≤ 2 * m / 3) (hm : m < 2 ^ 64) :
    ∀ (ops : List Op), ops.length + 1 < fuel →
    (∀ b, b ∈ runOpsAllocs t0 fuel ops → b = true) →
    ∃ t', runOps t0 fuel ops = some t' ∧
      ((ops.any Op.isInsert = false ∧ t' = t0) ∨
        (ops.any Op.isInsert = true ∧ ∃ g', Inv t' g' none ∧
          g'.lvl t'.superblock.info.rootnode < fuel)) := by
  have hET := (attach_ok n m t0 hA).2.1
  intro ops
  induction ops with
  | nil =>
    intro _ _
    exact ⟨t0, rfl, Or.inl ⟨rfl, rfl⟩⟩
  | cons op ops ih =>
    intro hfuel hal
    simp only [List.length_cons] at hfuel
    obtain ⟨f, hfe⟩ : ∃ f, fuel = f + 1 := ⟨fuel - 1, by omega⟩
    cases op with
    | insert k v =>
      have hal1 : ∀ b, b ∈ InsertAllocs t0 (f + 1) k v → b = true := by
        intro b hb
        apply hal
        simp only [runOpsAllocs]
        rw [hfe]
        exact List.mem_append_left _ hb
      obtain ⟨t1, a, b, rest, h1, hI1, hE1, hmax1, hroot1, _, _⟩ :=
        first_insert_allocs n m t0 hA hthr f k v hal1
      rw [← hfe] at h1
      obtain ⟨t', g', h2, hI2, hl2⟩ :=
        ops_allocs_inv fuel ops t1 _ 1 hI1 hE1 (by rw [hmax1]; exact hm)
          (by rw [hroot1]; simp [firstGhost]) (by omega)
          (by
            intro b hb
            apply hal
            simp only [runOpsAllocs, h1]
            exact List.mem_append_right _ hb)
      exact ⟨t', by simp only [runOps, h1]; exact h2, Or.inr ⟨by simp [Op.isInsert], g', hI2, hl2⟩⟩
    | update k v =>
      have hL : Lookup t0 fuel k 0 = some (ERROR_NONEXISTENT, 0, t0) := by
        rw [hfe]; exact lui_empty hET f _ k 0
      have h1 := update_of_lookup_fail t0 fuel k 0 0 v _ t0 hL (by decide)
      obtain ⟨t', h2, hs⟩ := ih (by omega)
        (by
          intro b hb
          apply hal
          simp only [runOpsAllocs, h1]
          exact hb)
      refine ⟨t', by simp only [runOps, h1]; exact h2, ?_⟩
      simpa [Op.isInsert] using hs
    | lookup k =>
      have hL : Lookup t0 fuel k 0 = some (ERROR_NONEXISTENT, 0, t0) := by
        rw [hfe]; exact lui_empty hET f _ k 0
      obtain ⟨t', h2, hs⟩ := ih (by omega)
        (by
          intro b hb
          apply hal
          simp only [runOpsAllocs, hL]
          exact hb)
      refine ⟨t', by simp only [runOps, hL]; exact h2, ?_⟩
      simpa [Op.isInsert] using hs

/-- `SanityCheck` after `Attach` and any sequence of operations whose allocations hand out
blocks: `ERROR_NOERROR` when the sequence has an insert, `ERROR_NONEXISTENT` when it has
none. -/
theorem sanity_after_ops_allocs (n m fuel : Nat) (ops : List Op) (t0 : BTreeIndex)
    (hA : Attach (BTreeIndex.new (emptyCache n) m) 0 true = some (ERROR_NOERROR, t0))
    (hthr : 1 ≤ 2 * m / 3) (hm : m < 2 ^ 64) (hfuel : ops.length + 2 ≤ fuel)
    (hal : ∀ b, b ∈ runOpsAllocs t0 fuel ops → b = true) :
    ∃ t, runOps t0 fuel ops = some t ∧
      ∀ cout, ∃ out, SanityCheck t fuel cout
        = some (if ops.any Op.isInsert = true then ERROR_NOERROR else ERROR_NONEXISTENT, out) := by
  obtain ⟨t, hr, hs⟩ := ops_allocs_empty n m fuel t0 hA hthr hm ops (by omega) hal
  refine ⟨t, hr, ?_⟩
  intro cout
  rcases hs with ⟨hno, het⟩ | ⟨hyes, g', hI, hl⟩
  · obtain ⟨f, hfe⟩ : ∃ f, fuel = f + 1 := ⟨fuel - 1, by omega⟩
    rw [hno, hfe, het]
    exact sanity_empty (attach_ok n m t0 hA).2.1 f cout
  · rw [hyes]
    exact sanity_of_inv hI fuel _ cout hI.root_tree hl

/-- After `Attach` with `create = true` and the inserts of the records `kvs`, at least one,
every allocation handing out a block: a key that is not among the inserted ones is none of
the keys of the ROOT/INTERIOR nodes, and for every key that is none of these the two
traversals read the same blocks. -/
theorem same_descent_allocs (n m fuel : Nat) (kvs : List (Nat × Nat)) (t0 : BTreeIndex)
    (hA : Attach (BTreeIndex.new (emptyCache n) m) 0 true = some (ERROR_NOERROR, t0))
    (hthr : 1 ≤ 2 * m / 3) (hm : m < 2 ^ 64) (hnd : (kvs.map Prod.fst).Nodup)
    (hfuel : kvs.length + 2 ≤ fuel) (hne : kvs ≠ [])
    (hal : ∀ b, b ∈ insertAllAllocs t0 fuel kvs → b = true) :
    ∃ t, insertAll t0 fuel kvs = some t ∧
      (∀ k, k ∉ kvs.map Prod.fst →
        ∀ a, IsNode t a → (t.buffercache.blocks a).isInterior = true →
          ∀ i, i < (t.buffercache.blocks a).info.numkeys →
            (t.buffercache.blocks a).keys i ≠ k) ∧
      (∀ k, (∀ a, IsNode t a → (t.buffercache.blocks a).isInterior = true →
          ∀ i, i < (t.buffercache.blocks a).info.numkeys →
            (t.buffercache.blocks a).keys i ≠ k) →
        ∃ l anc, lookupPath t fuel t.superblock.info.rootnode k = (l :: anc).reverse ∧
          LookupLeaf t fuel t.superblock.info.rootnode k [t.superblock.info.rootnode]
            = some (ERROR_NOERROR, l :: l :: anc) ∧
          (t.buffercache.blocks l).isLeaf = true ∧
          ∀ c, c ∈ anc → (t.buffercache.blocks c).isInterior = true ∧
            nextLeafChild (t.buffercache.blocks c) k
              = nextChild (t.buffercache.blocks c) k) := by
  obtain ⟨t, hB, _, _, hC⟩ := build_allocs n m fuel kvs t0 hA hthr hm hnd hfuel hal
  rcases hC with ⟨he, _⟩ | ⟨_, g, hI, hE, hJ, hkv, hl⟩
  · exact absurd he hne
  · refine ⟨t, hB, ?_, ?_⟩
    · intro k hk a ha hi i hlt e
      have hT := node_is_tree hI hE hJ ha
      have h2 := ((hI.interior a hT hi).keys i hlt).2
      rw [e, hkv, applyKvs_not_mem kvs _ k hk] at h2
      exact h2 rfl
    · intro k hsep
      obtain ⟨l, anc, h1, h2, h3, h4⟩ := descent_agree hI k
        (fun a ha hi => hsep a ⟨ha.1, ha.2.2⟩ hi) fuel _ [] hI.root_tree (hI.root_rng k)
        (by omega)
      refine ⟨l, anc, h1, ?_, h3, h4⟩
      rw [h2]
      simp

/-! ## Update and duplicate insert

A key is present in a state when `Lookup` finds it there, absent when `Lookup`
answers `ERROR_NONEXISTENT`; the statements below hold in every state of the store,
whether or not inserts built it. -/

/-- Claim C3. When `Lookup` finds key `key` (with whatever value `v1`), `Update` of the
key to `v2` returns `ERROR_NOERROR`, and `Lookup` in the state it leaves returns
`ERROR_NOERROR` with the value `v2`. -/
theorem Update_then_Lookup (t : BTreeIndex) (fuel : Nat) (key : Nat) (v0 v1 v2 : Nat)
    (t1 : BTreeIndex) (h : Lookup t fuel key v0 = some (ERROR_NOERROR, v1, t1)) :
    ∃ t2, Update t fuel key v2 = some (ERROR_NOERROR, t2) ∧
      ∀ v0', Lookup t2 fuel key v0' = some (ERROR_NOERROR, v2, t2) :=
  update_of_lookup_ok t fuel key v0 v1 v2 t1 h

theorem Update_then_Lookup_witness :
    Lookup (build 12 3 5 [(10, 100), (20, 200), (30, 300), (5, 50), (7, 70), (8, 80), (40, 400)])
        5 8 0
      = some (ERROR_NOERROR, 80,
          build 12 3 5 [(10, 100), (20, 200), (30, 300), (5, 50), (7, 70), (8, 80), (40, 400)]) ∧
    ∃ t2, Update (build 12 3 5 [(10, 100), (20, 200), (30, 300), (5, 50), (7, 70), (8, 80),
        (40, 400)]) 5 8 81 = some (ERROR_NOERROR, t2) ∧
      ∀ v0', Lookup t2 5 8 v0' = some (ERROR_NOERROR, 81, t2) :=
  ⟨rfl, Update_then_Lookup _ 5 8 0 80 81 _ rfl⟩

/-- Claim C4. When `Lookup` answers `ERROR_NONEXISTENT` for key `key`, `Update` of that key
returns `ERROR_NONEXISTENT` and the state it leaves is the state it was given: every
block of the store and the superblock are as they were. -/
theorem Update_absent_unchanged (t : BTreeIndex) (fuel : Nat) (key : Nat) (v0 v v2 : Nat)
    (t1 : BTreeIndex) (h : Lookup t fuel key v0 = some (ERROR_NONEXISTENT, v, t1)) :
    Update t fuel key v2 = some (ERROR_NONEXISTENT, t) :=
  update_of_lookup_fail t fuel key v0 v v2 ERROR_NONEXISTENT t1 h (by decide)

theorem Update_absent_unchanged_witness :
    Lookup (build 12 3 5 [(10, 100), (20, 200), (30, 300), (5, 50), (7, 70), (8, 80), (40, 400)])
        5 9 0
      = some (ERROR_NONEXISTENT, 0,
          build 12 3 5 [(10, 100), (20, 200), (30, 300), (5, 50), (7, 70), (8, 80), (40, 400)]) ∧
    Update (build 12 3 5 [(10, 100), (20, 200), (30, 300), (5, 50), (7, 70), (8, 80), (40, 400)])
        5 9 90
      = some (ERROR_NONEXISTENT,
          build 12 3 5 [(10, 100), (20, 200), (30, 300), (5, 50), (7, 70), (8, 80), (40, 400)]) :=
  ⟨rfl, Update_absent_unchanged _ 5 9 0 0 90 _ rfl⟩

/-- Claim C5, as stated, fails: after `Insert(5, 50)` on a fresh tree the key is present,
and a second `Insert(5, 51)` returns `ERROR_INSANE`, which is not the code
`ERROR_CONFLICT` (AlreadyExists). -/
theorem Insert_duplicate_not_AlreadyExists :
    Lookup (build 4 3 3 [(5, 50)]) 3 5 0 = some (ERROR_NOERROR, 50, build 4 3 3 [(5, 50)]) ∧
    (Insert (build 4 3 3 [(5, 50)]) 3 5 51).map Prod.fst = some ERROR_INSANE ∧
    (Insert (build 4 3 3 [(5, 50)]) 3 5 51).map Prod.fst ≠ some ERROR_CONFLICT := by
  have h : Lookup (build 4 3 3 [(5, 50)]) 3 5 0
      = some (ERROR_NOERROR, 50, build 4 3 3 [(5, 50)]) := rfl
  refine ⟨h, ?_, ?_⟩
  · rw [insert_of_lookup_ok _ 3 5 0 50 51 _ h]; rfl
  · rw [insert_of_lookup_ok _ 3 5 0 50 51 _ h]; decide

/-- Claim C5, amended. When `Lookup` finds key `key`, `Insert` of that key is rejected
with the error code `ERROR_INSANE`. -/
theorem Insert_duplicate_Insane (t : BTreeIndex) (fuel : Nat) (key : Nat) (v0 v v' : Nat)
    (t1 : BTreeIndex) (h : Lookup t fuel key v0 = some (ERROR_NOERROR, v, t1)) :
    (Insert t fuel key v').map Prod.fst = some ERROR_INSANE := by
  rw [insert_of_lookup_ok t fuel key v0 v v' t1 h]; rfl

theorem Insert_duplicate_Insane_witness :
    Lookup (build 4 3 3 [(5, 50)]) 3 5 0 = some (ERROR_NOERROR, 50, build 4 3 3 [(5, 50)]) ∧
    (Insert (build 4 3 3 [(5, 50)]) 3 5 51).map Prod.fst = some ERROR_INSANE :=
  ⟨rfl, Insert_duplicate_Insane _ 3 5 0 50 51 _ rfl⟩

/-- Claim C6. When `Lookup` finds key `key` with value `v`, a second `Insert` of the key
returns a code other than `ERROR_NOERROR` and the state it leaves is the state it was
given (every block, the superblock and with it the free list), so that `Lookup`
afterwards still returns `v`. -/
theorem Insert_duplicate_changes_nothing (t : BTreeIndex) (fuel : Nat) (key : Nat)
    (v0 v v' : Nat) (t1 : BTreeIndex)
    (h : Lookup t fuel key v0 = some (ERROR_NOERROR, v, t1)) :
    ∃ rc t2, Insert t fuel key v' = some (rc, t2) ∧ rc ≠ ERROR_NOERROR ∧ t2 = t ∧
      ∀ v0', Lookup t2 fuel key v0' = some (ERROR_NOERROR, v, t2) :=
  ⟨ERROR_INSANE, t, insert_of_lookup_ok t fuel key v0 v v' t1 h, by decide, rfl,
    fun v0' => lui_lookup_ok_indep t key fuel _ v0 v t1 h v0'⟩

theorem Insert_duplicate_changes_nothing_witness :
    Lookup (build 12 3 5 [(10, 100), (20, 200), (30, 300), (5, 50), (7, 70), (8, 80), (40, 400)])
        5 7 0
      = some (ERROR_NOERROR, 70,
          build 12 3 5 [(10, 100), (20, 200), (30, 300), (5, 50), (7, 70), (8, 80), (40, 400)]) ∧
    ∃ rc t2, Insert (build 12 3 5 [(10, 100), (20, 200), (30, 300), (5, 50), (7, 70), (8, 80),
        (40, 400)]) 5 7 71 = some (rc, t2) ∧ rc ≠ ERROR_NOERROR ∧
      t2 = build 12 3 5 [(10, 100), (20, 200), (30, 300), (5, 50), (7, 70), (8, 80), (40, 400)] ∧
      ∀ v0', Lookup t2 5 7 v0' = some (ERROR_NOERROR, 70, t2) :=
  ⟨rfl, Insert_duplicate_changes_nothing _ 5 7 0 70 71 _ rfl⟩

/-! ## Behaviour at concrete inputs: allocation failure, `SanityCheck`, `Display` -/

/-- Claim C7, the code at the failing input.  With `maxNumKeys = 3` (threshold `2`) and a
store of four blocks, the inserts of `1, 2, 3` leave the free list empty and the right
leaf full.  Key `4` is absent and its insert overflows that leaf, so `Rebalance` needs
blocks; `Insert` nevertheless returns `ERROR_NOERROR`, not `ERROR_NOSPACE`, and the key
cannot be looked up afterwards. -/
theorem Insert_without_space_returns_NoError :
    (build 4 3 3 [(1, 10), (2, 20), (3, 30)]).superblock.info.freelist = 0 ∧
    (Lookup (build 4 3 3 [(1, 10), (2, 20), (3, 30)]) 3 4 0).map Prod.fst
      = some ERROR_NONEXISTENT ∧
    (Insert (build 4 3 3 [(1, 10), (2, 20), (3, 30)]) 3 4 40).map Prod.fst
      = some ERROR_NOERROR ∧
    (Lookup (build 4 3 3 [(1, 10), (2, 20), (3, 30), (4, 40)]) 3 4 0).map Prod.fst
      = some ERROR_INSANE := by
  decide

/-- Claim C8, as stated, fails for the empty sequence: on a freshly created tree
`SanityCheck` returns `ERROR_NONEXISTENT`, after writing that the keys of the node do
not exist. -/
theorem SanityCheck_fresh_Nonexistent :
    SanityCheck (build 4 3 3 []) 3 []
      = some (ERROR_NONEXISTENT,
          [Token.text "Keys on this interior node do not exist", Token.endl]) := by
  decide

/-- Claim C9, the code at failing inputs, in a tree with `maxNumKeys = 3` whose root has the
children `2` (left) and `3` (right).  With the decreasing keys `9, 4` in the left leaf
`SanityCheck` writes a message and returns `ERROR_NOERROR`; with the same leaf as the
right child it writes nothing and returns `ERROR_NOERROR`; with a leaf of three keys,
above the threshold `2`, it returns `ERROR_NOERROR` as well. -/
theorem SanityCheck_accepts_bad_nodes :
    SanityCheck ((build 4 3 3 [(1, 10)]).withBlock 2 unsortedLeaf) 3 []
      = some (ERROR_NOERROR, [Token.text "The keys not in order", Token.endl]) ∧
    SanityCheck ((build 4 3 3 [(1, 10)]).withBlock 3 unsortedLeaf) 3 []
      = some (ERROR_NOERROR, []) ∧
    (SanityCheck ((build 4 3 3 [(1, 10)]).withBlock 2 overfullLeaf) 3 []).map Prod.fst
      = some ERROR_NOERROR := by
  decide

/-- Claim C10, the code at the failing input.  With `maxNumKeys = 3` the inserts of the
keys `1 .. 5` in order split the root.  `Display` in `BTREE_SORTED_KEYVAL` mode then
writes the entry of key `1` only, followed by the complaint about the node type of
block `0`: the entries of the keys `2 .. 5` are missing. -/
theorem Display_sorted_after_root_split :
    Display (build 12 3 5 [(1, 10), (2, 20), (3, 30), (4, 40), (5, 50)]) 5 []
        BTREE_SORTED_KEYVAL
      = some (ERROR_NOERROR,
          [Token.text "(", Token.key 1, Token.text ",", Token.value 10, Token.text ")\n",
           Token.text "Unsupported Node Type ", Token.ntype BTREE_SUPERBLOCK,
           Token.text "Unsupported Node Type ", Token.ntype BTREE_SUPERBLOCK]) ∧
    (Lookup (build 12 3 5 [(1, 10), (2, 20), (3, 30), (4, 40), (5, 50)]) 5 4 0).map
        (fun r => (r.1, r.2.1)) = some (ERROR_NOERROR, 40) := by
  decide
/-! ## Lookup after a sequence of inserts

The index is created by `Attach` on an untouched cache of `n` blocks, at least the two that
`Attach` writes (on fewer it does not return `ERROR_NOERROR`, `attach_ge_two`), and filled
by the inserts of `kvs`.  The precondition that the free list
never runs empty is that every call of `AllocateNode` made by the inserts returns
`ERROR_NOERROR` with a block of the store: `insertAllAllocs` lists the outcome of every such
call in order, and on a well-formed store a call hands out a block exactly when the head of
the free list is not `0` (`allocOk_iff_head`).  Nothing is asked of the size of the cache
beyond that.  `maxNumKeys` is a `SIZE_T` in the source, hence below `2 ^ 64`; the fuel bounds
the depth of the recursive calls and `kvs.length + 2` covers the height of the tree. -/

/-- Claim C1. After `Attach` with `create = true` and the inserts of the records `kvs`, whose
keys are pairwise distinct, with a split threshold of at least 1 and the free list never
empty when an insert asks for a block, every call returns `ERROR_NOERROR` and `Lookup` of
every inserted key returns `ERROR_NOERROR` together with the value inserted for it. -/
theorem Lookup_after_Inserts (n m fuel : Nat) (kvs : List (Nat × Nat)) (hn : 2 ≤ n)
    (hthr : 1 ≤ 2 * m / 3) (hm : m < 2 ^ 64) (hnd : (kvs.map Prod.fst).Nodup)
    (hfuel : kvs.length + 2 ≤ fuel)
    (hal : ∀ t0, Attach (BTreeIndex.new (emptyCache n) m) 0 true = some (ERROR_NOERROR, t0) →
      ∀ b, b ∈ insertAllAllocs t0 fuel kvs → b = true) :
    ∃ t0 t, Attach (BTreeIndex.new (emptyCache n) m) 0 true = some (ERROR_NOERROR, t0) ∧
      insertAll t0 fuel kvs = some t ∧
      ∀ k v, (k, v) ∈ kvs → ∀ v0, Lookup t fuel k v0 = some (ERROR_NOERROR, v, t) := by
  obtain ⟨t0, hA, _⟩ := attach_empty n m hn
  obtain ⟨t, h⟩ := lookup_after_allocs n m fuel kvs t0 hA hthr hm hnd hfuel (hal t0 hA)
  exact ⟨t0, t, hA, h⟩

theorem Lookup_after_Inserts_witness :
    (2 ≤ 12 ∧ 1 ≤ 2 * 3 / 3 ∧ 3 < 2 ^ 64 ∧ (sevenMixed.map Prod.fst).Nodup ∧
      sevenMixed.length + 2 ≤ 9 ∧
      (∀ t0, Attach (BTreeIndex.new (emptyCache 12) 3) 0 true = some (ERROR_NOERROR, t0) →
        ∀ b, b ∈ insertAllAllocs t0 9 sevenMixed → b = true)) ∧
    ∃ t0 t, Attach (BTreeIndex.new (emptyCache 12) 3) 0 true = some (ERROR_NOERROR, t0) ∧
      insertAll t0 9 sevenMixed = some t ∧
      ∀ k v, (k, v) ∈ sevenMixed → ∀ v0, Lookup t 9 k v0 = some (ERROR_NOERROR, v, t) :=
  have hal : ∀ t0,
      Attach (BTreeIndex.new (emptyCache 12) 3) 0 true = some (ERROR_NOERROR, t0) →
      ∀ b, b ∈ insertAllAllocs t0 9 sevenMixed → b = true := fun t0 h => by
    cases Option.some.inj (h.symm.trans
      (rfl : Attach (BTreeIndex.new (emptyCache 12) 3) 0 true
        = some (ERROR_NOERROR, build 12 3 9 [])))
    decide
  ⟨⟨by decide, by decide, by norm_num, by decide, by decide, hal⟩,
    Lookup_after_Inserts 12 3 9 sevenMixed
      (by decide) (by decide) (by norm_num) (by decide) (by decide) hal⟩

/-- Claim C2. After `Attach` with `create = true` and the inserts of the records `kvs`, whose
keys are pairwise distinct (split threshold at least 1, every allocation of the inserts
handing out a block of the store), `Lookup` of a key that is not among the inserted keys
returns `ERROR_NONEXISTENT`; with `kvs = []` this is the freshly created index, on any cache
of at least two blocks, where `Lookup` returns `ERROR_NONEXISTENT` for every key. -/
theorem Lookup_absent_Nonexistent (n m fuel : Nat) (kvs : List (Nat × Nat)) (hn : 2 ≤ n)
    (hthr : 1 ≤ 2 * m / 3) (hm : m < 2 ^ 64) (hnd : (kvs.map Prod.fst).Nodup)
    (hfuel : kvs.length + 2 ≤ fuel)
    (hal : ∀ t0, Attach (BTreeIndex.new (emptyCache n) m) 0 true = some (ERROR_NOERROR, t0) →
      ∀ b, b ∈ insertAllAllocs t0 fuel kvs → b = true) :
    ∃ t0 t, Attach (BTreeIndex.new (emptyCache n) m) 0 true = some (ERROR_NOERROR, t0) ∧
      insertAll t0 fuel kvs = some t ∧
      ∀ k, k ∉ kvs.map Prod.fst → ∀ v0, Lookup t fuel k v0 = some (ERROR_NONEXISTENT, v0, t) := by
  obtain ⟨t0, hA, _⟩ := attach_empty n m hn
  obtain ⟨t, h⟩ := lookup_absent_allocs n m fuel kvs t0 hA hthr hm hnd hfuel (hal t0 hA)
  exact ⟨t0, t, hA, h⟩

theorem Lookup_absent_Nonexistent_witness :
    (2 ≤ 4 ∧ 1 ≤ 2 * 3 / 3 ∧ 3 < 2 ^ 64 ∧ ([(5, 50), (7, 70)].map Prod.fst).Nodup ∧
      [(5, 50), (7, 70)].length + 2 ≤ 4 ∧
      (∀ t0, Attach (BTreeIndex.new (emptyCache 4) 3) 0 true = some (ERROR_NOERROR, t0) →
        ∀ b, b ∈ insertAllAllocs t0 4 [(5, 50), (7, 70)] → b = true)) ∧
    ∃ t0 t, Attach (BTreeIndex.new (emptyCache 4) 3) 0 true = some (ERROR_NOERROR, t0) ∧
      insertAll t0 4 [(5, 50), (7, 70)] = some t ∧
      ∀ k, k ∉ [(5, 50), (7, 70)].map Prod.fst →
        ∀ v0, Lookup t 4 k v0 = some (ERROR_NONEXISTENT, v0, t) :=
  have hal : ∀ t0,
      Attach (BTreeIndex.new (emptyCache 4) 3) 0 true = some (ERROR_NOERROR, t0) →
      ∀ b, b ∈ insertAllAllocs t0 4 [(5, 50), (7, 70)] → b = true := fun t0 h => by
    cases Option.some.inj (h.symm.trans
      (rfl : Attach (BTreeIndex.new (emptyCache 4) 3) 0 true
        = some (ERROR_NOERROR, build 4 3 4 [])))
    decide
  ⟨⟨by decide, by decide, by norm_num, by decide, by decide, hal⟩,
    Lookup_absent_Nonexistent 4 3 4 [(5, 50), (7, 70)]
      (by decide) (by decide) (by norm_num) (by decide) (by decide) hal⟩

/-! ## `SanityCheck` after a sequence of operations -/

/-- Claim C8, amended. After `Attach` with `create = true` and any sequence `ops` of `Insert`,
`Update` and `Lookup` calls (split threshold at least 1, the free list never empty when an
insert asks for a block), every call returns, and `SanityCheck` returns `ERROR_NOERROR` when
at least one of the operations is an `Insert`; when none is, as for the empty sequence, the
root has no keys and `SanityCheck` returns `ERROR_NONEXISTENT`. -/
theorem SanityCheck_after_operations (n m fuel : Nat) (ops : List Op) (hn : 2 ≤ n)
    (hthr : 1 ≤ 2 * m / 3) (hm : m < 2 ^ 64) (hfuel : ops.length + 2 ≤ fuel)
    (hal : ∀ t0, Attach (BTreeIndex.new (emptyCache n) m) 0 true = some (ERROR_NOERROR, t0) →
      ∀ b, b ∈ runOpsAllocs t0 fuel ops → b = true) :
    ∃ t0 t, Attach (BTreeIndex.new (emptyCache n) m) 0 true = some (ERROR_NOERROR, t0) ∧
      runOps t0 fuel ops = some t ∧
      ∀ cout, ∃ out, SanityCheck t fuel cout
        = some (if ops.any Op.isInsert = true then ERROR_NOERROR else ERROR_NONEXISTENT, out) := by
  obtain ⟨t0, hA, _⟩ := attach_empty n m hn
  obtain ⟨t, h⟩ := sanity_after_ops_allocs n m fuel ops t0 hA hthr hm hfuel (hal t0 hA)
  exact ⟨t0, t, hA, h⟩

theorem SanityCheck_after_operations_witness :
    (2 ≤ 4 ∧ 1 ≤ 2 * 3 / 3 ∧ 3 < 2 ^ 64 ∧
      [Op.lookup 1, Op.insert 5 50, Op.update 5 51, Op.insert 5 52, Op.insert 7 70].length + 2
        ≤ 7 ∧
      (∀ t0, Attach (BTreeIndex.new (emptyCache 4) 3) 0 true = some (ERROR_NOERROR, t0) →
        ∀ b, b ∈ runOpsAllocs t0 7
          [Op.lookup 1, Op.insert 5 50, Op.update 5 51, Op.insert 5 52, Op.insert 7 70] →
          b = true)) ∧
    ∃ t0 t, Attach (BTreeIndex.new (emptyCache 4) 3) 0 true = some (ERROR_NOERROR, t0) ∧
      runOps t0 7 [Op.lookup 1, Op.insert 5 50, Op.update 5 51, Op.insert 5 52, Op.insert 7 70]
        = some t ∧
      ∀ cout, ∃ out, SanityCheck t 7 cout
        = some (if [Op.lookup 1, Op.insert 5 50, Op.update 5 51, Op.insert 5 52,
            Op.insert 7 70].any Op.isInsert = true then ERROR_NOERROR else ERROR_NONEXISTENT, out) :=
  have hal : ∀ t0,
      Attach (BTreeIndex.new (emptyCache 4) 3) 0 true = some (ERROR_NOERROR, t0) →
      ∀ b, b ∈ runOpsAllocs t0 7
        [Op.lookup 1, Op.insert 5 50, Op.update 5 51, Op.insert 5 52, Op.insert 7 70] →
        b = true := fun t0 h => by
    cases Option.some.inj (h.symm.trans
      (rfl : Attach (BTreeIndex.new (emptyCache 4) 3) 0 true
        = some (ERROR_NOERROR, build 4 3 7 [])))
    decide
  ⟨⟨by decide, by decide, by norm_num, by decide, hal⟩,
    SanityCheck_after_operations 4 3 7
      [Op.lookup 1, Op.insert 5 50, Op.update 5 51, Op.insert 5 52, Op.insert 7 70]
      (by decide) (by decide) (by norm_num) (by decide) hal⟩

/-! ## The store after `Attach` and after splits, at concrete inputs -/

/-- Claim C11, the code at the failing input.  On a cache of two blocks `Attach` with
`create = true` returns `ERROR_NOERROR` and writes the superblock and the root, but the head
of the free list in the superblock is `2`: there is no block `2`, and the chain does not
end at `0` as the one of an empty free list does. -/
theorem Attach_two_blocks_freelist :
    (Attach (BTreeIndex.new (emptyCache 2) 3) 0 true).map Prod.fst = some ERROR_NOERROR ∧
    (build 2 3 1 []).buffercache.numBlocks = 2 ∧
    ((build 2 3 1 []).buffercache.blocks 0).info.nodetype = BTREE_SUPERBLOCK ∧
    ((build 2 3 1 []).buffercache.blocks 0).info.rootnode = 1 ∧
    ((build 2 3 1 []).buffercache.blocks 1).info.nodetype = BTREE_ROOT_NODE ∧
    ((build 2 3 1 []).buffercache.blocks 1).info.numkeys = 0 ∧
    (build 2 3 1 []).superblock.info.freelist = 2 ∧
    ((build 2 3 1 []).buffercache.blocks 0).info.freelist = 2 ∧
    ¬ (build 2 3 1 []).superblock.info.freelist < (build 2 3 1 []).buffercache.numBlocks := by
  decide

/-- Claim C17, the code at the failing input.  With `maxNumKeys = 3` the inserts of the keys
`1 .. 5` in order split the root.  The new root (block `9`) points to the halves `7` and `8`
of the old root; the left half, an INTERIOR node with one key, has its pointer `0` set but
its pointer at index `numkeys = 1` is `0`, the block of the superblock, not the address of
an INTERIOR or LEAF node. -/
theorem Split_left_half_misses_last_pointer :
    (build 12 3 5 [(1, 10), (2, 20), (3, 30), (4, 40), (5, 50)]).superblock.info.rootnode = 9 ∧
    ((build 12 3 5 [(1, 10), (2, 20), (3, 30), (4, 40), (5, 50)]).buffercache.blocks 9).ptrs 0
      = 7 ∧
    ((build 12 3 5 [(1, 10), (2, 20), (3, 30), (4, 40), (5, 50)]).buffercache.blocks
      7).info.nodetype = BTREE_INTERIOR_NODE ∧
    ((build 12 3 5 [(1, 10), (2, 20), (3, 30), (4, 40), (5, 50)]).buffercache.blocks
      7).info.numkeys = 1 ∧
    ((build 12 3 5 [(1, 10), (2, 20), (3, 30), (4, 40), (5, 50)]).buffercache.blocks 7).ptrs 0
      = 2 ∧
    ((build 12 3 5 [(1, 10), (2, 20), (3, 30), (4, 40), (5, 50)]).buffercache.blocks 7).ptrs 1
      = 0 ∧
    ((build 12 3 5 [(1, 10), (2, 20), (3, 30), (4, 40), (5, 50)]).buffercache.blocks
      0).info.nodetype = BTREE_SUPERBLOCK := by
  decide

/-! ## The single steps of `Insert` and `Rebalance` -/

/-- Claim C20. In the non-root case of `Rebalance`, for a ROOT/INTERIOR parent `p` with
`n = p.info.numkeys` keys, with `j` the first index such that `sk < K_j` (`j = n` when there
is none), the parent that is built has `n + 1` keys: the keys `K_0 .. K_{j-1}`, the split key
`sk`, then `K_j .. K_{n-1}`; and the pointers `P_0 .. P_{j-1}`, `L`, `R`, then
`P_{j+1} .. P_n`.  `L` is in the slot `j`, where the pointer to the split node was, `R`
right after it, and every other key and pointer is kept, in order. -/
theorem Rebalance_parent_rewrite (p : BTreeNode) (hp : p.isInterior = true) (sk L R : Nat) :
    ∃ j np, parentInsert p sk L R = (ERROR_NOERROR, np) ∧
      j ≤ p.info.numkeys ∧ (∀ i, i < j → ¬ sk < p.keys i) ∧
      (j < p.info.numkeys → sk < p.keys j) ∧
      np.info.nodetype = p.info.nodetype ∧ np.info.numkeys = p.info.numkeys + 1 ∧
      (∀ i, i < j → np.keys i = p.keys i) ∧ np.keys j = sk ∧
      (∀ i, j ≤ i → i < p.info.numkeys → np.keys (i + 1) = p.keys i) ∧
      (∀ i, i < j → np.ptrs i = p.ptrs i) ∧ np.ptrs j = L ∧ np.ptrs (j + 1) = R ∧
      (∀ i, j < i → i ≤ p.info.numkeys → np.ptrs (i + 1) = p.ptrs i) :=
  parentInsert_spec p hp sk L R

theorem Rebalance_parent_rewrite_witness :
    (indexOfFour.buffercache.blocks 1).isInterior = true ∧
    ∃ j np, parentInsert (indexOfFour.buffercache.blocks 1) 3 7 8 = (ERROR_NOERROR, np) ∧
      j ≤ (indexOfFour.buffercache.blocks 1).info.numkeys ∧
      (∀ i, i < j → ¬ 3 < (indexOfFour.buffercache.blocks 1).keys i) ∧
      (j < (indexOfFour.buffercache.blocks 1).info.numkeys →
        3 < (indexOfFour.buffercache.blocks 1).keys j) ∧
      np.info.nodetype = (indexOfFour.buffercache.blocks 1).info.nodetype ∧
      np.info.numkeys = (indexOfFour.buffercache.blocks 1).info.numkeys + 1 ∧
      (∀ i, i < j → np.keys i = (indexOfFour.buffercache.blocks 1).keys i) ∧ np.keys j = 3 ∧
      (∀ i, j ≤ i → i < (indexOfFour.buffercache.blocks 1).info.numkeys →
        np.keys (i + 1) = (indexOfFour.buffercache.blocks 1).keys i) ∧
      (∀ i, i < j → np.ptrs i = (indexOfFour.buffercache.blocks 1).ptrs i) ∧
      np.ptrs j = 7 ∧ np.ptrs (j + 1) = 8 ∧
      (∀ i, j < i → i ≤ (indexOfFour.buffercache.blocks 1).info.numkeys →
        np.ptrs (i + 1) = (indexOfFour.buffercache.blocks 1).ptrs i) :=
  ⟨by decide, Rebalance_parent_rewrite _ (by decide) 3 7 8⟩

/-- Claim C18. `Rebalance` on the ROOT node at block `x` (with at least two keys), with the
three blocks `L`, `R`, `q` at the head of the free list, returns `ERROR_NOERROR`.  After it
the block `q`, which is not `x`, holds a ROOT node with one key, the split key (the key of
`x` at index `numkeys / 2 - 1`), and the pointers `P_0 = L`, `P_1 = R`; the root address of
the superblock is `q`, in memory and in block `0`; `L` and `R` are INTERIOR nodes; and `x` is
UNALLOCATED and is the head of the free list, in memory and in block `0`. -/
theorem Rebalance_root_split (t : BTreeIndex) (x L R q fuel : Nat) (path : List Nat)
    (hi : t.superblock_index = 0)
    (hx0 : x ≠ 0) (hx : x < t.buffercache.numBlocks)
    (hty : (t.buffercache.blocks x).info.nodetype = BTREE_ROOT_NODE)
    (hn2 : 2 ≤ (t.buffercache.blocks x).info.numkeys)
    (hn64 : (t.buffercache.blocks x).info.numkeys ≤ 2 ^ 64)
    (hL1 : t.superblock.info.freelist = L) (hL2 : L ≠ 0) (hL3 : L < t.buffercache.numBlocks)
    (hL4 : (t.buffercache.blocks L).info.nodetype = BTREE_UNALLOCATED_BLOCK)
    (hR1 : (t.buffercache.blocks L).info.freelist = R) (hR2 : R ≠ 0)
    (hR3 : R < t.buffercache.numBlocks)
    (hR4 : (t.buffercache.blocks R).info.nodetype = BTREE_UNALLOCATED_BLOCK)
    (hq1 : (t.buffercache.blocks R).info.freelist = q) (hq2 : q ≠ 0)
    (hq3 : q < t.buffercache.numBlocks)
    (hq4 : (t.buffercache.blocks q).info.nodetype = BTREE_UNALLOCATED_BLOCK)
    (hLR : L ≠ R) (hLq : L ≠ q) (hRq : R ≠ q) :
    ∃ t', Rebalance (fuel + 1) t x path = some (ERROR_NOERROR, t') ∧
      (t'.buffercache.blocks q).info.nodetype = BTREE_ROOT_NODE ∧
      (t'.buffercache.blocks q).info.numkeys = 1 ∧
      (t'.buffercache.blocks q).keys 0
        = (t.buffercache.blocks x).keys ((t.buffercache.blocks x).info.numkeys / 2 - 1) ∧
      (t'.buffercache.blocks q).ptrs 0 = L ∧ (t'.buffercache.blocks q).ptrs 1 = R ∧
      q ≠ x ∧ t'.superblock.info.rootnode = q ∧
      (t'.buffercache.blocks 0).info.rootnode = q ∧
      (t'.buffercache.blocks L).info.nodetype = BTREE_INTERIOR_NODE ∧
      (t'.buffercache.blocks R).info.nodetype = BTREE_INTERIOR_NODE ∧
      (t'.buffercache.blocks x).info.nodetype = BTREE_UNALLOCATED_BLOCK ∧
      t'.superblock.info.freelist = x ∧ (t'.buffercache.blocks 0).info.freelist = x :=
  root_split_state t x L R q fuel path hi hx0 hx hty hn2 hn64 hL1 hL2 hL3 hL4 hR1 hR2 hR3 hR4
    hq1 hq2 hq3 hq4 hLR hLq hRq

theorem Rebalance_root_split_witness :
    (indexOfFour.superblock_index = 0 ∧ 1 < indexOfFour.buffercache.numBlocks ∧
      (indexOfFour.buffercache.blocks 1).info.nodetype = BTREE_ROOT_NODE ∧
      2 ≤ (indexOfFour.buffercache.blocks 1).info.numkeys ∧
      (indexOfFour.buffercache.blocks 1).info.numkeys ≤ 2 ^ 64 ∧
      indexOfFour.superblock.info.freelist = 3 ∧
      (indexOfFour.buffercache.blocks 3).info.nodetype = BTREE_UNALLOCATED_BLOCK ∧
      (indexOfFour.buffercache.blocks 3).info.freelist = 6 ∧
      (indexOfFour.buffercache.blocks 6).info.nodetype = BTREE_UNALLOCATED_BLOCK ∧
      (indexOfFour.buffercache.blocks 6).info.freelist = 7 ∧
      (indexOfFour.buffercache.blocks 7).info.nodetype = BTREE_UNALLOCATED_BLOCK) ∧
    ∃ t', Rebalance (0 + 1) indexOfFour 1 [] = some (ERROR_NOERROR, t') ∧
      (t'.buffercache.blocks 7).info.nodetype = BTREE_ROOT_NODE ∧
      (t'.buffercache.blocks 7).info.numkeys = 1 ∧
      (t'.buffercache.blocks 7).keys 0
        = (indexOfFour.buffercache.blocks 1).keys
            ((indexOfFour.buffercache.blocks 1).info.numkeys / 2 - 1) ∧
      (t'.buffercache.blocks 7).ptrs 0 = 3 ∧ (t'.buffercache.blocks 7).ptrs 1 = 6 ∧
      7 ≠ 1 ∧ t'.superblock.info.rootnode = 7 ∧
      (t'.buffercache.blocks 0).info.rootnode = 7 ∧
      (t'.buffercache.blocks 3).info.nodetype = BTREE_INTERIOR_NODE ∧
      (t'.buffercache.blocks 6).info.nodetype = BTREE_INTERIOR_NODE ∧
      (t'.buffercache.blocks 1).info.nodetype = BTREE_UNALLOCATED_BLOCK ∧
      t'.superblock.info.freelist = 1 ∧ (t'.buffercache.blocks 0).info.freelist = 1 :=
  ⟨⟨by decide, by decide, by decide, by decide, by decide, by decide, by decide, by decide,
      by decide, by decide, by decide⟩,
    Rebalance_root_split indexOfFour 1 3 6 7 0 [] (by decide) (by decide) (by decide)
      (by decide) (by decide) (by decide) (by decide) (by decide) (by decide) (by decide)
      (by decide) (by decide) (by decide) (by decide) (by decide) (by decide) (by decide)
      (by decide) (by decide) (by decide) (by decide)⟩

/-- Claim C19. For every key and value, `Insert` into an index whose root has no keys, with
the two distinct blocks `a`, `b` at the head of the free list, returns `ERROR_NOERROR`.
After it the root is the same block, a ROOT node with one key, `K_0 = key`, and the pointers
`P_0 = a`, `P_1 = b`; both blocks, UNALLOCATED before, are LEAF nodes; the left leaf `a` has
the one record `(key, value)` and the right leaf `b` has none. -/
theorem Insert_first_record (t : BTreeIndex) (a b fuel key value : Nat)
    (hi : t.superblock_index = 0)
    (hr0 : t.superblock.info.rootnode ≠ 0)
    (hr : t.superblock.info.rootnode < t.buffercache.numBlocks)
    (hty : (t.buffercache.blocks t.superblock.info.rootnode).info.nodetype = BTREE_ROOT_NODE)
    (hn : (t.buffercache.blocks t.superblock.info.rootnode).info.numkeys = 0)
    (ha1 : t.superblock.info.freelist = a) (ha2 : a ≠ 0) (ha3 : a < t.buffercache.numBlocks)
    (ha4 : (t.buffercache.blocks a).info.nodetype = BTREE_UNALLOCATED_BLOCK)
    (hb1 : (t.buffercache.blocks a).info.freelist = b) (hb2 : b ≠ 0)
    (hb3 : b < t.buffercache.numBlocks)
    (hb4 : (t.buffercache.blocks b).info.nodetype = BTREE_UNALLOCATED_BLOCK)
    (hab : a ≠ b) :
    ∃ t', Insert t (fuel + 1) key value = some (ERROR_NOERROR, t') ∧
      t'.superblock.info.rootnode = t.superblock.info.rootnode ∧
      (t'.buffercache.blocks t.superblock.info.rootnode).info.nodetype = BTREE_ROOT_NODE ∧
      (t'.buffercache.blocks t.superblock.info.rootnode).info.numkeys = 1 ∧
      (t'.buffercache.blocks t.superblock.info.rootnode).keys 0 = key ∧
      (t'.buffercache.blocks t.superblock.info.rootnode).ptrs 0 = a ∧
      (t'.buffercache.blocks t.superblock.info.rootnode).ptrs 1 = b ∧
      (t'.buffercache.blocks a).info.nodetype = BTREE_LEAF_NODE ∧
      (t'.buffercache.blocks a).info.numkeys = 1 ∧
      (t'.buffercache.blocks a).keys 0 = key ∧ (t'.buffercache.blocks a).vals 0 = value ∧
      (t'.buffercache.blocks b).info.nodetype = BTREE_LEAF_NODE ∧
      (t'.buffercache.blocks b).info.numkeys = 0 ∧
      t'.superblock.info.freelist = (t.buffercache.blocks b).info.freelist :=
  insert_first_state t a b fuel key value hi hr0 hr hty hn ha1 ha2 ha3 ha4 hb1 hb2 hb3 hb4 hab

theorem Insert_first_record_witness :
    (freshIndex.superblock_index = 0 ∧ freshIndex.superblock.info.rootnode = 1 ∧
      freshIndex.buffercache.numBlocks = 4 ∧
      (freshIndex.buffercache.blocks 1).info.nodetype = BTREE_ROOT_NODE ∧
      (freshIndex.buffercache.blocks 1).info.numkeys = 0 ∧
      freshIndex.superblock.info.freelist = 2 ∧
      (freshIndex.buffercache.blocks 2).info.nodetype = BTREE_UNALLOCATED_BLOCK ∧
      (freshIndex.buffercache.blocks 2).info.freelist = 3 ∧
      (freshIndex.buffercache.blocks 3).info.nodetype = BTREE_UNALLOCATED_BLOCK) ∧
    ∃ t', Insert freshIndex (0 + 1) 5 50 = some (ERROR_NOERROR, t') ∧
      t'.superblock.info.rootnode = freshIndex.superblock.info.rootnode ∧
      (t'.buffercache.blocks freshIndex.superblock.info.rootnode).info.nodetype
        = BTREE_ROOT_NODE ∧
      (t'.buffercache.blocks freshIndex.superblock.info.rootnode).info.numkeys = 1 ∧
      (t'.buffercache.blocks freshIndex.superblock.info.rootnode).keys 0 = 5 ∧
      (t'.buffercache.blocks freshIndex.superblock.info.rootnode).ptrs 0 = 2 ∧
      (t'.buffercache.blocks freshIndex.superblock.info.rootnode).ptrs 1 = 3 ∧
      (t'.buffercache.blocks 2).info.nodetype = BTREE_LEAF_NODE ∧
      (t'.buffercache.blocks 2).info.numkeys = 1 ∧
      (t'.buffercache.blocks 2).keys 0 = 5 ∧ (t'.buffercache.blocks 2).vals 0 = 50 ∧
      (t'.buffercache.blocks 3).info.nodetype = BTREE_LEAF_NODE ∧
      (t'.buffercache.blocks 3).info.numkeys = 0 ∧
      t'.superblock.info.freelist = (freshIndex.buffercache.blocks 3).info.freelist :=
  ⟨⟨by decide, by decide, by decide, by decide, by decide, by decide, by decide, by decide,
      by decide⟩,
    Insert_first_record freshIndex 2 3 0 5 50 (by decide) (by decide) (by decide) (by decide)
      (by decide) (by decide) (by decide) (by decide) (by decide) (by decide) (by decide)
      (by decide) (by decide) (by decide)⟩

/-! ## Seven increasing inserts with `maxNumKeys = 9` -/

/-- Claim C12, the counterexample.  With `maxNumKeys = 9` the inserts of the keys `1 .. 7`
in order into a freshly created index over twelve blocks all return `ERROR_NOERROR`; after
them the root has one key, but its left child holds one record and its right child six, not
between three and four each: no leaf has been split, the free list still starts at
block `4`. -/
theorem Seven_inserts_children_not_three_to_four :
    (insertAll (build 12 9 5 []) 5 sevenRecords).isSome = true ∧
    (build 12 9 5 sevenRecords).superblock.info.rootnode = 1 ∧
    ((build 12 9 5 sevenRecords).buffercache.blocks 1).info.numkeys = 1 ∧
    ((build 12 9 5 sevenRecords).buffercache.blocks
      (((build 12 9 5 sevenRecords).buffercache.blocks 1).ptrs 0)).info.numkeys = 1 ∧
    ((build 12 9 5 sevenRecords).buffercache.blocks
      (((build 12 9 5 sevenRecords).buffercache.blocks 1).ptrs 1)).info.numkeys = 6 ∧
    (build 12 9 5 sevenRecords).superblock.info.freelist = 4 ∧
    ¬ (3 ≤ ((build 12 9 5 sevenRecords).buffercache.blocks
          (((build 12 9 5 sevenRecords).buffercache.blocks 1).ptrs 0)).info.numkeys ∧
        ((build 12 9 5 sevenRecords).buffercache.blocks
          (((build 12 9 5 sevenRecords).buffercache.blocks 1).ptrs 0)).info.numkeys ≤ 4 ∧
        3 ≤ ((build 12 9 5 sevenRecords).buffercache.blocks
          (((build 12 9 5 sevenRecords).buffercache.blocks 1).ptrs 1)).info.numkeys ∧
        ((build 12 9 5 sevenRecords).buffercache.blocks
          (((build 12 9 5 sevenRecords).buffercache.blocks 1).ptrs 1)).info.numkeys ≤ 4) := by
  decide

/-- Claim C12, amended.  With `maxNumKeys = 9` (threshold `6`), after `Attach` with
`create = true` on a cache of at least four blocks and the inserts of seven records with
strictly increasing keys, the first one `kv` and then the six of `recs`, every call has
returned `ERROR_NOERROR` and no node has been split: the root, in block `1`, has the one
key of `kv`, its left child, block `2`, is a leaf with the one record `kv`, its right
child, block `3`, is a leaf with the six records `recs` in order, and every other block
from `4` on is still unallocated. -/
theorem Seven_increasing_inserts (n fuel : Nat) (kv : Nat × Nat) (recs : List (Nat × Nat))
    (hn : 4 ≤ n) (hfuel : 2 ≤ fuel) (hlen : recs.length = 6)
    (hs : ((kv :: recs).map Prod.fst).Pairwise (fun a b => a < b)) :
    ∃ t0 t, Attach (BTreeIndex.new (emptyCache n) 9) 0 true = some (ERROR_NOERROR, t0) ∧
      insertAll t0 fuel (kv :: recs) = some t ∧ TwoLeaves t kv recs :=
  increasing_inserts_no_split n 9 fuel kv recs hn hfuel hs (by decide) (le_of_eq hlen)

theorem Seven_increasing_inserts_witness :
    (4 ≤ 4 ∧ 2 ≤ 2 ∧ [(2, 20), (3, 30), (4, 40), (5, 50), (6, 60), (7, 70)].length = 6 ∧
      (((1, 10) :: [(2, 20), (3, 30), (4, 40), (5, 50), (6, 60), (7, 70)]).map
        Prod.fst).Pairwise (fun a b => a < b)) ∧
    ∃ t0 t, Attach (BTreeIndex.new (emptyCache 4) 9) 0 true = some (ERROR_NOERROR, t0) ∧
      insertAll t0 2 ((1, 10) :: [(2, 20), (3, 30), (4, 40), (5, 50), (6, 60), (7, 70)])
        = some t ∧
      TwoLeaves t (1, 10) [(2, 20), (3, 30), (4, 40), (5, 50), (6, 60), (7, 70)] :=
  ⟨⟨by decide, by decide, by decide, by decide⟩,
    Seven_increasing_inserts 4 2 (1, 10) [(2, 20), (3, 30), (4, 40), (5, 50), (6, 60), (7, 70)]
      (by decide) (by decide) (by decide) (by decide)⟩

/-! ## Invariants of the store under inserts

"Allocations succeeding" is, as for the lookups after inserts, that every call of
`AllocateNode` made by the inserts returns `ERROR_NOERROR` with a block of the store
(`insertAllAllocs`, `InsertAllocs`); the cache has at least the two blocks that `Attach`
writes and is otherwise of any size. -/

/-- Claim C13. After `Attach` with `create = true` and the inserts of the records `kvs`,
whose keys are pairwise distinct (split threshold at least 1, every allocation of the
inserts handing out a block of the store), the keys of every ROOT, INTERIOR or LEAF node of
the store are sorted, strictly increasing; and for every ROOT/INTERIOR node `a`, every index
`i < numkeys` and every key `K` stored in a leaf `l`: if `l` is reached from the pointer
`P_i` of `a` by following pointers, then `K ≤ K_i`, and if `l` is reached from `P_{i+1}`,
then `K_i < K`. -/
theorem Inserts_keep_search_tree_order (n m fuel : Nat) (kvs : List (Nat × Nat)) (hn : 2 ≤ n)
    (hthr : 1 ≤ 2 * m / 3) (hm : m < 2 ^ 64) (hnd : (kvs.map Prod.fst).Nodup)
    (hfuel : kvs.length + 2 ≤ fuel)
    (hal : ∀ t0, Attach (BTreeIndex.new (emptyCache n) m) 0 true = some (ERROR_NOERROR, t0) →
      ∀ b, b ∈ insertAllAllocs t0 fuel kvs → b = true) :
    ∃ t0 t, Attach (BTreeIndex.new (emptyCache n) m) 0 true = some (ERROR_NOERROR, t0) ∧
      insertAll t0 fuel kvs = some t ∧
      (∀ a, IsNode t a → ∀ i j, i < j → j < (t.buffercache.blocks a).info.numkeys →
        (t.buffercache.blocks a).keys i < (t.buffercache.blocks a).keys j) ∧
      (∀ a, IsNode t a → (t.buffercache.blocks a).isInterior = true →
        ∀ i, i < (t.buffercache.blocks a).info.numkeys →
        ∀ l, IsNode t l → (t.buffercache.blocks l).isLeaf = true →
        ∀ s, s < (t.buffercache.blocks l).info.numkeys →
          (Reach t ((t.buffercache.blocks a).ptrs i) l →
            (t.buffercache.blocks l).keys s ≤ (t.buffercache.blocks a).keys i) ∧
          (Reach t ((t.buffercache.blocks a).ptrs (i + 1)) l →
            (t.buffercache.blocks a).keys i < (t.buffercache.blocks l).keys s)) := by
  obtain ⟨t0, hA, _⟩ := attach_empty n m hn
  obtain ⟨t, h⟩ := ordered_allocs n m fuel kvs t0 hA hthr hm hnd hfuel (hal t0 hA)
  exact ⟨t0, t, hA, h⟩

theorem Inserts_keep_search_tree_order_witness :
    (2 ≤ 12 ∧ 1 ≤ 2 * 3 / 3 ∧ 3 < 2 ^ 64 ∧ (sevenMixed.map Prod.fst).Nodup ∧
      sevenMixed.length + 2 ≤ 9 ∧
      (∀ t0, Attach (BTreeIndex.new (emptyCache 12) 3) 0 true = some (ERROR_NOERROR, t0) →
        ∀ b, b ∈ insertAllAllocs t0 9 sevenMixed → b = true)) ∧
    ∃ t0 t, Attach (BTreeIndex.new (emptyCache 12) 3) 0 true = some (ERROR_NOERROR, t0) ∧
      insertAll t0 9 sevenMixed = some t ∧
      (∀ a, IsNode t a → ∀ i j, i < j → j < (t.buffercache.blocks a).info.numkeys →
        (t.buffercache.blocks a).keys i < (t.buffercache.blocks a).keys j) ∧
      (∀ a, IsNode t a → (t.buffercache.blocks a).isInterior = true →
        ∀ i, i < (t.buffercache.blocks a).info.numkeys →
        ∀ l, IsNode t l → (t.buffercache.blocks l).isLeaf = true →
        ∀ s, s < (t.buffercache.blocks l).info.numkeys →
          (Reach t ((t.buffercache.blocks a).ptrs i) l →
            (t.buffercache.blocks l).keys s ≤ (t.buffercache.blocks a).keys i) ∧
          (Reach t ((t.buffercache.blocks a).ptrs (i + 1)) l →
            (t.buffercache.blocks a).keys i < (t.buffercache.blocks l).keys s)) :=
  have hal : ∀ t0,
      Attach (BTreeIndex.new (emptyCache 12) 3) 0 true = some (ERROR_NOERROR, t0) →
      ∀ b, b ∈ insertAllAllocs t0 9 sevenMixed → b = true := fun t0 h => by
    cases Option.some.inj (h.symm.trans
      (rfl : Attach (BTreeIndex.new (emptyCache 12) 3) 0 true
        = some (ERROR_NOERROR, build 12 3 9 [])))
    decide
  ⟨⟨by decide, by decide, by norm_num, by decide, by decide, hal⟩,
    Inserts_keep_search_tree_order 12 3 9 sevenMixed
      (by decide) (by decide) (by norm_num) (by decide) (by decide) hal⟩

/-- Claim C14, the counterexample.  On the index that `Attach` leaves on four blocks the
descent of `Lookup` ends in the root: it returns with fuel for one block.  The first
`Insert` returns `ERROR_NOERROR`; it allocates the two leaves that it hangs under the root
and leaves the root pointer of the superblock as it was, block `1` still being the ROOT
node, now with one key; yet afterwards the descent visits two blocks: with fuel for one
block `Lookup` does not return, with fuel for two it does.  The common length has changed
without a split of the root. -/
theorem First_insert_lengthens_descent_without_root_split :
    freshIndex.superblock.info.rootnode = 1 ∧
    (freshIndex.buffercache.blocks 1).info.nodetype = BTREE_ROOT_NODE ∧
    (freshIndex.buffercache.blocks 1).info.numkeys = 0 ∧
    (Lookup freshIndex 1 1 0).isSome = true ∧
    (Insert freshIndex 3 1 10).map Prod.fst = some ERROR_NOERROR ∧
    (Insert freshIndex 3 1 10).map Prod.snd = some indexOfOne ∧
    InsertAllocs freshIndex 3 1 10 = [true, true] ∧
    indexOfOne.superblock.info.rootnode = freshIndex.superblock.info.rootnode ∧
    (indexOfOne.buffercache.blocks 1).info.nodetype = BTREE_ROOT_NODE ∧
    (indexOfOne.buffercache.blocks 1).info.numkeys = 1 ∧
    (Lookup indexOfOne 1 1 0).isSome = false ∧
    (Lookup indexOfOne 2 1 0).isSome = true ∧
    (Lookup indexOfOne 1 7 0).isSome = false ∧
    (Lookup indexOfOne 2 7 0).isSome = true :=
  ⟨by decide, by decide, by decide, by decide, by decide, rfl, by decide,
    by decide, by decide, by decide, by decide, by decide, by decide, by decide⟩

/-- Claim C14, amended. After `Attach` with `create = true` and the inserts of the records
`kvs`, whose keys are pairwise distinct (split threshold at least 1, every allocation
handing out a block of the store), there is a number `d` such that, for every key, `Lookup`
returns exactly when it may visit `d` blocks: the descent from the root visits the same
number of blocks for every key.  One more `Insert` of a new key, its allocations handing out
blocks, returns `ERROR_NOERROR` and leaves a tree with such a number `d'`.  When the tree has
records, `d' = d` if the root pointer of the superblock is the same, and `d' = d + 1` if it
has changed, which only the split of the root in `Rebalance` does.  When the tree has no
records yet, the root pointer stays and the length grows from `d = 1` to `d' = 2`: the first
insert hangs two leaves under the root. -/
theorem Inserts_keep_tree_balanced (n m fuel : Nat) (kvs : List (Nat × Nat)) (hn : 2 ≤ n)
    (hthr : 1 ≤ 2 * m / 3) (hm : m < 2 ^ 64) (hnd : (kvs.map Prod.fst).Nodup)
    (hfuel : kvs.length + 3 ≤ fuel)
    (hal : ∀ t0, Attach (BTreeIndex.new (emptyCache n) m) 0 true = some (ERROR_NOERROR, t0) →
      ∀ b, b ∈ insertAllAllocs t0 fuel kvs → b = true) :
    ∃ t0 t d, Attach (BTreeIndex.new (emptyCache n) m) 0 true = some (ERROR_NOERROR, t0) ∧
      insertAll t0 fuel kvs = some t ∧
      (∀ k v f, (Lookup t f k v).isSome = true ↔ d ≤ f) ∧
      (∀ k v, k ∉ kvs.map Prod.fst → (∀ b, b ∈ InsertAllocs t fuel k v → b = true) →
        ∃ t' d', Insert t fuel k v = some (ERROR_NOERROR, t') ∧
          (∀ k' v' f, (Lookup t' f k' v').isSome = true ↔ d' ≤ f) ∧
          (kvs ≠ [] →
            (t'.superblock.info.rootnode = t.superblock.info.rootnode ∧ d' = d) ∨
            (t'.superblock.info.rootnode ≠ t.superblock.info.rootnode ∧ d' = d + 1)) ∧
          (kvs = [] →
            t'.superblock.info.rootnode = t.superblock.info.rootnode ∧ d = 1 ∧ d' = 2)) := by
  obtain ⟨t0, hA, _⟩ := attach_empty n m hn
  obtain ⟨t, d, h⟩ := balanced_allocs n m fuel kvs t0 hA hthr hm hnd hfuel (hal t0 hA)
  exact ⟨t0, t, d, hA, h⟩

theorem Inserts_keep_tree_balanced_witness :
    (2 ≤ 12 ∧ 1 ≤ 2 * 3 / 3 ∧ 3 < 2 ^ 64 ∧ (sixMixed.map Prod.fst).Nodup ∧
      sixMixed.length + 3 ≤ 9 ∧
      (∀ t0, Attach (BTreeIndex.new (emptyCache 12) 3) 0 true = some (ERROR_NOERROR, t0) →
        ∀ b, b ∈ insertAllAllocs t0 9 sixMixed → b = true)) ∧
    ∃ t0 t d, Attach (BTreeIndex.new (emptyCache 12) 3) 0 true = some (ERROR_NOERROR, t0) ∧
      insertAll t0 9 sixMixed = some t ∧
      (∀ k v f, (Lookup t f k v).isSome = true ↔ d ≤ f) ∧
      (∀ k v, k ∉ sixMixed.map Prod.fst → (∀ b, b ∈ InsertAllocs t 9 k v → b = true) →
        ∃ t' d', Insert t 9 k v = some (ERROR_NOERROR, t') ∧
          (∀ k' v' f, (Lookup t' f k' v').isSome = true ↔ d' ≤ f) ∧
          (sixMixed ≠ [] →
            (t'.superblock.info.rootnode = t.superblock.info.rootnode ∧ d' = d) ∨
            (t'.superblock.info.rootnode ≠ t.superblock.info.rootnode ∧ d' = d + 1)) ∧
          (sixMixed = [] →
            t'.superblock.info.rootnode = t.superblock.info.rootnode ∧ d = 1 ∧ d' = 2)) :=
  have hal : ∀ t0,
      Attach (BTreeIndex.new (emptyCache 12) 3) 0 true = some (ERROR_NOERROR, t0) →
      ∀ b, b ∈ insertAllAllocs t0 9 sixMixed → b = true := fun t0 h => by
    cases Option.some.inj (h.symm.trans
      (rfl : Attach (BTreeIndex.new (emptyCache 12) 3) 0 true
        = some (ERROR_NOERROR, build 12 3 9 [])))
    decide
  ⟨⟨by decide, by decide, by norm_num, by decide, by decide, hal⟩,
    Inserts_keep_tree_balanced 12 3 9 sixMixed
      (by decide) (by decide) (by norm_num) (by decide) (by decide) hal⟩

/-- Claim C15. After `Attach` with `create = true` and the inserts of the records `kvs`,
whose keys are pairwise distinct (split threshold `2 * m / 3` at least 1), one more `Insert`,
of any key, every allocation of all these inserts handing out a block of the store, returns;
after it every ROOT, INTERIOR and LEAF node of the store has at most `2 * m / 3` keys; and no
node that this `Insert` passes to `Serialize` has more than `m = maxNumKeys` keys. -/
theorem Insert_never_overfills_a_node (n m fuel : Nat) (kvs : List (Nat × Nat)) (k v : Nat)
    (hn : 2 ≤ n)
    (hthr : 1 ≤ 2 * m / 3) (hm : m < 2 ^ 64) (hnd : (kvs.map Prod.fst).Nodup)
    (hfuel : kvs.length + 3 ≤ fuel)
    (hal : ∀ t0, Attach (BTreeIndex.new (emptyCache n) m) 0 true = some (ERROR_NOERROR, t0) →
      ∀ b, b ∈ insertAllAllocs t0 fuel (kvs ++ [(k, v)]) → b = true) :
    ∃ t0 t rc t', Attach (BTreeIndex.new (emptyCache n) m) 0 true = some (ERROR_NOERROR, t0) ∧
      insertAll t0 fuel kvs = some t ∧ Insert t fuel k v = some (rc, t') ∧
      (∀ a, IsNode t' a → (t'.buffercache.blocks a).info.numkeys ≤ 2 * m / 3) ∧
      (∀ w, w ∈ InsertWrites t fuel k v → w.info.numkeys ≤ m) := by
  obtain ⟨t0, hA, _⟩ := attach_empty n m hn
  obtain ⟨t, rc, t', h⟩ :=
    insert_within_allocs n m fuel kvs k v t0 hA hthr hm hnd hfuel (hal t0 hA)
  exact ⟨t0, t, rc, t', hA, h⟩

theorem Insert_never_overfills_a_node_witness :
    (2 ≤ 12 ∧ 1 ≤ 2 * 3 / 3 ∧ 3 < 2 ^ 64 ∧ (sixMixed.map Prod.fst).Nodup ∧
      sixMixed.length + 3 ≤ 9 ∧
      (∀ t0, Attach (BTreeIndex.new (emptyCache 12) 3) 0 true = some (ERROR_NOERROR, t0) →
        ∀ b, b ∈ insertAllAllocs t0 9 (sixMixed ++ [(40, 400)]) → b = true)) ∧
    ∃ t0 t rc t', Attach (BTreeIndex.new (emptyCache 12) 3) 0 true = some (ERROR_NOERROR, t0) ∧
      insertAll t0 9 sixMixed = some t ∧ Insert t 9 40 400 = some (rc, t') ∧
      (∀ a, IsNode t' a → (t'.buffercache.blocks a).info.numkeys ≤ 2 * 3 / 3) ∧
      (∀ w, w ∈ InsertWrites t 9 40 400 → w.info.numkeys ≤ 3) :=
  have hal : ∀ t0,
      Attach (BTreeIndex.new (emptyCache 12) 3) 0 true = some (ERROR_NOERROR, t0) →
      ∀ b, b ∈ insertAllAllocs t0 9 (sixMixed ++ [(40, 400)]) → b = true := fun t0 h => by
    cases Option.some.inj (h.symm.trans
      (rfl : Attach (BTreeIndex.new (emptyCache 12) 3) 0 true
        = some (ERROR_NOERROR, build 12 3 9 [])))
    decide
  ⟨⟨by decide, by decide, by norm_num, by decide, by decide, hal⟩,
    Insert_never_overfills_a_node 12 3 9 sixMixed 40 400
      (by decide) (by decide) (by norm_num) (by decide) (by decide) hal⟩

/-- Claim C16, at a cache of two blocks and no insert.  `Attach` with `create = true`
returns `ERROR_NOERROR`; the store has the blocks `0`, the superblock, and `1`, the root,
and no block of type UNALLOCATED; but the head of the free list in the superblock is `2`,
which is not a block of the store: the chain from the head does not end in `0`, and no
list of blocks of the store is the free list. -/
theorem Two_blocks_free_list_not_accounted :
    (Attach (BTreeIndex.new (emptyCache 2) 3) 0 true).map Prod.fst = some ERROR_NOERROR ∧
    (Attach (BTreeIndex.new (emptyCache 2) 3) 0 true).map Prod.snd = some indexOfTwoBlocks ∧
    insertAll indexOfTwoBlocks 1 [] = some indexOfTwoBlocks ∧
    insertAllAllocs indexOfTwoBlocks 1 [] = [] ∧
    indexOfTwoBlocks.buffercache.numBlocks = 2 ∧
    (indexOfTwoBlocks.buffercache.blocks 0).info.nodetype = BTREE_SUPERBLOCK ∧
    (indexOfTwoBlocks.buffercache.blocks 1).info.nodetype = BTREE_ROOT_NODE ∧
    indexOfTwoBlocks.superblock.info.freelist = 2 ∧
    indexOfTwoBlocks.superblock.info.freelist ≠ 0 ∧
    ¬ indexOfTwoBlocks.superblock.info.freelist < indexOfTwoBlocks.buffercache.numBlocks ∧
    ¬ ∃ free, FreeChain indexOfTwoBlocks.buffercache
        indexOfTwoBlocks.superblock.info.freelist free := by
  refine ⟨by decide, rfl, rfl, rfl, by decide, by decide, by decide, by decide, by decide,
    by decide, ?_⟩
  rintro ⟨free, h⟩
  cases free with
  | nil =>
    have h0 : indexOfTwoBlocks.superblock.info.freelist = 0 := h
    exact absurd h0 (by decide)
  | cons a rest =>
    have h1 : indexOfTwoBlocks.superblock.info.freelist = a := h.1
    have h2 : a < indexOfTwoBlocks.buffercache.numBlocks := h.2.2.1
    rw [← h1] at h2
    exact absurd h2 (by decide)

/-! ## The split of a leaf, the two traversals, and the allocator -/

/-- Claim C21. The split step of `Rebalance` (lines 622-764) on the LEAF `N` in block `x` that
holds `n ≥ 2` records with strictly increasing keys (the keys of a leaf are distinct), with
the two UNALLOCATED blocks `L`, `R` at the head of the free list, returns with the split key
`sk`.  With `mid = n / 2`, the split point of the code, block `L` is a LEAF with the records
`[0, mid)` of `N` and block `R` a LEAF with the records `[mid, n)`, each in the original
order, key and value together; the records of `L` followed by the records of `R` are the
records of `N`; both have at least one record; `sk` is `K_{mid-1}`, the last key of `L`;
every key of `L` is at most `sk` and every key of `R` is above it. -/
theorem Rebalance_leaf_split (t : BTreeIndex) (x L R : Nat)
    (hi : t.superblock_index = 0)
    (hx0 : x ≠ 0) (hx : x < t.buffercache.numBlocks)
    (hty : (t.buffercache.blocks x).info.nodetype = BTREE_LEAF_NODE)
    (hn2 : 2 ≤ (t.buffercache.blocks x).info.numkeys)
    (hn64 : (t.buffercache.blocks x).info.numkeys ≤ 2 ^ 64)
    (hs : ∀ j, j < (t.buffercache.blocks x).info.numkeys → ∀ i, i < j →
      (t.buffercache.blocks x).keys i < (t.buffercache.blocks x).keys j)
    (hL1 : t.superblock.info.freelist = L) (hL2 : L ≠ 0) (hL3 : L < t.buffercache.numBlocks)
    (hL4 : (t.buffercache.blocks L).info.nodetype = BTREE_UNALLOCATED_BLOCK)
    (hR1 : (t.buffercache.blocks L).info.freelist = R) (hR2 : R ≠ 0)
    (hR3 : R < t.buffercache.numBlocks)
    (hR4 : (t.buffercache.blocks R).info.nodetype = BTREE_UNALLOCATED_BLOCK)
    (hLR : L ≠ R) :
    ∃ t7 mid sk, splitNode t x = some (Except.ok (t7, t.buffercache.blocks x, L, R, sk)) ∧
      mid = (t.buffercache.blocks x).info.numkeys / 2 ∧
      (t7.buffercache.blocks L).info.nodetype = BTREE_LEAF_NODE ∧
      (t7.buffercache.blocks R).info.nodetype = BTREE_LEAF_NODE ∧
      (t7.buffercache.blocks L).info.numkeys = mid ∧
      (t7.buffercache.blocks R).info.numkeys = (t.buffercache.blocks x).info.numkeys - mid ∧
      (∀ i, i < mid →
        (t7.buffercache.blocks L).keys i = (t.buffercache.blocks x).keys i ∧
        (t7.buffercache.blocks L).vals i = (t.buffercache.blocks x).vals i) ∧
      (∀ i, i < (t.buffercache.blocks x).info.numkeys - mid →
        (t7.buffercache.blocks R).keys i = (t.buffercache.blocks x).keys (mid + i) ∧
        (t7.buffercache.blocks R).vals i = (t.buffercache.blocks x).vals (mid + i)) ∧
      (t7.buffercache.blocks L).records ++ (t7.buffercache.blocks R).records
        = (t.buffercache.blocks x).records ∧
      0 < (t7.buffercache.blocks L).info.numkeys ∧
      0 < (t7.buffercache.blocks R).info.numkeys ∧
      sk = (t.buffercache.blocks x).keys (mid - 1) ∧
      sk = (t7.buffercache.blocks L).keys ((t7.buffercache.blocks L).info.numkeys - 1) ∧
      (∀ i, i < (t7.buffercache.blocks L).info.numkeys →
        (t7.buffercache.blocks L).keys i ≤ sk) ∧
      (∀ i, i < (t7.buffercache.blocks R).info.numkeys →
        sk < (t7.buffercache.blocks R).keys i) :=
  leaf_split_state t x L R hi hx0 hx hty hn2 hn64 hs hL1 hL2 hL3 hL4 hR1 hR2 hR3 hR4 hLR

theorem Rebalance_leaf_split_witness :
    (indexOfFour.superblock_index = 0 ∧ 5 < indexOfFour.buffercache.numBlocks ∧
      (indexOfFour.buffercache.blocks 5).info.nodetype = BTREE_LEAF_NODE ∧
      (indexOfFour.buffercache.blocks 5).info.numkeys = 2 ∧
      (indexOfFour.buffercache.blocks 5).keys 0 = 3 ∧
      (indexOfFour.buffercache.blocks 5).keys 1 = 4 ∧
      indexOfFour.superblock.info.freelist = 3 ∧
      (indexOfFour.buffercache.blocks 3).info.nodetype = BTREE_UNALLOCATED_BLOCK ∧
      (indexOfFour.buffercache.blocks 3).info.freelist = 6 ∧
      (indexOfFour.buffercache.blocks 6).info.nodetype = BTREE_UNALLOCATED_BLOCK) ∧
    ∃ t7 mid sk, splitNode indexOfFour 5
        = some (Except.ok (t7, indexOfFour.buffercache.blocks 5, 3, 6, sk)) ∧
      mid = (indexOfFour.buffercache.blocks 5).info.numkeys / 2 ∧
      (t7.buffercache.blocks 3).info.nodetype = BTREE_LEAF_NODE ∧
      (t7.buffercache.blocks 6).info.nodetype = BTREE_LEAF_NODE ∧
      (t7.buffercache.blocks 3).info.numkeys = mid ∧
      (t7.buffercache.blocks 6).info.numkeys
        = (indexOfFour.buffercache.blocks 5).info.numkeys - mid ∧
      (∀ i, i < mid →
        (t7.buffercache.blocks 3).keys i = (indexOfFour.buffercache.blocks 5).keys i ∧
        (t7.buffercache.blocks 3).vals i = (indexOfFour.buffercache.blocks 5).vals i) ∧
      (∀ i, i < (indexOfFour.buffercache.blocks 5).info.numkeys - mid →
        (t7.buffercache.blocks 6).keys i = (indexOfFour.buffercache.blocks 5).keys (mid + i) ∧
        (t7.buffercache.blocks 6).vals i
          = (indexOfFour.buffercache.blocks 5).vals (mid + i)) ∧
      (t7.buffercache.blocks 3).records ++ (t7.buffercache.blocks 6).records
        = (indexOfFour.buffercache.blocks 5).records ∧
      0 < (t7.buffercache.blocks 3).info.numkeys ∧
      0 < (t7.buffercache.blocks 6).info.numkeys ∧
      sk = (indexOfFour.buffercache.blocks 5).keys (mid - 1) ∧
      sk = (t7.buffercache.blocks 3).keys ((t7.buffercache.blocks 3).info.numkeys - 1) ∧
      (∀ i, i < (t7.buffercache.blocks 3).info.numkeys →
        (t7.buffercache.blocks 3).keys i ≤ sk) ∧
      (∀ i, i < (t7.buffercache.blocks 6).info.numkeys →
        sk < (t7.buffercache.blocks 6).keys i) :=
  ⟨⟨by decide, by decide, by decide, by decide, by decide, by decide, by decide, by decide,
      by decide, by decide⟩,
    Rebalance_leaf_split indexOfFour 5 3 6 (by decide) (by decide) (by decide) (by decide)
      (by decide) (by decide) (by decide) (by decide) (by decide) (by decide) (by decide)
      (by decide) (by decide) (by decide) (by decide) (by decide)⟩

/-- Claim C22, the code at the failing input.  With `maxNumKeys = 3` (split threshold `2`)
the inserts of the keys `1, 2, 3` leave the leaf in block `3` with the keys `2, 3`; the insert
of the key `4` returns `ERROR_NOERROR` and splits that leaf when it holds `n = 3` keys.
After it block `3` is UNALLOCATED and still shows the three keys `2, 3, 4` of the node that
was split; the root points to the halves in the blocks `4` and `5` with the key `2` between
them; the left half `L` holds `1` key, the key `2`, and the right half `R` holds `2` keys,
`3` and `4`: the split point is `3 / 2 = 1`, not `(3 + 1) / 2 = 2`. -/
theorem Split_of_three_keys_rounds_down :
    (indexOfThree.buffercache.blocks 3).info.nodetype = BTREE_LEAF_NODE ∧
    (indexOfThree.buffercache.blocks 3).info.numkeys = 2 ∧
    (indexOfThree.buffercache.blocks 3).keys 0 = 2 ∧
    (indexOfThree.buffercache.blocks 3).keys 1 = 3 ∧
    (Insert indexOfThree 5 4 40).map Prod.fst = some ERROR_NOERROR ∧
    (indexOfFour.buffercache.blocks 3).info.nodetype = BTREE_UNALLOCATED_BLOCK ∧
    (indexOfFour.buffercache.blocks 3).info.numkeys = 3 ∧
    (indexOfFour.buffercache.blocks 3).keys 0 = 2 ∧
    (indexOfFour.buffercache.blocks 3).keys 1 = 3 ∧
    (indexOfFour.buffercache.blocks 3).keys 2 = 4 ∧
    (indexOfFour.buffercache.blocks 1).info.nodetype = BTREE_ROOT_NODE ∧
    (indexOfFour.buffercache.blocks 1).ptrs 1 = 4 ∧
    (indexOfFour.buffercache.blocks 1).keys 1 = 2 ∧
    (indexOfFour.buffercache.blocks 1).ptrs 2 = 5 ∧
    (indexOfFour.buffercache.blocks 4).info.nodetype = BTREE_LEAF_NODE ∧
    (indexOfFour.buffercache.blocks 4).info.numkeys = 1 ∧
    (indexOfFour.buffercache.blocks 4).keys 0 = 2 ∧
    (indexOfFour.buffercache.blocks 5).info.nodetype = BTREE_LEAF_NODE ∧
    (indexOfFour.buffercache.blocks 5).info.numkeys = 2 ∧
    (indexOfFour.buffercache.blocks 5).keys 0 = 3 ∧
    (indexOfFour.buffercache.blocks 5).keys 1 = 4 ∧
    (indexOfFour.buffercache.blocks 4).info.numkeys
      ≠ ((indexOfFour.buffercache.blocks 3).info.numkeys + 1) / 2 := by
  decide

/-- Claim C24, the code at the failing input.  `Attach` with `create = false` on a cache of
untouched blocks returns `ERROR_NOERROR` and reads a superblock whose root pointer is `0`;
block `0` is not a ROOT, INTERIOR or LEAF node, so the probe of `Insert` returns
`ERROR_INSANE`, and `Insert` returns `ERROR_NOERROR`.  The same after `Attach` with
`create = true` on a cache of three blocks and the inserts of the keys `1, 5, 6, 7`: the
pointer `P_2` of the root is `0`, the block of the superblock; the probe for the key `8`
returns `ERROR_INSANE` and `Insert` of the key `8` returns `ERROR_NOERROR`, after which the
lookup of `8` still does not find it. -/
theorem Insert_swallows_probe_error :
    (Attach (BTreeIndex.new (emptyCache 4) 3) 0 false).map Prod.fst = some ERROR_NOERROR ∧
    blankIndex.superblock.info.rootnode = 0 ∧
    (blankIndex.buffercache.blocks 0).info.nodetype = BTREE_UNALLOCATED_BLOCK ∧
    (LookupOrUpdateInternal blankIndex 3 blankIndex.superblock.info.rootnode
      BTREE_OP_LOOKUP 5 0).map Prod.fst = some ERROR_INSANE ∧
    (Insert blankIndex 3 5 50).map Prod.fst = some ERROR_NOERROR ∧
    smallIndex.superblock.info.rootnode = 1 ∧
    (smallIndex.buffercache.blocks 1).info.nodetype = BTREE_ROOT_NODE ∧
    (smallIndex.buffercache.blocks 1).info.numkeys = 2 ∧
    (smallIndex.buffercache.blocks 1).keys 1 = 5 ∧
    (smallIndex.buffercache.blocks 1).ptrs 2 = 0 ∧
    (smallIndex.buffercache.blocks 0).info.nodetype = BTREE_SUPERBLOCK ∧
    (LookupOrUpdateInternal smallIndex 5 smallIndex.superblock.info.rootnode
      BTREE_OP_LOOKUP 8 0).map Prod.fst = some ERROR_INSANE ∧
    (Insert smallIndex 5 8 80).map Prod.fst = some ERROR_NOERROR ∧
    ((Insert smallIndex 5 8 80).bind (fun r => Lookup r.2 5 8 0)).map Prod.fst
      = some ERROR_INSANE := by
  decide

/-- Claim C25. `AllocateNode` on an index whose superblock is block `0`: when the head of the
free list is `0` it returns `ERROR_NOSPACE` and the state, superblock and blocks, is as
before; when the head is a block `h ≠ 0` of the store that is UNALLOCATED it returns
`ERROR_NOERROR` with `n = h`, the free-list head of the superblock is the `freelist` field
of block `h`, the other fields of the superblock are as before, block `0` holds this
superblock, and every other block, and the number of blocks, is as before. -/
theorem AllocateNode_pops_free_list_head (t : BTreeIndex) (hi : t.superblock_index = 0)
    (h0 : 0 < t.buffercache.numBlocks)
    (hh : t.superblock.info.freelist ≠ 0 →
      t.superblock.info.freelist < t.buffercache.numBlocks ∧
      (t.buffercache.blocks t.superblock.info.freelist).info.nodetype
        = BTREE_UNALLOCATED_BLOCK) :
    (t.superblock.info.freelist = 0 → AllocateNode t = some (ERROR_NOSPACE, 0, t)) ∧
    (t.superblock.info.freelist ≠ 0 →
      ∃ t', AllocateNode t = some (ERROR_NOERROR, t.superblock.info.freelist, t') ∧
        t'.superblock.info.freelist
          = (t.buffercache.blocks t.superblock.info.freelist).info.freelist ∧
        t'.superblock.info.nodetype = t.superblock.info.nodetype ∧
        t'.superblock.info.rootnode = t.superblock.info.rootnode ∧
        t'.superblock.info.numkeys = t.superblock.info.numkeys ∧
        t'.buffercache.blocks 0 = t'.superblock ∧
        (∀ x, x ≠ 0 → t'.buffercache.blocks x = t.buffercache.blocks x) ∧
        t'.buffercache.numBlocks = t.buffercache.numBlocks) :=
  ⟨allocate_nospace t, fun h2 => allocate_pop t hi h0 h2 (hh h2).1 (hh h2).2⟩

theorem AllocateNode_pops_free_list_head_witness :
    (freshIndex.superblock_index = 0 ∧ freshIndex.buffercache.numBlocks = 4 ∧
      freshIndex.superblock.info.freelist = 2 ∧
      (freshIndex.buffercache.blocks 2).info.nodetype = BTREE_UNALLOCATED_BLOCK ∧
      (freshIndex.buffercache.blocks 2).info.freelist = 3) ∧
    (∃ t', AllocateNode freshIndex
        = some (ERROR_NOERROR, freshIndex.superblock.info.freelist, t') ∧
      t'.superblock.info.freelist
        = (freshIndex.buffercache.blocks freshIndex.superblock.info.freelist).info.freelist ∧
      t'.superblock.info.nodetype = freshIndex.superblock.info.nodetype ∧
      t'.superblock.info.rootnode = freshIndex.superblock.info.rootnode ∧
      t'.superblock.info.numkeys = freshIndex.superblock.info.numkeys ∧
      t'.buffercache.blocks 0 = t'.superblock ∧
      (∀ x, x ≠ 0 → t'.buffercache.blocks x = freshIndex.buffercache.blocks x) ∧
      t'.buffercache.numBlocks = freshIndex.buffercache.numBlocks) ∧
    (indexOfOne.superblock_index = 0 ∧ indexOfOne.superblock.info.freelist = 0 ∧
      AllocateNode indexOfOne = some (ERROR_NOSPACE, 0, indexOfOne)) :=
  ⟨⟨by decide, by decide, by decide, by decide, by decide⟩,
    (AllocateNode_pops_free_list_head freshIndex (by decide) (by decide)
      (fun _ => ⟨by decide, by decide⟩)).2 (by decide),
    ⟨by decide, by decide,
      (AllocateNode_pops_free_list_head indexOfOne (by decide) (by decide)
        (fun h => absurd (by decide) h)).1 (by decide)⟩⟩

end BTree
